import Mathlib

/-!
# landns: record text, dynamic zone and resolver composition

A shallow embedding of `lib-landns`.  Go strings and byte slices are lists of
characters, `int` is `Int`, unsigned fields are `Nat`, a nil pointer is `none`.
A Go call either returns a value, returns an error, or stops with a run-time
panic (index out of range, nil dereference); `Outcome` keeps the three apart.
-/

set_option linter.dupNamespace false

namespace Landns

/-! ## Go strings and the `bytes`, `strings`, `strconv` helpers the code calls -/

/-- A Go string or byte slice. -/
abbrev Text := List Char

/-- The result of a Go call: a value, an error value, or a run-time panic. -/
inductive Outcome (ε α : Type) where
  | ok : α → Outcome ε α
  | error : ε → Outcome ε α
  | panic : Outcome ε α
  deriving DecidableEq, Repr

/-- White space as `unicode.IsSpace` defines it. -/
def isSpace (c : Char) : Bool :=
  c.toNat = 0x20 || (0x09 ≤ c.toNat && c.toNat ≤ 0x0D) || c.toNat = 0x85 || c.toNat = 0xA0 ||
  c.toNat = 0x1680 || (0x2000 ≤ c.toNat && c.toNat ≤ 0x200A) || c.toNat = 0x2028 ||
  c.toNat = 0x2029 || c.toNat = 0x202F || c.toNat = 0x205F || c.toNat = 0x3000

/-- Leading white space removed. -/
def trimLeftSpace (s : Text) : Text := s.dropWhile isSpace

/-- Trailing white space removed. -/
def trimRightSpace (s : Text) : Text := (s.reverse.dropWhile isSpace).reverse

/-- Go `bytes.TrimSpace`. -/
def TrimSpace (s : Text) : Text := trimRightSpace (trimLeftSpace s)

/-- Go `bytes.TrimLeft` with a one-character cutset. -/
def TrimLeft (cut : Char) (s : Text) : Text := s.dropWhile (fun c => c = cut)

/-- Go `bytes.Split` with a one-character separator: never empty, one more piece than
separators. -/
def Split (sep : Char) : Text → List Text
  | [] => [[]]
  | c :: cs =>
    if c = sep then [] :: Split sep cs
    else
      match Split sep cs with
      | [] => [[c]]
      | hd :: tl => (c :: hd) :: tl

/-- Go `bytes.SplitN(s, sep, 2)` with a one-character separator: the text before the first
separator, and the text after it when there is a separator (`len(xs) == 2`). -/
def SplitN2 (sep : Char) : Text → Text × Option Text
  | [] => ([], none)
  | c :: cs =>
    if c = sep then ([], some cs)
    else ((c :: (SplitN2 sep cs).1), (SplitN2 sep cs).2)

/-- Go `strings.Join`. -/
def Join (sep : Text) : List Text → Text
  | [] => []
  | [x] => x
  | x :: y :: rest => x ++ sep ++ Join sep (y :: rest)

/-- Upper case of one code point, as far as it decides a comparison with an ASCII keyword:
ASCII letters, and the two code points outside ASCII whose upper case is an ASCII letter
(dotless i and long s).  No other code point maps into ASCII, so the rest is left as it is. -/
def upperChar (c : Char) : Char :=
  if 0x61 ≤ c.toNat && c.toNat ≤ 0x7A then Char.ofNat (c.toNat - 32)
  else if c.toNat = 0x131 then 'I'
  else if c.toNat = 0x17F then 'S'
  else c

/-- Go `bytes.ToUpper`. -/
def ToUpper (s : Text) : Text := s.map upperChar

/-- The decimal digit of `d < 10`. -/
def digitChar (d : Nat) : Char := Char.ofNat (48 + d)

/-- Decimal digits of `n`, most significant first, in front of `acc`. -/
def decimalAux : Nat → Nat → Text → Text
  | 0, _, acc => acc
  | fuel + 1, n, acc =>
    if n < 10 then digitChar n :: acc
    else decimalAux fuel (n / 10) (digitChar (n % 10) :: acc)

/-- Decimal text of a natural number (`%d` of an unsigned value). -/
def formatNat (n : Nat) : Text := decimalAux (n + 1) n []

/-- Go `strconv.Itoa`. -/
def Itoa (i : Int) : Text :=
  if i < 0 then '-' :: formatNat i.natAbs else formatNat i.natAbs

/-- The value of a decimal digit. -/
def digitValue (c : Char) : Option Nat :=
  if 0x30 ≤ c.toNat && c.toNat ≤ 0x39 then some (c.toNat - 48) else none

/-- The number a run of decimal digits denotes after the digits already read (`acc`). -/
def parseDigits : Text → Nat → Option Nat
  | [], acc => some acc
  | c :: cs, acc =>
    match digitValue c with
    | none => none
    | some d => parseDigits cs (acc * 10 + d)

/-- The value of the digits after the sign of `strconv.Atoi`: one or more decimal digits and a
value within the 64-bit `int`; `none` is the syntax or range error. -/
def parseMagnitude (neg : Bool) (digits : Text) : Option Int :=
  if digits.length = 0 then none
  else
    match parseDigits digits 0 with
    | none => none
    | some n =>
      if neg then (if n ≤ 2 ^ 63 then some (-(n : Int)) else none)
      else (if n < 2 ^ 63 then some (n : Int) else none)

/-- Go `strconv.Atoi` on a 64-bit platform: an optional sign, then the digits. -/
def Atoi (s : Text) : Option Int :=
  match s with
  | [] => none
  | c :: rest =>
    if c = '-' then parseMagnitude true rest
    else if c = '+' then parseMagnitude false rest
    else parseMagnitude false (c :: rest)

/-! ## error.go -/

/-- The kinds of `Error`. -/
inductive ErrorType where
  | InternalError
  | ExternalError
  | ArgumentError
  | ExpirationError
  deriving DecidableEq, Repr

/-- The `Error` structure; `Original` is the text of the wrapped error, if any. -/
structure Error where
  Kind : ErrorType
  Original : Option Text
  Message : Text
  deriving DecidableEq, Repr

/-- Method `Error.Error`. -/
def Error.Error (e : Error) : Text :=
  match e.Original with
  | none => e.Message
  | some o => e.Message ++ ": ".toList ++ o

/-- Type `ErrorSet`. -/
abbrev ErrorSet := List Error

/-- Method `ErrorSet.Error`. -/
def ErrorSet.Error (e : ErrorSet) : Text := Join "\n".toList (e.map Error.Error)

/-! ## records.go -/

/-- Type `Domain`. -/
abbrev Domain := Text

/-- The number of backslashes that end `s`, given reversed (`rev` is `s` backwards). -/
def trailingBackslashes (rev : Text) : Nat := (rev.takeWhile (fun c => c = '\\')).length

/-- Library `dns.IsFqdn`: the name ends in a dot that is not escaped. -/
def IsFqdn (s : Text) : Bool :=
  match s.reverse with
  | '.' :: rest => trailingBackslashes rest % 2 = 0
  | _ => false

/-- Library `dns.Fqdn`. -/
def Fqdn (s : Text) : Text := if IsFqdn s then s else s ++ ['.']

/-- Method `Domain.String`. -/
def Domain.String (d : Domain) : Text := Fqdn d

/-- A `net.IP`: a byte slice. -/
abbrev IP := List (Fin 256)

/-- The byte prefix of an IPv4 address mapped into 16 bytes. -/
def v4InV6Prefix : IP := [0, 0, 0, 0, 0, 0, 0, 0, 0, 0, 0xff, 0xff]

/-- Method `net.IP.To4`: the four bytes of an IPv4 address, `none` for nil. -/
def IP.To4 (ip : IP) : Option IP :=
  if ip.length = 4 then some ip
  else if ip.length = 16 ∧ ip.take 12 = v4InV6Prefix then some (ip.drop 12)
  else none

/-- One lower-case hexadecimal digit. -/
def hexDigit (d : Nat) : Char := if d < 10 then Char.ofNat (48 + d) else Char.ofNat (87 + d)

/-- Hexadecimal text of a 16-bit group without leading zeros. -/
def formatHex (n : Nat) : Text :=
  if n < 0x10 then [hexDigit n]
  else if n < 0x100 then [hexDigit (n / 0x10), hexDigit (n % 0x10)]
  else if n < 0x1000 then [hexDigit (n / 0x100), hexDigit (n / 0x10 % 0x10), hexDigit (n % 0x10)]
  else [hexDigit (n / 0x1000 % 0x10), hexDigit (n / 0x100 % 0x10), hexDigit (n / 0x10 % 0x10),
        hexDigit (n % 0x10)]

/-- The eight 16-bit groups of a 16-byte address. -/
def groups : IP → List Nat
  | a :: b :: rest => (a.val * 256 + b.val) :: groups rest
  | _ => []

/-- Length of the run of zero groups that starts the list. -/
def zeroRun (gs : List Nat) : Nat := (gs.takeWhile (fun g => g = 0)).length

/-- Start and length of the longest run of zero groups, the leftmost one on a tie; `start` is
the index of the head of `gs`. -/
def longestZeroRun : List Nat → Nat → Nat × Nat → Nat × Nat
  | [], _, best => best
  | g :: gs, start, best =>
    let run := zeroRun (g :: gs)
    longestZeroRun gs (start + 1) (if run > best.2 then (start, run) else best)

/-- Groups joined by colons. -/
def joinGroups (gs : List Nat) : Text := Join [':'] (gs.map formatHex)

/-- Text of a 16-byte address: the longest run of two or more zero groups becomes `::`. -/
def formatIPv6 (ip : IP) : Text :=
  let gs := groups ip
  let best := longestZeroRun gs 0 (0, 0)
  if best.2 < 2 then joinGroups gs
  else joinGroups (gs.take best.1) ++ "::".toList ++ joinGroups (gs.drop (best.1 + best.2))

/-- Method `net.IP.String`. -/
def IP.String (ip : IP) : Text :=
  if ip.length = 0 then "<nil>".toList
  else
    match ip.To4 with
    | some p4 => Join ['.'] (p4.map (fun b => formatNat b.val))
    | none =>
      if ip.length ≠ 16 then '?' :: (ip.map (fun b => [hexDigit (b.val / 16), hexDigit (b.val % 16)])).flatten
      else formatIPv6 ip

/-- The text of `reverse` in `insertRecord` and `dropRecord`: library `dns.ReverseAddr` applied
to `Address.String()`.  The library parses the text back with `net.ParseIP`, which returns the
address that `String` printed when it has 4 or 16 bytes and nil otherwise (`none`: the error
`unrecognized address`). -/
def ReverseAddr (ip : IP) : Option Text :=
  match ip.To4 with
  | some v4 => some ((v4.reverse.map (fun b => formatNat b.val ++ ['.'])).flatten ++ "in-addr.arpa.".toList)
  | none =>
    if ip.length = 16 then
      some ((ip.reverse.map (fun b => [hexDigit (b.val % 16), '.', hexDigit (b.val / 16), '.'])).flatten
        ++ "ip6.arpa.".toList)
    else none

/-- The query types of the library (`dns.TypeA` and so on). -/
def TypeA : Nat := 1
/-- Query type NS. -/
def TypeNS : Nat := 2
/-- Query type CNAME. -/
def TypeCNAME : Nat := 5
/-- Query type PTR. -/
def TypePTR : Nat := 12
/-- Query type MX. -/
def TypeMX : Nat := 15
/-- Query type TXT. -/
def TypeTXT : Nat := 16
/-- Query type AAAA. -/
def TypeAAAA : Nat := 28
/-- Query type SRV. -/
def TypeSRV : Nat := 33

/-- Function `QtypeToString` of message_types.go. -/
def QtypeToString (qtype : Nat) : Text :=
  if qtype = TypeA then "A".toList
  else if qtype = TypeNS then "NS".toList
  else if qtype = TypeCNAME then "CNAME".toList
  else if qtype = TypePTR then "PTR".toList
  else if qtype = TypeMX then "MX".toList
  else if qtype = TypeTXT then "TXT".toList
  else if qtype = TypeAAAA then "AAAA".toList
  else if qtype = TypeSRV then "SRV".toList
  else "UNKNOWN".toList

/-- The implementations of interface `Record`: `AddressRecord`, `NsRecord`, `CnameRecord`,
`PtrRecord`, `MxRecord`, `TxtRecord`, `SrvRecord`. -/
inductive Record where
  | Address (Name : Domain) (TTL : Nat) (Address : IP)
  | Ns (Name : Domain) (Target : Domain)
  | Cname (Name : Domain) (TTL : Nat) (Target : Domain)
  | Ptr (Name : Domain) (TTL : Nat) (Domain : Domain)
  | Mx (Name : Domain) (TTL : Nat) (Preference : Nat) (Target : Domain)
  | Txt (Name : Domain) (TTL : Nat) (Text : Text)
  | Srv (Name : Domain) (TTL : Nat) (Priority : Nat) (Weight : Nat) (Port : Nat) (Target : Domain)
  deriving DecidableEq, Repr

/-- Method `AddressRecord.IsV4`. -/
def IsV4 (a : IP) : Bool := a.To4.isSome

/-- The type word of an address record: `A`, or `AAAA` when the address is not IPv4. -/
def addressWord (a : IP) : Text := if IsV4 a then "A".toList else "AAAA".toList

/-- The record text with `ttl` in the TTL place: `fmt.Sprintf` of each `String` method, where
the `WithoutTTL` methods print `0`. -/
def Record.render : Record → Nat → Text
  | .Address n _ a, ttl =>
    Domain.String n ++ " ".toList ++ formatNat ttl ++ " IN ".toList ++ addressWord a ++ " ".toList
      ++ a.String
  | .Ns n t, _ => Domain.String n ++ " IN NS ".toList ++ Domain.String t
  | .Cname n _ t, ttl =>
    Domain.String n ++ " ".toList ++ formatNat ttl ++ " IN CNAME ".toList ++ Domain.String t
  | .Ptr n _ d, ttl =>
    Domain.String n ++ " ".toList ++ formatNat ttl ++ " IN PTR ".toList ++ Domain.String d
  | .Mx n _ p t, ttl =>
    Domain.String n ++ " ".toList ++ formatNat ttl ++ " IN MX ".toList ++ formatNat p ++ " ".toList
      ++ Domain.String t
  | .Txt n _ x, ttl =>
    Domain.String n ++ " ".toList ++ formatNat ttl ++ " IN TXT \"".toList ++ x ++ "\"".toList
  | .Srv n _ pr w po t, ttl =>
    Domain.String n ++ " ".toList ++ formatNat ttl ++ " IN SRV ".toList ++ formatNat pr ++ " ".toList
      ++ formatNat w ++ " ".toList ++ formatNat po ++ " ".toList ++ Domain.String t

/-- Method `GetName`. -/
def Record.GetName : Record → Domain
  | .Address n _ _ => n
  | .Ns n _ => n
  | .Cname n _ _ => n
  | .Ptr n _ _ => n
  | .Mx n _ _ _ => n
  | .Txt n _ _ => n
  | .Srv n _ _ _ _ _ => n

/-- Method `GetTTL`; an NS record has none and reports 0. -/
def Record.GetTTL : Record → Nat
  | .Address _ ttl _ => ttl
  | .Ns _ _ => 0
  | .Cname _ ttl _ => ttl
  | .Ptr _ ttl _ => ttl
  | .Mx _ ttl _ _ => ttl
  | .Txt _ ttl _ => ttl
  | .Srv _ ttl _ _ _ _ => ttl

/-- Method `GetQtype`. -/
def Record.GetQtype : Record → Nat
  | .Address _ _ a => if IsV4 a then TypeA else TypeAAAA
  | .Ns _ _ => TypeNS
  | .Cname _ _ _ => TypeCNAME
  | .Ptr _ _ _ => TypePTR
  | .Mx _ _ _ _ => TypeMX
  | .Txt _ _ _ => TypeTXT
  | .Srv _ _ _ _ _ _ => TypeSRV

/-- Method `String`. -/
def Record.String (r : Record) : Text := r.render r.GetTTL

/-- Method `WithoutTTL`: the record text with the TTL number replaced by `0`. -/
def Record.WithoutTTL (r : Record) : Text := r.render 0

/-! ## The wire records of the library and its zone-line reader -/

/-- The header of a wire record (`dns.RR_Header`), as far as the code reads it. -/
structure RR_Header where
  Name : Text
  Rrtype : Nat
  Ttl : Nat
  deriving DecidableEq, Repr

/-- A wire record (`dns.RR`): the eight kinds `NewRecordFromRR` knows, and any other kind. -/
inductive RR where
  | A (Hdr : RR_Header) (A : IP)
  | AAAA (Hdr : RR_Header) (AAAA : IP)
  | NS (Hdr : RR_Header) (Ns : Text)
  | CNAME (Hdr : RR_Header) (Target : Text)
  | PTR (Hdr : RR_Header) (Ptr : Text)
  | MX (Hdr : RR_Header) (Preference : Nat) (Mx : Text)
  | TXT (Hdr : RR_Header) (Txt : List Text)
  | SRV (Hdr : RR_Header) (Priority : Nat) (Weight : Nat) (Port : Nat) (Target : Text)
  | Other (Hdr : RR_Header)
  deriving DecidableEq, Repr

/-- Method `Header` of a wire record. -/
def RR.Header : RR → RR_Header
  | .A h _ => h
  | .AAAA h _ => h
  | .NS h _ => h
  | .CNAME h _ => h
  | .PTR h _ => h
  | .MX h _ _ => h
  | .TXT h _ => h
  | .SRV h _ _ _ _ => h
  | .Other h => h

/-- The library's `dns.NewRR`, a parameter of the model: the text of its error, or the first
record of the text, `none` (a nil record and no error) when the text holds no record. -/
abbrev RRReader := Text → Except Text (Option RR)

/-- Function `NewRecordFromRR`.  A nil wire record reaches the `default` branch, whose
`rr.Header()` dereferences it; `x.Txt[0]` is out of range for a TXT record without strings. -/
def NewRecordFromRR : Option RR → Outcome Error Record
  | some (.A h a) => .ok (.Address h.Name h.Ttl a)
  | some (.AAAA h a) => .ok (.Address h.Name h.Ttl a)
  | some (.NS h ns) => .ok (.Ns h.Name ns)
  | some (.CNAME h t) => .ok (.Cname h.Name h.Ttl t)
  | some (.PTR h p) => .ok (.Ptr h.Name h.Ttl p)
  | some (.MX h p m) => .ok (.Mx h.Name h.Ttl p m)
  | some (.TXT _ []) => .panic
  | some (.TXT h (t :: _)) => .ok (.Txt h.Name h.Ttl t)
  | some (.SRV h pr w po t) => .ok (.Srv h.Name h.Ttl pr w po t)
  | some (.Other h) =>
    .error ⟨.ArgumentError, none, "unsupported record type: ".toList ++ formatNat h.Rrtype⟩
  | none => .panic

/-- Function `NewRecord`. -/
def NewRecord (newRR : RRReader) (str : Text) : Outcome Error Record :=
  match newRR str with
  | .error err => .error ⟨.ArgumentError, some err, "failed to parse record".toList⟩
  | .ok rr => NewRecordFromRR rr

/-! ## Validation -/

/-- A decimal digit. -/
def isDigit (c : Char) : Bool := 0x30 ≤ c.toNat && c.toNat ≤ 0x39

/-- The loop of library `dns.IsDomainName` over the fully qualified name: `off` is the wire
length so far, `len` the length of the label being read (`i - begin`), `wasDot` whether the
last character was a dot.  A backslash takes the next character, or the next three digits
when a further character follows them, into the label as one. -/
def domainLoop : Nat → Text → Nat → Nat → Bool → Bool
  | 0, _, _, _, _ => true
  | _ + 1, [], _, _, _ => true
  | fuel + 1, '\\' :: rest, off, len, _ =>
    if off + 1 > 256 then false
    else
      match rest with
      | d1 :: d2 :: d3 :: (x :: more) =>
        if isDigit d1 && isDigit d2 && isDigit d3 then domainLoop fuel (x :: more) off (len + 1) false
        else domainLoop fuel (d2 :: d3 :: x :: more) off (len + 1) false
      | _ :: more => domainLoop fuel more off (len + 1) false
      | [] => true
  | fuel + 1, '.' :: rest, off, len, wasDot =>
    if wasDot then false
    else if len ≥ 64 then false
    else if off + 1 + len > 256 then false
    else domainLoop fuel rest (off + 1 + len) 0 true
  | fuel + 1, _ :: rest, off, len, _ => domainLoop fuel rest off (len + 1) false

/-- Library `dns.IsDomainName`, its `ok` result. -/
def IsDomainName (s : Text) : Bool :=
  if s.length = 0 then false else domainLoop (Fqdn s).length (Fqdn s) 0 0 false

/-- Method `Domain.Validate`: `true` when it returns nil. -/
def Domain.Validate (d : Domain) : Bool := d.length ≠ 0 && IsDomainName d

/-- Method `Validate` of each record: `true` when it returns nil. -/
def Record.Validate : Record → Bool
  | .Address n _ _ => Domain.Validate n
  | .Ns n t => Domain.Validate n && Domain.Validate t
  | .Cname n _ t => Domain.Validate n && Domain.Validate t
  | .Ptr n _ d => Domain.Validate n && Domain.Validate d
  | .Mx n _ _ t => Domain.Validate n && Domain.Validate t
  | .Txt n _ _ => Domain.Validate n
  | .Srv n _ _ _ po t => Domain.Validate n && po ≠ 0 && Domain.Validate t

/-! ## A reference zone-line reader

The library reader is a parameter of the model.  To run the model on concrete lines, this
reader follows the library's documented syntax on single-line records
`owner [ttl] [IN] type rdata` of the eight kinds, without escapes or parentheses; a text
without any record gives a nil record and no error, as the library documents
("If s contains no records, NewRR will return nil with no error").  Lines outside this
subset are reported as errors, and the error texts of the library are not reproduced. -/

/-- A token of a zone line: a bare word or a quoted string. -/
inductive Token where
  | word (s : Text)
  | quoted (s : Text)
  deriving DecidableEq, Repr

/-- What the lexer is reading: blanks, a word or a quoted string (both kept reversed). -/
inductive LexMode where
  | blank
  | word (rev : Text)
  | quote (rev : Text)

/-- The tokens read so far (reversed) with the word in progress closed. -/
def closeWord : LexMode → List Token → List Token
  | .word w, acc => .word w.reverse :: acc
  | _, acc => acc

/-- Tokens of a line: blanks separate, `;` outside quotes starts a comment, a newline ends
the record; `none` for an open quote, an escape or a parenthesis. -/
def lexLine : Text → LexMode → List Token → Option (List Token)
  | [], .quote _, _ => none
  | [], mode, acc => some (closeWord mode acc).reverse
  | c :: cs, .quote q, acc =>
    if c = '"' then lexLine cs .blank (.quoted q.reverse :: acc)
    else if c = '\\' || c = '\n' then none
    else lexLine cs (.quote (c :: q)) acc
  | c :: cs, mode, acc =>
    if c = ';' || c = '\n' then some (closeWord mode acc).reverse
    else if c = '\\' || c = '(' || c = ')' then none
    else if c = ' ' || c = '\t' || c = '\r' then lexLine cs .blank (closeWord mode acc)
    else if c = '"' then lexLine cs (.quote []) (closeWord mode acc)
    else
      match mode with
      | .word w => lexLine cs (.word (c :: w)) acc
      | _ => lexLine cs (.word [c]) acc

/-- Library `toAbsoluteName` with origin `.`. -/
def toAbsoluteName (name : Text) : Option Text :=
  if name = ['@'] then some ['.']
  else if !IsDomainName name || name.length = 0 then none
  else if IsFqdn name then some name
  else some (name ++ ['.'])

/-- A run of one or more decimal digits. -/
def isNumber (w : Text) : Bool := w.length ≠ 0 && w.all isDigit

/-- The value of a run of decimal digits below `bound`. -/
def readNumber (bound : Nat) (w : Text) : Option Nat :=
  if isNumber w then
    match parseDigits w 0 with
    | some n => if n < bound then some n else none
    | none => none
  else none

/-- Upper case of an ASCII keyword token. -/
def keyword (w : Text) : Text := w.map Char.toUpper

/-- The TTL (3600 when none is written) and what follows the optional TTL and class. -/
def readTTLClass : List Token → Option (Nat × List Token)
  | .word a :: .word b :: rest =>
    if isNumber a then
      (readNumber (2 ^ 32) a).map (fun ttl => (ttl, if keyword b = "IN".toList then rest else .word b :: rest))
    else if keyword a = "IN".toList then
      if isNumber b then (readNumber (2 ^ 32) b).map (fun ttl => (ttl, rest))
      else some (3600, .word b :: rest)
    else some (3600, .word a :: .word b :: rest)
  | ts => some (3600, ts)

/-- One byte of a dotted IPv4 address: up to three digits, no leading zero. -/
def readOctet (w : Text) : Option (Fin 256) :=
  if w.length > 3 || (w.length > 1 && w.head? = some '0') then none
  else
    match readNumber 256 w with
    | some n => if h : n < 256 then some ⟨n, h⟩ else none
    | none => none

/-- A dotted IPv4 address in the 16-byte form `net.ParseIP` returns. -/
def readIPv4 (w : Text) : Option IP :=
  match (Split '.' w).map readOctet with
  | [some a, some b, some c, some d] => some (v4InV6Prefix ++ [a, b, c, d])
  | _ => none

/-- The value of one hexadecimal digit. -/
def hexValue (c : Char) : Option Nat :=
  if isDigit c then some (c.toNat - 48)
  else if 0x61 ≤ c.toNat && c.toNat ≤ 0x66 then some (c.toNat - 87)
  else if 0x41 ≤ c.toNat && c.toNat ≤ 0x46 then some (c.toNat - 55)
  else none

/-- One group of an IPv6 address: one to four hexadecimal digits. -/
def readGroup (w : Text) : Option Nat :=
  if w.length = 0 || w.length > 4 then none
  else w.foldl (fun acc c => acc.bind (fun n => (hexValue c).map (fun d => n * 16 + d))) (some 0)

/-- The colon-separated groups of a piece of an IPv6 address; the empty piece has none. -/
def readGroups (w : Text) : Option (List Nat) :=
  if w.length = 0 then some [] else (Split ':' w).mapM readGroup

/-- The text before and after the first `::`. -/
def splitDoubleColon : Text → Option (Text × Text)
  | ':' :: ':' :: rest => some ([], rest)
  | c :: rest => (splitDoubleColon rest).map (fun p => (c :: p.1, p.2))
  | [] => none

/-- The bytes of 16-bit groups. -/
def groupBytes (gs : List Nat) : IP :=
  (gs.map (fun g => [Fin.ofNat (g / 256), Fin.ofNat (g % 256)])).flatten

/-- An IPv6 address of hexadecimal groups with at most one `::`. -/
def readIPv6 (w : Text) : Option IP :=
  match splitDoubleColon w with
  | some (l, r) =>
    match readGroups l, readGroups r with
    | some gl, some gr =>
      if gl.length + gr.length ≤ 7 then
        some (groupBytes (gl ++ List.replicate (8 - (gl.length + gr.length)) 0 ++ gr))
      else none
    | _, _ => none
  | none =>
    match readGroups w with
    | some gs => if gs.length = 8 then some (groupBytes gs) else none
    | none => none

/-- Library `net.ParseIP` on the two notations above. -/
def readIP (w : Text) : Option IP :=
  if ':' ∈ w then readIPv6 w else readIPv4 w

/-- A text cut into strings of at most 255 characters. -/
def chunks : Nat → Text → List Text
  | 0, s => [s]
  | fuel + 1, s => if s.length ≤ 255 then [s] else s.take 255 :: chunks fuel (s.drop 255)

/-- The strings of a TXT record. -/
def readTxt : List Token → List Text
  | [] => []
  | .word w :: rest => chunks w.length w ++ readTxt rest
  | .quoted q :: rest => chunks q.length q ++ readTxt rest

/-- The record of a type word and its data tokens. -/
def readData (h : Text × Nat) (type : Text) (data : List Token) : Option RR :=
  if type = "A".toList then
    match data with
    | [.word a] => if ':' ∈ a then none else (readIP a).map (RR.A ⟨h.1, TypeA, h.2⟩)
    | _ => none
  else if type = "AAAA".toList then
    match data with
    | [.word a] => if ':' ∈ a then (readIP a).map (RR.AAAA ⟨h.1, TypeAAAA, h.2⟩) else none
    | _ => none
  else if type = "NS".toList then
    match data with
    | [.word t] => (toAbsoluteName t).map (RR.NS ⟨h.1, TypeNS, h.2⟩)
    | _ => none
  else if type = "CNAME".toList then
    match data with
    | [.word t] => (toAbsoluteName t).map (RR.CNAME ⟨h.1, TypeCNAME, h.2⟩)
    | _ => none
  else if type = "PTR".toList then
    match data with
    | [.word t] => (toAbsoluteName t).map (RR.PTR ⟨h.1, TypePTR, h.2⟩)
    | _ => none
  else if type = "MX".toList then
    match data with
    | [.word p, .word t] =>
      (readNumber (2 ^ 16) p).bind (fun pref =>
        (toAbsoluteName t).map (RR.MX ⟨h.1, TypeMX, h.2⟩ pref))
    | _ => none
  else if type = "TXT".toList then
    match data with
    | [] => none
    | _ => some (RR.TXT ⟨h.1, TypeTXT, h.2⟩ (readTxt data))
  else if type = "SRV".toList then
    match data with
    | [.word pr, .word w, .word po, .word t] =>
      (readNumber (2 ^ 16) pr).bind (fun priority =>
        (readNumber (2 ^ 16) w).bind (fun weight =>
          (readNumber (2 ^ 16) po).bind (fun port =>
            (toAbsoluteName t).map (RR.SRV ⟨h.1, TypeSRV, h.2⟩ priority weight port))))
    | _ => none
  else none

/-- The reference reader. -/
def zoneLine : RRReader := fun s =>
  match lexLine s .blank [] with
  | none => .error "syntax error".toList
  | some [] => .ok none
  | some (.quoted _ :: _) => .error "syntax error".toList
  | some (.word owner :: rest) =>
    match toAbsoluteName owner, readTTLClass rest with
    | some name, some (ttl, .word type :: data) =>
      match readData (name, ttl) (keyword type) data with
      | some rr => .ok (some rr)
      | none => .error "syntax error".toList
    | _, _ => .error "syntax error".toList

/-! ## dynamic_resolver.go -/

/-- Variable `ErrMultiLineDynamicRecord`. -/
def ErrMultiLineDynamicRecord : Error :=
  ⟨.ArgumentError, none, "DynamicRecord can't have multi line".toList⟩

/-- Variable `ErrInvalidDynamicRecordFormat`. -/
def ErrInvalidDynamicRecordFormat : Error :=
  ⟨.ArgumentError, none, "DynamicRecord invalid format".toList⟩

/-- Variable `ErrNoSuchRecord`. -/
def ErrNoSuchRecord : Error := ⟨.ArgumentError, none, "no such record".toList⟩

/-- Type `DynamicRecord`; `ID` is a pointer in the source, nil is `none`. -/
structure DynamicRecord where
  Record : Record
  ID : Option Int
  Volatile : Bool
  Disabled : Bool
  deriving DecidableEq, Repr

/-- Method `DynamicRecord.String`. -/
def DynamicRecord.String (r : DynamicRecord) : Text :=
  let annotates : List Text :=
    (match r.ID with
      | some id => ["ID:".toList ++ Itoa id]
      | none => [])
    ++ (if r.Volatile then ["Volatile".toList] else [])
  let result := r.Record.String
  let result :=
    if annotates.length > 0 then Join " ".toList ([result, ";".toList] ++ annotates) else result
  if r.Disabled then ';' :: result else result

/-- The key `ID` of the `switch` in `unmarshalAnnotation`. -/
def keyID : Text := "ID".toList

/-- The key `VOLATILE` of the `switch` in `unmarshalAnnotation`. -/
def keyVolatile : Text := "VOLATILE".toList

/-- One round of the loop of `unmarshalAnnotation`: the token `x` against the fields `ID` and
`Volatile` set so far. -/
def annotationStep (st : Option Int × Bool) (x : Text) : Except Error (Option Int × Bool) :=
  let kvs := SplitN2 ':' x
  let key := ToUpper (TrimSpace kvs.1)
  if key = keyID then
    match kvs.2 with
    | none => .error ErrInvalidDynamicRecordFormat
    | some arg =>
      match Atoi (TrimSpace arg) with
      | none => .error ErrInvalidDynamicRecordFormat
      | some id => .ok (some id, st.2)
  else if key = keyVolatile then
    match kvs.2 with
    | some _ => .error ErrInvalidDynamicRecordFormat
    | none => .ok (st.1, true)
  else .ok st

/-- The loop of `unmarshalAnnotation` over the tokens, leaving at the first error. -/
def annotationLoop : List Text → Option Int × Bool → Except Error (Option Int × Bool)
  | [], st => .ok st
  | x :: xs, st =>
    match annotationStep st x with
    | .error e => .error e
    | .ok st' => annotationLoop xs st'

/-- Method `DynamicRecord.unmarshalAnnotation`: the fields `ID` and `Volatile` it leaves in the
receiver when it returns nil. -/
def unmarshalAnnotation (text : Text) : Except Error (Option Int × Bool) :=
  annotationLoop (Split ' ' (TrimSpace text)) (none, false)

/-- The part of `DynamicRecord.UnmarshalText` after the leading `;` is dealt with: the
annotation segment after the first `;`, then the record in front of it. -/
def unmarshalFields (newRR : RRReader) (disabled : Bool) (text : Text) : Outcome Error DynamicRecord :=
  let xs := SplitN2 ';' text
  let fields : Except Error (Option Int × Bool) :=
    match xs.2 with
    | none => .ok (none, false)
    | some a => unmarshalAnnotation a
  match fields with
  | .error e => .error e
  | .ok (id, volatile) =>
    match NewRecord newRR xs.1 with
    | .ok rec => .ok ⟨rec, id, volatile, disabled⟩
    | .error e => .error e
    | .panic => .panic

/-- Method `DynamicRecord.UnmarshalText` on a zero receiver, as `NewDynamicRecord` and
`DynamicRecordSet.UnmarshalText` call it.  `text[0]` is out of range when the trimmed text is
empty. -/
def DynamicRecord.UnmarshalText (newRR : RRReader) (text : Text) : Outcome Error DynamicRecord :=
  if '\n' ∈ text then .error ErrMultiLineDynamicRecord
  else
    match TrimSpace text with
    | [] => .panic
    | c :: rest =>
      if c = ';' then unmarshalFields newRR true (TrimSpace (TrimLeft ';' (c :: rest)))
      else unmarshalFields newRR false (c :: rest)

/-- Function `NewDynamicRecord`. -/
def NewDynamicRecord (newRR : RRReader) (record : Text) : Outcome Error DynamicRecord :=
  DynamicRecord.UnmarshalText newRR record

/-- Type `DynamicRecordSet`. -/
abbrev DynamicRecordSet := List DynamicRecord

/-- The error `DynamicRecordSet.UnmarshalText` records for line number `n`. -/
def lineError (n : Nat) (line : Text) : Error :=
  ⟨.ArgumentError, none,
    "line ".toList ++ formatNat n ++ ": invalid format: ".toList ++ line⟩

/-- The loop of `DynamicRecordSet.UnmarshalText` from index `i` on, with the records and errors
gathered so far.  The record the source also appends after a failed line is left out: it is
only in the set when an error is returned. -/
def unmarshalLines (newRR : RRReader) :
    List Text → Nat → DynamicRecordSet → ErrorSet → Outcome ErrorSet DynamicRecordSet
  | [], _, rs, errors => if errors.length > 0 then .error errors else .ok rs
  | line :: lines, i, rs, errors =>
    let line := TrimSpace line
    if line.length = 0 then unmarshalLines newRR lines (i + 1) rs errors
    else
      match DynamicRecord.UnmarshalText newRR line with
      | .panic => .panic
      | .ok r => unmarshalLines newRR lines (i + 1) (rs ++ [r]) errors
      | .error _ =>
        if line.head? = some ';' then unmarshalLines newRR lines (i + 1) rs errors
        else unmarshalLines newRR lines (i + 1) rs (errors ++ [lineError (i + 1) line])

/-- Method `DynamicRecordSet.UnmarshalText`. -/
def DynamicRecordSet.UnmarshalText (newRR : RRReader) (text : Text) :
    Outcome ErrorSet DynamicRecordSet :=
  unmarshalLines newRR (Split '\n' text) 0 [] []

/-- Function `NewDynamicRecordSet`. -/
def NewDynamicRecordSet (newRR : RRReader) (records : Text) : Outcome ErrorSet DynamicRecordSet :=
  DynamicRecordSet.UnmarshalText newRR records

/-! ## sqlite_resolver.go

The database is the table `records` and the counter SQLite keeps for an
`INTEGER PRIMARY KEY AUTOINCREMENT` column (the largest id the table ever held); the SQL
statements the resolver prepares are functions on it.  `now` is the reading of the clock in
Unix seconds during a call. -/

/-- A row of table `records`; `expire` is 0 for a record that is not volatile. -/
structure Row where
  id : Int
  name : Text
  qtype : Text
  ttl : Nat
  expire : Nat
  record : Text
  deriving DecidableEq, Repr

/-- The database behind a `SqliteResolver`. -/
structure SqliteDB where
  rows : List Row
  seq : Int
  deriving DecidableEq, Repr

namespace SqliteResolver

/-- The database `NewSqliteResolver` creates on an empty file. -/
def empty : SqliteDB := ⟨[], 0⟩

/-- Statement `UPDATE records SET ttl = ?, expire = ? WHERE record = ?` and the number of rows
it affected. -/
def update (db : SqliteDB) (ttl expire : Nat) (record : Text) : SqliteDB × Nat :=
  (⟨db.rows.map (fun row => if row.record = record then { row with ttl := ttl, expire := expire } else row),
    db.seq⟩,
   (db.rows.filter (fun row => row.record = record)).length)

/-- Statement `INSERT INTO records (name, qtype, ttl, expire, record) VALUES (?, ?, ?, ?, ?)`:
the new row takes the id after the counter; `none` when `record` breaks its UNIQUE
constraint or the counter has reached the largest id (SQLITE_FULL). -/
def ins (db : SqliteDB) (name qtype : Text) (ttl expire : Nat) (record : Text) : Option SqliteDB :=
  if db.rows.any (fun row => row.record = record) then none
  else if db.seq + 1 ≥ 2 ^ 63 then none
  else some ⟨db.rows ++ [⟨db.seq + 1, name, qtype, ttl, expire, record⟩], db.seq + 1⟩

/-- Statement `DELETE FROM records WHERE id = ? AND ttl = ? AND record = ?`. -/
def dropWithID (db : SqliteDB) (id : Int) (ttl : Nat) (record : Text) : SqliteDB :=
  ⟨db.rows.filter (fun row => !(row.id = id && row.ttl = ttl && row.record = record)), db.seq⟩

/-- Statement `DELETE FROM records WHERE ttl = ? AND record = ?`. -/
def dropWithoutID (db : SqliteDB) (ttl : Nat) (record : Text) : SqliteDB :=
  ⟨db.rows.filter (fun row => !(row.ttl = ttl && row.record = record)), db.seq⟩

/-- The error of `insertRecord` and `dropRecord` for an address the library cannot reverse. -/
def reverseError (a : IP) : Error :=
  ⟨.ArgumentError, some ("unrecognized address: ".toList ++ a.String),
    "failed to convert to reverse address: ".toList ++ a.String⟩

/-- The record `insertRecord` and `dropRecord` build for the reverse name of an address
record. -/
def reverseRecord (r : DynamicRecord) (reverse : Text) : DynamicRecord :=
  ⟨.Ptr reverse r.Record.GetTTL r.Record.GetName, none, r.Volatile, false⟩

/-- The statements of `insertRecord` for one record: the update, and the insert when the
update touched no row. -/
def upsert (now : Nat) (db : SqliteDB) (r : DynamicRecord) : Except Error SqliteDB :=
  let expire := if r.Volatile then now + r.Record.GetTTL else 0
  let updated := update db r.Record.GetTTL expire r.Record.WithoutTTL
  if updated.2 = 0 then
    match ins updated.1 r.Record.GetName (QtypeToString r.Record.GetQtype) r.Record.GetTTL expire
        r.Record.WithoutTTL with
    | none => .error ⟨.ExternalError, some "constraint failed".toList, "failed to insert record".toList⟩
    | some db' => .ok db'
  else .ok updated.1

/-- Function `insertRecord`.  Its recursive call is on a `PtrRecord`, whose query type is
neither A nor AAAA, so that call runs the statements and returns. -/
def insertRecord (now : Nat) (db : SqliteDB) (r : DynamicRecord) : Except Error SqliteDB :=
  match upsert now db r with
  | .error e => .error e
  | .ok db' =>
    match r.Record with
    | .Address _ _ a =>
      match ReverseAddr a with
      | none => .error (reverseError a)
      | some reverse => upsert now db' (reverseRecord r reverse)
    | _ => .ok db'

/-- The statement of `dropRecord` for one record. -/
def drop (db : SqliteDB) (r : DynamicRecord) : SqliteDB :=
  match r.ID with
  | none => dropWithoutID db r.Record.GetTTL r.Record.WithoutTTL
  | some id => dropWithID db id r.Record.GetTTL r.Record.WithoutTTL

/-- Function `dropRecord`, its recursive call unfolded like that of `insertRecord`. -/
def dropRecord (db : SqliteDB) (r : DynamicRecord) : Except Error SqliteDB :=
  match r.Record with
  | .Address _ _ a =>
    match ReverseAddr a with
    | none => .error (reverseError a)
    | some reverse => .ok (drop (drop db r) (reverseRecord r reverse))
  | _ => .ok (drop db r)

/-- The loop of `SetRecords` inside its transaction. -/
def applyRecords (now : Nat) : DynamicRecordSet → SqliteDB → Except Error SqliteDB
  | [], db => .ok db
  | r :: rs, db =>
    match (if r.Disabled then dropRecord db r else insertRecord now db r) with
    | .error e => .error e
    | .ok db' => applyRecords now rs db'

/-- Method `SetRecords`: the database after the call and the error returned; an error rolls
the transaction back. -/
def SetRecords (now : Nat) (db : SqliteDB) (rs : DynamicRecordSet) : SqliteDB × Option Error :=
  match applyRecords now rs db with
  | .ok db' => (db', none)
  | .error e => (db, some e)

/-- Method `RemoveRecord`: statement `DELETE FROM records WHERE id = ?`. -/
def RemoveRecord (db : SqliteDB) (id : Int) : SqliteDB × Option Error :=
  if (db.rows.filter (fun row => row.id = id)).length = 0 then (db, some ErrNoSuchRecord)
  else (⟨db.rows.filter (fun row => !(row.id = id)), db.seq⟩, none)

/-- The statement `manageExpire` runs at every tick:
`DELETE FROM records WHERE expire > 0 AND expire < now`. -/
def sweep (now : Nat) (db : SqliteDB) : SqliteDB :=
  ⟨db.rows.filter (fun row => !(decide (row.expire > 0) && decide (row.expire < now))), db.seq⟩

/-- The calls that change the database. -/
inductive Call where
  | SetRecords (now : Nat) (rs : DynamicRecordSet)
  | RemoveRecord (id : Int)
  | manageExpire (now : Nat)

/-- The database after a call. -/
def step (db : SqliteDB) : Call → SqliteDB
  | .SetRecords now rs => (SetRecords now db rs).1
  | .RemoveRecord id => (RemoveRecord db id).1
  | .manageExpire now => sweep now db

/-- The database after a sequence of calls on a new resolver. -/
def run (calls : List Call) : SqliteDB := calls.foldl step empty

end SqliteResolver

/-! ## etcd_resolver.go

The store is the key space of etcd: entries sorted by key, each with the instant its lease
ends when it has one.  etcd drops an entry when its lease ends; `prune` does so at the start
of every call.  Errors of the connection are not modelled: every request is answered. -/

/-- An entry of the key space. -/
structure KV where
  Key : Text
  Value : Text
  Lease : Option Nat
  deriving DecidableEq, Repr

/-- The key space, sorted by key. -/
abbrev EtcdStore := List KV

/-- Order of keys: byte-wise, which for UTF-8 is the order of code points. -/
def keyLt : Text → Text → Bool
  | _, [] => false
  | [], _ :: _ => true
  | a :: as, b :: bs => a.toNat < b.toNat || (a = b && keyLt as bs)

/-- Whether `p` starts `s`. -/
def startsWith (p : Text) (s : Text) : Bool := p.isPrefixOf s

/-- Function `SplitDomainName` at the dots: the labels of `s`, cut at every dot that is not the
last character and does not follow an odd run of backslashes (`esc`); `cur` is the label
being read, reversed. -/
def splitDots : Text → Bool → Text → List Text
  | [], _, cur => [cur.reverse]
  | [c], _, cur => [(c :: cur).reverse]
  | c :: d :: rest, esc, cur =>
    if c = '.' && !esc then cur.reverse :: splitDots (d :: rest) false []
    else splitDots (d :: rest) (c = '\\' && !esc) (c :: cur)

/-- Library `dns.SplitDomainName`: the labels of a name, without the dot that ends a fully
qualified one; none for the empty name and the root. -/
def SplitDomainName (s : Text) : List Text :=
  if s = [] || s = ['.'] then []
  else
    let labels := splitDots s false []
    if IsFqdn s then labels.dropLast ++ (labels.getLast?.map List.dropLast).toList else labels

/-- Method `Domain.ToPath`. -/
def Domain.ToPath (d : Domain) : Text :=
  '/' :: Join ['/'] (SplitDomainName (Domain.String d)).reverse

/-- The header of a wire record with another TTL (`rr.Header().Ttl = ttl`). -/
def RR.setTtl (ttl : Nat) : RR → RR
  | .A h a => .A { h with Ttl := ttl } a
  | .AAAA h a => .AAAA { h with Ttl := ttl } a
  | .NS h n => .NS { h with Ttl := ttl } n
  | .CNAME h t => .CNAME { h with Ttl := ttl } t
  | .PTR h p => .PTR { h with Ttl := ttl } p
  | .MX h p m => .MX { h with Ttl := ttl } p m
  | .TXT h t => .TXT { h with Ttl := ttl } t
  | .SRV h pr w po t => .SRV { h with Ttl := ttl } pr w po t
  | .Other h => .Other { h with Ttl := ttl }

/-- Type `VolatileRecord`; `Expire` is `Expire.Unix()`, negative for the zero `time.Time`. -/
structure VolatileRecord where
  RR : Option RR
  Expire : Int
  deriving DecidableEq, Repr

/-- The `Unix()` of the zero `time.Time`. -/
def zeroTime : Int := -62135596800

/-- Method `VolatileRecord.Record`; durations are whole seconds.  Setting the TTL of a nil
wire record dereferences it. -/
def VolatileRecord.Record (now : Nat) (r : VolatileRecord) : Outcome Error Record :=
  if r.Expire > 0 then
    if r.Expire - now < 0 then
      .error ⟨.ExpirationError, none, "this record is already expired".toList⟩
    else
      match r.RR with
      | none => .panic
      | some rr => NewRecordFromRR (some (rr.setTtl (r.Expire - now).toNat))
  else NewRecordFromRR r.RR

/-- Method `VolatileRecord.UnmarshalText`. -/
def VolatileRecord.UnmarshalText (newRR : RRReader) (now : Nat) (text : Text) :
    Except Error VolatileRecord :=
  if '\n' ∈ text then .error ErrMultiLineDynamicRecord
  else
    let xs := SplitN2 ';' (TrimSpace text)
    match newRR xs.1 with
    | .error err => .error ⟨.InternalError, some err, "failed to parse record".toList⟩
    | .ok rr =>
      match xs.2 with
      | none => .ok ⟨rr, 0⟩
      | some e =>
        match Atoi (TrimSpace e) with
        | none => .error ⟨.InternalError, some "invalid syntax".toList, "failed to parse record".toList⟩
        | some i =>
          if i < now then
            .error ⟨.ExpirationError, none, "failed to parse record: expire can't be past time".toList⟩
          else .ok ⟨rr, i⟩

/-- Method `VolatileRecord.MarshalText`. -/
def VolatileRecord.MarshalText (now : Nat) (r : VolatileRecord) : Outcome Error Text :=
  match r.Record now with
  | .ok rec =>
    if r.Expire > 0 then .ok (rec.String ++ " ; ".toList ++ Itoa r.Expire) else .ok rec.String
  | .error e => .error e
  | .panic => .panic

/-- Method `ToRR` of every record. -/
def Record.ToRR (newRR : RRReader) (r : Record) : Except Error (Option RR) :=
  match newRR r.String with
  | .ok rr => .ok rr
  | .error err => .error ⟨.InternalError, some err, "failed to convert to RR".toList⟩

/-- Method `DynamicRecord.VolatileRecord`. -/
def DynamicRecord.VolatileRecord (newRR : RRReader) (now : Nat) (r : DynamicRecord) :
    Except Error VolatileRecord :=
  match r.Record.ToRR newRR with
  | .ok rr => .ok ⟨rr, if r.Volatile then (now : Int) + r.Record.GetTTL else zeroTime⟩
  | .error e => .error e

namespace EtcdResolver

/-- The entry put in its place in key order. -/
def insertSorted (kv : KV) : EtcdStore → EtcdStore
  | [] => [kv]
  | x :: xs => if keyLt kv.Key x.Key then kv :: x :: xs else x :: insertSorted kv xs

/-- Request `Put`: the entry replaces the one of its key, or takes its place in key order. -/
def put (kv : KV) (st : EtcdStore) : EtcdStore :=
  if st.any (fun x => x.Key = kv.Key) then st.map (fun x => if x.Key = kv.Key then kv else x)
  else insertSorted kv st

/-- Request `Delete` of one key. -/
def delete (key : Text) (st : EtcdStore) : EtcdStore := st.filter (fun kv => !(kv.Key = key))

/-- Request `Get` of one key. -/
def get (key : Text) (st : EtcdStore) : List KV := st.filter (fun kv => kv.Key = key)

/-- Request `Get` with `WithPrefix`: the entries in key order. -/
def getPrefix (pre : Text) (st : EtcdStore) : List KV := st.filter (fun kv => startsWith pre kv.Key)

/-- The store without the entries whose lease has ended. -/
def prune (now : Nat) (st : EtcdStore) : EtcdStore :=
  st.filter (fun kv =>
    match kv.Lease with
    | none => true
    | some t => now < t)

/-- The key of the counter, `er.Prefix + "/lastID"`. -/
def lastIDKey (pre : Text) : Text := pre ++ "/lastID".toList

/-- Method `getKey`. -/
def getKey (pre : Text) (r : DynamicRecord) : Text :=
  match r.ID with
  | none => pre ++ "/records".toList ++ Domain.ToPath r.Record.GetName
  | some id => pre ++ "/records".toList ++ Domain.ToPath r.Record.GetName ++ ['/'] ++ Itoa id

/-- Method `getIDbyKey`. -/
def getIDbyKey (key : Text) : Except Error Int :=
  match (Split '/' key).getLast? with
  | none => .error ⟨.InternalError, some "invalid syntax".toList, "failed to parse record ID".toList⟩
  | some last =>
    match Atoi last with
    | some i => .ok i
    | none => .error ⟨.InternalError, some "invalid syntax".toList, "failed to parse record ID".toList⟩

/-- A sum as a 64-bit `int` holds it. -/
def wrapInt (i : Int) : Int := (i + 2 ^ 63) % 2 ^ 64 - 2 ^ 63

/-- Method `makeKey`: the store with the counter advanced, the record with its new ID and its
key. -/
def makeKey (pre : Text) (st : EtcdStore) (r : DynamicRecord) :
    EtcdStore × Except Error (DynamicRecord × Text) :=
  let last : Except Error Int :=
    match get (lastIDKey pre) st with
    | [] => .ok 0
    | kv :: _ =>
      match Atoi kv.Value with
      | some i => .ok i
      | none => .error ⟨.InternalError, some "invalid syntax".toList, "failed to parse last ID".toList⟩
  match last with
  | .error e => (st, .error e)
  | .ok id =>
    let r' := { r with ID := some (wrapInt (id + 1)) }
    (put ⟨lastIDKey pre, Itoa (wrapInt (id + 1)), none⟩ st, .ok (r', getKey pre r'))

/-- The loop of `findKey` over the entries: the record with the ID of the first entry that
holds the same record text (`r.ID = nil` and the empty key when none does). -/
def findLoop (newRR : RRReader) (now : Nat) (r : DynamicRecord) (withTTL : Bool) :
    List KV → Outcome Error (DynamicRecord × Text)
  | [] => .ok ({ r with ID := none }, [])
  | x :: xs =>
    match VolatileRecord.UnmarshalText newRR now x.Value with
    | .error e => .error ⟨.InternalError, some e.Error, "failed to parse record".toList⟩
    | .ok r2 =>
      match r2.Record now with
      | .panic => .panic
      | .error e => .error ⟨.InternalError, some e.Error, "failed to parse record".toList⟩
      | .ok rec =>
        if withTTL && r.Record.String ≠ rec.String then findLoop newRR now r withTTL xs
        else if !withTTL && r.Record.WithoutTTL ≠ rec.WithoutTTL then findLoop newRR now r withTTL xs
        else
          match getIDbyKey x.Key with
          | .error e => .error e
          | .ok id => .ok ({ r with ID := some id }, x.Key)

/-- Method `findKey`. -/
def findKey (newRR : RRReader) (now : Nat) (pre : Text) (st : EtcdStore) (r : DynamicRecord)
    (withTTL : Bool) : Outcome Error (DynamicRecord × Text) :=
  findLoop newRR now r withTTL (getPrefix (getKey pre r) st)

/-- The record `dropRecord` builds for the reverse name of an address record. -/
def reverseRecord (r : DynamicRecord) (reverse : Text) : DynamicRecord :=
  ⟨.Ptr reverse r.Record.GetTTL r.Record.GetName, none, r.Volatile, false⟩

/-- The record `insertRecord` builds for the reverse name: the literal sets no `Volatile`. -/
def insertedReverse (r : DynamicRecord) (reverse : Text) : DynamicRecord :=
  ⟨.Ptr reverse r.Record.GetTTL r.Record.GetName, none, false, false⟩

/-- The error of `insertRecord` and `dropRecord` for an address the library cannot reverse. -/
def reverseError (a : IP) : Error :=
  ⟨.ExternalError, some ("unrecognized address: ".toList ++ a.String),
    "failed to make reverse address".toList⟩

/-- The part of `dropRecord` before its recursive call: the entry of the record, found with
its TTL, is deleted. -/
def dropSingle (newRR : RRReader) (now : Nat) (pre : Text) (st : EtcdStore) (r : DynamicRecord) :
    EtcdStore × Outcome Error Unit :=
  match findKey newRR now pre st r true with
  | .panic => (st, .panic)
  | .error e => (st, .error e)
  | .ok (_, key) => if key ≠ [] then (delete key st, .ok ()) else (st, .ok ())

/-- Method `dropRecord`; the recursive call is on a `PtrRecord` and ends after its first
part. -/
def dropRecord (newRR : RRReader) (now : Nat) (pre : Text) (st : EtcdStore) (r : DynamicRecord) :
    EtcdStore × Outcome Error Unit :=
  match dropSingle newRR now pre st r with
  | (st', .ok ()) =>
    match r.Record with
    | .Address _ _ a =>
      match ReverseAddr a with
      | none => (st', .error (reverseError a))
      | some reverse => dropSingle newRR now pre st' (reverseRecord r reverse)
    | _ => (st', .ok ())
  | other => other

/-- The end of `insertSingleRecord`: the lease when the record is volatile, the value, and
the `Put` under `key`. -/
def putRecord (newRR : RRReader) (now : Nat) (st : EtcdStore) (r : DynamicRecord) (key : Text) :
    EtcdStore × Outcome Error Unit :=
  let lease : Option Nat := if r.Volatile then some (now + r.Record.GetTTL) else none
  match r.VolatileRecord newRR now with
  | .error e => (st, .error e)
  | .ok vr =>
    match vr.MarshalText now with
    | .panic => (st, .panic)
    | .error e => (st, .error e)
    | .ok value => (put ⟨key, value, lease⟩ st, .ok ())

/-- Method `insertSingleRecord`. -/
def insertSingleRecord (newRR : RRReader) (now : Nat) (pre : Text) (st : EtcdStore)
    (r : DynamicRecord) : EtcdStore × Outcome Error Unit :=
  match findKey newRR now pre st r false with
  | .panic => (st, .panic)
  | .error e => (st, .error e)
  | .ok (r', key) =>
    if key = [] then
      match makeKey pre st r' with
      | (st', .error e) => (st', .error e)
      | (st', .ok (r'', key')) => putRecord newRR now st' r'' key'
    else putRecord newRR now st r' key

/-- Method `insertRecord`. -/
def insertRecord (newRR : RRReader) (now : Nat) (pre : Text) (st : EtcdStore) (r : DynamicRecord) :
    EtcdStore × Outcome Error Unit :=
  match insertSingleRecord newRR now pre st r with
  | (st', .ok ()) =>
    match r.Record with
    | .Address _ _ a =>
      match ReverseAddr a with
      | none => (st', .error (reverseError a))
      | some reverse => insertSingleRecord newRR now pre st' (insertedReverse r reverse)
    | _ => (st', .ok ())
  | other => other

/-- The loop of `SetRecords`: it stops at the first error and keeps what it has written. -/
def applyRecords (newRR : RRReader) (now : Nat) (pre : Text) :
    DynamicRecordSet → EtcdStore → EtcdStore × Outcome Error Unit
  | [], st => (st, .ok ())
  | r :: rs, st =>
    match (if r.Disabled then dropRecord newRR now pre st r else insertRecord newRR now pre st r) with
    | (st', .ok ()) => applyRecords newRR now pre rs st'
    | other => other

/-- Method `SetRecords`. -/
def SetRecords (newRR : RRReader) (now : Nat) (pre : Text) (st : EtcdStore) (rs : DynamicRecordSet) :
    EtcdStore × Outcome Error Unit :=
  applyRecords newRR now pre rs (prune now st)

/-- Method `readResponses`: an entry whose text has expired is passed over. -/
def readResponses (newRR : RRReader) (now : Nat) : List KV → Outcome Error DynamicRecordSet
  | [] => .ok []
  | x :: xs =>
    match VolatileRecord.UnmarshalText newRR now x.Value with
    | .error e =>
      if e.Kind = .ExpirationError then readResponses newRR now xs else .error e
    | .ok vr =>
      match vr.Record now with
      | .panic => .panic
      | .error e => .error e
      | .ok rec =>
        match getIDbyKey x.Key with
        | .error e => .error e
        | .ok id =>
          match readResponses newRR now xs with
          | .ok rs => .ok (⟨rec, some id, vr.Expire > 0, false⟩ :: rs)
          | other => other

/-- Method `Records`. -/
def Records (newRR : RRReader) (now : Nat) (pre : Text) (st : EtcdStore) :
    Outcome Error DynamicRecordSet :=
  readResponses newRR now (getPrefix (pre ++ "/records/".toList) (prune now st))

/-- Method `RemoveRecord`. -/
def RemoveRecord (newRR : RRReader) (now : Nat) (pre : Text) (st : EtcdStore) (id : Int) :
    EtcdStore × Outcome Error Unit :=
  match Records newRR now pre st with
  | .panic => (prune now st, .panic)
  | .error e => (prune now st, .error e)
  | .ok rs =>
    match rs.find? (fun r => r.ID = some id) with
    | some r => (delete (getKey pre r) (prune now st), .ok ())
    | none => (prune now st, .error ErrNoSuchRecord)

/-- The calls that change the store. -/
inductive Call where
  | SetRecords (now : Nat) (rs : DynamicRecordSet)
  | RemoveRecord (now : Nat) (id : Int)

/-- The store after a call. -/
def step (newRR : RRReader) (pre : Text) (st : EtcdStore) : Call → EtcdStore
  | .SetRecords now rs => (SetRecords newRR now pre st rs).1
  | .RemoveRecord now id => (RemoveRecord newRR now pre st id).1

/-- The store after a sequence of calls on an empty key space. -/
def run (newRR : RRReader) (pre : Text) (calls : List Call) : EtcdStore :=
  calls.foldl (step newRR pre) []

end EtcdResolver

/-! ## message_types.go and resolver.go

A resolver is what its `Resolve` does with a request: the records it adds to the writer, in
order, whether it calls `SetNoAuthoritative`, and the error it returns; `σ` is whatever state
resolvers keep between calls.  The writer accepts every record. -/

/-- Type `Request`. -/
structure Request where
  Name : Text
  Qtype : Nat
  RecursionDesired : Bool
  deriving DecidableEq, Repr

/-- A `ResponseWriter` that keeps what it is given. -/
structure ResponseWriter where
  Records : List Record
  Authoritative : Bool
  deriving DecidableEq, Repr

/-- What one call of `Resolve` does to the writer, and what it returns. -/
structure Answer where
  Added : List Record
  NoAuthoritative : Bool
  Err : Option Error
  deriving DecidableEq, Repr

/-- A value of interface `Resolver`. -/
structure Resolver (σ : Type) where
  answer : Request → σ → Answer × σ

/-- The call `r.Resolve(resp, req)`: the writer and the state after it, and its result. -/
def Resolver.Resolve {σ : Type} (r : Resolver σ) (resp : ResponseWriter) (req : Request) (s : σ) :
    ResponseWriter × σ × Option Error :=
  let a := r.answer req s
  (⟨resp.Records ++ a.1.Added, resp.Authoritative && !a.1.NoAuthoritative⟩, a.2, a.1.Err)

/-- Type `ResolverSet`. -/
abbrev ResolverSet (σ : Type) := List (Resolver σ)

/-- Method `ResolverSet.Resolve`. -/
def ResolverSet.Resolve {σ : Type} :
    ResolverSet σ → ResponseWriter → Request → σ → ResponseWriter × σ × Option Error
  | [], resp, _, s => (resp, s, none)
  | r :: rs, resp, req, s =>
    match r.Resolve resp req s with
    | (resp', s', some err) => (resp', s', some err)
    | (resp', s', none) => ResolverSet.Resolve rs resp' req s'

/-- The calls "in list order until one returns an error": the answer of each child called,
every child meeting the state its predecessor left. -/
def callsInOrder {σ : Type} : List (Resolver σ) → Request → σ → List Answer
  | [], _, _ => []
  | r :: rs, req, s =>
    match (r.answer req s).1.Err with
    | some _ => [(r.answer req s).1]
    | none => (r.answer req s).1 :: callsInOrder rs req (r.answer req s).2

/-- The state the children called leave behind. -/
def stateAfter {σ : Type} : List (Resolver σ) → Request → σ → σ
  | [], _, s => s
  | r :: rs, req, s =>
    match (r.answer req s).1.Err with
    | some _ => (r.answer req s).2
    | none => stateAfter rs req (r.answer req s).2

/-! ## The annotation segment in the words of the specification -/

/-- Whether `c` is the upper-case ASCII letter `u`, in either case.  Besides the two ASCII
forms of the letter this takes in the two code points outside ASCII whose upper case is an
ASCII letter: dotless i (U+0131) for `I` and long s (U+017F) for `S`. -/
def sameLetter (c u : Char) : Bool :=
  decide (c = u) || decide (c.toNat = u.toNat + 32)
    || (decide (u = 'I') && decide (c.toNat = 0x131))
    || (decide (u = 'S') && decide (c.toNat = 0x17F))

/-- Whether a text is the keyword `word`, which is written in upper-case ASCII letters, case
aside. -/
def sameWord : Text → Text → Bool
  | [], [] => true
  | c :: s, u :: word => sameLetter c u && sameWord s word
  | _, _ => false

/-- Whether an annotation token has the key `word`: what stands before its first `:`,
trimmed, is `word`, case aside. -/
def hasKey (word x : Text) : Bool := sameWord (TrimSpace (SplitN2 ':' x).1) word

/-- The integer argument of a token, when it has a `:` followed by an integer. -/
def tokenInteger (x : Text) : Option Int := (SplitN2 ':' x).2.bind (fun a => Atoi (TrimSpace a))

/-- A token with key `ID` that has no `:<integer>` argument, or with key `Volatile` that has a
`:` argument. -/
def badToken (x : Text) : Bool :=
  (hasKey keyID x && (tokenInteger x).isNone)
    || (hasKey keyVolatile x && (SplitN2 ':' x).2.isSome)

/-- The integer an `ID:<n>` token binds. -/
def tokenID (x : Text) : Option Int := if hasKey keyID x then tokenInteger x else none

/-- The integer of the last `ID:<n>` token. -/
def lastID (tokens : List Text) : Option Int := (tokens.filterMap tokenID).getLast?

/-- Whether a `Volatile` token is present. -/
def hasVolatile (tokens : List Text) : Bool := tokens.any (hasKey keyVolatile)

/-! ## Record text that survives the annotation syntax -/

/-- Whether a text begins or ends with white space. -/
def untrimmed (s : Text) : Bool :=
  (s.head?.map isSpace).getD false || (s.getLast?.map isSpace).getD false

/-- A TXT record whose text holds a `;`: `example.com. 1 IN TXT "a; ID b"`. -/
def semicolonRecord : DynamicRecord :=
  ⟨.Txt "example.com.".toList 1 "a; ID b".toList, none, false, false⟩

/-- An address record with both annotations, disabled:
`;example.com. 42 IN A 127.0.0.1 ; ID:7 Volatile`. -/
def annotatedRecord : DynamicRecord :=
  ⟨.Address "example.com.".toList 42 (v4InV6Prefix ++ [127, 0, 0, 1]), some 7, true, true⟩

/-! ## The identifiers of the SQLite resolver -/

namespace SqliteResolver

/-- The identifiers in use are positive, at most the counter, and distinct. -/
def WellNumbered (db : SqliteDB) : Prop :=
  0 ≤ db.seq ∧ (∀ row ∈ db.rows, 0 < row.id ∧ row.id ≤ db.seq)
    ∧ (db.rows.map (fun row => row.id)).Nodup

/-- From `db` to `db'` the counter does not go back, and every row of `db'` either was in `db`
under the same identifier with the same record text, or has an identifier above the counter
of `db`. -/
def Extends (db db' : SqliteDB) : Prop :=
  db.seq ≤ db'.seq ∧
    ∀ row ∈ db'.rows,
      (∃ row0 ∈ db.rows, row0.id = row.id ∧ row0.record = row.record) ∨ db.seq < row.id

end SqliteResolver

/-! ## The identifiers of the etcd resolver -/

namespace EtcdResolver

/-- The counter of the store is `n`: the entry `lastID`, when there is one, holds the decimal
text of `n` and has no lease; without the entry `n` is 0. -/
def Counter (pre : Text) (st : EtcdStore) (n : Int) : Prop :=
  (∀ kv ∈ st, kv.Key = lastIDKey pre → kv.Value = Itoa n ∧ kv.Lease = none)
    ∧ ((∀ kv ∈ st, kv.Key ≠ lastIDKey pre) → n = 0)

/-- The store is well numbered with counter `n`: keys are distinct, and apart from the counter
every entry is a record whose identifier, as `getIDbyKey` reads it from the key, is positive,
at most `n`, and belongs to no other entry. -/
def WellNumbered (pre : Text) (st : EtcdStore) (n : Int) : Prop :=
  (st.map (fun kv => kv.Key)).Nodup ∧ 0 ≤ n ∧ Counter pre st n
    ∧ (∀ kv ∈ st, kv.Key ≠ lastIDKey pre →
        ∃ id, getIDbyKey kv.Key = .ok id ∧ 0 < id ∧ id ≤ n)
    ∧ (∀ kv1 ∈ st, ∀ kv2 ∈ st, kv1.Key ≠ lastIDKey pre → kv2.Key ≠ lastIDKey pre →
        getIDbyKey kv1.Key = getIDbyKey kv2.Key → kv1.Key = kv2.Key)

/-- Every record entry of `st'` has the key of an entry of `st` (it keeps its identifier) or an
identifier above `n`. -/
def Fresh (pre : Text) (st st' : EtcdStore) (n : Int) : Prop :=
  ∀ kv' ∈ st', kv'.Key ≠ lastIDKey pre →
    (∃ kv ∈ st, kv.Key = kv'.Key) ∨ (∃ id, getIDbyKey kv'.Key = .ok id ∧ n < id)

/-- From `st` to `st'` at most `k` identifiers are issued: while the counter stays within a
64-bit `int`, the store stays well numbered, the counter grows by at most `k`, and what is new
is numbered above the old counter. -/
def Issues (pre : Text) (k : Nat) (st st' : EtcdStore) : Prop :=
  ∀ n, WellNumbered pre st n → n + k < 2 ^ 63 →
    ∃ n', n ≤ n' ∧ n' ≤ n + k ∧ WellNumbered pre st' n' ∧ Fresh pre st st' n

/-- The number of identifiers a call can issue: two for every record submitted. -/
def Call.budget : Call → Nat
  | .SetRecords _ rs => 2 * rs.length
  | .RemoveRecord _ _ => 0

/-- The number of identifiers a sequence of calls can issue. -/
def budget (calls : List Call) : Nat := (calls.map Call.budget).sum

end EtcdResolver

/-! ## Sample calls -/

/-- The submission `example.com. 42 IN A 127.0.0.1`. -/
def sampleAddress : DynamicRecord :=
  ⟨.Address "example.com.".toList 42 (v4InV6Prefix ++ [127, 0, 0, 1]), none, false, false⟩

/-- The submission `;example.com. 42 IN A 127.0.0.1`. -/
def sampleRemoval : DynamicRecord := { sampleAddress with Disabled := true }

/-- The submission `example.com. 100 IN A 127.0.0.1 ; Volatile`. -/
def volatileAddress : DynamicRecord :=
  ⟨.Address "example.com.".toList 100 (v4InV6Prefix ++ [127, 0, 0, 1]), none, true, false⟩

/-! ## Removal in the words of the amended claims -/

/-- The row a disabled line selects in the SQLite resolver: its TTL and its masked text are
those of the line, and its identifier is the line's when the line gives one. -/
def SqliteResolver.selects (r : DynamicRecord) (row : Row) : Prop :=
  row.ttl = r.Record.GetTTL ∧ row.record = r.Record.WithoutTTL
    ∧ ∀ id, r.ID = some id → row.id = id

/-- The entry a disabled line selects in the etcd resolver: its key starts with the key of the
line (the path of the name, then the ID when the line gives one), and its value reads as a
record whose text, TTL included, is the text of the line's record. -/
def EtcdResolver.selects (newRR : RRReader) (now : Nat) (pre : Text) (r : DynamicRecord)
    (x : KV) : Prop :=
  startsWith (EtcdResolver.getKey pre r) x.Key = true
    ∧ ∃ vr rec, VolatileRecord.UnmarshalText newRR now x.Value = .ok vr
        ∧ vr.Record now = .ok rec ∧ rec.String = r.Record.String

/-- The submission `example.com. 84 IN A 127.0.0.1`. -/
def sampleAddress84 : DynamicRecord :=
  ⟨.Address "example.com.".toList 84 (v4InV6Prefix ++ [127, 0, 0, 1]), none, false, false⟩

/-- The submission `;example.com. 42 IN A 127.0.0.1 ; ID:1`. -/
def sampleRemoval1 : DynamicRecord := { sampleAddress with ID := some 1, Disabled := true }

/-- The submission `;example.com. 84 IN A 127.0.0.1 ; ID:1`. -/
def sampleRemoval84 : DynamicRecord := { sampleAddress84 with ID := some 1, Disabled := true }

/-! ## Repeated submissions in the words of the amended claim -/

/-- The stored record of a row, its expiry instant aside. -/
def Row.stored (row : Row) : Int × Text × Text × Nat × Text :=
  (row.id, row.name, row.qtype, row.ttl, row.record)

/-- The expiry instant `insertRecord` writes for a record. -/
def SqliteResolver.expireOf (now : Nat) (w : DynamicRecord) : Nat :=
  if w.Volatile then now + w.Record.GetTTL else 0

/-- What the `UPDATE` of `insertRecord` for `w` does to one row. -/
def SqliteResolver.touch (now : Nat) (row : Row) (w : DynamicRecord) : Row :=
  if row.record = w.Record.WithoutTTL then
    { row with ttl := w.Record.GetTTL, expire := SqliteResolver.expireOf now w }
  else row

/-- What the updates for a list of records, in order, do to one row. -/
def SqliteResolver.touchAll (now : Nat) (ws : List DynamicRecord) (row : Row) : Row :=
  ws.foldl (SqliteResolver.touch now) row

/-- The records `insertRecord` writes for one enabled record: the record, then its reverse
record when it is an address the library can reverse. -/
def SqliteResolver.writesOf (r : DynamicRecord) : List DynamicRecord :=
  match r.Record with
  | .Address _ _ a =>
    match ReverseAddr a with
    | none => [r]
    | some reverse => [r, SqliteResolver.reverseRecord r reverse]
  | _ => [r]

/-- The records `SetRecords` writes for a set of enabled records. -/
def SqliteResolver.writes : DynamicRecordSet → List DynamicRecord
  | [] => []
  | r :: rs => SqliteResolver.writesOf r ++ SqliteResolver.writes rs

/-- The library can reverse the address of the record, if it is an address record. -/
def SqliteResolver.reversible (r : DynamicRecord) : Prop :=
  ∀ name ttl a, r.Record = .Address name ttl a → ReverseAddr a ≠ none

/-- The row the `INSERT` of `insertRecord` makes for `w`. -/
def SqliteResolver.newRow (now : Nat) (db : SqliteDB) (w : DynamicRecord) : Row :=
  ⟨db.seq + 1, w.Record.GetName, QtypeToString w.Record.GetQtype, w.Record.GetTTL,
    SqliteResolver.expireOf now w, w.Record.WithoutTTL⟩

/-- The texts of the rows, in order. -/
def SqliteResolver.texts (db : SqliteDB) : List Text := db.rows.map (fun row => row.record)

/-- The submission `example.com. 42 IN A 127.0.0.1 ; ID:5`. -/
def sampleAddress5 : DynamicRecord := { sampleAddress with ID := some 5 }

/-- Database `d1` is `d0` after the records `ws` were written in order: rows were added whose
texts `d0` lacks, every row went through the updates for `ws`, and every record of `ws` has
a row. -/
def SqliteResolver.Grows (now : Nat) (ws : List DynamicRecord) (d0 d1 : SqliteDB) : Prop :=
  ∃ extra, d1.rows = (d0.rows ++ extra).map (SqliteResolver.touchAll now ws)
    ∧ (∀ x ∈ extra, ∀ y ∈ d0.rows, x.record ≠ y.record)
    ∧ (∀ w ∈ ws, ∃ x ∈ d1.rows, x.record = w.Record.WithoutTTL)

/-- Every record of `ws` has a row in the database. -/
def SqliteResolver.Present (ws : List DynamicRecord) (db : SqliteDB) : Prop :=
  ∀ w ∈ ws, ∃ x ∈ db.rows, x.record = w.Record.WithoutTTL

/-! ## resolver.go: `AlternateResolver` -/

/-- Type `AlternateResolver`. -/
abbrev AlternateResolver (σ : Type) := List (Resolver σ)

/-- The loop of `AlternateResolver.Resolve`.  The children write through a
`ResponseWriterHook` whose `OnAdd` sets `resolved` and returns nil, so the flag is up as soon
as a child has added a record. -/
def AlternateResolver.loop {σ : Type} :
    List (Resolver σ) → Bool → ResponseWriter → Request → σ → ResponseWriter × σ × Option Error
  | [], _, resp, _, s => (resp, s, none)
  | r :: rs, resolved, resp, req, s =>
    let resolved' := resolved || !(r.answer req s).1.Added.isEmpty
    match r.Resolve resp req s with
    | (resp', s', some err) => (resp', s', some err)
    | (resp', s', none) =>
      if resolved' then (resp', s', none) else AlternateResolver.loop rs resolved' resp' req s'

/-- Method `AlternateResolver.Resolve`. -/
def AlternateResolver.Resolve {σ : Type} (ar : AlternateResolver σ) (resp : ResponseWriter)
    (req : Request) (s : σ) : ResponseWriter × σ × Option Error :=
  AlternateResolver.loop ar false resp req s

/-- The calls "in order, until the first child that writes a record or returns an error": the
answer of each child called, every child meeting the state its predecessor left. -/
def callsUntilHit {σ : Type} : List (Resolver σ) → Request → σ → List Answer
  | [], _, _ => []
  | r :: rs, req, s =>
    if (r.answer req s).1.Err.isSome || !(r.answer req s).1.Added.isEmpty then [(r.answer req s).1]
    else (r.answer req s).1 :: callsUntilHit rs req (r.answer req s).2

/-- The state the children called until the first hit leave behind. -/
def stateAfterHit {σ : Type} : List (Resolver σ) → Request → σ → σ
  | [], _, s => s
  | r :: rs, req, s =>
    if (r.answer req s).1.Err.isSome || !(r.answer req s).1.Added.isEmpty then (r.answer req s).2
    else stateAfterHit rs req (r.answer req s).2

/-! ## Go maps

A map is the list of its entries; reading takes the first entry with the key, writing
replaces it or adds an entry, `delete` takes every entry with the key away. -/

/-- A Go `map[κ]α`. -/
abbrev GoMap (κ α : Type) := List (κ × α)

/-- The read `v, ok := m[k]`. -/
def GoMap.get {κ α : Type} [DecidableEq κ] : GoMap κ α → κ → Option α
  | [], _ => none
  | (k', v) :: m, k => if k' = k then some v else GoMap.get m k

/-- The write `m[k] = v`. -/
def GoMap.set {κ α : Type} [DecidableEq κ] : GoMap κ α → κ → α → GoMap κ α
  | [], k, v => [(k, v)]
  | (k', v') :: m, k, v => if k' = k then (k, v) :: m else (k', v') :: GoMap.set m k v

/-- The call `delete(m, k)`. -/
def GoMap.delete {κ α : Type} [DecidableEq κ] : GoMap κ α → κ → GoMap κ α
  | [], _ => []
  | (k', v') :: m, k => if k' = k then GoMap.delete m k else (k', v') :: GoMap.delete m k

/-! ## simple_resolver.go

The two-level map `map[uint16]map[Domain][]Record` is one map keyed by the pair: an inner map
is made when its type is first met and never taken away, and `Resolve` reads a missing inner
map as no records. -/

/-- Type `SimpleResolver`. -/
abbrev SimpleResolver := GoMap (Nat × Domain) (List Record)

/-- The loop body of `NewSimpleResolver`: `sr[qtype][name] = append(sr[qtype][name], r)`. -/
def SimpleResolver.insert (sr : SimpleResolver) (r : Record) : SimpleResolver :=
  GoMap.set sr (r.GetQtype, r.GetName) (((GoMap.get sr (r.GetQtype, r.GetName)).getD []) ++ [r])

/-- Function `NewSimpleResolver`. -/
def NewSimpleResolver (records : List Record) : SimpleResolver :=
  records.foldl SimpleResolver.insert []

/-- Method `SimpleResolver.Resolve` as a `Resolver`: it adds the records under the request's
type and name, in order, and returns nil. -/
def SimpleResolver.resolver (sr : SimpleResolver) : Resolver Unit :=
  ⟨fun req s => (⟨(GoMap.get sr (req.Qtype, req.Name)).getD [], false, none⟩, s)⟩

/-- Method `SimpleResolver.Resolve`. -/
def SimpleResolver.Resolve (sr : SimpleResolver) (w : ResponseWriter) (req : Request) :
    ResponseWriter × Option Error :=
  let out := (SimpleResolver.resolver sr).Resolve w req ()
  (out.1, out.2.2)

/-- The record `Example.com. 42 IN A 127.0.0.1`. -/
def capitalAddress : Record := .Address "Example.com.".toList 42 (v4InV6Prefix ++ [127, 0, 0, 1])

/-- The record `example.com 42 IN A 127.0.0.1`, its name without the final dot. -/
def dotlessAddress : Record := .Address "example.com".toList 42 (v4InV6Prefix ++ [127, 0, 0, 1])

/-! ## metrics.go -/

/-- A family of counters by type label (`map[string]prometheus.Counter`); a counter is its
count. -/
abbrev Counters := GoMap Text Nat

/-- The statement `if counter, ok := counters[key]; ok { counter.Inc() }`. -/
def Counters.inc (cs : Counters) (key : Text) : Counters :=
  match GoMap.get cs key with
  | some n => GoMap.set cs key (n + 1)
  | none => cs

/-- Type `Metrics`, its two duration summaries left out. -/
structure Metrics where
  queryCount : Nat
  skipCount : Nat
  resolveCounters : Counters
  unauthCounters : Counters
  missCounters : Counters
  errorCounters : Counters
  cacheHitCounters : Counters
  cacheMissCounters : Counters
  deriving DecidableEq, Repr

/-- The type labels `NewMetrics` makes counters for. -/
def metricTypes : List Text :=
  ["A".toList, "AAAA".toList, "PTR".toList, "SRV".toList, "TXT".toList]

/-- Function `NewMetrics`. -/
def NewMetrics : Metrics :=
  ⟨0, 0, metricTypes.map (fun t => (t, 0)), metricTypes.map (fun t => (t, 0)),
    metricTypes.map (fun t => (t, 0)), metricTypes.map (fun t => (t, 0)),
    metricTypes.map (fun t => (t, 0)), metricTypes.map (fun t => (t, 0))⟩

/-- Method `Metrics.CacheHit`. -/
def Metrics.CacheHit (m : Metrics) (req : Request) : Metrics :=
  { m with cacheHitCounters := Counters.inc m.cacheHitCounters (QtypeToString req.Qtype) }

/-- Method `Metrics.CacheMiss`. -/
def Metrics.CacheMiss (m : Metrics) (req : Request) : Metrics :=
  { m with cacheMissCounters := Counters.inc m.cacheMissCounters (QtypeToString req.Qtype) }

/-! ## local_cache.go

The map `entries` is keyed by the pair of type and name: `NewLocalCache` makes the inner map
of each of the eight record types, which are the types `add` writes under, and none is ever
taken away.  `now` is the reading of the clock during a call of `Resolve`, in whole seconds.
The upstream resolver writes through a `ResponseWriterHook`; it is given as its behaviour
against a writer that refuses the records the hook refuses, and `Added` lists the records it
hands to `Add`.  The channel `invoke` and the mutex are not fields of the model: a call of
`Resolve` holds the mutex from its first statement to its last, and what the channel still
takes during the call is the parameter `room` of the call. -/

/-- Type `LocalCache`: the entries and the metrics it reports to. -/
structure LocalCache where
  entries : GoMap (Nat × Domain) (List VolatileRecord)
  metrics : Metrics
  deriving DecidableEq, Repr

/-- Function `NewLocalCache`. -/
def NewLocalCache (metrics : Metrics) : LocalCache := ⟨[], metrics⟩

/-- What a call of `LocalCache.Resolve` comes to.  `add` ends with a send on the channel
`invoke`, which blocks while the channel is full; the only receiver of the channel is the
sweeper, which needs the mutex that `Resolve` holds, so a send that blocks during a call
blocks for ever, with the cache as `add` has left it. -/
inductive LocalCache.Call (σ : Type) where
  | returns (lc : LocalCache) (w : ResponseWriter) (s : σ) (result : Outcome Error Unit)
  | blocks (lc : LocalCache)
  deriving DecidableEq, Repr

/-- The cache after a call, returned or blocked. -/
def LocalCache.Call.cache {σ : Type} : LocalCache.Call σ → LocalCache
  | .returns lc _ _ _ => lc
  | .blocks lc => lc

/-- The writer after a call that returns. -/
def LocalCache.Call.writer {σ : Type} : LocalCache.Call σ → Option ResponseWriter
  | .returns _ w _ _ => some w
  | .blocks _ => none

/-- The state of the upstream after a call that returns. -/
def LocalCache.Call.state {σ : Type} : LocalCache.Call σ → Option σ
  | .returns _ _ s _ => some s
  | .blocks _ => none

/-- The result of a call that returns. -/
def LocalCache.Call.result {σ : Type} : LocalCache.Call σ → Option (Outcome Error Unit)
  | .returns _ _ _ result => some result
  | .blocks _ => none

/-- Method `LocalCache.add`: the cache after it and, when it returns, the room left and its
result.  `room` is the number of signals the channel `invoke` takes during the call of
`Resolve`: the free places of its buffer of 100, and one more when the sweeper waits in its
`select`, since it takes one signal and then waits for the mutex.  The send
`lc.invoke <- struct{}{}` with no room left does not return (`none`). -/
def LocalCache.add (newRR : RRReader) (now : Nat) (room : Nat) (lc : LocalCache) (r : Record) :
    LocalCache × Option (Nat × Option Error) :=
  if r.GetTTL = 0 then (lc, some (room, none))
  else
    match r.ToRR newRR with
    | .error e => (lc, some (room, some e))
    | .ok rr =>
      let lc' : LocalCache :=
        match GoMap.get lc.entries (r.GetQtype, r.GetName) with
        | none =>
          ⟨GoMap.set lc.entries (r.GetQtype, r.GetName) [⟨rr, (now : Int) + r.GetTTL⟩],
            lc.metrics⟩
        | some xs =>
          ⟨GoMap.set lc.entries (r.GetQtype, r.GetName) (xs ++ [⟨rr, (now : Int) + r.GetTTL⟩]),
            lc.metrics⟩
      if room = 0 then (lc', none) else (lc', some (room - 1, none))

/-- What `ResponseWriterHook.Add` with `OnAdd: lc.add` returns for a record when `add`
returns: the error of `add`, which does not depend on the cache. -/
def LocalCache.refuses (newRR : RRReader) (r : Record) : Option Error :=
  if r.GetTTL = 0 then none
  else
    match r.ToRR newRR with
    | .error e => some e
    | .ok _ => none

/-- The calls of `ResponseWriterHook.Add` with `OnAdd: lc.add` for the records the upstream
hands over: a record `add` refuses is not written; when a call of `add` blocks, so does the
upstream that made it. -/
def LocalCache.hookAdds (newRR : RRReader) (now : Nat) :
    List Record → Nat → LocalCache → ResponseWriter → LocalCache × Option (Nat × ResponseWriter)
  | [], room, lc, w => (lc, some (room, w))
  | r :: rs, room, lc, w =>
    match LocalCache.add newRR now room lc r with
    | (lc', none) => (lc', none)
    | (lc', some (room', some _)) => LocalCache.hookAdds newRR now rs room' lc' w
    | (lc', some (room', none)) =>
      LocalCache.hookAdds newRR now rs room' lc' ⟨w.Records ++ [r], w.Authoritative⟩

/-- Method `LocalCache.resolveFromUpstream`. -/
def LocalCache.resolveFromUpstream {σ : Type} (newRR : RRReader) (now : Nat) (room : Nat)
    (upstream : (Record → Option Error) → Resolver σ) (lc : LocalCache) (w : ResponseWriter)
    (req : Request) (s : σ) : LocalCache.Call σ :=
  let lc1 : LocalCache := ⟨lc.entries, lc.metrics.CacheMiss req⟩
  let a := (upstream (LocalCache.refuses newRR)).answer req s
  match LocalCache.hookAdds newRR now a.1.Added room lc1 w with
  | (lc', none) => .blocks lc'
  | (lc', some (_, w')) =>
    .returns lc' ⟨w'.Records, w'.Authoritative && !a.1.NoAuthoritative⟩ a.2
      (match a.1.Err with
      | none => .ok ()
      | some e => .error e)

/-- What `Record` leaves behind in the volatile record it is called on: the wire record is
shared with the caller's copy, and its TTL has been overwritten. -/
def VolatileRecord.afterRecord (now : Nat) (r : VolatileRecord) : VolatileRecord :=
  if r.Expire > 0 then
    if r.Expire - now < 0 then r else ⟨r.RR.map (RR.setTtl (r.Expire - now).toNat), r.Expire⟩
  else r

/-- The loop of `LocalCache.resolveFromCache`: the records of the entry after it, the writer
and the result. -/
def LocalCache.readLoop (now : Nat) :
    List VolatileRecord → ResponseWriter →
      List VolatileRecord × ResponseWriter × Outcome Error Unit
  | [], w => ([], w, .ok ())
  | c :: cs, w =>
    match c.Record now with
    | .panic => (c.afterRecord now :: cs, w, .panic)
    | .error e => (c.afterRecord now :: cs, w, .error e)
    | .ok rec =>
      let out := LocalCache.readLoop now cs ⟨w.Records ++ [rec], w.Authoritative⟩
      (c.afterRecord now :: out.1, out.2)

/-- Method `LocalCache.resolveFromCache`. -/
def LocalCache.resolveFromCache {σ : Type} (now : Nat) (lc : LocalCache) (w : ResponseWriter)
    (req : Request) (records : List VolatileRecord) (s : σ) : LocalCache.Call σ :=
  let out := LocalCache.readLoop now records ⟨w.Records, false⟩
  .returns ⟨GoMap.set lc.entries (req.Qtype, req.Name) out.1, lc.metrics.CacheHit req⟩ out.2.1 s
    out.2.2

/-- The test `time.Until(cache.Expire) < 1` on a member of an entry. -/
def VolatileRecord.expired (now : Nat) (c : VolatileRecord) : Bool := decide (c.Expire ≤ (now : Int))

/-- Method `LocalCache.Resolve`; `room` as in `LocalCache.add`. -/
def LocalCache.Resolve {σ : Type} (newRR : RRReader) (now : Nat) (room : Nat)
    (upstream : (Record → Option Error) → Resolver σ) (lc : LocalCache) (w : ResponseWriter)
    (req : Request) (s : σ) : LocalCache.Call σ :=
  match GoMap.get lc.entries (req.Qtype, req.Name) with
  | none => LocalCache.resolveFromUpstream newRR now room upstream lc w req s
  | some records =>
    if records.any (VolatileRecord.expired now) then
      LocalCache.resolveFromUpstream newRR now room upstream
        ⟨GoMap.delete lc.entries (req.Qtype, req.Name), lc.metrics⟩ w req s
    else LocalCache.resolveFromCache now lc w req records s

/-- Method `SimpleResolver.Resolve` against a writer that refuses records: it hands over the
records under the request's type and name until one is refused, and returns that error. -/
def SimpleResolver.handOver (refuse : Record → Option Error) : List Record → List Record × Option Error
  | [] => ([], none)
  | r :: rs =>
    match refuse r with
    | some e => ([r], some e)
    | none => (r :: (SimpleResolver.handOver refuse rs).1, (SimpleResolver.handOver refuse rs).2)

/-- A `SimpleResolver` as an upstream resolver. -/
def SimpleResolver.upstream (sr : SimpleResolver) (refuse : Record → Option Error) : Resolver Unit :=
  ⟨fun req s =>
    (⟨(SimpleResolver.handOver refuse ((GoMap.get sr (req.Qtype, req.Name)).getD [])).1, false,
      (SimpleResolver.handOver refuse ((GoMap.get sr (req.Qtype, req.Name)).getD [])).2⟩, s)⟩

/-! ## The cache in the words of the claims -/

/-- The volatile record `add` stores for a record: none for TTL 0 and for a record that does
not convert to a wire record, else the wire record expiring TTL seconds from now. -/
def LocalCache.cached (newRR : RRReader) (now : Nat) (r : Record) : Option VolatileRecord :=
  if r.GetTTL = 0 then none
  else
    match r.ToRR newRR with
    | .error _ => none
    | .ok rr => some ⟨rr, (now : Int) + r.GetTTL⟩

/-- What a list of records handed to the hook adds under a key: the volatile records of
those whose own type and name are the key, in order. -/
def LocalCache.cachedAt (newRR : RRReader) (now : Nat) (adds : List Record) (k : Nat × Domain) :
    List VolatileRecord :=
  (adds.filter (fun r => (r.GetQtype, r.GetName) = k)).filterMap (LocalCache.cached newRR now)

/-- The number of signals the hook sends for a list of records handed to it: one for every
record that `add` stores. -/
def LocalCache.sends (newRR : RRReader) (now : Nat) (adds : List Record) : Nat :=
  (adds.filterMap (LocalCache.cached newRR now)).length

/-- The records read from the members of an entry, in order, up to the first member that
does not read. -/
def LocalCache.readPrefix (now : Nat) : List VolatileRecord → List Record
  | [] => []
  | c :: cs =>
    match c.Record now with
    | .ok rec => rec :: LocalCache.readPrefix now cs
    | _ => []

/-- The cache test upstream of the repository (cache_test.go). -/
def cacheTestUpstream : SimpleResolver :=
  NewSimpleResolver
    [.Address "example.com.".toList 100 (v4InV6Prefix ++ [127, 1, 2, 3]),
      .Address "example.com.".toList 10 (v4InV6Prefix ++ [127, 2, 3, 4]),
      .Address "short.example.com.".toList 10 (v4InV6Prefix ++ [127, 3, 4, 5]),
      .Address "short.example.com.".toList 2 (v4InV6Prefix ++ [127, 4, 5, 6]),
      .Address "no-cache.example.com.".toList 0 (v4InV6Prefix ++ [127, 5, 6, 7]),
      .Txt "example.com.".toList 100 "hello world".toList]

/-- An upstream that answers the request for `www.example.com.`, type A, the way a forwarder
does for an alias: with the CNAME record of the name and the address record of its target. -/
def aliasUpstream : SimpleResolver :=
  [((TypeA, "www.example.com.".toList),
    [.Cname "www.example.com.".toList 100 "host.example.com.".toList,
      .Address "host.example.com.".toList 50 (v4InV6Prefix ++ [127, 0, 0, 1])])]

/-- The request for `www.example.com.`, type A. -/
def aliasRequest : Request := ⟨"www.example.com.".toList, TypeA, false⟩

/-- The request for `short.example.com.`, type A. -/
def shortRequest : Request := ⟨"short.example.com.".toList, TypeA, false⟩

/-- The request for `example.com.`, type MX. -/
def mxRequest : Request := ⟨"example.com.".toList, TypeMX, false⟩

/-- The request for `example.com.`, type A. -/
def exampleRequest : Request := ⟨"example.com.".toList, TypeA, false⟩

/-- A new cache after the request for `example.com.`, type A, went to the test upstream at
instant 1000. -/
def warmCache : LocalCache :=
  (LocalCache.Resolve zoneLine 1000 100 cacheTestUpstream.upstream (NewLocalCache NewMetrics)
    ⟨[], true⟩ exampleRequest ()).cache

/-- A new cache after the request for `short.example.com.`, type A, went to the test upstream
at instant 1000. -/
def shortCache : LocalCache :=
  (LocalCache.Resolve zoneLine 1000 100 cacheTestUpstream.upstream (NewLocalCache NewMetrics)
    ⟨[], true⟩ shortRequest ()).cache

/-! ## redis_cache.go

The Redis server is the map of its list keys; a connection sends commands, which the server
runs when the connection is closed at the end of the call (`defer conn.Close()`, which
flushes what `Send` has buffered and discards a transaction left open).  `now` is the
reading of the clock during a call, in whole seconds. -/

/-- A list key of the Redis server: its elements and the instant `EXPIRE` has set for it. -/
structure RedisList where
  Items : List Text
  Expire : Option Nat
  deriving DecidableEq, Repr

/-- The database of the Redis server. -/
abbrev RedisDB := GoMap Text RedisList

/-- The commands `RedisCache` sends. -/
inductive RedisCommand where
  | MULTI
  | DISCARD
  | EXEC
  | RPUSH (key value : Text)
  | EXPIRE (key : Text) (seconds : Nat)
  deriving DecidableEq, Repr

/-- The keys that have not expired. -/
def RedisDB.live (now : Nat) (db : RedisDB) : RedisDB :=
  db.filter (fun e => match e.2.Expire with
    | none => true
    | some t => decide (now < t))

/-- The server's `RPUSH` and `EXPIRE`. -/
def RedisDB.apply (now : Nat) (db : RedisDB) : RedisCommand → RedisDB
  | .RPUSH key value =>
    match GoMap.get db key with
    | some l => GoMap.set db key ⟨l.Items ++ [value], l.Expire⟩
    | none => GoMap.set db key ⟨[value], none⟩
  | .EXPIRE key seconds =>
    match GoMap.get db key with
    | some l => if seconds = 0 then GoMap.delete db key else GoMap.set db key ⟨l.Items, some (now + seconds)⟩
    | none => db
  | _ => db

/-- The server running the commands of a connection in order: after `MULTI` commands are
queued until `EXEC` runs them or `DISCARD` drops them; a queue left open when the connection
closes is dropped. -/
def RedisDB.run (now : Nat) : List RedisCommand → Option (List RedisCommand) → RedisDB → RedisDB
  | [], _, db => db
  | .MULTI :: cs, none, db => RedisDB.run now cs (some []) db
  | .MULTI :: cs, some q, db => RedisDB.run now cs (some q) db
  | .DISCARD :: cs, _, db => RedisDB.run now cs none db
  | .EXEC :: cs, some q, db => RedisDB.run now cs none (q.foldl (RedisDB.apply now) db)
  | .EXEC :: cs, none, db => RedisDB.run now cs none db
  | .RPUSH k v :: cs, some q, db => RedisDB.run now cs (some (q ++ [.RPUSH k v])) db
  | .RPUSH k v :: cs, none, db => RedisDB.run now cs none (RedisDB.apply now db (.RPUSH k v))
  | .EXPIRE k t :: cs, some q, db => RedisDB.run now cs (some (q ++ [.EXPIRE k t])) db
  | .EXPIRE k t :: cs, none, db => RedisDB.run now cs none (RedisDB.apply now db (.EXPIRE k t))

/-- The server's `LRANGE key 0 -1`. -/
def RedisDB.lrange (now : Nat) (db : RedisDB) (key : Text) : List Text :=
  match GoMap.get (RedisDB.live now db) key with
  | some l => l.Items
  | none => []

/-- Type `RedisCache`: the server it talks to and the metrics it reports to. -/
structure RedisCache where
  db : RedisDB
  metrics : Metrics
  deriving DecidableEq, Repr

/-- Method `VolatileRecord.String`: the error of `MarshalText` is dropped. -/
def VolatileRecord.String (now : Nat) (r : VolatileRecord) : Outcome Error Text :=
  match r.MarshalText now with
  | .ok t => .ok t
  | .error _ => .ok []
  | .panic => .panic

/-- The `OnAdd` of `RedisCache.resolveFromUpstream` for one record: the smallest TTL so far,
the commands sent, and what it returns. -/
def RedisCache.onAdd (newRR : RRReader) (now : Nat) (key : Text) (ttl : Nat) (r : Record) :
    Nat × List RedisCommand × Outcome Error Unit :=
  let ttl' := if ttl > r.GetTTL then r.GetTTL else ttl
  match r.ToRR newRR with
  | .error e => (ttl', [.DISCARD], .error e)
  | .ok rr =>
    match VolatileRecord.String now ⟨rr, (now : Int) + r.GetTTL⟩ with
    | .ok text => (ttl', [.RPUSH key text], .ok ())
    | .error e => (ttl', [], .error e)
    | .panic => (ttl', [], .panic)

/-- What the hook of `RedisCache.resolveFromUpstream` returns for a record. -/
def RedisCache.refuses (newRR : RRReader) (r : Record) : Option Error :=
  match r.ToRR newRR with
  | .error e => some e
  | .ok _ => none

/-- The calls of the hook's `Add` for the records the upstream hands over; `none` when one
of them panics. -/
def RedisCache.hookAdds (newRR : RRReader) (now : Nat) (key : Text) :
    List Record → Nat → List RedisCommand → ResponseWriter →
      Nat × List RedisCommand × ResponseWriter × Bool
  | [], ttl, cmds, w => (ttl, cmds, w, false)
  | r :: rs, ttl, cmds, w =>
    match RedisCache.onAdd newRR now key ttl r with
    | (ttl', sent, .ok ()) =>
      RedisCache.hookAdds newRR now key rs ttl' (cmds ++ sent) ⟨w.Records ++ [r], w.Authoritative⟩
    | (ttl', sent, .error _) => RedisCache.hookAdds newRR now key rs ttl' (cmds ++ sent) w
    | (ttl', sent, .panic) => (ttl', cmds ++ sent, w, true)

/-- Method `RedisCache.resolveFromUpstream`. -/
def RedisCache.resolveFromUpstream {σ : Type} (newRR : RRReader) (now : Nat)
    (upstream : (Record → Option Error) → Resolver σ) (rc : RedisCache) (w : ResponseWriter)
    (req : Request) (key : Text) (s : σ) : RedisCache × ResponseWriter × σ × Outcome Error Unit :=
  let metrics := rc.metrics.CacheHit req
  let a := (upstream (RedisCache.refuses newRR)).answer req s
  let out := RedisCache.hookAdds newRR now key a.1.Added (2 ^ 32 - 1) [.MULTI] w
  let w' : ResponseWriter := ⟨out.2.2.1.Records, out.2.2.1.Authoritative && !a.1.NoAuthoritative⟩
  if out.2.2.2 then (⟨RedisDB.run now out.2.1 none rc.db, metrics⟩, out.2.2.1, a.2, .panic)
  else
    match a.1.Err with
    | some e => (⟨RedisDB.run now (out.2.1 ++ [.DISCARD]) none rc.db, metrics⟩, w', a.2, .error e)
    | none =>
      if out.1 = 0 then (⟨RedisDB.run now (out.2.1 ++ [.DISCARD]) none rc.db, metrics⟩, w', a.2, .ok ())
      else
        (⟨RedisDB.run now (out.2.1 ++ [.EXPIRE key out.1, .EXEC]) none rc.db, metrics⟩, w', a.2,
          .ok ())

/-- The loop of `RedisCache.resolveFromCache`. -/
def RedisCache.readLoop (newRR : RRReader) (now : Nat) :
    List Text → ResponseWriter → ResponseWriter × Outcome Error Unit
  | [], w => (w, .ok ())
  | str :: rest, w =>
    match VolatileRecord.UnmarshalText newRR now str with
    | .error e => (w, .error e)
    | .ok entry =>
      match entry.Record now with
      | .panic => (w, .panic)
      | .error _ => RedisCache.readLoop newRR now rest ⟨w.Records, false⟩
      | .ok rec => RedisCache.readLoop newRR now rest ⟨w.Records ++ [rec], false⟩

/-- Method `RedisCache.resolveFromCache`. -/
def RedisCache.resolveFromCache {σ : Type} (newRR : RRReader) (now : Nat) (rc : RedisCache)
    (w : ResponseWriter) (req : Request) (cache : List Text) (s : σ) :
    RedisCache × ResponseWriter × σ × Outcome Error Unit :=
  let out := RedisCache.readLoop newRR now cache w
  (⟨rc.db, rc.metrics.CacheMiss req⟩, out.1, s, out.2)

/-- Method `RedisCache.Resolve`; the server has dropped the keys that expired. -/
def RedisCache.Resolve {σ : Type} (newRR : RRReader) (now : Nat)
    (upstream : (Record → Option Error) → Resolver σ) (rc : RedisCache) (w : ResponseWriter)
    (req : Request) (s : σ) : RedisCache × ResponseWriter × σ × Outcome Error Unit :=
  let key := QtypeToString req.Qtype ++ ":".toList ++ req.Name
  let rc' : RedisCache := ⟨RedisDB.live now rc.db, rc.metrics⟩
  if RedisDB.lrange now rc.db key = [] then
    RedisCache.resolveFromUpstream newRR now upstream rc' w req key s
  else RedisCache.resolveFromCache newRR now rc' w req (RedisDB.lrange now rc.db key) s

/-! ## Replacing and matching text -/

/-- The loop of Go `strings.ReplaceAll` for a non-empty `old`; `fuel` bounds the number of
steps by the length of the text. -/
def replaceLoop (old new : Text) : Nat → Text → Text
  | 0, s => s
  | _ + 1, [] => []
  | fuel + 1, c :: rest =>
    if old.isPrefixOf (c :: rest) then new ++ replaceLoop old new fuel ((c :: rest).drop old.length)
    else c :: replaceLoop old new fuel rest

/-- Go `strings.ReplaceAll`: the occurrences of `old`, found from the left and not
overlapping, are replaced by `new`; an empty `old` matches before every character and at
the end. -/
def ReplaceAll (s old new : Text) : Text :=
  if old = [] then new ++ s.flatMap (fun c => c :: new) else replaceLoop old new s.length s

/-- Lower case of an ASCII letter, as SQLite folds case in `LIKE`. -/
def asciiLower (c : Char) : Char :=
  if 0x41 ≤ c.toNat && c.toNat ≤ 0x5A then Char.ofNat (c.toNat + 32) else c

/-- SQLite's `text LIKE pattern ESCAPE esc`: `%` stands for any run of characters, `_` for
one character, the character after `esc` for itself, and any other character for itself;
ASCII letters match without regard to case.  A pattern that ends in `esc` matches nothing. -/
def likeMatch (esc : Char) : Text → Text → Bool
  | [], s => s.isEmpty
  | p :: ps, s =>
    if p = '%' then s.tails.any (likeMatch esc ps)
    else if p = '_' then
      match s with
      | [] => false
      | _ :: t => likeMatch esc ps t
    else if p = esc then
      match ps, s with
      | q :: qs, x :: t => asciiLower x = asciiLower q && likeMatch esc qs t
      | _, _ => false
    else
      match s with
      | [] => false
      | x :: t => asciiLower x = asciiLower p && likeMatch esc ps t

/-! ## sqlite_resolver.go and etcd_resolver.go: the queries -/

/-- Function `NewRecordWithTTL`; `rr.Header()` on the nil record of an empty text panics. -/
def NewRecordWithTTL (newRR : RRReader) (str : Text) (ttl : Nat) : Outcome Error Record :=
  match newRR str with
  | .error err => .error ⟨.ArgumentError, some err, "failed to parse record".toList⟩
  | .ok none => .panic
  | .ok (some rr) => NewRecordFromRR (some (rr.setTtl ttl))

/-- Function `NewRecordWithExpire`; durations are whole seconds. -/
def NewRecordWithExpire (newRR : RRReader) (now : Nat) (str : Text) (expire : Nat) :
    Outcome Error Record :=
  if expire < now then .error ⟨.ExpirationError, none, "expire can't be past time".toList⟩
  else NewRecordWithTTL newRR str (expire - now)

/-- The record `scanRecords` makes of a row. -/
def SqliteResolver.scanRow (newRR : RRReader) (now : Nat) (row : Row) : Outcome Error DynamicRecord :=
  match (if row.expire ≠ 0 then NewRecordWithExpire newRR now row.record row.expire
      else NewRecordWithTTL newRR row.record row.ttl) with
  | .ok rec => .ok ⟨rec, some row.id, decide (row.expire ≠ 0), false⟩
  | .error e => .error e
  | .panic => .panic

/-- Function `scanRecords`. -/
def SqliteResolver.scanRecords (newRR : RRReader) (now : Nat) :
    List Row → Outcome Error DynamicRecordSet
  | [] => .ok []
  | row :: rows =>
    match SqliteResolver.scanRow newRR now row with
    | .ok dr =>
      match SqliteResolver.scanRecords newRR now rows with
      | .ok rs => .ok (dr :: rs)
      | other => other
    | .error e => .error e
    | .panic => .panic

/-- The condition `(expire = 0 OR expire > strftime('%s', CURRENT_TIMESTAMP))`. -/
def SqliteResolver.unexpired (now : Nat) (row : Row) : Bool :=
  row.expire = 0 || decide (row.expire > now)

/-- The clause `ORDER BY id`. -/
def SqliteResolver.orderByID (rows : List Row) : List Row :=
  rows.insertionSort (fun a b => a.id ≤ b.id)

/-- Method `SqliteResolver.Records`. -/
def SqliteResolver.Records (newRR : RRReader) (now : Nat) (db : SqliteDB) :
    Outcome Error DynamicRecordSet :=
  SqliteResolver.scanRecords newRR now
    (SqliteResolver.orderByID (db.rows.filter (SqliteResolver.unexpired now)))

/-- The replacements `SearchRecords` makes in the suffix before it is bound to the query. -/
def SqliteResolver.escapeLike (s : Text) : Text :=
  ReplaceAll (ReplaceAll (ReplaceAll s "\\".toList "\\\\".toList) "%".toList "\\%".toList)
    "_".toList "\\_".toList

/-- Method `SqliteResolver.SearchRecords`: the query
`WHERE (name = ? OR name LIKE ? ESCAPE '\') AND (expire = 0 OR expire > now) ORDER BY id`
with the arguments `suf` and `"%." + suf`. -/
def SqliteResolver.SearchRecords (newRR : RRReader) (now : Nat) (db : SqliteDB) (suffix : Domain) :
    Outcome Error DynamicRecordSet :=
  let suf := SqliteResolver.escapeLike (Domain.String suffix)
  SqliteResolver.scanRecords newRR now
    (SqliteResolver.orderByID (db.rows.filter (fun row =>
      (decide (row.name = suf) || likeMatch '\\' ("%.".toList ++ suf) row.name)
        && SqliteResolver.unexpired now row)))

/-- Method `SqliteResolver.GlobRecords`. -/
def SqliteResolver.GlobRecords (newRR : RRReader) (now : Nat) (db : SqliteDB) (pattern : Text) :
    Outcome Error DynamicRecordSet :=
  let pattern := ReplaceAll (SqliteResolver.escapeLike pattern) "*".toList "%".toList
  SqliteResolver.scanRecords newRR now
    (SqliteResolver.orderByID (db.rows.filter (fun row =>
      likeMatch '\\' pattern row.name && SqliteResolver.unexpired now row)))

/-- Method `EtcdResolver.SearchRecords`. -/
def EtcdResolver.SearchRecords (newRR : RRReader) (now : Nat) (pre : Text) (st : EtcdStore)
    (d : Domain) : Outcome Error DynamicRecordSet :=
  EtcdResolver.readResponses newRR now
    (EtcdResolver.getPrefix (pre ++ "/records".toList ++ Domain.ToPath d)
      (EtcdResolver.prune now st))

/-! ## Regular expressions

Go's `regexp` for the patterns `compileGlob` can build, modelled from the library's
documentation (package `regexp/syntax`): literal characters, a backslash before a character
that is no letter or digit, `.`, the anchors `^` and `$`, the repetitions `*`, `+`, `?`
(also lazy, with `?` after them) and `|`.  Groups, classes and counted repetition are
outside the fragment; no pattern of `compileGlob` opens a group or a class, since it puts a
backslash before `(`, `)`, `[` and `]`. -/

/-- The syntax tree of a pattern. -/
inductive Regexp where
  | empty
  | lit (c : Char)
  | anyNotNL
  | beginText
  | endText
  | star (r : Regexp)
  | plus (r : Regexp)
  | quest (r : Regexp)
  | cat (r s : Regexp)
  | alt (r s : Regexp)
  deriving DecidableEq, Repr

/-- The concatenation of a list of patterns. -/
def Regexp.seq : List Regexp → Regexp
  | [] => .empty
  | r :: rs => .cat r (Regexp.seq rs)

/-- The alternation of a first branch and further branches. -/
def Regexp.branches : Regexp → List Regexp → Regexp
  | r, [] => r
  | r, s :: rest => .alt r (Regexp.branches s rest)

/-- The state of reading a pattern from the left: the branches closed by `|`, the pieces of
the branch being read (last piece first), whether the last thing read was a repetition
(1: its operator, which a `?` may follow to make it lazy; 2: that `?`), and whether a
backslash waits for its character. -/
structure RegexpState where
  done : List Regexp
  cur : List Regexp
  rep : Nat
  esc : Bool
  deriving DecidableEq, Repr

/-- A letter or digit of ASCII. -/
def isAlnum (c : Char) : Bool :=
  (0x30 ≤ c.toNat && c.toNat ≤ 0x39) || (0x41 ≤ c.toNat && c.toNat ≤ 0x5A)
    || (0x61 ≤ c.toNat && c.toNat ≤ 0x7A)

/-- A repetition operator met while reading: it takes the last piece of the branch. -/
def RegexpState.repetition (st : RegexpState) (op : Regexp → Regexp) :
    Option (Except Text RegexpState) :=
  if st.rep ≠ 0 then some (.error "invalid nested repetition operator".toList)
  else
    match st.cur with
    | [] => some (.error "missing argument to repetition operator".toList)
    | r :: rest => some (.ok ⟨st.done, op r :: rest, 1, false⟩)

/-- One character of the pattern.  `none`: the pattern leaves the fragment. -/
def RegexpState.step (st : RegexpState) (c : Char) : Option (Except Text RegexpState) :=
  if st.esc then
    if c.toNat < 0x80 && !isAlnum c then some (.ok ⟨st.done, .lit c :: st.cur, 0, false⟩)
    else none
  else if c = '\\' then some (.ok ⟨st.done, st.cur, 0, true⟩)
  else if c = '*' then st.repetition .star
  else if c = '+' then st.repetition .plus
  else if c = '?' then
    if st.rep = 1 then some (.ok ⟨st.done, st.cur, 2, false⟩) else st.repetition .quest
  else if c = '|' then some (.ok ⟨st.done ++ [Regexp.seq st.cur.reverse], [], 0, false⟩)
  else if c = '.' then some (.ok ⟨st.done, .anyNotNL :: st.cur, 0, false⟩)
  else if c = '^' then some (.ok ⟨st.done, .beginText :: st.cur, 0, false⟩)
  else if c = '$' then some (.ok ⟨st.done, .endText :: st.cur, 0, false⟩)
  else if c = '(' || c = ')' || c = '[' || c = '{' then none
  else some (.ok ⟨st.done, .lit c :: st.cur, 0, false⟩)

/-- The pattern read from a state on. -/
def RegexpState.read : Text → RegexpState → Option (Except Text Regexp)
  | [], st =>
    if st.esc then some (.error "trailing backslash at end of expression".toList)
    else
      match st.done ++ [Regexp.seq st.cur.reverse] with
      | [] => some (.ok .empty)
      | r :: rest => some (.ok (Regexp.branches r rest))
  | c :: cs, st =>
    match st.step c with
    | none => none
    | some (.error e) => some (.error e)
    | some (.ok st') => RegexpState.read cs st'

/-- Go `regexp.Compile` on the fragment: the syntax tree, the text of the error, or `none`
for a pattern outside the fragment. -/
def regexpCompile (pattern : Text) : Option (Except Text Regexp) :=
  RegexpState.read pattern ⟨[], [], 0, false⟩

/-- The repetition of a step: the positions reached by running `f` any number of times, a
run counting only when it moved on; `fuel` bounds the number of runs by the text left. -/
def Regexp.iter (f : Bool × Text → List (Bool × Text)) : Nat → Bool × Text → List (Bool × Text)
  | 0, st => [st]
  | fuel + 1, st =>
    st :: ((f st).filter (fun st' => decide (st'.2.length < st.2.length))).flatMap
      (Regexp.iter f fuel)

/-- The positions a pattern can end at, from a position: a position is the text left and
whether it is the beginning of the text. -/
def Regexp.run : Regexp → Bool × Text → List (Bool × Text)
  | .empty, st => [st]
  | .lit c, st =>
    match st.2 with
    | [] => []
    | x :: t => if x = c then [(false, t)] else []
  | .anyNotNL, st =>
    match st.2 with
    | [] => []
    | x :: t => if x = '\n' then [] else [(false, t)]
  | .beginText, st => if st.1 then [st] else []
  | .endText, st => if st.2.isEmpty then [st] else []
  | .star r, st => Regexp.iter (Regexp.run r) st.2.length st
  | .plus r, st => (Regexp.run r st).flatMap (fun st' => Regexp.iter (Regexp.run r) st'.2.length st')
  | .quest r, st => st :: Regexp.run r st
  | .cat r s, st => (Regexp.run r st).flatMap (Regexp.run s)
  | .alt r s, st => Regexp.run r st ++ Regexp.run s st

/-- Go `Regexp.MatchString`: the text contains a match of the pattern. -/
def Regexp.MatchString (re : Regexp) (s : Text) : Bool :=
  (List.range (s.length + 1)).any (fun i => !(Regexp.run re (i == 0, s.drop i)).isEmpty)

/-! ## etcd_resolver.go: glob search -/

/-- The replacements of `compileGlob`, in order. -/
def globReplacements : List (Text × Text) :=
  [("\\".toList, "\\\\".toList), (".".toList, "\\.".toList), ("+".toList, "\\+".toList),
    ("[".toList, "\\[".toList), ("]".toList, "\\]".toList), ("(".toList, "\\(".toList),
    (")".toList, "\\)".toList), ("^".toList, "\\^".toList), ("$".toList, "\\$".toList),
    ("*".toList, ".*".toList)]

/-- The pattern `compileGlob` hands to `regexp.Compile`. -/
def globPattern (glob : Text) : Text :=
  "^".toList ++ globReplacements.foldl (fun g x => ReplaceAll g x.1 x.2) glob ++ "$".toList

/-- Function `compileGlob`: the matcher, or the error; `none` when the pattern leaves the
fragment of regular expressions modelled. -/
def compileGlob (glob : Text) : Option (Except Error (Text → Bool)) :=
  match regexpCompile (globPattern glob) with
  | none => none
  | some (.error err) => some (.error ⟨.InternalError, some err, "failed to parse glob".toList⟩)
  | some (.ok re) => some (.ok (Regexp.MatchString re))

/-- Method `EtcdResolver.GlobRecords`. -/
def EtcdResolver.GlobRecords (newRR : RRReader) (now : Nat) (pre : Text) (st : EtcdStore)
    (glob : Text) : Option (Outcome Error DynamicRecordSet) :=
  match compileGlob glob with
  | none => none
  | some (.error e) => some (.error e)
  | some (.ok check) =>
    match EtcdResolver.Records newRR now pre st with
    | .ok rs => some (.ok (rs.filter (fun r => check (Domain.String r.Record.GetName))))
    | other => some other

/-! ## rest_api.go: glob search -/

/-- Type `HTTPError`. -/
structure HTTPError where
  StatusCode : Nat
  Message : Text
  deriving DecidableEq, Repr

/-- The glob `GetRecordsByGlob` hands to `GlobRecords` for a path under `/v1/glob/`, or the
error it answers with. -/
def DynamicAPI.globOfPath (path : Text) : Except HTTPError Text :=
  let glob := path.drop "/v1/glob/".length
  if '/' ∈ glob ∨ glob.length = 0 then .error ⟨404, "not found".toList⟩
  else if glob.getLast? ≠ some '.' then .ok (glob ++ ".".toList)
  else .ok glob

/-- Some run of characters other than newline at the head of a text leaves a text that `p`
holds of. -/
def skipRun (p : Text → Bool) : Text → Bool
  | [] => p []
  | x :: t => p (x :: t) || (!decide (x = '\n') && skipRun p t)

/-- The glob in the words of the claim: `*` stands for any run of characters that holds no
newline, every other character for itself. -/
def globMatch : Text → Text → Bool
  | [], s => s.isEmpty
  | g :: gs, s =>
    if g = '*' then skipRun (globMatch gs) s
    else
      match s with
      | [] => false
      | x :: t => x = g && globMatch gs t

/-! ## The queries in the words of the claims -/

/-- The text of an etcd entry has expired: `UnmarshalText` fails with an expiration
error. -/
def EtcdResolver.textExpired (newRR : RRReader) (now : Nat) (kv : KV) : Bool :=
  match VolatileRecord.UnmarshalText newRR now kv.Value with
  | .error e => decide (e.Kind = .ExpirationError)
  | .ok _ => false

/-- The dynamic record `readResponses` makes of an etcd entry. -/
def EtcdResolver.readsAs (newRR : RRReader) (now : Nat) (kv : KV) (dr : DynamicRecord) : Prop :=
  ∃ vr id, VolatileRecord.UnmarshalText newRR now kv.Value = .ok vr
    ∧ vr.Record now = .ok dr.Record ∧ EtcdResolver.getIDbyKey kv.Key = .ok id
    ∧ dr.ID = some id ∧ dr.Volatile = decide (vr.Expire > 0) ∧ dr.Disabled = false

/-- The submission `example2.com. 42 IN A 127.0.0.2`. -/
def otherAddress : DynamicRecord :=
  ⟨.Address "example2.com.".toList 42 (v4InV6Prefix ++ [127, 0, 0, 2]), none, false, false⟩

/-- The submission `_http._tcp.example.com. 42 IN TXT "hello"`. -/
def underscoreText : DynamicRecord :=
  ⟨.Txt "_http._tcp.example.com.".toList 42 "hello".toList, none, false, false⟩

/-- The submission `ple.com. 42 IN TXT "hello"`. -/
def pleText : DynamicRecord := ⟨.Txt "ple.com.".toList 42 "hello".toList, none, false, false⟩

/-- The submission `example.com. 42 IN TXT "hello"`. -/
def exampleText : DynamicRecord := ⟨.Txt "example.com.".toList 42 "hello".toList, none, false, false⟩

/-- What the matcher of a glob says of a text, when the glob compiles. -/
def globAccepts (glob s : Text) : Option Bool :=
  match compileGlob glob with
  | some (.ok check) => some (check s)
  | _ => none

/-- The error of the regular expression library for a glob that does not compile. -/
def globError (glob : Text) : Option Text :=
  match compileGlob glob with
  | some (.error e) => e.Original
  | _ => none

/-- The characters `compileGlob` puts a backslash before. -/
def globEscaped : List Char := ['\\', '.', '+', '[', ']', '(', ')', '^', '$']

/-- What the replacements of `compileGlob` make of one character. -/
def globEscape (c : Char) : Text :=
  if c = '*' then ".*".toList else if c ∈ globEscaped then ['\\', c] else [c]

/-- The characters the regular expression library gives a meaning that `compileGlob` leaves
as they are. -/
def globUnescaped : List Char := ['?', '|', '{']

/-- The piece of the pattern a character of a glob stands for. -/
def globPiece (c : Char) : Regexp := if c = '*' then .star .anyNotNL else .lit c

/-! ## rest_api.go: the methods of `DynamicAPI` -/

/-- The replacements of `parseRecordSet`, in the order of its loop. -/
def parseRecordSet.replacements (remote : Text) : List (Text × Text) :=
  [("$ADDR".toList, remote), ("$TTL".toList, "3600".toList), ("$$".toList, "$".toList)]

/-- The text `parseRecordSet` hands to `NewDynamicRecordSet`: `req` after the loop over the
replacements. -/
def parseRecordSet.text (req remote : Text) : Text :=
  (parseRecordSet.replacements remote).foldl (fun req x => ReplaceAll req x.1 x.2) req

/-- Function `parseRecordSet`. -/
def parseRecordSet (newRR : RRReader) (req remote : Text) : Outcome HTTPError DynamicRecordSet :=
  match NewDynamicRecordSet newRR (parseRecordSet.text req remote) with
  | .ok rs => .ok rs
  | .error err => .error ⟨400, ErrorSet.Error err⟩
  | .panic => .panic

/-- The error `404 not found` of the handlers. -/
def notFound : HTTPError := ⟨404, "not found".toList⟩

/-- The error `500 internal server error` of the handlers. -/
def internalServerError : HTTPError := ⟨500, "internal server error".toList⟩

/-- Method `DynamicRecordSet.String`: every record text is followed by a newline. -/
def DynamicRecordSet.String (rs : DynamicRecordSet) : Text :=
  Join "\n".toList (rs.map DynamicRecord.String ++ [[]])

/-- Method `DynamicAPI.setRecords`; `SetRecords` is the method of the resolver behind the API,
over the state `σ` of that resolver. -/
def DynamicAPI.setRecords {σ : Type} (SetRecords : DynamicRecordSet → σ → σ × Outcome Error Unit)
    (rs : DynamicRecordSet) (s : σ) : σ × Outcome HTTPError Text :=
  match SetRecords rs s with
  | (s', .error _) => (s', .error internalServerError)
  | (s', .panic) => (s', .panic)
  | (s', .ok ()) =>
    let counts : Nat × Nat :=
      rs.foldl (fun c r => if r.Disabled then (c.1, c.2 + 1) else (c.1 + 1, c.2)) (0, 0)
    (s', .ok ("; 200: add:".toList ++ formatNat counts.1 ++ " delete:".toList ++ formatNat counts.2))

/-- Method `DynamicAPI.PostRecords`. -/
def DynamicAPI.PostRecords {σ : Type} (newRR : RRReader)
    (SetRecords : DynamicRecordSet → σ → σ × Outcome Error Unit) (req remote : Text) (s : σ) :
    σ × Outcome HTTPError Text :=
  match parseRecordSet newRR req remote with
  | .error e => (s, .error e)
  | .panic => (s, .panic)
  | .ok rs => DynamicAPI.setRecords SetRecords rs s

/-- Method `DynamicAPI.DeleteRecords`. -/
def DynamicAPI.DeleteRecords {σ : Type} (newRR : RRReader)
    (SetRecords : DynamicRecordSet → σ → σ × Outcome Error Unit) (req remote : Text) (s : σ) :
    σ × Outcome HTTPError Text :=
  match parseRecordSet newRR req remote with
  | .error e => (s, .error e)
  | .panic => (s, .panic)
  | .ok rs => DynamicAPI.setRecords SetRecords (rs.map (fun r => { r with Disabled := !r.Disabled })) s

/-- Method `DynamicAPI.GetRecordsBySuffix`; `SearchRecords` is the method of the resolver
behind the API.  Indexing the last byte of an empty path and slicing a path shorter than
`/v1/suffix/` are out of range. -/
def DynamicAPI.GetRecordsBySuffix {σ : Type}
    (SearchRecords : Domain → σ → σ × Outcome Error DynamicRecordSet) (path : Text) (s : σ) :
    σ × Outcome HTTPError Text :=
  match path.getLast? with
  | none => (s, .panic)
  | some last =>
    if last = '/' then (s, .error notFound)
    else if path.length < "/v1/suffix/".length then (s, .panic)
    else
      let items := Split '/' (path.drop "/v1/suffix/".length)
      let rev := items.reverse
      let domain : Domain := Join ".".toList rev
      if !Domain.Validate domain || (Domain.String domain).head? = some '.' then (s, .error notFound)
      else
        match SearchRecords domain s with
        | (s', .error _) => (s', .error internalServerError)
        | (s', .panic) => (s', .panic)
        | (s', .ok records) => (s', .ok (DynamicRecordSet.String records))

/-- The SQLite resolver as the resolver behind the API: its `SetRecords`. -/
def SqliteResolver.apiSetRecords (now : Nat) (rs : DynamicRecordSet) (db : SqliteDB) :
    SqliteDB × Outcome Error Unit :=
  match SqliteResolver.SetRecords now db rs with
  | (db', none) => (db', .ok ())
  | (db', some e) => (db', .error e)

/-- The SQLite resolver as the resolver behind the API: its `SearchRecords`. -/
def SqliteResolver.apiSearchRecords (newRR : RRReader) (now : Nat) (d : Domain) (db : SqliteDB) :
    SqliteDB × Outcome Error DynamicRecordSet :=
  (db, SqliteResolver.SearchRecords newRR now db d)

/-! ## metrics.go: the timer -/

/-- A question of a message (`dns.Question`). -/
structure Question where
  Name : Text
  Qtype : Nat
  deriving DecidableEq, Repr

/-- A message (`dns.Msg`), as far as the timer reads it. -/
structure Msg where
  Authoritative : Bool
  Answer : List RR
  Question : List Question
  deriving DecidableEq, Repr

/-- The three families of `resolve` counters, by the field of `Metrics` that holds them:
source `local`, `upstream` and `not-found`. -/
inductive ResolveSource where
  | resolveCounters
  | unauthCounters
  | missCounters
  deriving DecidableEq, Repr

/-- A family of `resolve` counters of the metrics. -/
def Metrics.counters (m : Metrics) : ResolveSource → Counters
  | .resolveCounters => m.resolveCounters
  | .unauthCounters => m.unauthCounters
  | .missCounters => m.missCounters

/-- The metrics with a family of `resolve` counters replaced. -/
def Metrics.withCounters (m : Metrics) (src : ResolveSource) (cs : Counters) : Metrics :=
  match src with
  | .resolveCounters => { m with resolveCounters := cs }
  | .unauthCounters => { m with unauthCounters := cs }
  | .missCounters => { m with missCounters := cs }

/-- The variable `counters` of the function `makeTimer` returns, after its two `if`
statements. -/
def Metrics.timerCounters (response : Msg) : ResolveSource :=
  let counters := ResolveSource.resolveCounters
  let counters := if !response.Authoritative then ResolveSource.unauthCounters else counters
  if response.Answer.length = 0 then ResolveSource.missCounters else counters

/-- The function that `Metrics.makeTimer` returns, applied to a response: the metrics after
it.  The observation of the duration is left out. -/
def Metrics.makeTimer (m : Metrics) (skipped : Bool) (response : Msg) : Metrics :=
  let _ := skipped
  let counters := Metrics.timerCounters response
  m.withCounters counters
    (response.Question.foldl (fun cs q => Counters.inc cs (QtypeToString q.Qtype)) (m.counters counters))

/-! ## resolver.go: `Close` -/

/-- Method `ResolverSet.Close`, the children given by their `Close` methods over a state
`σ`. -/
def ResolverSet.Close {σ : Type} : List (σ → σ × Option Error) → σ → σ × Option Error
  | [], s => (s, none)
  | r :: rs, s =>
    match r s with
    | (s', some err) => (s', some err)
    | (s', none) => ResolverSet.Close rs s'

/-- Method `AlternateResolver.Close`. -/
def AlternateResolver.Close {σ : Type} : List (σ → σ × Option Error) → σ → σ × Option Error
  | [], s => (s, none)
  | r :: rs, s =>
    match r s with
    | (s', some err) => (s', some err)
    | (s', none) => AlternateResolver.Close rs s'

/-- Closing in the words of the specification: every child is closed, and the first error is
returned. -/
def closeEvery {σ : Type} : List (σ → σ × Option Error) → σ → σ × Option Error
  | [], s => (s, none)
  | r :: rs, s =>
    let first := r s
    let others := closeEvery rs first.1
    (others.1, match first.2 with | some err => some err | none => others.2)

/-- A child whose `Close` notes its number `i` in the state, and fails when `fails`. -/
def notingCloser (i : Nat) (fails : Bool) : List Nat → List Nat × Option Error :=
  fun closed =>
    (closed ++ [i], if fails then some ⟨.ExternalError, none, "failed to close".toList⟩ else none)

/-! ## local_cache.go: the sweeper -/

/-- The loop of `manageTask` over the members of one entry: whether to sweep, and `next`. -/
def LocalCache.sweepLoop (now : Nat) : List VolatileRecord → Int → Bool × Int
  | [], next => (false, next)
  | entry :: entries, next =>
    let delta := entry.Expire - (now : Int)
    if delta < 1 then (true, next)
    else if next > delta then LocalCache.sweepLoop now entries delta
    else LocalCache.sweepLoop now entries next

/-- The loops of `manageTask` over the entries. -/
def LocalCache.manageLoop (now : Nat) :
    GoMap (Nat × Domain) (List VolatileRecord) → Int →
      GoMap (Nat × Domain) (List VolatileRecord) × Int
  | [], next => ([], next)
  | (name, entries) :: rest, next =>
    let swept := LocalCache.sweepLoop now entries next
    let others := LocalCache.manageLoop now rest swept.2
    if swept.1 then others else ((name, entries) :: others.1, others.2)

/-- Method `LocalCache.manageTask`: the cache after it and the duration it returns, in
seconds. -/
def LocalCache.manageTask (now : Nat) (lc : LocalCache) : LocalCache × Int :=
  let r := LocalCache.manageLoop now lc.entries 10
  (⟨r.1, lc.metrics⟩, r.2)

/-! ## forward_resolver.go -/

/-- The loop of `ForwardResolver.Resolve` over the answers of the upstream server. -/
def ForwardResolver.addAnswers : List RR → ResponseWriter → ResponseWriter × Outcome Error Unit
  | [], w => (w, .ok ())
  | answer :: answers, w =>
    match NewRecordFromRR (some answer) with
    | .panic => (w, .panic)
    | .error err => (w, .error err)
    | .ok record => ForwardResolver.addAnswers answers ⟨w.Records ++ [record], false⟩

/-! ## Sample records and requests -/

/-- A AAAA wire record whose address is the IPv4-mapped `::ffff:127.0.0.1`. -/
def mappedWire : RR := .AAAA ⟨"example.com.".toList, TypeAAAA, 42⟩ (v4InV6Prefix ++ [127, 0, 0, 1])

/-- An A wire record without data, as the library unpacks one of data length 0. -/
def emptyWire : RR := .A ⟨"example.com.".toList, TypeA, 42⟩ []

/-- Whether `pattern` occurs in `s`. -/
def occursIn (pattern s : Text) : Bool := s.tails.any (fun t => pattern.isPrefixOf t)

/-! ## The methods of `DynamicAPI` in the words of the claims -/

/-- The path `/v1/suffix/<s1>/.../<sn>` of the segments `s1`, ..., `sn`. -/
def suffixPath (segments : List Text) : Text := "/v1/suffix/".toList ++ Join "/".toList segments

/-- The domain `sn. ... .s1`: the segments reversed and joined with dots. -/
def suffixDomain (segments : List Text) : Domain := Join ".".toList segments.reverse

/-- The path ends with `/`, or the domain of the segments is empty, is not a valid domain
name, or starts with a dot. -/
def suffixRefused (segments : List Text) : Prop :=
  (suffixPath segments).getLast? = some '/' ∨ suffixDomain segments = []
    ∨ IsDomainName (suffixDomain segments) = false ∨ (suffixDomain segments).head? = some '.'

/-- A record with its `Disabled` flag negated. -/
def DynamicRecord.negated (r : DynamicRecord) : DynamicRecord := { r with Disabled := !r.Disabled }

/-- The line `; 200: add:<k> delete:<m>`. -/
def changedLine (k m : Nat) : Text :=
  "; 200: add:".toList ++ formatNat k ++ " delete:".toList ++ formatNat m

/-- The body of the second `DELETE` of the repository's test of the API. -/
def sampleBody : Text := "test.com. 100 IN A 127.0.1.1\n;b.example.com. 24 IN A 127.0.1.2".toList

/-- The record set of `sampleBody`. -/
def sampleSet : DynamicRecordSet :=
  [⟨.Address "test.com.".toList 100 (v4InV6Prefix ++ [127, 0, 1, 1]), none, false, false⟩,
   ⟨.Address "b.example.com.".toList 24 (v4InV6Prefix ++ [127, 0, 1, 2]), none, false, true⟩]

/-- A database that holds `example.com. 42 IN A 127.0.0.1` and its reverse record. -/
def sampleDB : SqliteDB := (SqliteResolver.SetRecords 1000 SqliteResolver.empty [sampleAddress]).1

/-! # Theorems -/

/-- C10: `ResolverSet.Resolve` calls the children in list order until one returns an error:
the writer ends with what it held followed by the records of the children called, in child
order; the state is the one those calls leave (no later child runs); the result is the error
of the last child called, which is the only one that can fail, or nil when none fails, in
which case every child was called. -/
theorem resolverSet_resolve_concat {σ : Type} (rs : ResolverSet σ) (resp : ResponseWriter)
    (req : Request) (s : σ) :
    (ResolverSet.Resolve rs resp req s).1.Records
        = resp.Records ++ ((callsInOrder rs req s).map Answer.Added).flatten
      ∧ (ResolverSet.Resolve rs resp req s).2.1 = stateAfter rs req s
      ∧ (ResolverSet.Resolve rs resp req s).2.2 = ((callsInOrder rs req s).getLast?).bind Answer.Err
      ∧ (∀ a ∈ (callsInOrder rs req s).dropLast, a.Err = none)
      ∧ (callsInOrder rs req s).length ≤ rs.length
      ∧ ((ResolverSet.Resolve rs resp req s).2.2 = none →
          (callsInOrder rs req s).length = rs.length) := by
  induction rs generalizing resp s with
  | nil => simp [ResolverSet.Resolve, callsInOrder, stateAfter]
  | cons r rs ih =>
    cases h : (r.answer req s).1.Err with
    | some e =>
      simp [ResolverSet.Resolve, Resolver.Resolve, callsInOrder, stateAfter, h]
    | none =>
      have ih' := ih ⟨resp.Records ++ (r.answer req s).1.Added,
        resp.Authoritative && !(r.answer req s).1.NoAuthoritative⟩ (r.answer req s).2
      obtain ⟨h1, h2, h3, h4, h5, h6⟩ := ih'
      simp only [ResolverSet.Resolve, Resolver.Resolve, callsInOrder, stateAfter, h]
      refine ⟨?_, h2, ?_, ?_, ?_, ?_⟩
      · rw [h1]; simp
      · rw [h3]
        cases hc : callsInOrder rs req (r.answer req s).2 with
        | nil => simp [h]
        | cons a as => simp [List.getLast?_cons_cons]
      · intro a ha
        cases hc : callsInOrder rs req (r.answer req s).2 with
        | nil => simp [hc] at ha
        | cons b bs =>
          rw [hc] at ha h4
          simp only [List.dropLast_cons₂, List.mem_cons] at ha
          rcases ha with rfl | ha
          · exact h
          · exact h4 a ha
      · simp; exact h5
      · intro hn
        simp [h6 hn]

/-! ## The annotation segment -/

/-- The keywords differ. -/
theorem keyVolatile_ne_keyID : ¬ (keyVolatile = keyID) := by decide

/-- The keywords differ, the other way round. -/
theorem keyID_ne_keyVolatile : ¬ (keyID = keyVolatile) := by decide

/-- The upper case of a character is the upper-case ASCII letter `u` exactly when the
character is that letter, case aside. -/
theorem upperChar_eq_iff (c u : Char) (hu : 0x41 ≤ u.toNat ∧ u.toNat ≤ 0x5A) :
    upperChar c = u ↔ sameLetter c u = true := by
  have hI : u = 'I' → u.toNat = 0x49 := fun h => by rw [h]; rfl
  have hS : u = 'S' → u.toNat = 0x53 := fun h => by rw [h]; rfl
  have hof : ∀ a b : Char, a.toNat = b.toNat → a = b := by
    intro a b h
    rw [← Char.ofNat_toNat a, ← Char.ofNat_toNat b, h]
  unfold upperChar sameLetter
  simp only [Bool.or_eq_true, Bool.and_eq_true, decide_eq_true_eq]
  by_cases h1 : 0x61 ≤ c.toNat ∧ c.toNat ≤ 0x7A
  · rw [if_pos h1]
    constructor
    · intro h
      left; left; right
      obtain ⟨h1a, h1b⟩ := h1
      generalize c.toNat = n at h h1a h1b
      subst h
      interval_cases n <;> rfl
    · rintro (((h | h) | h) | h)
      · rw [h] at h1; omega
      · have : c.toNat - 32 = u.toNat := by omega
        rw [this, Char.ofNat_toNat]
      · omega
      · omega
  · rw [if_neg h1]
    by_cases h2 : c.toNat = 0x131
    · rw [if_pos h2]
      constructor
      · intro h
        left; right
        exact ⟨h.symm, h2⟩
      · rintro (((h | h) | h) | h)
        · rw [h] at h2; omega
        · omega
        · exact h.1.symm
        · omega
    · rw [if_neg h2]
      by_cases h3 : c.toNat = 0x17F
      · rw [if_pos h3]
        constructor
        · intro h
          right
          exact ⟨h.symm, h3⟩
        · rintro (((h | h) | h) | h)
          · rw [h] at h3; omega
          · omega
          · omega
          · exact h.1.symm
      · rw [if_neg h3]
        constructor
        · intro h
          left; left; left
          exact h
        · rintro (((h | h) | h) | h)
          · exact h
          · omega
          · exact absurd h.2 h2
          · exact absurd h.2 h3

/-- The upper case of a text is the keyword exactly when the text is the keyword, case
aside. -/
theorem ToUpper_eq_iff (s word : Text) (hw : ∀ u ∈ word, 0x41 ≤ u.toNat ∧ u.toNat ≤ 0x5A) :
    ToUpper s = word ↔ sameWord s word = true := by
  induction s generalizing word with
  | nil =>
    cases word with
    | nil => simp [ToUpper, sameWord]
    | cons u word => simp [ToUpper, sameWord]
  | cons c s ih =>
    cases word with
    | nil => simp [ToUpper, sameWord]
    | cons u word =>
      have h1 := upperChar_eq_iff c u (hw u (List.mem_cons_self _ _))
      have h2 := ih word (fun v hv => hw v (List.mem_cons_of_mem _ hv))
      unfold ToUpper at h2 ⊢
      simp only [List.map_cons, List.cons.injEq, sameWord, Bool.and_eq_true]
      rw [h1, h2]

/-- The comparison of `unmarshalAnnotation` with `ID`, in the words of the claim. -/
theorem key_iff_ID (x : Text) :
    ToUpper (TrimSpace (SplitN2 ':' x).1) = keyID ↔ hasKey keyID x = true :=
  ToUpper_eq_iff _ keyID (by decide)

/-- The comparison of `unmarshalAnnotation` with `VOLATILE`, in the words of the claim. -/
theorem key_iff_Volatile (x : Text) :
    ToUpper (TrimSpace (SplitN2 ':' x).1) = keyVolatile ↔ hasKey keyVolatile x = true :=
  ToUpper_eq_iff _ keyVolatile (by decide)

/-- A token has at most one of the two keys. -/
theorem not_both_keys (x : Text) (h : hasKey keyID x = true) : hasKey keyVolatile x = false := by
  cases hv : hasKey keyVolatile x
  · rfl
  · exfalso
    have h1 := (key_iff_ID x).mpr h
    have h2 := (key_iff_Volatile x).mpr hv
    rw [h1] at h2
    exact keyID_ne_keyVolatile h2

/-- One round of the loop on a token that is not bad. -/
theorem annotationStep_good (st : Option Int × Bool) (x : Text) (hx : badToken x = false) :
    annotationStep st x
      = .ok ((tokenID x).orElse (fun _ => st.1), st.2 || hasKey keyVolatile x) := by
  unfold badToken at hx
  unfold tokenID
  unfold annotationStep
  by_cases hid : hasKey keyID x = true
  · have hid' : ToUpper (TrimSpace (SplitN2 ':' x).1) = keyID := (key_iff_ID x).mpr hid
    have hnv := not_both_keys x hid
    simp only [hid', if_true, hid]
    cases h2 : (SplitN2 ':' x).2 with
    | none => simp [hid, tokenInteger, h2] at hx
    | some a =>
      cases ha : Atoi (TrimSpace a) with
      | none => simp [hid, tokenInteger, h2, ha] at hx
      | some i => simp [tokenInteger, h2, ha, hnv]
  · have hid' : ¬ ToUpper (TrimSpace (SplitN2 ':' x).1) = keyID :=
      fun h => hid ((key_iff_ID x).mp h)
    have hid0 : hasKey keyID x = false := by simpa using hid
    simp only [hid', if_false, hid0, Bool.false_eq_true]
    by_cases hv : hasKey keyVolatile x = true
    · have hv' : ToUpper (TrimSpace (SplitN2 ':' x).1) = keyVolatile := (key_iff_Volatile x).mpr hv
      rw [if_pos hv']
      cases h2 : (SplitN2 ':' x).2 with
      | none => simp [hv]
      | some a => simp [hv, hid0, h2] at hx
    · have hv' : ¬ ToUpper (TrimSpace (SplitN2 ':' x).1) = keyVolatile :=
        fun h => hv ((key_iff_Volatile x).mp h)
      have hv0 : hasKey keyVolatile x = false := by simpa using hv
      rw [if_neg hv']
      simp [hv0]

/-- One round of the loop on a bad token. -/
theorem annotationStep_bad (st : Option Int × Bool) (x : Text) (hx : badToken x = true) :
    annotationStep st x = .error ErrInvalidDynamicRecordFormat := by
  unfold badToken at hx
  unfold annotationStep
  by_cases hid : hasKey keyID x = true
  · have hid' : ToUpper (TrimSpace (SplitN2 ':' x).1) = keyID := (key_iff_ID x).mpr hid
    have hnv := not_both_keys x hid
    rw [if_pos hid']
    cases h2 : (SplitN2 ':' x).2 with
    | none => simp
    | some a =>
      cases ha : Atoi (TrimSpace a) with
      | none => simp [ha]
      | some i => simp [hid, tokenInteger, h2, ha, hnv] at hx
  · have hid' : ¬ ToUpper (TrimSpace (SplitN2 ':' x).1) = keyID :=
      fun h => hid ((key_iff_ID x).mp h)
    have hid0 : hasKey keyID x = false := by simpa using hid
    rw [if_neg hid']
    by_cases hv : hasKey keyVolatile x = true
    · have hv' : ToUpper (TrimSpace (SplitN2 ':' x).1) = keyVolatile := (key_iff_Volatile x).mpr hv
      rw [if_pos hv']
      cases h2 : (SplitN2 ':' x).2 with
      | none => simp [hv, hid0, h2] at hx
      | some a => simp
    · have hv0 : hasKey keyVolatile x = false := by simpa using hv
      simp [hid0, hv0] at hx

/-- The loop of `unmarshalAnnotation` on tokens none of which is bad. -/
theorem annotationLoop_good (tokens : List Text) (st : Option Int × Bool)
    (h : ∀ x ∈ tokens, badToken x = false) :
    annotationLoop tokens st
      = .ok ((lastID tokens).orElse (fun _ => st.1), st.2 || hasVolatile tokens) := by
  induction tokens generalizing st with
  | nil => simp [annotationLoop, lastID, hasVolatile]
  | cons x xs ih =>
    have hx : badToken x = false := h x (List.mem_cons_self x xs)
    have hxs : ∀ y ∈ xs, badToken y = false := fun y hy => h y (List.mem_cons_of_mem x hy)
    simp only [annotationLoop, annotationStep_good st x hx, ih _ hxs]
    congr 1
    refine Prod.ext ?_ ?_
    · show (lastID xs).orElse (fun _ => (tokenID x).orElse (fun _ => st.1))
        = (lastID (x :: xs)).orElse (fun _ => st.1)
      unfold lastID
      rw [List.filterMap_cons]
      cases hi : tokenID x with
      | none => simp
      | some i =>
        simp only [List.getLast?_cons]
        cases hl : (List.filterMap tokenID xs).getLast? with
        | none => simp
        | some v => simp
    · show (st.2 || hasKey keyVolatile x || hasVolatile xs)
        = (st.2 || hasVolatile (x :: xs))
      simp [hasVolatile, Bool.or_assoc]

/-- The loop of `unmarshalAnnotation` on tokens one of which is bad. -/
theorem annotationLoop_bad (tokens : List Text) (st : Option Int × Bool)
    (h : ∃ x ∈ tokens, badToken x = true) :
    annotationLoop tokens st = .error ErrInvalidDynamicRecordFormat := by
  induction tokens generalizing st with
  | nil => simp at h
  | cons x xs ih =>
    cases hx : badToken x with
    | true => simp [annotationLoop, annotationStep_bad st x hx]
    | false =>
      obtain ⟨y, hy, hyb⟩ := h
      have hy' : y ∈ xs := by
        rcases List.mem_cons.mp hy with rfl | hy'
        · rw [hx] at hyb; cases hyb
        · exact hy'
      simp only [annotationLoop, annotationStep_good st x hx]
      exact ih _ ⟨y, hy', hyb⟩

/-- C9: on the space-separated tokens of the trimmed segment, `unmarshalAnnotation` fails,
and then with `ErrInvalidDynamicRecordFormat`, exactly when some token has key `ID` without a
`:<integer>` argument or key `Volatile` with a `:` argument; otherwise it sets `ID` to the
integer of the last `ID:<n>` token (nil when there is none) and `Volatile` to whether a
`Volatile` token is present.  A token has a key when what stands before its first `:` is the
key letter for letter, in either case; other tokens are ignored; an integer is what
`strconv.Atoi` accepts.  The key `id` in lower case and the key `VoLaTiLE` in mixed case
count, as in the repository's test `hello id:4 volatile world`; `idx` and `volatiles` are
other tokens; white space around a key is trimmed. -/
theorem unmarshalAnnotation_spec (text : Text) :
    ((∃ e, unmarshalAnnotation text = .error e) ↔
        ∃ x ∈ Split ' ' (TrimSpace text), badToken x = true)
      ∧ (∀ e, unmarshalAnnotation text = .error e → e = ErrInvalidDynamicRecordFormat)
      ∧ ((∀ x ∈ Split ' ' (TrimSpace text), badToken x = false) →
          unmarshalAnnotation text
            = .ok (lastID (Split ' ' (TrimSpace text)), hasVolatile (Split ' ' (TrimSpace text))))
      ∧ (∀ s : Text, sameWord s keyID = true ↔
          ∃ c1 c2, s = [c1, c2] ∧ (c1 = 'I' ∨ c1 = 'i' ∨ c1.toNat = 0x131) ∧ (c2 = 'D' ∨ c2 = 'd'))
      ∧ hasKey keyID "id:4".toList = true
      ∧ hasKey keyID "Id".toList = true
      ∧ hasKey keyID "idx:4".toList = false
      ∧ hasKey keyVolatile "volatile".toList = true
      ∧ hasKey keyVolatile "VoLaTiLE".toList = true
      ∧ hasKey keyVolatile "volatiles".toList = false
      ∧ unmarshalAnnotation "hello id:4 volatile world".toList = .ok (some 4, true)
      ∧ unmarshalAnnotation "VoLaTiLE".toList = .ok (none, true)
      ∧ unmarshalAnnotation "id:1 Id:2 iD:3".toList = .ok (some 3, false)
      ∧ unmarshalAnnotation "id".toList = .error ErrInvalidDynamicRecordFormat
      ∧ unmarshalAnnotation "volatile:1".toList = .error ErrInvalidDynamicRecordFormat
      ∧ unmarshalAnnotation "\tID:3 \t ".toList = .ok (some 3, false)
      ∧ unmarshalAnnotation "a ID\t:7 b".toList = .ok (some 7, false)
      ∧ unmarshalAnnotation "VOLATILE ID:5".toList = .ok (some 5, true)
      ∧ unmarshalAnnotation " ".toList = .ok (none, false) := by
  have hstatic : (∀ s : Text, sameWord s keyID = true ↔
          ∃ c1 c2, s = [c1, c2] ∧ (c1 = 'I' ∨ c1 = 'i' ∨ c1.toNat = 0x131) ∧ (c2 = 'D' ∨ c2 = 'd'))
      ∧ hasKey keyID "id:4".toList = true
      ∧ hasKey keyID "Id".toList = true
      ∧ hasKey keyID "idx:4".toList = false
      ∧ hasKey keyVolatile "volatile".toList = true
      ∧ hasKey keyVolatile "VoLaTiLE".toList = true
      ∧ hasKey keyVolatile "volatiles".toList = false
      ∧ unmarshalAnnotation "hello id:4 volatile world".toList = .ok (some 4, true)
      ∧ unmarshalAnnotation "VoLaTiLE".toList = .ok (none, true)
      ∧ unmarshalAnnotation "id:1 Id:2 iD:3".toList = .ok (some 3, false)
      ∧ unmarshalAnnotation "id".toList = .error ErrInvalidDynamicRecordFormat
      ∧ unmarshalAnnotation "volatile:1".toList = .error ErrInvalidDynamicRecordFormat
      ∧ unmarshalAnnotation "\tID:3 \t ".toList = .ok (some 3, false)
      ∧ unmarshalAnnotation "a ID\t:7 b".toList = .ok (some 7, false)
      ∧ unmarshalAnnotation "VOLATILE ID:5".toList = .ok (some 5, true)
      ∧ unmarshalAnnotation " ".toList = .ok (none, false) := by
    refine ⟨?_, by decide, by decide, by decide, by decide, by decide, by decide, by rfl, by rfl,
      by rfl, by rfl, by rfl, by rfl, by rfl, by rfl, by rfl⟩
    intro s
    have hof : ∀ a b : Char, a.toNat = b.toNat → a = b := by
      intro a b h
      rw [← Char.ofNat_toNat a, ← Char.ofNat_toNat b, h]
    have hI : ∀ c : Char, sameLetter c 'I' = true ↔ (c = 'I' ∨ c = 'i' ∨ c.toNat = 0x131) := by
      intro c
      unfold sameLetter
      simp only [Bool.or_eq_true, Bool.and_eq_true, decide_eq_true_eq]
      constructor
      · rintro (((h | h) | h) | h)
        · exact Or.inl h
        · exact Or.inr (Or.inl (hof c 'i' h))
        · exact Or.inr (Or.inr h.2)
        · exact absurd h.1 (by decide)
      · rintro (h | h | h)
        · exact Or.inl (Or.inl (Or.inl h))
        · exact Or.inl (Or.inl (Or.inr (by rw [h]; rfl)))
        · exact Or.inl (Or.inr ⟨trivial, h⟩)
    have hD : ∀ c : Char, sameLetter c 'D' = true ↔ (c = 'D' ∨ c = 'd') := by
      intro c
      unfold sameLetter
      simp only [Bool.or_eq_true, Bool.and_eq_true, decide_eq_true_eq]
      constructor
      · rintro (((h | h) | h) | h)
        · exact Or.inl h
        · exact Or.inr (hof c 'd' h)
        · exact absurd h.1 (by decide)
        · exact absurd h.1 (by decide)
      · rintro (h | h)
        · exact Or.inl (Or.inl (Or.inl h))
        · exact Or.inl (Or.inl (Or.inr (by rw [h]; rfl)))
    constructor
    · intro h
      match s, h with
      | [c1, c2], h =>
        have h' : sameLetter c1 'I' = true ∧ sameLetter c2 'D' = true := by
          simpa [sameWord, keyID] using h
        exact ⟨c1, c2, rfl, (hI c1).mp h'.1, (hD c2).mp h'.2⟩
      | [], h => exact absurd h (by decide)
      | [_], h => simp [sameWord, keyID] at h
      | _ :: _ :: _ :: _, h => simp [sameWord, keyID] at h
    · rintro ⟨c1, c2, rfl, h1, h2⟩
      have h1' := (hI c1).mpr h1
      have h2' := (hD c2).mpr h2
      simp [sameWord, keyID, h1', h2']
  by_cases hb : ∃ x ∈ Split ' ' (TrimSpace text), badToken x = true
  · have herr := annotationLoop_bad _ (none, false) hb
    refine ⟨⟨fun _ => hb, fun _ => ⟨_, herr⟩⟩, ?_, ?_, hstatic⟩
    · intro e he
      unfold unmarshalAnnotation at he
      rw [herr] at he
      cases he; rfl
    · intro hg
      obtain ⟨x, hx, hxb⟩ := hb
      rw [hg x hx] at hxb
      cases hxb
  · have hg : ∀ x ∈ Split ' ' (TrimSpace text), badToken x = false := by
      intro x hx
      by_contra hc
      exact hb ⟨x, hx, by simpa using hc⟩
    have hok := annotationLoop_good _ (none, false) hg
    have hok' : unmarshalAnnotation text
        = .ok (lastID (Split ' ' (TrimSpace text)), hasVolatile (Split ' ' (TrimSpace text))) := by
      unfold unmarshalAnnotation
      rw [hok]
      simp
    refine ⟨⟨?_, fun h => absurd h hb⟩, ?_, fun _ => hok', hstatic⟩
    · rintro ⟨e, he⟩
      rw [hok'] at he
      cases he
    · intro e he
      rw [hok'] at he
      cases he

/-! ## Record sets: a line without a record -/

/-- `Split` is never empty. -/
theorem Split_ne_nil (sep : Char) (s : Text) : Split sep s ≠ [] := by
  cases s with
  | nil => simp [Split]
  | cons c cs =>
    unfold Split
    split
    · simp
    · split <;> simp

/-- The pieces of a text with a separator in it: those before it, then those after it. -/
theorem Split_append (sep : Char) (a b : Text) :
    Split sep (a ++ sep :: b) = Split sep a ++ Split sep b := by
  induction a with
  | nil => simp [Split]
  | cons c cs ih =>
    by_cases hc : c = sep
    · simp [Split, hc, ← ih]
    · have h1 : Split sep (c :: cs ++ sep :: b)
          = match Split sep (cs ++ sep :: b) with
            | [] => [[c]]
            | hd :: tl => (c :: hd) :: tl := by
        show Split sep (c :: (cs ++ sep :: b)) = _
        rw [Split, if_neg hc]
      have h2 : Split sep (c :: cs)
          = match Split sep cs with
            | [] => [[c]]
            | hd :: tl => (c :: hd) :: tl := by
        rw [Split, if_neg hc]
      rw [h1, h2, ih]
      cases hs : Split sep cs with
      | nil => exact absurd hs (Split_ne_nil sep cs)
      | cons hd tl => simp

/-- A line that holds only `;` makes `UnmarshalText` hand the empty text to the reader, and a
nil record panics. -/
theorem unmarshalText_bare (newRR : RRReader) (h : newRR [] = .ok none) (line : Text)
    (hl : TrimSpace line = [';']) (hn : ¬ '\n' ∈ line) :
    DynamicRecord.UnmarshalText newRR line = .panic := by
  unfold DynamicRecord.UnmarshalText
  rw [if_neg hn, hl]
  have h1 : TrimSpace (TrimLeft ';' [';']) = [] := by decide
  simp [h1, unmarshalFields, SplitN2, NewRecord, h, NewRecordFromRR]

/-- The loop over the lines panics as soon as one line holds only `;`; the errors gathered
before are lost. -/
theorem unmarshalLines_bare (newRR : RRReader) (h : newRR [] = .ok none) (lines : List Text)
    (hl : ∃ l ∈ lines, TrimSpace l = [';'] ∧ ¬ '\n' ∈ l) (i : Nat) (rs : DynamicRecordSet)
    (errors : ErrorSet) :
    unmarshalLines newRR lines i rs errors = .panic := by
  induction lines generalizing i rs errors with
  | nil => simp at hl
  | cons line rest ih =>
    by_cases hb : TrimSpace line = [';'] ∧ ¬ '\n' ∈ line
    · have htrim : TrimSpace (TrimSpace line) = [';'] := by rw [hb.1]; decide
      have hn : ¬ '\n' ∈ TrimSpace line := by rw [hb.1]; decide
      unfold unmarshalLines
      simp only [hb.1, List.length_singleton, one_ne_zero, if_false]
      have := unmarshalText_bare newRR h [';'] (by decide) (by decide)
      rw [this]
    · have hrest : ∃ l ∈ rest, TrimSpace l = [';'] ∧ ¬ '\n' ∈ l := by
        obtain ⟨l, hmem, hl2⟩ := hl
        rcases List.mem_cons.mp hmem with rfl | hmem'
        · exact absurd hl2 hb
        · exact ⟨l, hmem', hl2⟩
      unfold unmarshalLines
      simp only
      split
      · exact ih hrest _ _ _
      · split
        · rfl
        · exact ih hrest _ _ _
        · split
          · exact ih hrest _ _ _
          · exact ih hrest _ _ _

/-- No piece of `Split` holds the separator. -/
theorem not_mem_of_mem_Split (sep : Char) (s : Text) : ∀ l ∈ Split sep s, ¬ sep ∈ l := by
  induction s with
  | nil => intro l hl; simp [Split] at hl; simp [hl]
  | cons c cs ih =>
    intro l hl
    by_cases hc : c = sep
    · rw [Split, if_pos hc] at hl
      rcases List.mem_cons.mp hl with rfl | hl'
      · simp
      · exact ih l hl'
    · rw [Split, if_neg hc] at hl
      cases hs : Split sep cs with
      | nil => exact absurd hs (Split_ne_nil sep cs)
      | cons hd tl =>
        rw [hs] at hl ih
        simp only [List.mem_cons] at hl
        rcases hl with rfl | hl'
        · have := ih hd (List.mem_cons_self hd tl)
          simp only [List.mem_cons, not_or]
          exact ⟨fun h => hc h.symm, this⟩
        · exact ih l (List.mem_cons_of_mem hd hl')

/-- C8 at its failing inputs: when the reader returns a nil record for an empty text, as the
library documents, `NewDynamicRecordSet` panics on every text with a line that holds only
`;`; such a comment line is not dropped without an error. -/
theorem newDynamicRecordSet_bare_comment (newRR : RRReader) (h : newRR [] = .ok none)
    (text : Text) (hl : ∃ l ∈ Split '\n' text, TrimSpace l = [';']) :
    NewDynamicRecordSet newRR text = .panic := by
  unfold NewDynamicRecordSet DynamicRecordSet.UnmarshalText
  apply unmarshalLines_bare newRR h
  obtain ⟨l, hmem, hl2⟩ := hl
  exact ⟨l, hmem, hl2, not_mem_of_mem_Split '\n' text l hmem⟩

/-- Witness of `newDynamicRecordSet_bare_comment`: the reference reader and the text `;`. -/
theorem newDynamicRecordSet_bare_comment_witness :
    zoneLine [] = .ok none
      ∧ (∃ l ∈ Split '\n' ";".toList, TrimSpace l = [';'])
      ∧ NewDynamicRecordSet zoneLine ";".toList = .panic :=
  ⟨rfl, ⟨[';'], by decide, by decide⟩,
    newDynamicRecordSet_bare_comment zoneLine rfl ";".toList ⟨[';'], by decide, by decide⟩⟩

/-- C7 at its failing inputs: when the reader returns a nil record for an empty text, a last
line `;` makes `NewDynamicRecordSet` panic whatever stands before it, so the failures of the
lines before it are not returned. -/
theorem newDynamicRecordSet_hides_errors (newRR : RRReader) (h : newRR [] = .ok none)
    (text : Text) :
    NewDynamicRecordSet newRR (text ++ "\n;".toList) = .panic := by
  unfold NewDynamicRecordSet DynamicRecordSet.UnmarshalText
  apply unmarshalLines_bare newRR h
  refine ⟨[';'], ?_, by decide, by decide⟩
  show [';'] ∈ Split '\n' (text ++ '\n' :: [';'])
  rw [Split_append]
  exact List.mem_append_right _ (by decide)

/-- Witness of `newDynamicRecordSet_hides_errors`: line 1 of `unexpected`, `;` fails to
parse and does not start with `;`, yet no error is returned. -/
theorem newDynamicRecordSet_hides_errors_witness :
    zoneLine [] = .ok none
      ∧ (∃ e, DynamicRecord.UnmarshalText zoneLine "unexpected".toList = .error e)
      ∧ NewDynamicRecordSet zoneLine ("unexpected".toList ++ "\n;".toList) = .panic :=
  ⟨rfl, ⟨⟨.ArgumentError, some "syntax error".toList, "failed to parse record".toList⟩, by decide⟩,
    newDynamicRecordSet_hides_errors zoneLine rfl "unexpected".toList⟩

/-! ## Decimal text and the round trip of a dynamic record -/

/-- A digit character reads back as its digit. -/
theorem digitValue_digitChar (d : Nat) (h : d < 10) : digitValue (digitChar d) = some d := by
  interval_cases d <;> rfl

/-- A digit character is a decimal digit. -/
theorem isDigit_digitChar (d : Nat) (h : d < 10) : isDigit (digitChar d) = true := by
  interval_cases d <;> rfl

/-- The digits are written in front of what is already there. -/
theorem decimalAux_append (fuel n : Nat) (acc : Text) :
    decimalAux fuel n acc = decimalAux fuel n [] ++ acc := by
  induction fuel generalizing n acc with
  | zero => simp [decimalAux]
  | succ fuel ih =>
    unfold decimalAux
    split
    · simp
    · rw [ih (n / 10) (digitChar (n % 10) :: acc), ih (n / 10) [digitChar (n % 10)]]
      simp

/-- Reading digits one run after the other. -/
theorem parseDigits_append (xs ys : Text) (a : Nat) :
    parseDigits (xs ++ ys) a = (parseDigits xs a).bind (fun m => parseDigits ys m) := by
  induction xs generalizing a with
  | nil => simp [parseDigits]
  | cons c cs ih =>
    simp only [List.cons_append, parseDigits]
    cases digitValue c with
    | none => simp
    | some d => simp [ih]

/-- The decimal text of a number reads back as the number. -/
theorem parseDigits_decimalAux (fuel n : Nat) (h : n < fuel) :
    parseDigits (decimalAux fuel n []) 0 = some n := by
  induction fuel generalizing n with
  | zero => omega
  | succ fuel ih =>
    unfold decimalAux
    split
    · rename_i h10
      simp [parseDigits, digitValue_digitChar n h10]
    · rename_i h10
      rw [decimalAux_append, parseDigits_append, ih (n / 10) (by omega)]
      simp [parseDigits, digitValue_digitChar (n % 10) (Nat.mod_lt n (by decide))]
      omega

/-- Every character of a decimal text is a digit. -/
theorem isDigit_of_mem_decimalAux (fuel n : Nat) (acc : Text) :
    ∀ c ∈ decimalAux fuel n acc, isDigit c = true ∨ c ∈ acc := by
  induction fuel generalizing n acc with
  | zero => intro c hc; right; simpa [decimalAux] using hc
  | succ fuel ih =>
    intro c hc
    unfold decimalAux at hc
    split at hc
    · rename_i h10
      rcases List.mem_cons.mp hc with rfl | hc'
      · left; exact isDigit_digitChar n h10
      · right; exact hc'
    · rcases ih (n / 10) _ c hc with hd | hm
      · left; exact hd
      · rcases List.mem_cons.mp hm with rfl | hm'
        · left; exact isDigit_digitChar (n % 10) (Nat.mod_lt n (by decide))
        · right; exact hm'

/-- Every character of `formatNat` is a digit. -/
theorem isDigit_of_mem_formatNat (n : Nat) : ∀ c ∈ formatNat n, isDigit c = true := by
  intro c hc
  rcases isDigit_of_mem_decimalAux (n + 1) n [] c hc with h | h
  · exact h
  · simp at h

/-- A decimal text has a digit. -/
theorem formatNat_ne_nil (n : Nat) : formatNat n ≠ [] := by
  unfold formatNat decimalAux
  split
  · simp
  · rw [decimalAux_append]; simp

/-- `formatNat` reads back. -/
theorem parseDigits_formatNat (n : Nat) : parseDigits (formatNat n) 0 = some n :=
  parseDigits_decimalAux (n + 1) n (Nat.lt_succ_self n)

/-- `Atoi` undoes `Itoa` on every value of a 64-bit `int`. -/
theorem Atoi_Itoa (i : Int) (hlo : -(2 : Int) ^ 63 ≤ i) (hhi : i < (2 : Int) ^ 63) :
    Atoi (Itoa i) = some i := by
  unfold Itoa
  by_cases hneg : i < 0
  · rw [if_pos hneg]
    have hlen : ¬ (formatNat i.natAbs).length = 0 := by
      simp [formatNat_ne_nil]
    have hle : i.natAbs ≤ 2 ^ 63 := by omega
    simp only [Atoi, if_true, parseMagnitude, hlen, if_false, parseDigits_formatNat, hle]
    congr 1
    omega
  · rw [if_neg hneg]
    cases hf : formatNat i.natAbs with
    | nil => exact absurd hf (formatNat_ne_nil _)
    | cons c rest =>
      have hd : isDigit c = true := isDigit_of_mem_formatNat i.natAbs c (by rw [hf]; simp)
      have h1 : ¬ c = '-' := by rintro rfl; exact absurd hd (by decide)
      have h2 : ¬ c = '+' := by rintro rfl; exact absurd hd (by decide)
      have hlt : i.natAbs < 2 ^ 63 := by omega
      have hp : parseDigits (c :: rest) 0 = some i.natAbs := by
        rw [← hf]; exact parseDigits_formatNat _
      simp only [Atoi, h1, h2, if_false, parseMagnitude, List.length_cons, Nat.succ_ne_zero,
        Nat.add_one_ne_zero, hp, hlt, if_true, Bool.false_eq_true]
      exact congrArg some (Int.natAbs_of_nonneg (by omega))

/-- A character of `Itoa` is the sign or a digit. -/
theorem mem_Itoa (i : Int) : ∀ c ∈ Itoa i, c = '-' ∨ isDigit c = true := by
  intro c hc
  unfold Itoa at hc
  split at hc
  · rcases List.mem_cons.mp hc with rfl | hc'
    · left; rfl
    · right; exact isDigit_of_mem_formatNat _ c hc'
  · right; exact isDigit_of_mem_formatNat _ c hc

/-- `Itoa` is not empty. -/
theorem Itoa_ne_nil (i : Int) : Itoa i ≠ [] := by
  unfold Itoa
  split
  · simp
  · exact formatNat_ne_nil _

/-- A decimal digit is not white space. -/
theorem not_isSpace_of_isDigit (c : Char) (hd : isDigit c = true) : isSpace c = false := by
  unfold isDigit at hd
  unfold isSpace
  simp only [Bool.and_eq_true, decide_eq_true_eq] at hd
  simp only [Bool.or_eq_false_iff, Bool.and_eq_false_imp, decide_eq_false_iff_not,
    decide_eq_true_eq]
  omega

/-- No character of `Itoa` is white space. -/
theorem not_isSpace_of_mem_Itoa (i : Int) : ∀ c ∈ Itoa i, isSpace c = false := by
  intro c hc
  rcases mem_Itoa i c hc with rfl | hd
  · rfl
  · exact not_isSpace_of_isDigit c hd

/-- Trimming leaves a text that neither begins nor ends with white space. -/
theorem TrimSpace_eq_self (s : Text) (h : untrimmed s = false) : TrimSpace s = s := by
  cases s with
  | nil => rfl
  | cons c cs =>
    unfold untrimmed at h
    simp only [List.head?_cons, Option.map_some', Option.getD_some, Bool.or_eq_false_iff] at h
    obtain ⟨h1, h2⟩ := h
    have hl : trimLeftSpace (c :: cs) = c :: cs := by
      unfold trimLeftSpace
      rw [List.dropWhile_cons_of_neg (by simp [h1])]
    unfold TrimSpace
    rw [hl]
    unfold trimRightSpace
    have hne : c :: cs ≠ [] := by simp
    have hlast : (c :: cs).getLast? = some ((c :: cs).getLast hne) := List.getLast?_eq_getLast _ hne
    rw [hlast] at h2
    simp only [Option.map_some', Option.getD_some] at h2
    have hrev : (c :: cs).reverse = (c :: cs).getLast hne :: (c :: cs).dropLast.reverse := by
      conv_lhs => rw [← List.dropLast_append_getLast hne]
      simp
    rw [hrev, List.dropWhile_cons_of_neg (by simp [h2]), ← hrev, List.reverse_reverse]

/-- A text without the separator is one piece. -/
theorem Split_of_not_mem (sep : Char) (s : Text) (h : ¬ sep ∈ s) : Split sep s = [s] := by
  induction s with
  | nil => rfl
  | cons c cs ih =>
    simp only [List.mem_cons, not_or] at h
    rw [Split, if_neg (fun hc => h.1 hc.symm), ih h.2]

/-- A text without the separator is not cut in two. -/
theorem SplitN2_of_not_mem (sep : Char) (s : Text) (h : ¬ sep ∈ s) : SplitN2 sep s = (s, none) := by
  induction s with
  | nil => rfl
  | cons c cs ih =>
    simp only [List.mem_cons, not_or] at h
    rw [SplitN2, if_neg (fun hc => h.1 hc.symm), ih h.2]

/-- A text is cut in two at its first separator. -/
theorem SplitN2_append (sep : Char) (a b : Text) (h : ¬ sep ∈ a) :
    SplitN2 sep (a ++ sep :: b) = (a, some b) := by
  induction a with
  | nil => simp [SplitN2]
  | cons c cs ih =>
    simp only [List.mem_cons, not_or] at h
    rw [List.cons_append, SplitN2, if_neg (fun hc => h.1 hc.symm), ih h.2]

/-- Trimming drops a blank in front. -/
theorem TrimSpace_blank_cons (s : Text) : TrimSpace (' ' :: s) = TrimSpace s := by
  unfold TrimSpace trimLeftSpace
  rw [List.dropWhile_cons_of_pos (by decide)]

/-- The token `ID:<n>` binds `n`. -/
theorem annotationStep_id (st : Option Int × Bool) (i : Int) (hlo : -(2 : Int) ^ 63 ≤ i)
    (hhi : i < (2 : Int) ^ 63) :
    annotationStep st ("ID:".toList ++ Itoa i) = .ok (some i, st.2) := by
  have hsplit : SplitN2 ':' ("ID:".toList ++ Itoa i) = ("ID".toList, some (Itoa i)) :=
    SplitN2_append ':' "ID".toList (Itoa i) (by decide)
  have htrim : TrimSpace (Itoa i) = Itoa i := by
    apply TrimSpace_eq_self
    unfold untrimmed
    cases hh : (Itoa i).head? with
    | none => exact absurd (List.head?_eq_none_iff.mp hh) (Itoa_ne_nil i)
    | some c =>
      have hc : c ∈ Itoa i := List.mem_of_mem_head? hh
      cases hl : (Itoa i).getLast? with
      | none => exact absurd (List.getLast?_eq_none_iff.mp hl) (Itoa_ne_nil i)
      | some d =>
        have hd : d ∈ Itoa i := List.mem_of_mem_getLast? hl
        simp [not_isSpace_of_mem_Itoa i c hc, not_isSpace_of_mem_Itoa i d hd]
  unfold annotationStep
  simp only [hsplit]
  have hkey : ToUpper (TrimSpace "ID".toList) = keyID := by decide
  rw [if_pos hkey]
  simp only [htrim, Atoi_Itoa i hlo hhi]

/-- The token `Volatile` sets the flag. -/
theorem annotationStep_volatile (st : Option Int × Bool) :
    annotationStep st "Volatile".toList = .ok (st.1, true) := by
  unfold annotationStep
  have hsplit : SplitN2 ':' "Volatile".toList = ("Volatile".toList, none) := by decide
  simp only [hsplit]
  have hkey : ¬ ToUpper (TrimSpace "Volatile".toList) = keyID := by decide
  have hkey2 : ToUpper (TrimSpace "Volatile".toList) = keyVolatile := by decide
  rw [if_neg hkey, if_pos hkey2]

/-- No character of `ID:<n>` is a blank. -/
theorem blank_not_mem_id (i : Int) : ¬ ' ' ∈ "ID:".toList ++ Itoa i := by
  intro h
  rcases List.mem_append.mp h with h1 | h2
  · exact absurd h1 (by decide)
  · have := not_isSpace_of_mem_Itoa i ' ' h2
    exact absurd this (by decide)

/-- The annotation segment `String` writes for an ID reads back. -/
theorem unmarshalAnnotation_id (i : Int) (hlo : -(2 : Int) ^ 63 ≤ i) (hhi : i < (2 : Int) ^ 63) :
    unmarshalAnnotation (' ' :: ("ID:".toList ++ Itoa i)) = .ok (some i, false) := by
  have hun : untrimmed ("ID:".toList ++ Itoa i) = false := by
    unfold untrimmed
    have hl : ("ID:".toList ++ Itoa i).getLast? = (Itoa i).getLast? := by
      rw [List.getLast?_append]
      cases hh : (Itoa i).getLast? with
      | none => exact absurd (List.getLast?_eq_none_iff.mp hh) (Itoa_ne_nil i)
      | some d => simp
    rw [hl]
    cases hh : (Itoa i).getLast? with
    | none => exact absurd (List.getLast?_eq_none_iff.mp hh) (Itoa_ne_nil i)
    | some d =>
      have hd : d ∈ Itoa i := List.mem_of_mem_getLast? hh
      simp [not_isSpace_of_mem_Itoa i d hd]
      decide
  unfold unmarshalAnnotation
  rw [TrimSpace_blank_cons, TrimSpace_eq_self _ hun, Split_of_not_mem ' ' _ (blank_not_mem_id i)]
  simp only [annotationLoop, annotationStep_id (none, false) i hlo hhi]

/-- The annotation segment `String` writes for an ID and `Volatile` reads back. -/
theorem unmarshalAnnotation_id_volatile (i : Int) (hlo : -(2 : Int) ^ 63 ≤ i)
    (hhi : i < (2 : Int) ^ 63) :
    unmarshalAnnotation (' ' :: ("ID:".toList ++ Itoa i ++ ' ' :: "Volatile".toList))
      = .ok (some i, true) := by
  have hun : untrimmed ("ID:".toList ++ Itoa i ++ ' ' :: "Volatile".toList) = false := by
    unfold untrimmed
    rw [List.getLast?_append]
    simp
    decide
  unfold unmarshalAnnotation
  rw [TrimSpace_blank_cons, TrimSpace_eq_self _ hun, Split_append,
    Split_of_not_mem ' ' _ (blank_not_mem_id i), Split_of_not_mem ' ' "Volatile".toList (by decide)]
  simp only [annotationLoop, annotationStep_id (none, false) i hlo hhi, annotationStep_volatile]

/-- The fully qualified form of a name is not empty. -/
theorem Fqdn_ne_nil (s : Text) : Fqdn s ≠ [] := by
  unfold Fqdn
  split
  · rename_i h
    intro h0
    rw [h0] at h
    exact absurd h (by decide)
  · simp

/-- The text of a record is not empty. -/
theorem Record.String_ne_nil (r : Record) : r.String ≠ [] := by
  cases r <;> simp [Record.String, Record.render, Domain.String, Fqdn_ne_nil]

/-- `UnmarshalText` on a text as `String` writes it: the leading `;` sets `Disabled`, the
rest goes on unchanged. -/
theorem unmarshalText_body (newRR : RRReader) (T : Text) (d : Bool) (hne : T ≠ [])
    (hhead : ∀ c, T.head? = some c → c ≠ ';') (hnl : ¬ '\n' ∈ T) (hun : untrimmed T = false) :
    DynamicRecord.UnmarshalText newRR (if d then ';' :: T else T) = unmarshalFields newRR d T := by
  obtain ⟨c, rest, rfl⟩ := List.exists_cons_of_ne_nil hne
  have hc : c ≠ ';' := hhead c rfl
  cases d with
  | false =>
    simp only [Bool.false_eq_true, if_false]
    unfold DynamicRecord.UnmarshalText
    rw [if_neg hnl, TrimSpace_eq_self _ hun]
    simp only [if_neg hc]
  | true =>
    simp only [if_true]
    have hnl' : ¬ '\n' ∈ ';' :: c :: rest := by
      simp only [List.mem_cons, not_or] at hnl ⊢
      exact ⟨by decide, hnl⟩
    have hun' : untrimmed (';' :: c :: rest) = false := by
      unfold untrimmed at hun ⊢
      simp only [List.head?_cons, Option.map_some', Option.getD_some, List.getLast?_cons_cons,
        Bool.or_eq_false_iff] at hun ⊢
      exact ⟨by decide, hun.2⟩
    have hleft : TrimLeft ';' (';' :: c :: rest) = c :: rest := by
      unfold TrimLeft
      rw [List.dropWhile_cons_of_pos (by simp), List.dropWhile_cons_of_neg (by simp [hc])]
    unfold DynamicRecord.UnmarshalText
    rw [if_neg hnl', TrimSpace_eq_self _ hun']
    simp only [if_true, hleft, TrimSpace_eq_self _ hun]

/-- `UnmarshalText` on a record text followed by an annotation segment that reads back. -/
theorem unmarshalText_annotated (newRR : RRReader) (rec : Record) (anns : Text) (id : Option Int)
    (vol dis : Bool)
    (hsemi : ¬ ';' ∈ rec.String) (hnl : ¬ '\n' ∈ rec.String) (hun : untrimmed rec.String = false)
    (hread : NewRecord newRR (rec.String ++ [' ']) = .ok rec)
    (hanl : ¬ '\n' ∈ anns)
    (hlast : ∃ c, anns.getLast? = some c ∧ isSpace c = false)
    (hfields : unmarshalAnnotation (' ' :: anns) = .ok (id, vol)) :
    DynamicRecord.UnmarshalText newRR
        (if dis then ';' :: (rec.String ++ ' ' :: ';' :: ' ' :: anns)
          else rec.String ++ ' ' :: ';' :: ' ' :: anns)
      = .ok ⟨rec, id, vol, dis⟩ := by
  have hne := Record.String_ne_nil rec
  obtain ⟨c0, rest0, hrec⟩ := List.exists_cons_of_ne_nil hne
  obtain ⟨cl, hcl, hclsp⟩ := hlast
  have hTne : rec.String ++ ' ' :: ';' :: ' ' :: anns ≠ [] := by simp
  have hThead : ∀ c, (rec.String ++ ' ' :: ';' :: ' ' :: anns).head? = some c → c ≠ ';' := by
    intro c hc h
    rw [hrec] at hc
    simp only [List.cons_append, List.head?_cons, Option.some.injEq] at hc
    apply hsemi
    rw [hrec, ← h, ← hc]
    simp
  have hTnl : ¬ '\n' ∈ rec.String ++ ' ' :: ';' :: ' ' :: anns := by
    simp only [List.mem_append, List.mem_cons, not_or]
    exact ⟨hnl, by decide, by decide, by decide, hanl⟩
  have hTun : untrimmed (rec.String ++ ' ' :: ';' :: ' ' :: anns) = false := by
    have h1 : (rec.String ++ ' ' :: ';' :: ' ' :: anns).head? = some c0 := by rw [hrec]; simp
    have h2 : (rec.String ++ ' ' :: ';' :: ' ' :: anns).getLast? = some cl := by
      rw [List.getLast?_append]
      have : (' ' :: ';' :: ' ' :: anns).getLast? = some cl := by
        cases anns with
        | nil => simp at hcl
        | cons a as =>
          rw [List.getLast?_cons_cons, List.getLast?_cons_cons, List.getLast?_cons_cons]
          exact hcl
      rw [this]; simp
    have h3 : isSpace c0 = false := by
      unfold untrimmed at hun
      rw [hrec] at hun
      simp only [List.head?_cons, Option.map_some', Option.getD_some, Bool.or_eq_false_iff] at hun
      exact hun.1
    unfold untrimmed
    rw [h1, h2]
    simp [h3, hclsp]
  rw [unmarshalText_body newRR _ dis hTne hThead hTnl hTun]
  have hsemi' : ¬ ';' ∈ rec.String ++ [' '] := by
    simp only [List.mem_append, List.mem_singleton, not_or]
    exact ⟨hsemi, by decide⟩
  have hsplit : SplitN2 ';' (rec.String ++ ' ' :: ';' :: ' ' :: anns)
      = (rec.String ++ [' '], some (' ' :: anns)) := by
    have := SplitN2_append ';' (rec.String ++ [' ']) (' ' :: anns) hsemi'
    simpa using this
  unfold unmarshalFields
  simp only [hsplit, hfields, hread]

/-- C6 as amended: a dynamic record whose record text holds no `;` and no newline and neither
begins nor ends with white space, whose ID is a 64-bit `int`, and whose record text the
record reader reads back (also when a blank follows it, as it does in front of the
annotation segment) is returned by `NewDynamicRecord(r.String())`: same record, same ID,
same `Volatile`, same `Disabled`. -/
theorem newDynamicRecord_roundtrip (newRR : RRReader) (r : DynamicRecord)
    (hsemi : ¬ ';' ∈ r.Record.String) (hnl : ¬ '\n' ∈ r.Record.String)
    (hun : untrimmed r.Record.String = false)
    (hid : ∀ i, r.ID = some i → -(2 : Int) ^ 63 ≤ i ∧ i < (2 : Int) ^ 63)
    (hread : NewRecord newRR r.Record.String = .ok r.Record)
    (hread' : NewRecord newRR (r.Record.String ++ [' ']) = .ok r.Record) :
    NewDynamicRecord newRR r.String = .ok r := by
  obtain ⟨rec, id, vol, dis⟩ := r
  simp only at hsemi hnl hun hid hread hread'
  unfold NewDynamicRecord
  cases id with
  | none =>
    cases vol with
    | false =>
      have hS : DynamicRecord.String ⟨rec, none, false, dis⟩
          = if dis then ';' :: rec.String else rec.String := by
        simp [DynamicRecord.String]
      have hhead : ∀ c, rec.String.head? = some c → c ≠ ';' :=
        fun c hc h => hsemi (h ▸ List.mem_of_mem_head? hc)
      rw [hS, unmarshalText_body newRR _ dis (Record.String_ne_nil rec) hhead hnl hun]
      unfold unmarshalFields
      simp only [SplitN2_of_not_mem ';' _ hsemi, hread]
    | true =>
      have hS : DynamicRecord.String ⟨rec, none, true, dis⟩
          = if dis then ';' :: (rec.String ++ ' ' :: ';' :: ' ' :: "Volatile".toList)
            else rec.String ++ ' ' :: ';' :: ' ' :: "Volatile".toList := by
        simp [DynamicRecord.String, Join]
      rw [hS]
      exact unmarshalText_annotated newRR rec _ none true dis hsemi hnl hun hread' (by decide)
        ⟨'e', by decide, by decide⟩ rfl
  | some i =>
    obtain ⟨hlo, hhi⟩ := hid i rfl
    have hlastI : ∃ c, (Itoa i).getLast? = some c ∧ isSpace c = false := by
      cases hh : (Itoa i).getLast? with
      | none => exact absurd (List.getLast?_eq_none_iff.mp hh) (Itoa_ne_nil i)
      | some d => exact ⟨d, rfl, not_isSpace_of_mem_Itoa i d (List.mem_of_mem_getLast? hh)⟩
    have hnlI : ¬ '\n' ∈ Itoa i := by
      intro h
      exact absurd (not_isSpace_of_mem_Itoa i '\n' h) (by decide)
    cases vol with
    | false =>
      have hS : DynamicRecord.String ⟨rec, some i, false, dis⟩
          = if dis then ';' :: (rec.String ++ ' ' :: ';' :: ' ' :: ("ID:".toList ++ Itoa i))
            else rec.String ++ ' ' :: ';' :: ' ' :: ("ID:".toList ++ Itoa i) := by
        simp [DynamicRecord.String, Join]
      rw [hS]
      refine unmarshalText_annotated newRR rec _ (some i) false dis hsemi hnl hun hread' ?_ ?_
        (unmarshalAnnotation_id i hlo hhi)
      · simp only [List.mem_append, not_or]
        exact ⟨by decide, hnlI⟩
      · obtain ⟨d, hd, hds⟩ := hlastI
        refine ⟨d, ?_, hds⟩
        rw [List.getLast?_append, hd]; simp
    | true =>
      have hS : DynamicRecord.String ⟨rec, some i, true, dis⟩
          = if dis then
              ';' :: (rec.String ++ ' ' :: ';' :: ' ' :: ("ID:".toList ++ Itoa i ++ ' ' :: "Volatile".toList))
            else rec.String ++ ' ' :: ';' :: ' ' :: ("ID:".toList ++ Itoa i ++ ' ' :: "Volatile".toList) := by
        simp [DynamicRecord.String, Join]
      rw [hS]
      refine unmarshalText_annotated newRR rec _ (some i) true dis hsemi hnl hun hread' ?_ ?_
        (unmarshalAnnotation_id_volatile i hlo hhi)
      · simp only [List.mem_append, List.mem_cons, not_or]
        exact ⟨⟨by decide, hnlI⟩, by decide, by decide⟩
      · exact ⟨'e', by rw [List.getLast?_append]; simp, by decide⟩

/-- Witness of `newDynamicRecord_roundtrip`: `;example.com. 42 IN A 127.0.0.1 ; ID:7 Volatile`
with the reference reader. -/
theorem newDynamicRecord_roundtrip_witness :
    NewDynamicRecord zoneLine annotatedRecord.String = .ok annotatedRecord :=
  newDynamicRecord_roundtrip zoneLine annotatedRecord (by decide) (by decide) (by decide)
    (by intro i hi; cases hi; decide) (by decide) (by decide)

/-- C6 refuted as stated: the TXT record `example.com. 1 IN TXT "a; ID b"` validates, and
`NewDynamicRecord` of its text fails with `ErrInvalidDynamicRecordFormat` whatever the record
reader does, because the text is cut at the `;` inside the quotes and ` ID b"` is read as the
annotation segment. -/
theorem newDynamicRecord_semicolon_fails :
    semicolonRecord.Record.Validate = true
      ∧ ∀ newRR : RRReader,
          NewDynamicRecord newRR semicolonRecord.String = .error ErrInvalidDynamicRecordFormat := by
  refine ⟨by decide, fun newRR => ?_⟩
  have hS : semicolonRecord.String = "example.com. 1 IN TXT \"a; ID b\"".toList := by decide
  have h1 : ¬ '\n' ∈ "example.com. 1 IN TXT \"a; ID b\"".toList := by decide
  have h2 : TrimSpace "example.com. 1 IN TXT \"a; ID b\"".toList
      = 'e' :: "xample.com. 1 IN TXT \"a; ID b\"".toList := by decide
  have h3 : SplitN2 ';' ('e' :: "xample.com. 1 IN TXT \"a; ID b\"".toList)
      = ("example.com. 1 IN TXT \"a".toList, some " ID b\"".toList) := by decide
  have h4 : unmarshalAnnotation " ID b\"".toList = .error ErrInvalidDynamicRecordFormat := rfl
  unfold NewDynamicRecord DynamicRecord.UnmarshalText
  rw [hS, if_neg h1, h2]
  simp only [show ¬ ('e' = ';') by decide, if_false]
  unfold unmarshalFields
  simp only [h3, h4]

/-! ## SQLite: identifiers -/

namespace SqliteResolver

/-- Nothing changes: the database extends itself. -/
theorem extends_refl (db : SqliteDB) : Extends db db :=
  ⟨le_refl _, fun row h => Or.inl ⟨row, h, rfl, rfl⟩⟩

/-- Extension in two steps. -/
theorem extends_trans {a b c : SqliteDB} (h1 : Extends a b) (h2 : Extends b c) : Extends a c := by
  refine ⟨le_trans h1.1 h2.1, fun row hrow => ?_⟩
  rcases h2.2 row hrow with ⟨row1, hr1, hid, hrec⟩ | hgt
  · rcases h1.2 row1 hr1 with ⟨row0, hr0, hid0, hrec0⟩ | hgt
    · exact Or.inl ⟨row0, hr0, hid0.trans hid, hrec0.trans hrec⟩
    · exact Or.inr (hid ▸ hgt)
  · exact Or.inr (lt_of_le_of_lt h1.1 hgt)

/-- A `DELETE` keeps the numbering and extends the database. -/
theorem filter_step (db : SqliteDB) (p : Row → Bool) :
    (WellNumbered db → WellNumbered ⟨db.rows.filter p, db.seq⟩)
      ∧ Extends db ⟨db.rows.filter p, db.seq⟩ := by
  refine ⟨fun h => ⟨h.1, fun row hrow => h.2.1 row (List.mem_of_mem_filter hrow), ?_⟩,
    le_refl _, fun row hrow => Or.inl ⟨row, List.mem_of_mem_filter hrow, rfl, rfl⟩⟩
  exact h.2.2.sublist ((List.filter_sublist db.rows).map _)

/-- The `UPDATE` keeps the numbering and extends the database. -/
theorem update_step (db : SqliteDB) (ttl expire : Nat) (record : Text) :
    (WellNumbered db → WellNumbered (update db ttl expire record).1)
      ∧ Extends db (update db ttl expire record).1 := by
  have hids : ((update db ttl expire record).1.rows.map (fun row => row.id))
      = db.rows.map (fun row => row.id) := by
    simp only [update, List.map_map]
    apply List.map_congr_left
    intro row _
    simp only [Function.comp]
    split <;> rfl
  refine ⟨fun h => ⟨h.1, ?_, hids ▸ h.2.2⟩, le_refl _, ?_⟩
  · intro row hrow
    simp only [update, List.mem_map] at hrow
    obtain ⟨row0, h0, rfl⟩ := hrow
    split <;> exact h.2.1 row0 h0
  · intro row hrow
    simp only [update, List.mem_map] at hrow
    obtain ⟨row0, h0, rfl⟩ := hrow
    refine Or.inl ⟨row0, h0, ?_, ?_⟩
    · split <;> rfl
    · split
      · rename_i hr; simp [hr]
      · rfl

/-- The `INSERT` gives the new row the identifier after the counter: the last one issued
plus one. -/
theorem ins_eq {db db' : SqliteDB} {name qtype : Text} {ttl expire : Nat} {record : Text}
    (h : ins db name qtype ttl expire record = some db') :
    db' = ⟨db.rows ++ [⟨db.seq + 1, name, qtype, ttl, expire, record⟩], db.seq + 1⟩ := by
  unfold ins at h
  split at h
  · cases h
  · split at h
    · cases h
    · cases h; rfl

/-- The `INSERT` keeps the numbering and extends the database. -/
theorem ins_step {db db' : SqliteDB} {name qtype : Text} {ttl expire : Nat} {record : Text}
    (h : ins db name qtype ttl expire record = some db') :
    (WellNumbered db → WellNumbered db') ∧ Extends db db' := by
  rw [ins_eq h]
  refine ⟨fun hw => ⟨?_, ?_, ?_⟩, by simp, ?_⟩
  · have := hw.1
    simp only
    omega
  · intro row hrow
    simp only [List.mem_append, List.mem_singleton] at hrow
    rcases hrow with hrow | rfl
    · have := hw.2.1 row hrow
      exact ⟨this.1, by simp only; omega⟩
    · have := hw.1
      simp only
      omega
  · simp only [List.map_append, List.map_cons, List.map_nil]
    rw [List.nodup_append]
    refine ⟨hw.2.2, by simp, ?_⟩
    intro a ha hb
    simp only [List.mem_singleton] at hb
    simp only [List.mem_map] at ha
    obtain ⟨row, hrow, rfl⟩ := ha
    have := (hw.2.1 row hrow).2
    omega
  · intro row hrow
    simp only [List.mem_append, List.mem_singleton] at hrow
    rcases hrow with hrow | rfl
    · exact Or.inl ⟨row, hrow, rfl, rfl⟩
    · right; simp

/-- The statements of `insertRecord` for one record keep the numbering and extend the
database. -/
theorem upsert_step {now : Nat} {db db' : SqliteDB} {r : DynamicRecord}
    (h : upsert now db r = .ok db') : (WellNumbered db → WellNumbered db') ∧ Extends db db' := by
  unfold upsert at h
  simp only at h
  generalize (if r.Volatile = true then now + r.Record.GetTTL else 0) = expire at h
  have hu := update_step db r.Record.GetTTL expire r.Record.WithoutTTL
  by_cases h0 : (update db r.Record.GetTTL expire r.Record.WithoutTTL).2 = 0
  · rw [if_pos h0] at h
    cases hins : ins (update db r.Record.GetTTL expire r.Record.WithoutTTL).1 r.Record.GetName
        (QtypeToString r.Record.GetQtype) r.Record.GetTTL expire r.Record.WithoutTTL with
    | none => rw [hins] at h; cases h
    | some db1 =>
      rw [hins] at h
      cases h
      have hi := ins_step hins
      exact ⟨fun hw => hi.1 (hu.1 hw), extends_trans hu.2 hi.2⟩
  · rw [if_neg h0] at h
    cases h
    exact hu

/-- `insertRecord` keeps the numbering and extends the database. -/
theorem insertRecord_step {now : Nat} {db db' : SqliteDB} {r : DynamicRecord}
    (h : insertRecord now db r = .ok db') :
    (WellNumbered db → WellNumbered db') ∧ Extends db db' := by
  unfold insertRecord at h
  split at h
  · cases h
  · rename_i db1 h1
    have s1 := upsert_step h1
    split at h
    · split at h
      · cases h
      · rename_i reverse _
        have s2 := upsert_step h
        exact ⟨fun hw => s2.1 (s1.1 hw), extends_trans s1.2 s2.2⟩
    · cases h
      exact s1

/-- The `DELETE` of `dropRecord` keeps the numbering and extends the database. -/
theorem drop_step (db : SqliteDB) (r : DynamicRecord) :
    (WellNumbered db → WellNumbered (drop db r)) ∧ Extends db (drop db r) := by
  unfold drop
  split
  · exact filter_step db _
  · exact filter_step db _

/-- `dropRecord` keeps the numbering and extends the database. -/
theorem dropRecord_step {db db' : SqliteDB} {r : DynamicRecord}
    (h : dropRecord db r = .ok db') : (WellNumbered db → WellNumbered db') ∧ Extends db db' := by
  unfold dropRecord at h
  split at h
  · split at h
    · cases h
    · cases h
      have s1 := drop_step db r
      have s2 := drop_step (drop db r) (reverseRecord r ‹Text›)
      exact ⟨fun hw => s2.1 (s1.1 hw), extends_trans s1.2 s2.2⟩
  · cases h
    exact drop_step db r

/-- The loop of `SetRecords` keeps the numbering and extends the database. -/
theorem applyRecords_step {now : Nat} {rs : DynamicRecordSet} {db db' : SqliteDB}
    (h : applyRecords now rs db = .ok db') :
    (WellNumbered db → WellNumbered db') ∧ Extends db db' := by
  induction rs generalizing db with
  | nil =>
    simp only [applyRecords] at h
    cases h
    exact ⟨fun hw => hw, extends_refl _⟩
  | cons r rs ih =>
    simp only [applyRecords] at h
    split at h
    · cases h
    · rename_i db1 h1
      have s2 := ih h
      have s1 : (WellNumbered db → WellNumbered db1) ∧ Extends db db1 := by
        by_cases hd : r.Disabled = true
        · rw [if_pos hd] at h1; exact dropRecord_step h1
        · rw [if_neg hd] at h1; exact insertRecord_step h1
      exact ⟨fun hw => s2.1 (s1.1 hw), extends_trans s1.2 s2.2⟩

/-- Every call keeps the numbering and extends the database. -/
theorem step_step (db : SqliteDB) (call : Call) :
    (WellNumbered db → WellNumbered (step db call)) ∧ Extends db (step db call) := by
  cases call with
  | SetRecords now rs =>
    simp only [step, SetRecords]
    split
    · rename_i db' h
      exact applyRecords_step h
    · exact ⟨fun hw => hw, extends_refl db⟩
  | RemoveRecord i =>
    simp only [step, RemoveRecord]
    split
    · exact ⟨fun hw => hw, extends_refl db⟩
    · exact filter_step db _
  | manageExpire now =>
    simp only [step, sweep]
    exact filter_step db _

/-- Every database a new resolver reaches is well numbered. -/
theorem wellNumbered_calls (calls : List Call) (db : SqliteDB) (h : WellNumbered db) :
    WellNumbered (calls.foldl step db) := by
  induction calls generalizing db with
  | nil => exact h
  | cons c cs ih => exact ih _ ((step_step db c).1 h)

end SqliteResolver

/-! ## etcd: identifiers -/

namespace EtcdResolver

/-- What `insertSorted` leaves. -/
theorem mem_insertSorted (kv : KV) (st : EtcdStore) (x : KV) :
    x ∈ insertSorted kv st ↔ x = kv ∨ x ∈ st := by
  induction st with
  | nil => simp [insertSorted]
  | cons y ys ih =>
    unfold insertSorted
    split
    · simp
    · simp only [List.mem_cons, ih]
      tauto

/-- The keys after `insertSorted`. -/
theorem keys_insertSorted (kv : KV) (st : EtcdStore) :
    ((insertSorted kv st).map (fun x => x.Key)).Perm (kv.Key :: st.map (fun x => x.Key)) := by
  induction st with
  | nil => simp [insertSorted]
  | cons y ys ih =>
    unfold insertSorted
    split
    · simp
    · simp only [List.map_cons]
      exact (List.Perm.cons _ ih).trans (List.Perm.swap _ _ _)

/-- What `Put` leaves. -/
theorem mem_put (kv : KV) (st : EtcdStore) (x : KV) :
    x ∈ put kv st ↔ x = kv ∨ (x ∈ st ∧ x.Key ≠ kv.Key) := by
  unfold put
  split
  · rename_i hany
    simp only [List.any_eq_true, decide_eq_true_eq] at hany
    obtain ⟨y, hy, hyk⟩ := hany
    simp only [List.mem_map]
    constructor
    · rintro ⟨z, hz, rfl⟩
      by_cases hzk : z.Key = kv.Key
      · rw [if_pos hzk]; exact Or.inl rfl
      · rw [if_neg hzk]; exact Or.inr ⟨hz, hzk⟩
    · rintro (rfl | ⟨hx, hne⟩)
      · exact ⟨y, hy, by rw [if_pos hyk]⟩
      · exact ⟨x, hx, by rw [if_neg hne]⟩
  · rename_i hany
    simp only [List.any_eq_true, decide_eq_true_eq, not_exists, not_and] at hany
    rw [mem_insertSorted]
    constructor
    · rintro (rfl | hx)
      · exact Or.inl rfl
      · exact Or.inr ⟨hx, hany x hx⟩
    · rintro (rfl | ⟨hx, _⟩)
      · exact Or.inl rfl
      · exact Or.inr hx

/-- `Put` keeps the keys distinct. -/
theorem nodup_put (kv : KV) (st : EtcdStore) (h : (st.map (fun x => x.Key)).Nodup) :
    ((put kv st).map (fun x => x.Key)).Nodup := by
  unfold put
  split
  · have : (st.map (fun x => if x.Key = kv.Key then kv else x)).map (fun x => x.Key)
        = st.map (fun x => x.Key) := by
      rw [List.map_map]
      apply List.map_congr_left
      intro x _
      simp only [Function.comp]
      split
      · rename_i hk; exact hk.symm
      · rfl
    rw [this]; exact h
  · rename_i hany
    simp only [List.any_eq_true, decide_eq_true_eq, not_exists, not_and] at hany
    rw [(keys_insertSorted kv st).nodup_iff, List.nodup_cons]
    refine ⟨?_, h⟩
    simp only [List.mem_map, not_exists, not_and]
    exact fun x hx hk => hany x hx hk

/-- What `Delete` leaves. -/
theorem mem_delete (key : Text) (st : EtcdStore) (x : KV) :
    x ∈ delete key st ↔ x ∈ st ∧ x.Key ≠ key := by
  simp [delete]

/-- `Delete` keeps the keys distinct. -/
theorem nodup_delete (key : Text) (st : EtcdStore) (h : (st.map (fun x => x.Key)).Nodup) :
    ((delete key st).map (fun x => x.Key)).Nodup :=
  h.sublist ((List.filter_sublist st).map _)

/-- The key of the counter is not the key of a record. -/
theorem lastIDKey_ne (pre rest : Text) : pre ++ "/records".toList ++ rest ≠ lastIDKey pre := by
  unfold lastIDKey
  rw [List.append_assoc]
  intro h
  have := List.append_cancel_left h
  exact absurd this (by simp)

/-- The key `getKey` gives a record is not the key of the counter. -/
theorem getKey_ne_lastIDKey (pre : Text) (r : DynamicRecord) : getKey pre r ≠ lastIDKey pre := by
  unfold getKey
  split
  · exact lastIDKey_ne pre _
  · rw [List.append_assoc, List.append_assoc]
    exact lastIDKey_ne pre _

/-- A key under the key of a record is not the key of the counter. -/
theorem ne_lastIDKey_of_startsWith (pre : Text) (r : DynamicRecord) (key : Text)
    (h : startsWith (getKey pre r) key = true) : key ≠ lastIDKey pre := by
  unfold startsWith at h
  rw [List.isPrefixOf_iff_prefix] at h
  obtain ⟨t, rfl⟩ := h
  unfold getKey
  split
  · rw [List.append_assoc]; exact lastIDKey_ne pre _
  · rw [List.append_assoc, List.append_assoc, List.append_assoc]
    exact lastIDKey_ne pre _

/-- Nothing changes: no identifier is issued. -/
theorem issues_refl (pre : Text) (st : EtcdStore) : Issues pre 0 st st := by
  intro n hw _
  exact ⟨n, le_refl _, by simp, hw, fun kv' h _ => Or.inl ⟨kv', h, rfl⟩⟩

/-- Issuing in two steps. -/
theorem issues_trans {pre : Text} {k1 k2 : Nat} {a b c : EtcdStore} (h1 : Issues pre k1 a b)
    (h2 : Issues pre k2 b c) : Issues pre (k1 + k2) a c := by
  intro n hw hb
  push_cast at hb
  obtain ⟨n1, hn1, hn1', hw1, hf1⟩ := h1 n hw (by omega)
  obtain ⟨n2, hn2, hn2', hw2, hf2⟩ := h2 n1 hw1 (by omega)
  refine ⟨n2, by omega, by push_cast; omega, hw2, ?_⟩
  intro kv' hkv' hne
  rcases hf2 kv' hkv' hne with ⟨kv, hkv, hk⟩ | ⟨id, hid, hlt⟩
  · rcases hf1 kv hkv (hk ▸ hne) with ⟨kv0, hkv0, hk0⟩ | ⟨id, hid, hlt⟩
    · exact Or.inl ⟨kv0, hkv0, hk0.trans hk⟩
    · exact Or.inr ⟨id, hk ▸ hid, hlt⟩
  · exact Or.inr ⟨id, hid, by omega⟩

/-- A larger budget. -/
theorem issues_mono {pre : Text} {k k' : Nat} {a b : EtcdStore} (h : Issues pre k a b)
    (hk : k ≤ k') : Issues pre k' a b := by
  intro n hw hb
  have hk' : (k : Int) ≤ k' := by exact_mod_cast hk
  obtain ⟨n1, hn1, hn1', hw1, hf1⟩ := h n hw (by omega)
  exact ⟨n1, hn1, by omega, hw1, hf1⟩

/-- A store whose keys are among those of a well-numbered store, and which has kept the entry
of the counter, is well numbered with the same counter. -/
theorem issues_of_keys (pre : Text) (st st' : EtcdStore)
    (hnodup : (st.map (fun kv => kv.Key)).Nodup → (st'.map (fun kv => kv.Key)).Nodup)
    (hkeys : ∀ kv' ∈ st', ∃ kv ∈ st, kv.Key = kv'.Key)
    (hlast : ∀ kv' ∈ st', kv'.Key = lastIDKey pre → kv' ∈ st)
    (hkeep : ∀ kv ∈ st, kv.Key = lastIDKey pre → kv.Lease = none →
      ∃ kv' ∈ st', kv'.Key = lastIDKey pre) :
    Issues pre 0 st st' := by
  intro n hw _
  obtain ⟨hnd, hn0, hcount, hids, hinj⟩ := hw
  refine ⟨n, le_refl _, by simp, ⟨hnodup hnd, hn0, ⟨?_, ?_⟩, ?_, ?_⟩, ?_⟩
  · exact fun kv' hkv' hk => hcount.1 kv' (hlast kv' hkv' hk) hk
  · intro hall
    apply hcount.2
    intro kv hkv hk
    obtain ⟨kv', hkv', hk'⟩ := hkeep kv hkv hk (hcount.1 kv hkv hk).2
    exact hall kv' hkv' hk'
  · intro kv' hkv' hne
    obtain ⟨kv, hkv, hk⟩ := hkeys kv' hkv'
    rw [← hk]
    exact hids kv hkv (hk ▸ hne)
  · intro kv1 h1 kv2 h2 hne1 hne2 heq
    obtain ⟨a, ha, hka⟩ := hkeys kv1 h1
    obtain ⟨b, hb, hkb⟩ := hkeys kv2 h2
    have := hinj a ha b hb (hka ▸ hne1) (hkb ▸ hne2) (by rw [hka, hkb]; exact heq)
    rw [← hka, ← hkb]; exact this
  · intro kv' hkv' _
    exact Or.inl (hkeys kv' hkv')

/-- Removing entries other than the counter issues nothing. -/
theorem issues_filter (pre : Text) (st : EtcdStore) (p : KV → Bool)
    (hp : ∀ kv, kv.Key = lastIDKey pre → kv.Lease = none → p kv = true) :
    Issues pre 0 st (st.filter p) := by
  apply issues_of_keys
  · exact fun h => h.sublist ((List.filter_sublist st).map _)
  · exact fun kv' hkv' => ⟨kv', List.mem_of_mem_filter hkv', rfl⟩
  · exact fun kv' hkv' _ => List.mem_of_mem_filter hkv'
  · exact fun kv hkv hk hl => ⟨kv, List.mem_filter.mpr ⟨hkv, hp kv hk hl⟩, hk⟩

/-- `Delete` of a record key issues nothing. -/
theorem issues_delete (pre : Text) (st : EtcdStore) (key : Text) (hkey : key ≠ lastIDKey pre) :
    Issues pre 0 st (delete key st) := by
  apply issues_filter
  intro kv hk _
  simp only [Bool.not_eq_true', decide_eq_false_iff_not]
  rw [hk]
  exact fun h => hkey h.symm

/-- The end of a lease issues nothing. -/
theorem issues_prune (pre : Text) (now : Nat) (st : EtcdStore) : Issues pre 0 st (prune now st) := by
  apply issues_filter
  intro kv _ hl
  simp [hl]

/-- `Put` under the key of a record in the store issues nothing. -/
theorem issues_put_old (pre : Text) (st : EtcdStore) (kv : KV) (hkey : kv.Key ≠ lastIDKey pre)
    (hold : ∃ x ∈ st, x.Key = kv.Key) : Issues pre 0 st (put kv st) := by
  apply issues_of_keys
  · exact nodup_put kv st
  · intro kv' hkv'
    rcases (mem_put kv st kv').mp hkv' with rfl | ⟨h, _⟩
    · exact hold
    · exact ⟨kv', h, rfl⟩
  · intro kv' hkv' hk
    rcases (mem_put kv st kv').mp hkv' with rfl | ⟨h, _⟩
    · exact absurd hk hkey
    · exact h
  · intro x hx hk _
    exact ⟨x, (mem_put kv st x).mpr (Or.inr ⟨hx, fun h => hkey (h ▸ hk)⟩), hk⟩

/-- No character of `Itoa` is a slash. -/
theorem slash_not_mem_Itoa (i : Int) : ¬ '/' ∈ Itoa i := by
  intro h
  rcases mem_Itoa i '/' h with h1 | h1
  · exact absurd h1 (by decide)
  · exact absurd h1 (by decide)

/-- `getIDbyKey` reads back the identifier `getKey` wrote. -/
theorem getIDbyKey_getKey (pre : Text) (r : DynamicRecord) (i : Int) (hr : r.ID = some i)
    (hlo : -(2 : Int) ^ 63 ≤ i) (hhi : i < (2 : Int) ^ 63) :
    getIDbyKey (getKey pre r) = .ok i := by
  unfold getKey
  rw [hr]
  simp only
  have : pre ++ "/records".toList ++ Domain.ToPath r.Record.GetName ++ ['/'] ++ Itoa i
      = (pre ++ "/records".toList ++ Domain.ToPath r.Record.GetName) ++ '/' :: Itoa i := by
    simp
  rw [this]
  unfold getIDbyKey
  rw [Split_append, Split_of_not_mem '/' (Itoa i) (slash_not_mem_Itoa i), List.getLast?_append]
  simp [Atoi_Itoa i hlo hhi]

/-- What `makeKey` does in a well-numbered store whose counter can grow: the counter becomes
`n + 1`, and that is the identifier of the record. -/
theorem makeKey_eq (pre : Text) (st : EtcdStore) (r : DynamicRecord) (n : Int)
    (hw : WellNumbered pre st n) (hb : n + 1 < 2 ^ 63) :
    makeKey pre st r
      = (put ⟨lastIDKey pre, Itoa (n + 1), none⟩ st,
          .ok ({ r with ID := some (n + 1) }, getKey pre { r with ID := some (n + 1) })) := by
  obtain ⟨_, hn0, hcount, _, _⟩ := hw
  have hwrap : wrapInt (n + 1) = n + 1 := by
    unfold wrapInt
    omega
  unfold makeKey
  cases hg : get (lastIDKey pre) st with
  | nil =>
    have hn : n = 0 := by
      apply hcount.2
      intro kv hkv hk
      have : kv ∈ get (lastIDKey pre) st := by
        simp only [get, List.mem_filter, decide_eq_true_eq]
        exact ⟨hkv, hk⟩
      rw [hg] at this
      simp at this
    subst hn
    simp only [hwrap]
  | cons kv rest =>
    have hmem : kv ∈ get (lastIDKey pre) st := by rw [hg]; simp
    simp only [get, List.mem_filter, decide_eq_true_eq] at hmem
    have hv := (hcount.1 kv hmem.1 hmem.2).1
    simp only [hv, Atoi_Itoa n (by omega) (by omega), hwrap]

/-- `makeKey` issues one identifier. -/
theorem issues_counter (pre : Text) (st : EtcdStore) (n : Int) (hw : WellNumbered pre st n) :
    WellNumbered pre (put ⟨lastIDKey pre, Itoa (n + 1), none⟩ st) (n + 1)
      ∧ Fresh pre st (put ⟨lastIDKey pre, Itoa (n + 1), none⟩ st) n := by
  obtain ⟨hnd, hn0, hcount, hids, hinj⟩ := hw
  have hmem := mem_put ⟨lastIDKey pre, Itoa (n + 1), none⟩ st
  refine ⟨⟨nodup_put _ st hnd, by omega, ⟨?_, ?_⟩, ?_, ?_⟩, ?_⟩
  · intro kv hkv hk
    rcases (hmem kv).mp hkv with rfl | ⟨_, hne⟩
    · exact ⟨rfl, rfl⟩
    · exact absurd hk hne
  · intro hall
    exact absurd rfl (hall ⟨lastIDKey pre, Itoa (n + 1), none⟩ ((hmem _).mpr (Or.inl rfl)))
  · intro kv hkv hne
    rcases (hmem kv).mp hkv with rfl | ⟨h, _⟩
    · exact absurd rfl hne
    · obtain ⟨id, h1, h2, h3⟩ := hids kv h hne
      exact ⟨id, h1, h2, by omega⟩
  · intro kv1 h1 kv2 h2 hne1 hne2 heq
    rcases (hmem kv1).mp h1 with rfl | ⟨h1', _⟩
    · exact absurd rfl hne1
    · rcases (hmem kv2).mp h2 with rfl | ⟨h2', _⟩
      · exact absurd rfl hne2
      · exact hinj kv1 h1' kv2 h2' hne1 hne2 heq
  · intro kv hkv hne
    rcases (hmem kv).mp hkv with rfl | ⟨h, _⟩
    · exact absurd rfl hne
    · exact Or.inl ⟨kv, h, rfl⟩

/-- `Put` of a record under a key whose identifier is above the counter. -/
theorem issues_put_new (pre : Text) (st : EtcdStore) (n : Int) (kv : KV) (hn : 0 ≤ n)
    (hw : WellNumbered pre st (n + 1)) (hlastID : ∃ x ∈ st, x.Key = lastIDKey pre)
    (hkey : kv.Key ≠ lastIDKey pre) (hid : getIDbyKey kv.Key = .ok (n + 1))
    (hfree : ∀ x ∈ st, x.Key ≠ lastIDKey pre → ∃ id, getIDbyKey x.Key = .ok id ∧ id ≤ n) :
    WellNumbered pre (put kv st) (n + 1) ∧ Fresh pre st (put kv st) n := by
  obtain ⟨hnd, hn0, hcount, hids, hinj⟩ := hw
  have hmem := mem_put kv st
  refine ⟨⟨nodup_put _ st hnd, hn0, ⟨?_, ?_⟩, ?_, ?_⟩, ?_⟩
  · intro x hx hk
    rcases (hmem x).mp hx with rfl | ⟨h, _⟩
    · exact absurd hk hkey
    · exact hcount.1 x h hk
  · intro hall
    obtain ⟨x, hx, hk⟩ := hlastID
    exact absurd hk (hall x ((hmem x).mpr (Or.inr ⟨hx, fun h => hkey (h ▸ hk)⟩)))
  · intro x hx hne
    rcases (hmem x).mp hx with rfl | ⟨h, _⟩
    · exact ⟨n + 1, hid, by omega, le_refl _⟩
    · exact hids x h hne
  · intro kv1 h1 kv2 h2 hne1 hne2 heq
    rcases (hmem kv1).mp h1 with rfl | ⟨h1', _⟩
    · rcases (hmem kv2).mp h2 with rfl | ⟨h2', _⟩
      · rfl
      · obtain ⟨id, hid2, hle⟩ := hfree kv2 h2' hne2
        rw [hid, hid2] at heq
        cases heq
        omega
    · rcases (hmem kv2).mp h2 with rfl | ⟨h2', _⟩
      · obtain ⟨id, hid1, hle⟩ := hfree kv1 h1' hne1
        rw [hid, hid1] at heq
        cases heq
        omega
      · exact hinj kv1 h1' kv2 h2' hne1 hne2 heq
  · intro x hx hne
    rcases (hmem x).mp hx with rfl | ⟨h, _⟩
    · exact Or.inr ⟨n + 1, hid, by omega⟩
    · exact Or.inl ⟨x, h, rfl⟩

/-- What `findKey` returns: no key, or the key of an entry it was given whose value reads as a
record with the same text, compared with the TTL when `withTTL` is set and with the TTL
masked otherwise, together with the identifier read from that key. -/
theorem findLoop_ok (newRR : RRReader) (now : Nat) (r : DynamicRecord) (withTTL : Bool)
    (kvs : List KV) (r' : DynamicRecord) (key : Text)
    (h : findLoop newRR now r withTTL kvs = .ok (r', key)) :
    (key = [] ∧ r' = { r with ID := none })
      ∨ ∃ x ∈ kvs, x.Key = key ∧ ∃ vr rec id,
          VolatileRecord.UnmarshalText newRR now x.Value = .ok vr ∧ vr.Record now = .ok rec
            ∧ (if withTTL then rec.String = r.Record.String
                else rec.WithoutTTL = r.Record.WithoutTTL)
            ∧ getIDbyKey x.Key = .ok id ∧ r' = { r with ID := some id } := by
  induction kvs with
  | nil =>
    simp only [findLoop] at h
    cases h
    exact Or.inl ⟨rfl, rfl⟩
  | cons x xs ih =>
    have next : findLoop newRR now r withTTL xs = .ok (r', key) →
        (key = [] ∧ r' = { r with ID := none })
          ∨ ∃ x_1 ∈ x :: xs, x_1.Key = key ∧ ∃ vr rec id,
              VolatileRecord.UnmarshalText newRR now x_1.Value = .ok vr ∧ vr.Record now = .ok rec
                ∧ (if withTTL then rec.String = r.Record.String
                    else rec.WithoutTTL = r.Record.WithoutTTL)
                ∧ getIDbyKey x_1.Key = .ok id ∧ r' = { r with ID := some id } := by
      intro h'
      rcases ih h' with h0 | ⟨y, hy, rest⟩
      · exact Or.inl h0
      · exact Or.inr ⟨y, List.mem_cons_of_mem x hy, rest⟩
    unfold findLoop at h
    cases hu : VolatileRecord.UnmarshalText newRR now x.Value with
    | error e => simp [hu] at h
    | ok vr =>
      simp only [hu] at h
      cases hrec : vr.Record now with
      | panic => simp [hrec] at h
      | error e => simp [hrec] at h
      | ok rec =>
        simp only [hrec] at h
        cases withTTL with
        | true =>
          simp only [Bool.true_and, Bool.not_true, Bool.false_and, Bool.false_eq_true, if_false,
            decide_eq_true_eq, ne_eq, decide_not, Bool.not_eq_true'] at h
          by_cases hs : r.Record.String = rec.String
          · simp only [hs, decide_True, Bool.not_true, Bool.false_eq_true, if_false] at h
            cases hid : getIDbyKey x.Key with
            | error e => simp [hid] at h
            | ok id =>
              simp only [hid] at h
              cases h
              exact Or.inr ⟨x, List.mem_cons_self x xs, rfl, vr, rec, id, hu, hrec,
                by simp [hs], hid, rfl⟩
          · simp only [hs, decide_False, Bool.not_false, if_true] at h
            exact next h
        | false =>
          simp only [Bool.false_and, Bool.false_eq_true, if_false, Bool.not_false, Bool.true_and,
            decide_eq_true_eq, ne_eq, decide_not, Bool.not_eq_true'] at h
          by_cases hs : r.Record.WithoutTTL = rec.WithoutTTL
          · simp only [hs, decide_True, Bool.not_true, Bool.false_eq_true, if_false] at h
            cases hid : getIDbyKey x.Key with
            | error e => simp [hid] at h
            | ok id =>
              simp only [hid] at h
              cases h
              exact Or.inr ⟨x, List.mem_cons_self x xs, rfl, vr, rec, id, hu, hrec,
                by simp [hs], hid, rfl⟩
          · simp only [hs, decide_False, Bool.not_false, if_true] at h
            exact next h

/-- The key `findKey` returns, when it is not empty, is the key of a record in the store. -/
theorem findKey_key (newRR : RRReader) (now : Nat) (pre : Text) (st : EtcdStore)
    (r : DynamicRecord) (withTTL : Bool) (r' : DynamicRecord) (key : Text)
    (h : findKey newRR now pre st r withTTL = .ok (r', key)) (hkey : key ≠ []) :
    (∃ x ∈ st, x.Key = key) ∧ key ≠ lastIDKey pre := by
  unfold findKey at h
  rcases findLoop_ok newRR now r withTTL _ r' key h with ⟨h0, _⟩ | ⟨x, hx, hk, _⟩
  · exact absurd h0 hkey
  · simp only [getPrefix, List.mem_filter] at hx
    exact ⟨⟨x, hx.1, hk⟩, hk ▸ ne_lastIDKey_of_startsWith pre r x.Key hx.2⟩

/-- The first part of `dropRecord` issues nothing. -/
theorem issues_dropSingle (newRR : RRReader) (now : Nat) (pre : Text) (st : EtcdStore)
    (r : DynamicRecord) : Issues pre 0 st (dropSingle newRR now pre st r).1 := by
  unfold dropSingle
  cases h : findKey newRR now pre st r true with
  | panic => exact issues_refl pre st
  | error e => exact issues_refl pre st
  | ok p =>
    obtain ⟨r', key⟩ := p
    simp only
    by_cases hkey : key = []
    · simp only [hkey, ne_eq, not_true_eq_false, if_false]
      exact issues_refl pre st
    · simp only [ne_eq, hkey, not_false_eq_true, if_true]
      exact issues_delete pre st key (findKey_key newRR now pre st r true r' key h hkey).2

/-- `dropRecord` issues nothing. -/
theorem issues_dropRecord (newRR : RRReader) (now : Nat) (pre : Text) (st : EtcdStore)
    (r : DynamicRecord) : Issues pre 0 st (dropRecord newRR now pre st r).1 := by
  have h1 := issues_dropSingle newRR now pre st r
  unfold dropRecord
  cases hd : dropSingle newRR now pre st r with
  | mk st' out =>
    rw [hd] at h1
    cases out with
    | panic => exact h1
    | error e => exact h1
    | ok u =>
      cases u
      simp only
      split
      · split
        · exact h1
        · rename_i reverse _
          have h2 := issues_dropSingle newRR now pre st' (reverseRecord r reverse)
          exact issues_trans h1 h2
      · exact h1

/-- The store `putRecord` leaves: the one it was given, or that store with the key put. -/
theorem putRecord_store (newRR : RRReader) (now : Nat) (st : EtcdStore) (r : DynamicRecord)
    (key : Text) :
    (putRecord newRR now st r key).1 = st
      ∨ ∃ value lease, (putRecord newRR now st r key).1 = put ⟨key, value, lease⟩ st := by
  unfold putRecord
  simp only
  split
  · exact Or.inl rfl
  · split
    · exact Or.inl rfl
    · exact Or.inl rfl
    · exact Or.inr ⟨_, _, rfl⟩

/-- `insertSingleRecord` issues at most one identifier. -/
theorem issues_insertSingleRecord (newRR : RRReader) (now : Nat) (pre : Text) (st : EtcdStore)
    (r : DynamicRecord) : Issues pre 1 st (insertSingleRecord newRR now pre st r).1 := by
  unfold insertSingleRecord
  cases h : findKey newRR now pre st r false with
  | panic => exact issues_mono (issues_refl pre st) (by omega)
  | error e => exact issues_mono (issues_refl pre st) (by omega)
  | ok p =>
    obtain ⟨r', key⟩ := p
    simp only
    by_cases hkey : key = []
    · rw [if_pos hkey]
      intro n hw hb
      have hn0 : 0 ≤ n := hw.2.1
      have hb' : n + 1 < (2 : Int) ^ 63 := by simpa using hb
      rw [makeKey_eq pre st r' n hw hb']
      simp only
      have hc := issues_counter pre st n hw
      have hlo : -(2 : Int) ^ 63 ≤ n + 1 := by omega
      have hgid : getIDbyKey (getKey pre { r' with ID := some (n + 1) }) = .ok (n + 1) :=
        getIDbyKey_getKey pre { r' with ID := some (n + 1) } (n + 1) rfl hlo hb'
      rcases putRecord_store newRR now (put ⟨lastIDKey pre, Itoa (n + 1), none⟩ st)
          { r' with ID := some (n + 1) } (getKey pre { r' with ID := some (n + 1) })
        with heq | ⟨value, lease, heq⟩
      · rw [heq]
        exact ⟨n + 1, by omega, by simp, hc.1, hc.2⟩
      · rw [heq]
        have hfree : ∀ x ∈ put ⟨lastIDKey pre, Itoa (n + 1), none⟩ st, x.Key ≠ lastIDKey pre →
            ∃ id, getIDbyKey x.Key = .ok id ∧ id ≤ n := by
          intro x hx hne
          rcases (mem_put _ st x).mp hx with rfl | ⟨hx', _⟩
          · exact absurd rfl hne
          · obtain ⟨id, h1, _, h3⟩ := hw.2.2.2.1 x hx' hne
            exact ⟨id, h1, h3⟩
        have hnew := issues_put_new pre (put ⟨lastIDKey pre, Itoa (n + 1), none⟩ st) n
          ⟨getKey pre { r' with ID := some (n + 1) }, value, lease⟩ hn0 hc.1
          ⟨_, (mem_put _ st _).mpr (Or.inl rfl), rfl⟩
          (getKey_ne_lastIDKey pre { r' with ID := some (n + 1) }) hgid hfree
        refine ⟨n + 1, by omega, by simp, hnew.1, ?_⟩
        intro kv' hkv' hne
        rcases hnew.2 kv' hkv' hne with ⟨kv, hkv, hk⟩ | hid
        · rcases hc.2 kv hkv (hk ▸ hne) with ⟨a, ha, hak⟩ | ⟨id, hid, hlt⟩
          · exact Or.inl ⟨a, ha, hak.trans hk⟩
          · exact Or.inr ⟨id, hk ▸ hid, hlt⟩
        · exact Or.inr hid
    · rw [if_neg hkey]
      have hk := findKey_key newRR now pre st r false r' key h hkey
      rcases putRecord_store newRR now st r' key with heq | ⟨value, lease, heq⟩
      · rw [heq]; exact issues_mono (issues_refl pre st) (by omega)
      · rw [heq]
        exact issues_mono (issues_put_old pre st ⟨key, value, lease⟩ hk.2 hk.1) (by omega)

/-- `insertRecord` issues at most two identifiers. -/
theorem issues_insertRecord (newRR : RRReader) (now : Nat) (pre : Text) (st : EtcdStore)
    (r : DynamicRecord) : Issues pre 2 st (insertRecord newRR now pre st r).1 := by
  have h1 := issues_insertSingleRecord newRR now pre st r
  unfold insertRecord
  cases hd : insertSingleRecord newRR now pre st r with
  | mk st' out =>
    rw [hd] at h1
    cases out with
    | panic => exact issues_mono h1 (by omega)
    | error e => exact issues_mono h1 (by omega)
    | ok u =>
      cases u
      simp only
      split
      · split
        · exact issues_mono h1 (by omega)
        · rename_i reverse _
          have h2 := issues_insertSingleRecord newRR now pre st' (insertedReverse r reverse)
          exact issues_trans h1 h2
      · exact issues_mono h1 (by omega)

/-- The loop of `SetRecords` issues at most two identifiers for every record. -/
theorem issues_applyRecords (newRR : RRReader) (now : Nat) (pre : Text) (rs : DynamicRecordSet)
    (st : EtcdStore) : Issues pre (2 * rs.length) st (applyRecords newRR now pre rs st).1 := by
  induction rs generalizing st with
  | nil => exact issues_refl pre st
  | cons r rs ih =>
    have h1 : Issues pre 2 st
        (if r.Disabled then dropRecord newRR now pre st r else insertRecord newRR now pre st r).1 := by
      split
      · exact issues_mono (issues_dropRecord newRR now pre st r) (by omega)
      · exact issues_insertRecord newRR now pre st r
    unfold applyRecords
    cases hd : (if r.Disabled then dropRecord newRR now pre st r
        else insertRecord newRR now pre st r) with
    | mk st' out =>
      rw [hd] at h1
      have hlen : 2 * (r :: rs).length = 2 + 2 * rs.length := by simp; omega
      cases out with
      | panic => exact issues_mono h1 (by omega)
      | error e => exact issues_mono h1 (by omega)
      | ok u =>
        cases u
        simp only
        rw [hlen]
        exact issues_trans h1 (ih st')

/-- Every call issues at most its budget. -/
theorem issues_step (newRR : RRReader) (pre : Text) (st : EtcdStore) (call : Call) :
    Issues pre call.budget st (step newRR pre st call) := by
  cases call with
  | SetRecords now rs =>
    simp only [step, SetRecords, Call.budget]
    have := issues_trans (issues_prune pre now st) (issues_applyRecords newRR now pre rs (prune now st))
    simpa using this
  | RemoveRecord now i =>
    simp only [step, RemoveRecord, Call.budget]
    split
    · exact issues_prune pre now st
    · exact issues_prune pre now st
    · split
      · have := issues_trans (issues_prune pre now st)
          (issues_delete pre (prune now st) (getKey pre ‹DynamicRecord›) (getKey_ne_lastIDKey pre _))
        simpa using this
      · exact issues_prune pre now st

end EtcdResolver

/-! ## C3 -/

/-- Calls within the range of a 64-bit `int` keep the etcd store well numbered. -/
theorem EtcdResolver.wellNumbered_foldl (newRR : RRReader) (pre : Text)
    (calls : List EtcdResolver.Call) (st : EtcdStore) (n : Int)
    (hw : EtcdResolver.WellNumbered pre st n) (hb : n + EtcdResolver.budget calls < 2 ^ 63) :
    ∃ n', n ≤ n' ∧ n' ≤ n + EtcdResolver.budget calls
      ∧ EtcdResolver.WellNumbered pre (calls.foldl (EtcdResolver.step newRR pre) st) n' := by
  induction calls generalizing st n with
  | nil => exact ⟨n, le_refl _, by simp [EtcdResolver.budget], hw⟩
  | cons c cs ih =>
    have hbud : (EtcdResolver.budget (c :: cs) : Int) = c.budget + EtcdResolver.budget cs := by
      simp [EtcdResolver.budget]
    rw [hbud] at hb
    obtain ⟨n1, h1, h1', hw1, _⟩ := EtcdResolver.issues_step newRR pre st c n hw (by omega)
    obtain ⟨n2, h2, h2', hw2⟩ := ih _ n1 hw1 (by omega)
    exact ⟨n2, by omega, by rw [hbud]; omega, hw2⟩

/-- The empty key space is well numbered with counter 0. -/
theorem EtcdResolver.wellNumbered_nil (pre : Text) : EtcdResolver.WellNumbered pre [] 0 := by
  refine ⟨by simp, le_refl _, ⟨by simp, fun _ => rfl⟩, by simp, by simp⟩

/-- C3: in both dynamic resolvers, after any sequence of calls on a new resolver the
identifiers of the stored records are positive, at most the counter (the last identifier
issued) and distinct; a further call leaves every record it keeps under its identifier and
numbers what it adds above the counter, so an identifier is not issued again after its record
is removed; and an identifier is issued as the counter plus one (`INSERT` under
AUTOINCREMENT, `makeKey`).  For etcd the counter is assumed to stay within a 64-bit `int`. -/
theorem identifiers_well_numbered (calls : List SqliteResolver.Call) (call : SqliteResolver.Call)
    (newRR : RRReader) (pre : Text) (ecalls : List EtcdResolver.Call) (ecall : EtcdResolver.Call)
    (hb : ((EtcdResolver.budget (ecalls ++ [ecall]) : Nat) : Int) + 1 < 2 ^ 63) :
    (SqliteResolver.WellNumbered (SqliteResolver.run calls)
      ∧ SqliteResolver.Extends (SqliteResolver.run calls)
          (SqliteResolver.step (SqliteResolver.run calls) call)
      ∧ ∀ (db db' : SqliteDB) (name qtype : Text) (ttl expire : Nat) (record : Text),
          SqliteResolver.ins db name qtype ttl expire record = some db' →
            db' = ⟨db.rows ++ [⟨db.seq + 1, name, qtype, ttl, expire, record⟩], db.seq + 1⟩)
    ∧ ∃ n n', n ≤ n'
        ∧ EtcdResolver.WellNumbered pre (EtcdResolver.run newRR pre ecalls) n
        ∧ EtcdResolver.WellNumbered pre
            (EtcdResolver.step newRR pre (EtcdResolver.run newRR pre ecalls) ecall) n'
        ∧ EtcdResolver.Fresh pre (EtcdResolver.run newRR pre ecalls)
            (EtcdResolver.step newRR pre (EtcdResolver.run newRR pre ecalls) ecall) n
        ∧ ∀ r, EtcdResolver.makeKey pre (EtcdResolver.run newRR pre ecalls) r
            = (EtcdResolver.put ⟨EtcdResolver.lastIDKey pre, Itoa (n + 1), none⟩
                  (EtcdResolver.run newRR pre ecalls),
                .ok ({ r with ID := some (n + 1) },
                  EtcdResolver.getKey pre { r with ID := some (n + 1) })) := by
  have hbud : (EtcdResolver.budget (ecalls ++ [ecall]) : Int)
      = EtcdResolver.budget ecalls + ecall.budget := by
    simp [EtcdResolver.budget]
  rw [hbud] at hb
  refine ⟨⟨?_, (SqliteResolver.step_step _ call).2, fun db db' name qtype ttl expire record h =>
    SqliteResolver.ins_eq h⟩, ?_⟩
  · exact SqliteResolver.wellNumbered_calls calls SqliteResolver.empty
      ⟨le_refl _, by simp [SqliteResolver.empty], by simp [SqliteResolver.empty]⟩
  · obtain ⟨n, hn0, hn, hw⟩ := EtcdResolver.wellNumbered_foldl newRR pre ecalls [] 0
      (EtcdResolver.wellNumbered_nil pre) (by omega)
    obtain ⟨n', h1, _, hw', hf⟩ :=
      EtcdResolver.issues_step newRR pre (EtcdResolver.run newRR pre ecalls) ecall n hw (by omega)
    exact ⟨n, n', h1, hw, hw', hf,
      fun r => EtcdResolver.makeKey_eq pre _ r n hw (by omega)⟩

/-- Witness of `identifiers_well_numbered`: each resolver after one submission, followed by the
removal of record 1. -/
theorem identifiers_well_numbered_witness :
    (SqliteResolver.WellNumbered (SqliteResolver.run [.SetRecords 1000 [sampleAddress]])
      ∧ SqliteResolver.Extends (SqliteResolver.run [.SetRecords 1000 [sampleAddress]])
          (SqliteResolver.step (SqliteResolver.run [.SetRecords 1000 [sampleAddress]])
            (.RemoveRecord 1))
      ∧ ∀ (db db' : SqliteDB) (name qtype : Text) (ttl expire : Nat) (record : Text),
          SqliteResolver.ins db name qtype ttl expire record = some db' →
            db' = ⟨db.rows ++ [⟨db.seq + 1, name, qtype, ttl, expire, record⟩], db.seq + 1⟩)
    ∧ ∃ n n', n ≤ n'
        ∧ EtcdResolver.WellNumbered "/landns".toList
            (EtcdResolver.run zoneLine "/landns".toList [.SetRecords 1000 [sampleAddress]]) n
        ∧ EtcdResolver.WellNumbered "/landns".toList
            (EtcdResolver.step zoneLine "/landns".toList
              (EtcdResolver.run zoneLine "/landns".toList [.SetRecords 1000 [sampleAddress]])
              (.RemoveRecord 1000 1)) n'
        ∧ EtcdResolver.Fresh "/landns".toList
            (EtcdResolver.run zoneLine "/landns".toList [.SetRecords 1000 [sampleAddress]])
            (EtcdResolver.step zoneLine "/landns".toList
              (EtcdResolver.run zoneLine "/landns".toList [.SetRecords 1000 [sampleAddress]])
              (.RemoveRecord 1000 1)) n
        ∧ ∀ r, EtcdResolver.makeKey "/landns".toList
              (EtcdResolver.run zoneLine "/landns".toList [.SetRecords 1000 [sampleAddress]]) r
            = (EtcdResolver.put ⟨EtcdResolver.lastIDKey "/landns".toList, Itoa (n + 1), none⟩
                  (EtcdResolver.run zoneLine "/landns".toList [.SetRecords 1000 [sampleAddress]]),
                .ok ({ r with ID := some (n + 1) },
                  EtcdResolver.getKey "/landns".toList { r with ID := some (n + 1) })) :=
  identifiers_well_numbered [.SetRecords 1000 [sampleAddress]] (.RemoveRecord 1)
    zoneLine "/landns".toList [.SetRecords 1000 [sampleAddress]] (.RemoveRecord 1000 1) (by decide)

/-! ## C1: the reverse record of an address -/

/-- The statements of `insertRecord` leave a row with the record's masked text, its TTL, and
its volatility: `expire` is `now + TTL` for a volatile record and 0 otherwise. -/
theorem SqliteResolver.upsert_row {now : Nat} {db db' : SqliteDB} {r : DynamicRecord}
    (h : SqliteResolver.upsert now db r = .ok db') :
    ∃ row ∈ db'.rows, row.record = r.Record.WithoutTTL ∧ row.ttl = r.Record.GetTTL
      ∧ row.expire = (if r.Volatile then now + r.Record.GetTTL else 0) := by
  unfold SqliteResolver.upsert at h
  simp only at h
  generalize (if r.Volatile = true then now + r.Record.GetTTL else 0) = expire at h ⊢
  by_cases h0 : (SqliteResolver.update db r.Record.GetTTL expire r.Record.WithoutTTL).2 = 0
  · rw [if_pos h0] at h
    cases hins : SqliteResolver.ins (SqliteResolver.update db r.Record.GetTTL expire r.Record.WithoutTTL).1
        r.Record.GetName (QtypeToString r.Record.GetQtype) r.Record.GetTTL expire
        r.Record.WithoutTTL with
    | none => rw [hins] at h; cases h
    | some db1 =>
      rw [hins] at h
      cases h
      rw [SqliteResolver.ins_eq hins]
      exact ⟨⟨(SqliteResolver.update db r.Record.GetTTL expire r.Record.WithoutTTL).1.seq + 1,
        r.Record.GetName, QtypeToString r.Record.GetQtype, r.Record.GetTTL, expire,
        r.Record.WithoutTTL⟩, by simp, rfl, rfl, rfl⟩
  · rw [if_neg h0] at h
    cases h
    simp only [SqliteResolver.update] at h0 ⊢
    have hne : db.rows.filter (fun row => decide (row.record = r.Record.WithoutTTL)) ≠ [] := by
      intro hnil
      rw [hnil] at h0
      exact h0 rfl
    obtain ⟨row, rest, hrow⟩ := List.exists_cons_of_ne_nil hne
    have hmem : row ∈ db.rows.filter (fun row => decide (row.record = r.Record.WithoutTTL)) := by
      rw [hrow]; simp
    rw [List.mem_filter] at hmem
    have hrec : row.record = r.Record.WithoutTTL := by simpa using hmem.2
    refine ⟨{ row with ttl := r.Record.GetTTL, expire := expire }, ?_, hrec, rfl, rfl⟩
    rw [List.mem_map]
    exact ⟨row, hmem.1, by rw [if_pos hrec]⟩

/-- The SQLite `insertRecord` on an address record: when it succeeds, the table
holds the PTR record of the reverse name that points to the record's name, with the TTL and
the volatility of the address record. -/
theorem SqliteResolver.insertRecord_reverse {now : Nat} {db db' : SqliteDB} {r : DynamicRecord}
    {name : Domain} {ttl : Nat} {a : IP} (hr : r.Record = .Address name ttl a)
    (h : SqliteResolver.insertRecord now db r = .ok db') :
    ∃ reverse, ReverseAddr a = some reverse ∧ ∃ row ∈ db'.rows,
      row.record = (Record.Ptr reverse ttl name).WithoutTTL ∧ row.ttl = ttl
        ∧ row.expire = (if r.Volatile then now + ttl else 0) := by
  unfold SqliteResolver.insertRecord at h
  split at h
  · cases h
  · rw [hr] at h
    simp only at h
    split at h
    · cases h
    · rename_i reverse hrev
      obtain ⟨row, hrow, h1, h2, h3⟩ := SqliteResolver.upsert_row h
      refine ⟨reverse, hrev, row, hrow, ?_, ?_, ?_⟩
      · simpa [SqliteResolver.reverseRecord, hr, Record.GetName, Record.GetTTL] using h1
      · simpa [SqliteResolver.reverseRecord, hr, Record.GetName, Record.GetTTL] using h2
      · simpa [SqliteResolver.reverseRecord, hr, Record.GetName, Record.GetTTL] using h3

/-- C1 at its failing input: `SetRecords` of `example.com. 100 IN A 127.0.0.1 ; Volatile` on an
empty etcd store at instant 1000.  The address record is stored with its expiry and a lease;
the PTR record is stored without either, and `Records` reports it as not volatile.  The
SQLite resolver gives both rows the same expiry. -/
theorem etcd_reverse_not_volatile :
    EtcdResolver.SetRecords zoneLine 1000 "/landns".toList [] [volatileAddress]
        = ([⟨"/landns/lastID".toList, "2".toList, none⟩,
            ⟨"/landns/records/arpa/in-addr/127/0/0/1/2".toList,
              "1.0.0.127.in-addr.arpa. 100 IN PTR example.com.".toList, none⟩,
            ⟨"/landns/records/com/example/1".toList,
              "example.com. 100 IN A 127.0.0.1 ; 1100".toList, some 1100⟩], .ok ())
      ∧ EtcdResolver.Records zoneLine 1000 "/landns".toList
          (EtcdResolver.SetRecords zoneLine 1000 "/landns".toList [] [volatileAddress]).1
        = .ok [⟨.Ptr "1.0.0.127.in-addr.arpa.".toList 100 "example.com.".toList, some 2, false, false⟩,
            ⟨.Address "example.com.".toList 100 (v4InV6Prefix ++ [127, 0, 0, 1]), some 1, true, false⟩]
      ∧ (SqliteResolver.SetRecords 1000 SqliteResolver.empty [volatileAddress]).1.rows
        = [⟨1, "example.com.".toList, "A".toList, 100, 1100, "example.com. 0 IN A 127.0.0.1".toList⟩,
            ⟨2, "1.0.0.127.in-addr.arpa.".toList, "PTR".toList, 100, 1100,
              "1.0.0.127.in-addr.arpa. 0 IN PTR example.com.".toList⟩] := by
  refine ⟨by decide, by decide, by decide⟩

/-! ## C4 and C5: removal -/

/-- The `DELETE` of `dropRecord` removes exactly the rows the line selects. -/
theorem SqliteResolver.mem_drop (db : SqliteDB) (r : DynamicRecord) (row : Row) :
    row ∈ (SqliteResolver.drop db r).rows ↔ row ∈ db.rows ∧ ¬ SqliteResolver.selects r row := by
  unfold SqliteResolver.drop SqliteResolver.selects
  cases hid : r.ID with
  | none =>
    simp only [SqliteResolver.dropWithoutID, List.mem_filter, Bool.not_eq_true',
      Bool.and_eq_false_imp, decide_eq_true_eq, decide_eq_false_iff_not]
    constructor
    · rintro ⟨h1, h2⟩
      exact ⟨h1, fun ⟨ht, hr, _⟩ => h2 ht hr⟩
    · rintro ⟨h1, h2⟩
      exact ⟨h1, fun ht hr => h2 ⟨ht, hr, fun id h => by cases h⟩⟩
  | some id =>
    simp only [SqliteResolver.dropWithID, List.mem_filter, Bool.not_eq_true',
      Bool.and_eq_false_imp, Bool.and_eq_true, decide_eq_true_eq, decide_eq_false_iff_not]
    constructor
    · rintro ⟨h1, h2⟩
      exact ⟨h1, fun ⟨ht, hr, hi⟩ => h2 ⟨hi id rfl, ht⟩ hr⟩
    · rintro ⟨h1, h2⟩
      exact ⟨h1, fun ⟨hi, ht⟩ hr => h2 ⟨ht, hr, fun id' h => by cases h; exact hi⟩⟩

/-- The first part of the etcd `dropRecord` deletes nothing, or one entry the line selects. -/
theorem EtcdResolver.dropSingle_selects (newRR : RRReader) (now : Nat) (pre : Text)
    (st : EtcdStore) (r : DynamicRecord) :
    (EtcdResolver.dropSingle newRR now pre st r).1 = st
      ∨ ∃ x ∈ st, (EtcdResolver.dropSingle newRR now pre st r).1 = EtcdResolver.delete x.Key st
          ∧ EtcdResolver.selects newRR now pre r x := by
  unfold EtcdResolver.dropSingle
  cases h : EtcdResolver.findKey newRR now pre st r true with
  | panic => exact Or.inl rfl
  | error e => exact Or.inl rfl
  | ok p =>
    obtain ⟨r', key⟩ := p
    simp only
    by_cases hkey : key = []
    · rw [if_neg (not_not.mpr hkey)]
      exact Or.inl rfl
    · rw [if_pos hkey]
      unfold EtcdResolver.findKey at h
      rcases EtcdResolver.findLoop_ok newRR now r true _ r' key h with ⟨h0, _⟩
        | ⟨x, hx, hk, vr, rec, id, hu, hrec, hs, _, _⟩
      · exact absurd h0 hkey
      · simp only [EtcdResolver.getPrefix, List.mem_filter] at hx
        simp only [if_true] at hs
        exact Or.inr ⟨x, hx.1, by rw [hk], hx.2, vr, rec, hu, hrec, hs⟩

/-- C4 as amended: a disabled line removes a stored record only when the record's text with
its TTL is that of the line and the ID, when the line gives one, fits.  In the SQLite
resolver the rows removed are exactly those with the line's TTL and masked text, and with the
line's ID when it gives one, then for an address line the rows so selected by the reverse
record; in the etcd resolver each part of `dropRecord` deletes at most one entry, whose key
starts with the key of the line and whose value reads as a record with the same text, TTL
included. -/
theorem drop_selects_with_ttl (db : SqliteDB) (r : DynamicRecord) (newRR : RRReader) (now : Nat)
    (pre : Text) (st : EtcdStore) :
    (∀ row, row ∈ (SqliteResolver.drop db r).rows ↔
        row ∈ db.rows ∧ ¬ SqliteResolver.selects r row)
      ∧ (∀ db', SqliteResolver.dropRecord db r = .ok db' →
          ∀ row, row ∈ db'.rows ↔
            row ∈ db.rows ∧ ¬ SqliteResolver.selects r row
              ∧ ∀ name ttl a reverse, r.Record = .Address name ttl a →
                  ReverseAddr a = some reverse →
                    ¬ SqliteResolver.selects (SqliteResolver.reverseRecord r reverse) row)
      ∧ ((EtcdResolver.dropSingle newRR now pre st r).1 = st
          ∨ ∃ x ∈ st,
              (EtcdResolver.dropSingle newRR now pre st r).1 = EtcdResolver.delete x.Key st
                ∧ EtcdResolver.selects newRR now pre r x) := by
  refine ⟨SqliteResolver.mem_drop db r, ?_, EtcdResolver.dropSingle_selects newRR now pre st r⟩
  intro db' h row
  unfold SqliteResolver.dropRecord at h
  split at h
  · rename_i name ttl a hr
    split at h
    · cases h
    · rename_i reverse hrev
      cases h
      rw [SqliteResolver.mem_drop, SqliteResolver.mem_drop]
      constructor
      · rintro ⟨⟨h1, h2⟩, h3⟩
        refine ⟨h1, h2, ?_⟩
        intro name' ttl' a' reverse' hr' hrev'
        rw [hr] at hr'
        cases hr'
        rw [hrev] at hrev'
        cases hrev'
        exact h3
      · rintro ⟨h1, h2, h3⟩
        exact ⟨⟨h1, h2⟩, h3 name ttl a reverse hr hrev⟩
  · rename_i hna
    cases h
    rw [SqliteResolver.mem_drop]
    constructor
    · rintro ⟨h1, h2⟩
      exact ⟨h1, h2, fun name ttl a reverse hr _ => absurd hr (hna name ttl a)⟩
    · rintro ⟨h1, h2, _⟩
      exact ⟨h1, h2⟩

/-- C4 refuted as stated: the record `example.com. 84 IN A 127.0.0.1` is stored under ID 1
(submitted with TTL 42, then with TTL 84).  The line `;example.com. 42 IN A 127.0.0.1 ; ID:1`
gives its ID and its masked text, yet removes nothing, in either resolver, because its TTL is
not the stored one; with TTL 84 the same line removes the record and its PTR. -/
theorem drop_with_other_ttl_keeps_record :
    (SqliteResolver.run [.SetRecords 1000 [sampleAddress], .SetRecords 1001 [sampleAddress84]]).rows
        = [⟨1, "example.com.".toList, "A".toList, 84, 0, "example.com. 0 IN A 127.0.0.1".toList⟩,
            ⟨2, "1.0.0.127.in-addr.arpa.".toList, "PTR".toList, 84, 0,
              "1.0.0.127.in-addr.arpa. 0 IN PTR example.com.".toList⟩]
      ∧ SqliteResolver.run [.SetRecords 1000 [sampleAddress], .SetRecords 1001 [sampleAddress84],
            .SetRecords 1002 [sampleRemoval1]]
          = SqliteResolver.run [.SetRecords 1000 [sampleAddress], .SetRecords 1001 [sampleAddress84]]
      ∧ (SqliteResolver.run [.SetRecords 1000 [sampleAddress], .SetRecords 1001 [sampleAddress84],
            .SetRecords 1002 [sampleRemoval84]]).rows = []
      ∧ EtcdResolver.run zoneLine "/landns".toList
            [.SetRecords 1000 [sampleAddress], .SetRecords 1001 [sampleAddress84],
              .SetRecords 1002 [sampleRemoval1]]
          = [⟨"/landns/lastID".toList, "2".toList, none⟩,
              ⟨"/landns/records/arpa/in-addr/127/0/0/1/2".toList,
                "1.0.0.127.in-addr.arpa. 84 IN PTR example.com.".toList, none⟩,
              ⟨"/landns/records/com/example/1".toList, "example.com. 84 IN A 127.0.0.1".toList,
                none⟩]
      ∧ EtcdResolver.run zoneLine "/landns".toList
            [.SetRecords 1000 [sampleAddress], .SetRecords 1001 [sampleAddress84],
              .SetRecords 1002 [sampleRemoval84]]
          = [⟨"/landns/lastID".toList, "2".toList, none⟩] := by
  refine ⟨by decide, by decide, by decide, by decide, by decide⟩

/-- The `DELETE` of `RemoveRecord` takes the rows with the identifier and no other row. -/
theorem SqliteResolver.removeRecord_rows (db : SqliteDB) (i : Int) :
    (SqliteResolver.RemoveRecord db i).1.rows = db.rows.filter (fun row => !(row.id = i)) := by
  unfold SqliteResolver.RemoveRecord
  split
  · rename_i h
    have h0 := List.eq_nil_of_length_eq_zero h
    simp only [List.filter_eq_nil_iff, decide_eq_true_eq] at h0
    symm
    rw [List.filter_eq_self]
    intro row hrow
    simp only [Bool.not_eq_true', decide_eq_false_iff_not]
    exact h0 row hrow
  · rfl

/-- The etcd `RemoveRecord` deletes at most the key of one record that has the identifier. -/
theorem EtcdResolver.removeRecord_store (newRR : RRReader) (now : Nat) (pre : Text)
    (st : EtcdStore) (i : Int) :
    (EtcdResolver.RemoveRecord newRR now pre st i).1 = EtcdResolver.prune now st
      ∨ ∃ r', r'.ID = some i ∧ (EtcdResolver.RemoveRecord newRR now pre st i).1
          = EtcdResolver.delete (EtcdResolver.getKey pre r') (EtcdResolver.prune now st) := by
  unfold EtcdResolver.RemoveRecord
  cases EtcdResolver.Records newRR now pre st with
  | panic => exact Or.inl rfl
  | error e => exact Or.inl rfl
  | ok rs =>
    simp only
    cases hf : rs.find? (fun r => r.ID = some i) with
    | none => exact Or.inl rfl
    | some r' =>
      have hp := List.find?_some hf
      simp only [decide_eq_true_eq] at hp
      exact Or.inr ⟨r', hp, rfl⟩

/-- C5 as amended: a disabled A or AAAA line in SetRecords removes, besides the address
record it selects, the stored PTR record of the reverse name with the line's TTL and the
line's name as target (SQLite: every such row, and no other row; etcd: `dropRecord` runs its
deletion once for the line and once for that PTR record).  `RemoveRecord(id)` removes the
record with that ID and nothing else (SQLite: exactly the rows with the ID; etcd: at most the
one key of a record with the ID), so a PTR synthesized for the address stays. -/
theorem remove_pairs_only_in_setRecords (db : SqliteDB) (r : DynamicRecord) (name : Domain)
    (ttl : Nat) (a : IP) (reverse : Text) (i : Int) (newRR : RRReader) (now : Nat) (pre : Text)
    (st : EtcdStore) (hr : r.Record = .Address name ttl a) (hrev : ReverseAddr a = some reverse) :
    (∃ db', SqliteResolver.dropRecord db r = .ok db'
        ∧ ∀ row, row ∈ db'.rows ↔
            row ∈ db.rows ∧ ¬ SqliteResolver.selects r row
              ∧ ¬ SqliteResolver.selects (SqliteResolver.reverseRecord r reverse) row)
      ∧ (SqliteResolver.RemoveRecord db i).1.rows = db.rows.filter (fun row => !(row.id = i))
      ∧ EtcdResolver.dropRecord newRR now pre st r
          = (match EtcdResolver.dropSingle newRR now pre st r with
              | (st', .ok ()) =>
                EtcdResolver.dropSingle newRR now pre st' (EtcdResolver.reverseRecord r reverse)
              | other => other)
      ∧ ((EtcdResolver.RemoveRecord newRR now pre st i).1 = EtcdResolver.prune now st
          ∨ ∃ r', r'.ID = some i ∧ (EtcdResolver.RemoveRecord newRR now pre st i).1
              = EtcdResolver.delete (EtcdResolver.getKey pre r') (EtcdResolver.prune now st)) := by
  refine ⟨⟨SqliteResolver.drop (SqliteResolver.drop db r) (SqliteResolver.reverseRecord r reverse),
      ?_, ?_⟩, SqliteResolver.removeRecord_rows db i, ?_,
    EtcdResolver.removeRecord_store newRR now pre st i⟩
  · unfold SqliteResolver.dropRecord
    rw [hr]
    simp only [hrev]
  · intro row
    rw [SqliteResolver.mem_drop, SqliteResolver.mem_drop, and_assoc]
  · unfold EtcdResolver.dropRecord
    rw [hr]
    simp only [hrev]

/-- C5 at the line `;example.com. 42 IN A 127.0.0.1 ; ID:1` and the identifier 1. -/
theorem remove_pairs_only_in_setRecords_witness :
    sampleRemoval1.Record = .Address "example.com.".toList 42 (v4InV6Prefix ++ [127, 0, 0, 1])
      ∧ ReverseAddr (v4InV6Prefix ++ [127, 0, 0, 1]) = some "1.0.0.127.in-addr.arpa.".toList
      ∧ (SqliteResolver.RemoveRecord
            (SqliteResolver.run [.SetRecords 1000 [sampleAddress]]) 1).1.rows
          = (SqliteResolver.run [.SetRecords 1000 [sampleAddress]]).rows.filter
              (fun row => !(row.id = 1)) :=
  ⟨by decide, by decide,
    (remove_pairs_only_in_setRecords (SqliteResolver.run [.SetRecords 1000 [sampleAddress]])
      sampleRemoval1 "example.com.".toList 42 (v4InV6Prefix ++ [127, 0, 0, 1])
      "1.0.0.127.in-addr.arpa.".toList 1 zoneLine 1000 "/landns".toList [] (by decide)
      (by decide)).2.1⟩

/-- C5 refuted as stated: after `example.com. 42 IN A 127.0.0.1` is stored under ID 1 with its
PTR under ID 2, `RemoveRecord(1)` leaves the PTR in either resolver, with no address record
for it; the disabled line through SetRecords removes both. -/
theorem removeRecord_leaves_reverse :
    (SqliteResolver.run [.SetRecords 1000 [sampleAddress], .RemoveRecord 1]).rows
        = [⟨2, "1.0.0.127.in-addr.arpa.".toList, "PTR".toList, 42, 0,
            "1.0.0.127.in-addr.arpa. 0 IN PTR example.com.".toList⟩]
      ∧ (SqliteResolver.run [.SetRecords 1000 [sampleAddress],
            .SetRecords 1001 [sampleRemoval1]]).rows = []
      ∧ EtcdResolver.run zoneLine "/landns".toList
            [.SetRecords 1000 [sampleAddress], .RemoveRecord 1001 1]
          = [⟨"/landns/lastID".toList, "2".toList, none⟩,
              ⟨"/landns/records/arpa/in-addr/127/0/0/1/2".toList,
                "1.0.0.127.in-addr.arpa. 42 IN PTR example.com.".toList, none⟩]
      ∧ EtcdResolver.run zoneLine "/landns".toList
            [.SetRecords 1000 [sampleAddress], .SetRecords 1001 [sampleRemoval1]]
          = [⟨"/landns/lastID".toList, "2".toList, none⟩] := by
  refine ⟨by decide, by decide, by decide, by decide⟩

/-! ## C2: the same submission twice -/

namespace SqliteResolver

theorem touch_record (now : Nat) (row : Row) (w : DynamicRecord) :
    (touch now row w).record = row.record := by
  unfold touch
  split <;> rfl

theorem touchAll_record (now : Nat) (ws : List DynamicRecord) (row : Row) :
    (touchAll now ws row).record = row.record := by
  unfold touchAll
  induction ws generalizing row with
  | nil => rfl
  | cons w ws ih => rw [List.foldl_cons, ih, touch_record]

theorem touchAll_append (now : Nat) (ws ws' : List DynamicRecord) (row : Row) :
    touchAll now (ws ++ ws') row = touchAll now ws' (touchAll now ws row) := by
  unfold touchAll
  rw [List.foldl_append]

/-- The statements of `insertRecord` for one record, by cases. -/
theorem upsert_eq (now : Nat) (db : SqliteDB) (w : DynamicRecord) :
    upsert now db w =
      if db.rows.any (fun row => row.record = w.Record.WithoutTTL) then
        .ok ⟨db.rows.map (fun row => touch now row w), db.seq⟩
      else if db.seq + 1 ≥ 2 ^ 63 then
        .error ⟨.ExternalError, some "constraint failed".toList, "failed to insert record".toList⟩
      else .ok ⟨db.rows.map (fun row => touch now row w) ++ [newRow now db w], db.seq + 1⟩ := by
  have hmap : (update db w.Record.GetTTL (expireOf now w) w.Record.WithoutTTL).1
      = ⟨db.rows.map (fun row => touch now row w), db.seq⟩ := rfl
  have hcount : (update db w.Record.GetTTL (expireOf now w) w.Record.WithoutTTL).2
      = (db.rows.filter (fun row => row.record = w.Record.WithoutTTL)).length := rfl
  have hany : (db.rows.map (fun row => touch now row w)).any
      (fun row => row.record = w.Record.WithoutTTL)
        = db.rows.any (fun row => row.record = w.Record.WithoutTTL) := by
    rw [List.any_map]
    congr 1
    funext row
    simp only [Function.comp, touch_record]
  unfold upsert
  simp only []
  rw [show (if w.Volatile = true then now + w.Record.GetTTL else 0) = expireOf now w from rfl]
  rw [hmap, hcount]
  by_cases hp : db.rows.any (fun row => row.record = w.Record.WithoutTTL) = true
  · rw [if_pos hp]
    obtain ⟨x, hx, hpx⟩ := List.any_eq_true.mp hp
    have hne : (db.rows.filter (fun row => row.record = w.Record.WithoutTTL)).length ≠ 0 := by
      intro h0
      have := List.eq_nil_of_length_eq_zero h0
      rw [List.filter_eq_nil_iff] at this
      exact this x hx hpx
    rw [if_neg hne]
  · rw [if_neg hp]
    have h0 : (db.rows.filter (fun row => row.record = w.Record.WithoutTTL)).length = 0 := by
      rw [List.length_eq_zero, List.filter_eq_nil_iff]
      intro x hx hpx
      exact hp (List.any_eq_true.mpr ⟨x, hx, hpx⟩)
    rw [if_pos h0]
    unfold ins
    simp only [hany]
    rw [if_neg hp]
    by_cases hs : db.seq + 1 ≥ 2 ^ 63
    · rw [if_pos hs, if_pos hs]
    · rw [if_neg hs, if_neg hs]
      rfl

theorem touchAll_of_ne (now : Nat) (ws : List DynamicRecord) (row : Row)
    (h : ∀ w ∈ ws, row.record ≠ w.Record.WithoutTTL) : touchAll now ws row = row := by
  unfold touchAll
  induction ws generalizing row with
  | nil => rfl
  | cons w ws ih =>
    have hw : touch now row w = row := by
      unfold touch
      rw [if_neg (h w (List.mem_cons_self w ws))]
    rw [List.foldl_cons, hw]
    exact ih row (fun w' hw' => h w' (List.mem_cons_of_mem w hw'))

theorem touch_newRow (now : Nat) (db : SqliteDB) (w : DynamicRecord) :
    touch now (newRow now db w) w = newRow now db w := by
  unfold touch
  rw [if_pos (show (newRow now db w).record = w.Record.WithoutTTL from rfl)]
  rfl

theorem grows_refl (now : Nat) (db : SqliteDB) : Grows now [] db db := by
  refine ⟨[], ?_, ?_, ?_⟩
  · rw [List.append_nil]
    exact (List.map_id db.rows).symm
  · intro x hx
    cases hx
  · intro w hw
    cases hw

theorem grows_trans {now : Nat} {ws1 ws2 : List DynamicRecord} {d0 d1 d2 : SqliteDB}
    (h1 : Grows now ws1 d0 d1) (h2 : Grows now ws2 d1 d2) : Grows now (ws1 ++ ws2) d0 d2 := by
  obtain ⟨e1, hr1, hf1, hp1⟩ := h1
  obtain ⟨e2, hr2, hf2, hp2⟩ := h2
  have hfix : ∀ x ∈ e2, touchAll now ws1 x = x := by
    intro x hx
    apply touchAll_of_ne
    intro w hw hxw
    obtain ⟨y, hy, hyw⟩ := hp1 w hw
    exact hf2 x hx y hy (hxw.trans hyw.symm)
  refine ⟨e1 ++ e2, ?_, ?_, ?_⟩
  · rw [hr2, hr1, ← List.append_assoc, List.map_append, List.map_append _ (d0.rows ++ e1) e2,
      List.map_map]
    congr 1
    · apply List.map_congr_left
      intro x _
      exact (touchAll_append now ws1 ws2 x).symm
    · apply List.map_congr_left
      intro x hx
      rw [touchAll_append, hfix x hx]
  · intro x hx y hy
    rcases List.mem_append.mp hx with hx | hx
    · exact hf1 x hx y hy
    · have hy1 : touchAll now ws1 y ∈ d1.rows := by
        rw [hr1]
        exact List.mem_map_of_mem _ (List.mem_append_left _ hy)
      have := hf2 x hx _ hy1
      rwa [touchAll_record] at this
  · intro w hw
    rcases List.mem_append.mp hw with hw | hw
    · obtain ⟨y, hy, hyw⟩ := hp1 w hw
      refine ⟨touchAll now ws2 y, ?_, ?_⟩
      · rw [hr2]
        exact List.mem_map_of_mem _ (List.mem_append_left _ hy)
      · rw [touchAll_record, hyw]
    · exact hp2 w hw

theorem upsert_grows (now : Nat) (db db' : SqliteDB) (w : DynamicRecord)
    (h : upsert now db w = .ok db') : Grows now [w] db db' := by
  rw [upsert_eq] at h
  have hfun : (fun row => touch now row w) = touchAll now [w] := rfl
  by_cases hp : db.rows.any (fun row => row.record = w.Record.WithoutTTL) = true
  · rw [if_pos hp] at h
    cases h
    obtain ⟨x, hx, hpx⟩ := List.any_eq_true.mp hp
    refine ⟨[], ?_, ?_, ?_⟩
    · rw [List.append_nil, hfun]
    · intro y hy
      cases hy
    · intro w' hw'
      rw [List.mem_singleton] at hw'
      subst hw'
      refine ⟨touch now x w', List.mem_map_of_mem _ hx, ?_⟩
      rw [touch_record]
      exact of_decide_eq_true hpx
  · rw [if_neg hp] at h
    by_cases hs : db.seq + 1 ≥ 2 ^ 63
    · rw [if_pos hs] at h
      cases h
    · rw [if_neg hs] at h
      cases h
      refine ⟨[newRow now db w], ?_, ?_, ?_⟩
      · rw [List.map_append, ← hfun, List.map_singleton, touch_newRow]
      · intro x hx y hy hxy
        rw [List.mem_singleton] at hx
        subst hx
        exact hp (List.any_eq_true.mpr ⟨y, hy, decide_eq_true hxy.symm⟩)
      · intro w' hw'
        rw [List.mem_singleton] at hw'
        subst hw'
        exact ⟨newRow now db w', List.mem_append_right _ (List.mem_singleton_self _), rfl⟩

theorem insertRecord_grows (now : Nat) (db db' : SqliteDB) (r : DynamicRecord)
    (h : insertRecord now db r = .ok db') : Grows now (writesOf r) db db' ∧ reversible r := by
  unfold insertRecord at h
  cases hu : upsert now db r with
  | error e =>
    rw [hu] at h
    cases h
  | ok d1 =>
    rw [hu] at h
    have g1 := upsert_grows now db d1 r hu
    have hplain : (∀ name ttl a, r.Record ≠ .Address name ttl a) → d1 = db' →
        Grows now (writesOf r) db db' ∧ reversible r := by
      intro hna hd
      subst hd
      have hw : writesOf r = [r] := by
        unfold writesOf
        split
        · rename_i name ttl a heq
          exact absurd heq (hna name ttl a)
        · rfl
      rw [hw]
      exact ⟨g1, fun name ttl a heq => absurd heq (hna name ttl a)⟩
    cases hr : r.Record with
    | Address name ttl a =>
      rw [hr] at h
      cases hrev : ReverseAddr a with
      | none =>
        simp only [hrev] at h
        cases h
      | some reverse =>
        simp only [hrev] at h
        have hw : writesOf r = [r] ++ [reverseRecord r reverse] := by
          unfold writesOf
          rw [hr]
          simp only [hrev, List.singleton_append]
        rw [hw]
        refine ⟨grows_trans g1 (upsert_grows now d1 db' _ h), ?_⟩
        intro name' ttl' a' heq
        rw [hr] at heq
        cases heq
        rw [hrev]
        exact Option.some_ne_none reverse
    | Ns _ _ =>
      rw [hr] at h
      cases h
      exact hplain (fun _ _ _ heq => by rw [hr] at heq; cases heq) rfl
    | Cname _ _ _ =>
      rw [hr] at h
      cases h
      exact hplain (fun _ _ _ heq => by rw [hr] at heq; cases heq) rfl
    | Ptr _ _ _ =>
      rw [hr] at h
      cases h
      exact hplain (fun _ _ _ heq => by rw [hr] at heq; cases heq) rfl
    | Mx _ _ _ _ =>
      rw [hr] at h
      cases h
      exact hplain (fun _ _ _ heq => by rw [hr] at heq; cases heq) rfl
    | Txt _ _ _ =>
      rw [hr] at h
      cases h
      exact hplain (fun _ _ _ heq => by rw [hr] at heq; cases heq) rfl
    | Srv _ _ _ _ _ _ =>
      rw [hr] at h
      cases h
      exact hplain (fun _ _ _ heq => by rw [hr] at heq; cases heq) rfl

theorem applyRecords_grows (now : Nat) (rs : DynamicRecordSet) (db db' : SqliteDB)
    (hen : ∀ r ∈ rs, r.Disabled = false) (h : applyRecords now rs db = .ok db') :
    Grows now (writes rs) db db' ∧ ∀ r ∈ rs, reversible r := by
  induction rs generalizing db with
  | nil =>
    cases h
    exact ⟨grows_refl now _, fun r hr => by cases hr⟩
  | cons r rs ih =>
    unfold applyRecords at h
    rw [hen r (List.mem_cons_self r rs)] at h
    simp only [Bool.false_eq_true, if_false] at h
    cases hi : insertRecord now db r with
    | error e =>
      rw [hi] at h
      cases h
    | ok d1 =>
      rw [hi] at h
      obtain ⟨g1, hrev1⟩ := insertRecord_grows now db d1 r hi
      obtain ⟨g2, hrev2⟩ := ih d1 (fun r' hr' => hen r' (List.mem_cons_of_mem r hr')) h
      refine ⟨grows_trans g1 g2, ?_⟩
      intro r' hr'
      rcases List.mem_cons.mp hr' with hr' | hr'
      · rw [hr']
        exact hrev1
      · exact hrev2 r' hr'

theorem touch_fixed (now : Nat) (row : Row) (w : DynamicRecord) :
    (touch now row w).id = row.id ∧ (touch now row w).name = row.name
      ∧ (touch now row w).qtype = row.qtype := by
  unfold touch
  split
  · exact ⟨rfl, rfl, rfl⟩
  · exact ⟨rfl, rfl, rfl⟩

theorem touchAll_fixed (now : Nat) (ws : List DynamicRecord) (row : Row) :
    (touchAll now ws row).id = row.id ∧ (touchAll now ws row).name = row.name
      ∧ (touchAll now ws row).qtype = row.qtype := by
  unfold touchAll
  induction ws generalizing row with
  | nil => exact ⟨rfl, rfl, rfl⟩
  | cons w ws ih =>
    rw [List.foldl_cons]
    obtain ⟨h1, h2, h3⟩ := ih (touch now row w)
    obtain ⟨k1, k2, k3⟩ := touch_fixed now row w
    exact ⟨h1.trans k1, h2.trans k2, h3.trans k3⟩

/-- The updates of a second pass leave a row that went through the first pass as it is, but
for its expiry instant when the clock has moved. -/
theorem touchAll_twice (now now' : Nat) (ws : List DynamicRecord) :
    ∀ row : Row,
      (touchAll now' ws (touchAll now ws row)).stored = (touchAll now ws row).stored
        ∧ (now' = now →
            (touchAll now' ws (touchAll now ws row)).expire = (touchAll now ws row).expire) := by
  induction ws using List.reverseRecOn with
  | nil => exact fun row => ⟨rfl, fun _ => rfl⟩
  | append_singleton ws w ih =>
    intro row
    have e1 : touchAll now (ws ++ [w]) row = touch now (touchAll now ws row) w :=
      touchAll_append now ws [w] row
    have e2 : ∀ x, touchAll now' (ws ++ [w]) x = touch now' (touchAll now' ws x) w :=
      fun x => touchAll_append now' ws [w] x
    rw [e1, e2]
    generalize hs : touchAll now ws row = s
    have ihs := ih row
    rw [hs] at ihs
    by_cases hrec : s.record = w.Record.WithoutTTL
    · have t1 : touch now s w
          = { s with ttl := w.Record.GetTTL, expire := expireOf now w } := by
        unfold touch
        rw [if_pos hrec]
      rw [t1]
      generalize ht : touchAll now' ws
        { s with ttl := w.Record.GetTTL, expire := expireOf now w } = t
      have hfix := touchAll_fixed now' ws
        { s with ttl := w.Record.GetTTL, expire := expireOf now w }
      have hr := touchAll_record now' ws
        { s with ttl := w.Record.GetTTL, expire := expireOf now w }
      rw [ht] at hfix hr
      have hrec' : t.record = w.Record.WithoutTTL := hr.trans hrec
      have t2 : touch now' t w
          = { t with ttl := w.Record.GetTTL, expire := expireOf now' w } := by
        unfold touch
        rw [if_pos hrec']
      rw [t2]
      refine ⟨?_, ?_⟩
      · simp only [Row.stored, hfix.1, hfix.2.1, hfix.2.2, hr]
      · intro hn
        rw [hn]
    · have t1 : touch now s w = s := by
        unfold touch
        rw [if_neg hrec]
      rw [t1]
      have hr : (touchAll now' ws s).record = s.record := touchAll_record now' ws s
      have t2 : touch now' (touchAll now' ws s) w = touchAll now' ws s := by
        unfold touch
        rw [if_neg (by rw [hr]; exact hrec)]
      rw [t2]
      exact ihs

theorem present_map {ws : List DynamicRecord} {db : SqliteDB} (h : Present ws db) (now : Nat)
    (ws' : List DynamicRecord) (s : Int) :
    Present ws ⟨db.rows.map (touchAll now ws'), s⟩ := by
  intro w hw
  obtain ⟨x, hx, hxw⟩ := h w hw
  exact ⟨touchAll now ws' x, List.mem_map_of_mem _ hx, by rw [touchAll_record, hxw]⟩

theorem upsert_present (now : Nat) (db : SqliteDB) (w : DynamicRecord) (h : Present [w] db) :
    upsert now db w = .ok ⟨db.rows.map (touchAll now [w]), db.seq⟩ := by
  rw [upsert_eq]
  obtain ⟨x, hx, hxw⟩ := h w (List.mem_singleton_self w)
  rw [if_pos (List.any_eq_true.mpr ⟨x, hx, decide_eq_true hxw⟩)]
  rfl

theorem insertRecord_present (now : Nat) (db : SqliteDB) (r : DynamicRecord)
    (hrev : reversible r) (h : Present (writesOf r) db) :
    insertRecord now db r = .ok ⟨db.rows.map (touchAll now (writesOf r)), db.seq⟩ := by
  have hr0 : r ∈ writesOf r := by
    unfold writesOf
    split
    · split
      · exact List.mem_singleton_self r
      · exact List.mem_cons_self r _
    · exact List.mem_singleton_self r
  have h1 : Present [r] db := by
    intro w hw
    rw [List.mem_singleton] at hw
    rw [hw]
    exact h r hr0
  unfold insertRecord
  rw [upsert_present now db r h1]
  simp only
  split
  · rename_i name ttl a hr
    split
    · rename_i hnone
      exact absurd hnone (hrev name ttl a hr)
    · rename_i reverse hsome
      have hw : writesOf r = [r] ++ [reverseRecord r reverse] := by
        unfold writesOf
        rw [hr]
        simp only [hsome, List.singleton_append]
      rw [hw] at h ⊢
      have h2 : Present [reverseRecord r reverse] db := by
        intro w hw'
        exact h w (List.mem_append_right _ hw')
      rw [upsert_present now _ _ (present_map h2 now [r] db.seq)]
      simp only [List.map_map]
      congr 2
  · rename_i hna
    have hw : writesOf r = [r] := by
      unfold writesOf
      split
      · rename_i name ttl a heq
        exact absurd heq (hna name ttl a)
      · rfl
    rw [hw]

theorem applyRecords_present (now : Nat) (rs : DynamicRecordSet) (db : SqliteDB)
    (hen : ∀ r ∈ rs, r.Disabled = false) (hrev : ∀ r ∈ rs, reversible r)
    (h : Present (writes rs) db) :
    applyRecords now rs db = .ok ⟨db.rows.map (touchAll now (writes rs)), db.seq⟩ := by
  induction rs generalizing db with
  | nil =>
    show Except.ok db = _
    have : db.rows.map (touchAll now []) = db.rows := List.map_id db.rows
    unfold writes
    rw [this]
  | cons r rs ih =>
    unfold applyRecords
    rw [hen r (List.mem_cons_self r rs)]
    simp only [Bool.false_eq_true, if_false]
    have h1 : Present (writesOf r) db := fun w hw => h w (List.mem_append_left _ hw)
    have h2 : Present (writes rs) db := fun w hw => h w (List.mem_append_right _ hw)
    rw [insertRecord_present now db r (hrev r (List.mem_cons_self r rs)) h1]
    simp only
    rw [ih _ (fun r' hr' => hen r' (List.mem_cons_of_mem r hr'))
      (fun r' hr' => hrev r' (List.mem_cons_of_mem r hr')) (present_map h2 now (writesOf r) db.seq)]
    simp only [List.map_map]
    congr 2
    apply List.map_congr_left
    intro x _
    exact (touchAll_append now (writesOf r) (writes rs) x).symm

theorem any_texts (db : SqliteDB) (t : Text) :
    db.rows.any (fun row => row.record = t) = (texts db).any (fun x => x = t) := by
  unfold texts
  induction db.rows with
  | nil => rfl
  | cons x xs ih => simp only [List.map_cons, List.any_cons, ih]

theorem texts_touch (now : Nat) (w : DynamicRecord) (rows : List Row) :
    (rows.map (fun row => touch now row w)).map (fun row => row.record)
      = rows.map (fun row => row.record) := by
  rw [List.map_map]
  apply List.map_congr_left
  intro x _
  exact touch_record now x w

theorem insertRecord_plain (now : Nat) (db : SqliteDB) (r : DynamicRecord)
    (hna : ∀ name ttl a, r.Record ≠ .Address name ttl a) :
    insertRecord now db r = upsert now db r := by
  unfold insertRecord
  cases upsert now db r with
  | error e => rfl
  | ok d1 =>
    show (match r.Record with
      | .Address _ _ a =>
        match ReverseAddr a with
        | none => Except.error (reverseError a)
        | some reverse => upsert now d1 (reverseRecord r reverse)
      | _ => Except.ok d1) = Except.ok d1
    split
    · rename_i name ttl a heq
      exact absurd heq (hna name ttl a)
    · rfl

theorem insertRecord_address (now : Nat) (db : SqliteDB) (r : DynamicRecord) (name : Domain)
    (ttl : Nat) (a : IP) (hr : r.Record = .Address name ttl a) :
    insertRecord now db r =
      match upsert now db r with
      | .error e => .error e
      | .ok d1 =>
        match ReverseAddr a with
        | none => .error (reverseError a)
        | some reverse => upsert now d1 (reverseRecord r reverse) := by
  unfold insertRecord
  rw [hr]

theorem address_or_plain (r : DynamicRecord) :
    (∃ name ttl a, r.Record = .Address name ttl a)
      ∨ ∀ name ttl a, r.Record ≠ .Address name ttl a := by
  cases h : r.Record with
  | Address name ttl a => exact Or.inl ⟨name, ttl, a, rfl⟩
  | Ns _ _ => exact Or.inr (fun _ _ _ heq => by cases heq)
  | Cname _ _ _ => exact Or.inr (fun _ _ _ heq => by cases heq)
  | Ptr _ _ _ => exact Or.inr (fun _ _ _ heq => by cases heq)
  | Mx _ _ _ _ => exact Or.inr (fun _ _ _ heq => by cases heq)
  | Txt _ _ _ => exact Or.inr (fun _ _ _ heq => by cases heq)
  | Srv _ _ _ _ _ _ => exact Or.inr (fun _ _ _ heq => by cases heq)

/-- Whether the statements for one record succeed, the texts they leave and the counter they
leave depend on the texts and the counter only, not on the clock. -/
theorem upsert_sim (now now' : Nat) (d d' : SqliteDB) (w : DynamicRecord)
    (ht : texts d = texts d') (hs : d.seq = d'.seq) (d1 : SqliteDB)
    (h : upsert now d w = .ok d1) :
    ∃ d1', upsert now' d' w = .ok d1' ∧ texts d1 = texts d1' ∧ d1.seq = d1'.seq := by
  have hany : d'.rows.any (fun row => row.record = w.Record.WithoutTTL)
      = d.rows.any (fun row => row.record = w.Record.WithoutTTL) := by
    rw [any_texts, any_texts, ht]
  have ht' : d.rows.map (fun row => row.record) = d'.rows.map (fun row => row.record) := ht
  rw [upsert_eq] at h
  rw [upsert_eq, hany, ← hs]
  by_cases hp : d.rows.any (fun row => row.record = w.Record.WithoutTTL) = true
  · rw [if_pos hp] at h ⊢
    cases h
    refine ⟨_, rfl, ?_, rfl⟩
    show (d.rows.map (fun row => touch now row w)).map (fun row => row.record)
      = (d'.rows.map (fun row => touch now' row w)).map (fun row => row.record)
    rw [texts_touch, texts_touch, ht']
  · rw [if_neg hp] at h ⊢
    by_cases hsq : d.seq + 1 ≥ 2 ^ 63
    · rw [if_pos hsq] at h
      cases h
    · rw [if_neg hsq] at h ⊢
      cases h
      refine ⟨_, rfl, ?_, rfl⟩
      show (d.rows.map (fun row => touch now row w) ++ [newRow now d w]).map
          (fun row => row.record)
        = (d'.rows.map (fun row => touch now' row w) ++ [newRow now' d' w]).map
          (fun row => row.record)
      rw [List.map_append, List.map_append, texts_touch, texts_touch, ht']
      rfl

theorem insertRecord_sim (now now' : Nat) (d d' : SqliteDB) (r : DynamicRecord)
    (ht : texts d = texts d') (hs : d.seq = d'.seq) (d1 : SqliteDB)
    (h : insertRecord now d r = .ok d1) :
    ∃ d1', insertRecord now' d' r = .ok d1' ∧ texts d1 = texts d1' ∧ d1.seq = d1'.seq := by
  rcases address_or_plain r with ⟨name, ttl, a, hr⟩ | hna
  · rw [insertRecord_address now d r name ttl a hr] at h
    rw [insertRecord_address now' d' r name ttl a hr]
    cases hu : upsert now d r with
    | error e =>
      rw [hu] at h
      cases h
    | ok d2 =>
      rw [hu] at h
      obtain ⟨d2', hu', ht2, hs2⟩ := upsert_sim now now' d d' r ht hs d2 hu
      rw [hu']
      cases hrev : ReverseAddr a with
      | none =>
        simp only [hrev] at h
        cases h
      | some reverse =>
        simp only [hrev] at h ⊢
        exact upsert_sim now now' d2 d2' _ ht2 hs2 d1 h
  · rw [insertRecord_plain now d r hna] at h
    rw [insertRecord_plain now' d' r hna]
    exact upsert_sim now now' d d' r ht hs d1 h

theorem applyRecords_sim (now now' : Nat) (rs : DynamicRecordSet)
    (hen : ∀ r ∈ rs, r.Disabled = false) (d d' : SqliteDB)
    (ht : texts d = texts d') (hs : d.seq = d'.seq) (d1 : SqliteDB)
    (h : applyRecords now rs d = .ok d1) :
    ∃ d1', applyRecords now' rs d' = .ok d1' := by
  induction rs generalizing d d' with
  | nil => exact ⟨d', rfl⟩
  | cons r rs ih =>
    unfold applyRecords at h ⊢
    rw [hen r (List.mem_cons_self r rs)] at h ⊢
    simp only [Bool.false_eq_true, if_false] at h ⊢
    cases hi : insertRecord now d r with
    | error e =>
      rw [hi] at h
      cases h
    | ok d2 =>
      rw [hi] at h
      obtain ⟨d2', hi', ht2, hs2⟩ := insertRecord_sim now now' d d' r ht hs d2 hi
      rw [hi']
      exact ih (fun r' hr' => hen r' (List.mem_cons_of_mem r hr')) d2 d2' ht2 hs2 h

/-- The second of two equal submissions of enabled records, after the first succeeded. -/
theorem applyRecords_twice (now now' : Nat) (rs : DynamicRecordSet) (db d1 : SqliteDB)
    (hen : ∀ r ∈ rs, r.Disabled = false) (h : applyRecords now rs db = .ok d1) :
    ∃ d2, applyRecords now' rs d1 = .ok d2 ∧ d2.rows.map Row.stored = d1.rows.map Row.stored
      ∧ d2.seq = d1.seq ∧ (now' = now → d2 = d1) := by
  obtain ⟨⟨extra, hrows, _, hpres⟩, hrev⟩ := applyRecords_grows now rs db d1 hen h
  refine ⟨_, applyRecords_present now' rs d1 hen hrev hpres, ?_, rfl, ?_⟩
  · show (d1.rows.map (touchAll now' (writes rs))).map Row.stored = d1.rows.map Row.stored
    rw [hrows, List.map_map, List.map_map, List.map_map]
    apply List.map_congr_left
    intro x _
    exact (touchAll_twice now now' (writes rs) x).1
  · intro hn
    have : d1.rows.map (touchAll now' (writes rs)) = d1.rows := by
      rw [hrows, List.map_map]
      apply List.map_congr_left
      intro x _
      have h2 := touchAll_twice now now' (writes rs) x
      have hst := h2.1
      have hex := h2.2 hn
      simp only [Function.comp]
      generalize touchAll now' (writes rs) (touchAll now (writes rs) x) = a at hst hex
      generalize touchAll now (writes rs) x = b at hst hex
      cases a
      cases b
      simp only [Row.stored, Prod.mk.injEq] at hst
      simp only at hex
      simp only [Row.mk.injEq]
      exact ⟨hst.1, hst.2.1, hst.2.2.1, hst.2.2.2.1, hex, hst.2.2.2.2⟩
    rw [this]

end SqliteResolver

/-- The SQLite resolver on a set S of enabled records, whatever IDs its lines carry: for every
database, SetRecords(S) applied a second time leaves the stored records with their IDs as
the first application left them, expiry instants aside (and those too when the clock has not
moved), leaves the ID counter where it was, so allocates no ID, and returns no error when the
first returned none. -/
theorem setRecords_twice_enabled (now now' : Nat) (db : SqliteDB) (S : DynamicRecordSet)
    (hen : ∀ r ∈ S, r.Disabled = false) :
    (SqliteResolver.SetRecords now' (SqliteResolver.SetRecords now db S).1 S).1.rows.map
          Row.stored
        = (SqliteResolver.SetRecords now db S).1.rows.map Row.stored
      ∧ (SqliteResolver.SetRecords now' (SqliteResolver.SetRecords now db S).1 S).1.seq
          = (SqliteResolver.SetRecords now db S).1.seq
      ∧ ((SqliteResolver.SetRecords now db S).2 = none →
          (SqliteResolver.SetRecords now' (SqliteResolver.SetRecords now db S).1 S).2 = none)
      ∧ (now' = now →
          (SqliteResolver.SetRecords now' (SqliteResolver.SetRecords now db S).1 S).1
            = (SqliteResolver.SetRecords now db S).1) := by
  cases h1 : SqliteResolver.applyRecords now S db with
  | error e =>
    have hfirst : SqliteResolver.SetRecords now db S = (db, some e) := by
      unfold SqliteResolver.SetRecords
      rw [h1]
    rw [hfirst]
    cases h2 : SqliteResolver.applyRecords now' S db with
    | error e' =>
      have hsecond : SqliteResolver.SetRecords now' db S = (db, some e') := by
        unfold SqliteResolver.SetRecords
        rw [h2]
      rw [hsecond]
      exact ⟨rfl, rfl, fun h => (by cases h), fun _ => rfl⟩
    | ok d2 =>
      obtain ⟨d1, hd1⟩ := SqliteResolver.applyRecords_sim now' now S hen db db rfl rfl d2 h2
      rw [h1] at hd1
      cases hd1
  | ok d1 =>
    have hfirst : SqliteResolver.SetRecords now db S = (d1, none) := by
      unfold SqliteResolver.SetRecords
      rw [h1]
    rw [hfirst]
    obtain ⟨d2, h2, hst, hseq, hsame⟩ := SqliteResolver.applyRecords_twice now now' S db d1 hen h1
    have hsecond : SqliteResolver.SetRecords now' d1 S = (d2, none) := by
      unfold SqliteResolver.SetRecords
      rw [h2]
    rw [hsecond]
    exact ⟨hst, hseq, fun _ => rfl, hsame⟩

/-- The SQLite resolver at the submission `example.com. 100 IN A 127.0.0.1 ; Volatile`, made
at 1000 and at 1001 on a new database. -/
theorem setRecords_twice_enabled_witness :
    (∀ r ∈ [volatileAddress], r.Disabled = false)
      ∧ (SqliteResolver.SetRecords 1001
            (SqliteResolver.SetRecords 1000 SqliteResolver.empty [volatileAddress]).1
            [volatileAddress]).1.rows.map Row.stored
          = (SqliteResolver.SetRecords 1000 SqliteResolver.empty [volatileAddress]).1.rows.map
              Row.stored :=
  ⟨by decide,
    (setRecords_twice_enabled 1000 1001 SqliteResolver.empty [volatileAddress] (by decide)).1⟩

/-- A set that removes a record and then stores it, `;example.com. 42 IN A 127.0.0.1` followed
by `example.com. 42 IN A 127.0.0.1`: the lines are handled in order, so the second application
removes what the first stored and stores it again, under the new IDs 3 and 4 in place of 1
and 2, in either resolver. -/
theorem setRecords_twice_allocates :
    (SqliteResolver.SetRecords 1000 SqliteResolver.empty [sampleRemoval, sampleAddress]).1
        = ⟨[⟨1, "example.com.".toList, "A".toList, 42, 0, "example.com. 0 IN A 127.0.0.1".toList⟩,
            ⟨2, "1.0.0.127.in-addr.arpa.".toList, "PTR".toList, 42, 0,
              "1.0.0.127.in-addr.arpa. 0 IN PTR example.com.".toList⟩], 2⟩
      ∧ (SqliteResolver.SetRecords 1001
            (SqliteResolver.SetRecords 1000 SqliteResolver.empty [sampleRemoval, sampleAddress]).1
            [sampleRemoval, sampleAddress]).1
          = ⟨[⟨3, "example.com.".toList, "A".toList, 42, 0, "example.com. 0 IN A 127.0.0.1".toList⟩,
              ⟨4, "1.0.0.127.in-addr.arpa.".toList, "PTR".toList, 42, 0,
                "1.0.0.127.in-addr.arpa. 0 IN PTR example.com.".toList⟩], 4⟩
      ∧ (EtcdResolver.SetRecords zoneLine 1000 "/landns".toList [] [sampleRemoval, sampleAddress]).1
          = [⟨"/landns/lastID".toList, "2".toList, none⟩,
              ⟨"/landns/records/arpa/in-addr/127/0/0/1/2".toList,
                "1.0.0.127.in-addr.arpa. 42 IN PTR example.com.".toList, none⟩,
              ⟨"/landns/records/com/example/1".toList, "example.com. 42 IN A 127.0.0.1".toList,
                none⟩]
      ∧ (EtcdResolver.SetRecords zoneLine 1001 "/landns".toList
            (EtcdResolver.SetRecords zoneLine 1000 "/landns".toList []
              [sampleRemoval, sampleAddress]).1 [sampleRemoval, sampleAddress]).1
          = [⟨"/landns/lastID".toList, "4".toList, none⟩,
              ⟨"/landns/records/arpa/in-addr/127/0/0/1/4".toList,
                "1.0.0.127.in-addr.arpa. 42 IN PTR example.com.".toList, none⟩,
              ⟨"/landns/records/com/example/3".toList, "example.com. 42 IN A 127.0.0.1".toList,
                none⟩] := by
  refine ⟨by decide, by decide, by decide, by decide⟩

/-- C2 in the code: the etcd resolver looks an enabled record up under the key that ends in
the ID of its line (`findKey` on `getKey`), so the line
`example.com. 42 IN A 127.0.0.1 ; ID:5`, whose ID the store does not hold, is not found where
the first application stored it, under the ID 1 that `makeKey` gave it.  The second
application of the same set, at the same instant, allocates the ID 3 and stores the record
once more: `Records` then lists it twice, under the IDs 1 and 3.  The SQLite resolver, which
looks the record up by its text, leaves its rows and its ID counter as they were on the same
set; so does the etcd resolver on the same line without the ID.  In every store, an enabled
line with an ID under which the store holds no entry of its name is given a new ID, whether
or not the record is stored under another; the SQLite resolver, for every database and every
set of enabled lines, whatever their IDs, leaves the stored records, their IDs and its ID
counter as the first application left them. -/
theorem etcd_setRecords_twice_duplicates :
    EtcdResolver.SetRecords zoneLine 1000 "/landns".toList [] [sampleAddress5]
        = ([⟨"/landns/lastID".toList, "2".toList, none⟩,
              ⟨"/landns/records/arpa/in-addr/127/0/0/1/2".toList,
                "1.0.0.127.in-addr.arpa. 42 IN PTR example.com.".toList, none⟩,
              ⟨"/landns/records/com/example/1".toList, "example.com. 42 IN A 127.0.0.1".toList,
                none⟩], .ok ())
      ∧ EtcdResolver.SetRecords zoneLine 1000 "/landns".toList
            (EtcdResolver.SetRecords zoneLine 1000 "/landns".toList [] [sampleAddress5]).1
            [sampleAddress5]
          = ([⟨"/landns/lastID".toList, "3".toList, none⟩,
              ⟨"/landns/records/arpa/in-addr/127/0/0/1/2".toList,
                "1.0.0.127.in-addr.arpa. 42 IN PTR example.com.".toList, none⟩,
              ⟨"/landns/records/com/example/1".toList, "example.com. 42 IN A 127.0.0.1".toList,
                none⟩,
              ⟨"/landns/records/com/example/3".toList, "example.com. 42 IN A 127.0.0.1".toList,
                none⟩], .ok ())
      ∧ EtcdResolver.Records zoneLine 1000 "/landns".toList
            (EtcdResolver.SetRecords zoneLine 1000 "/landns".toList [] [sampleAddress5]).1
          = .ok [⟨.Ptr "1.0.0.127.in-addr.arpa.".toList 42 "example.com.".toList, some 2, false,
                  false⟩,
              ⟨.Address "example.com.".toList 42 (v4InV6Prefix ++ [127, 0, 0, 1]), some 1, false,
                false⟩]
      ∧ EtcdResolver.Records zoneLine 1000 "/landns".toList
            (EtcdResolver.SetRecords zoneLine 1000 "/landns".toList
              (EtcdResolver.SetRecords zoneLine 1000 "/landns".toList [] [sampleAddress5]).1
              [sampleAddress5]).1
          = .ok [⟨.Ptr "1.0.0.127.in-addr.arpa.".toList 42 "example.com.".toList, some 2, false,
                  false⟩,
              ⟨.Address "example.com.".toList 42 (v4InV6Prefix ++ [127, 0, 0, 1]), some 1, false,
                false⟩,
              ⟨.Address "example.com.".toList 42 (v4InV6Prefix ++ [127, 0, 0, 1]), some 3, false,
                false⟩]
      ∧ SqliteResolver.SetRecords 1000 SqliteResolver.empty [sampleAddress5]
          = (⟨[⟨1, "example.com.".toList, "A".toList, 42, 0,
                "example.com. 0 IN A 127.0.0.1".toList⟩,
              ⟨2, "1.0.0.127.in-addr.arpa.".toList, "PTR".toList, 42, 0,
                "1.0.0.127.in-addr.arpa. 0 IN PTR example.com.".toList⟩], 2⟩, none)
      ∧ SqliteResolver.SetRecords 1000
            (SqliteResolver.SetRecords 1000 SqliteResolver.empty [sampleAddress5]).1
            [sampleAddress5]
          = SqliteResolver.SetRecords 1000 SqliteResolver.empty [sampleAddress5]
      ∧ EtcdResolver.SetRecords zoneLine 1000 "/landns".toList
            (EtcdResolver.SetRecords zoneLine 1000 "/landns".toList [] [sampleAddress]).1
            [sampleAddress]
          = EtcdResolver.SetRecords zoneLine 1000 "/landns".toList [] [sampleAddress]
      ∧ (EtcdResolver.SetRecords zoneLine 1000 "/landns".toList [] [sampleAddress]).1
          = (EtcdResolver.SetRecords zoneLine 1000 "/landns".toList [] [sampleAddress5]).1
      ∧ (∀ (newRR : RRReader) (now : Nat) (pre : Text) (st : EtcdStore) (r : DynamicRecord),
          EtcdResolver.getPrefix (EtcdResolver.getKey pre r) st = [] →
            EtcdResolver.insertSingleRecord newRR now pre st r
              = match EtcdResolver.makeKey pre st { r with ID := none } with
                | (st', .error e) => (st', .error e)
                | (st', .ok (r', key)) => EtcdResolver.putRecord newRR now st' r' key)
      ∧ (∀ (now now' : Nat) (db : SqliteDB) (S : DynamicRecordSet),
          (∀ r ∈ S, r.Disabled = false) →
            (SqliteResolver.SetRecords now' (SqliteResolver.SetRecords now db S).1 S).1.rows.map
                  Row.stored
                = (SqliteResolver.SetRecords now db S).1.rows.map Row.stored
              ∧ (SqliteResolver.SetRecords now' (SqliteResolver.SetRecords now db S).1 S).1.seq
                  = (SqliteResolver.SetRecords now db S).1.seq
              ∧ ((SqliteResolver.SetRecords now db S).2 = none →
                  (SqliteResolver.SetRecords now' (SqliteResolver.SetRecords now db S).1 S).2
                    = none)
              ∧ (now' = now →
                  (SqliteResolver.SetRecords now' (SqliteResolver.SetRecords now db S).1 S).1
                    = (SqliteResolver.SetRecords now db S).1)) := by
  refine ⟨by decide, by decide, by rfl, by rfl, by decide, by decide, by decide, by decide, ?_,
    fun now now' db S hen => setRecords_twice_enabled now now' db S hen⟩
  intro newRR now pre st r h
  unfold EtcdResolver.insertSingleRecord EtcdResolver.findKey
  rw [h]
  simp [EtcdResolver.findLoop]

/-! ## C11: `AlternateResolver` -/

/-- The loop of `AlternateResolver.Resolve` from a lowered flag, against the calls until the
first hit. -/
theorem alternateLoop_spec {σ : Type} (rs : List (Resolver σ)) (resp : ResponseWriter)
    (req : Request) (s : σ) :
    (AlternateResolver.loop rs false resp req s).1.Records
        = resp.Records ++ ((callsUntilHit rs req s).map Answer.Added).flatten
      ∧ (AlternateResolver.loop rs false resp req s).2.1 = stateAfterHit rs req s
      ∧ (AlternateResolver.loop rs false resp req s).2.2
          = ((callsUntilHit rs req s).getLast?).bind Answer.Err
      ∧ (∀ a ∈ (callsUntilHit rs req s).dropLast, a.Err = none ∧ a.Added = [])
      ∧ (callsUntilHit rs req s).length ≤ rs.length
      ∧ ((callsUntilHit rs req s).length < rs.length →
          ∃ a, (callsUntilHit rs req s).getLast? = some a ∧ (a.Err ≠ none ∨ a.Added ≠ [])) := by
  induction rs generalizing resp s with
  | nil => simp [AlternateResolver.loop, callsUntilHit, stateAfterHit]
  | cons r rs ih =>
    cases herr : (r.answer req s).1.Err with
    | some e =>
      simp [AlternateResolver.loop, Resolver.Resolve, callsUntilHit, stateAfterHit, herr]
    | none =>
      cases hadd : (r.answer req s).1.Added with
      | cons x xs =>
        simp [AlternateResolver.loop, Resolver.Resolve, callsUntilHit, stateAfterHit, herr, hadd]
      | nil =>
        have ih' := ih ⟨resp.Records ++ (r.answer req s).1.Added,
          resp.Authoritative && !(r.answer req s).1.NoAuthoritative⟩ (r.answer req s).2
        obtain ⟨h1, h2, h3, h4, h5, h6⟩ := ih'
        rw [hadd] at h1 h2 h3
        simp only [AlternateResolver.loop, Resolver.Resolve, callsUntilHit, stateAfterHit, herr,
          hadd, List.isEmpty_nil, Bool.not_true, Bool.or_false, Option.isSome_none,
          Bool.false_eq_true, if_false]
        refine ⟨?_, h2, ?_, ?_, ?_, ?_⟩
        · rw [h1]
          simp [hadd]
        · rw [h3]
          cases hc : callsUntilHit rs req (r.answer req s).2 with
          | nil => simp [herr]
          | cons a as => simp [List.getLast?_cons_cons]
        · intro a ha
          cases hc : callsUntilHit rs req (r.answer req s).2 with
          | nil => simp [hc] at ha
          | cons b bs =>
            rw [hc] at ha h4
            simp only [List.dropLast_cons₂, List.mem_cons] at ha
            rcases ha with rfl | ha
            · exact ⟨herr, hadd⟩
            · exact h4 a ha
        · simp only [List.length_cons]
          omega
        · intro hlt
          simp only [List.length_cons] at hlt
          obtain ⟨a, ha, hor⟩ := h6 (by omega)
          refine ⟨a, ?_, hor⟩
          cases hc : callsUntilHit rs req (r.answer req s).2 with
          | nil => rw [hc] at ha; simp at ha
          | cons b bs =>
            rw [hc] at ha
            rw [List.getLast?_cons_cons]
            exact ha

/-- When only the last answer of a list added records, the records of the list are those of
its first answer that added any. -/
theorem flatten_added_of_dropLast (l : List Answer) (h : ∀ a ∈ l.dropLast, a.Added = []) :
    (l.map Answer.Added).flatten
      = ((l.find? (fun a => !a.Added.isEmpty)).map Answer.Added).getD [] := by
  induction l with
  | nil => rfl
  | cons a l ih =>
    cases l with
    | nil =>
      cases hadd : a.Added with
      | nil => simp [List.find?, hadd]
      | cons x xs => simp [List.find?, hadd]
    | cons b l =>
      have ha : a.Added = [] := h a (by simp [List.dropLast_cons₂])
      have ih' := ih (fun c hc => h c (by
        rw [List.dropLast_cons₂]
        exact List.mem_cons_of_mem a hc))
      rw [List.map_cons, List.flatten_cons, ha, List.nil_append, ih']
      rw [List.find?_cons (a := a)]
      simp [ha]

/-- When only the last answer of a list can carry an error, an error of any answer is the
error of the last. -/
theorem last_error_of_dropLast (l : List Answer) (h : ∀ a ∈ l.dropLast, a.Err = none)
    (a : Answer) (ha : a ∈ l) (e : Error) (he : a.Err = some e) :
    (l.getLast?).bind Answer.Err = some e := by
  induction l with
  | nil => cases ha
  | cons b l ih =>
    cases l with
    | nil =>
      rw [List.mem_singleton] at ha
      subst ha
      simpa using he
    | cons c l =>
      rw [List.getLast?_cons_cons]
      have hb : b.Err = none := h b (by simp [List.dropLast_cons₂])
      rcases List.mem_cons.mp ha with hab | hal
      · subst hab
        rw [hb] at he
        cases he
      · exact ih (fun d hd => h d (by
          rw [List.dropLast_cons₂]
          exact List.mem_cons_of_mem b hd)) hal

/-- C11: `AlternateResolver.Resolve` calls the children in list order and stops after the
first child that adds a record or returns an error: every child called before the last one
added nothing and returned nil, and when children are left uncalled the last one called
added a record or failed.  The writer ends with what it held followed by the records of the
first child that added any, nothing when none did; the state is the one the calls leave; the
result is the error of the last child called, so an error of any child called is returned. -/
theorem alternateResolver_first_hit {σ : Type} (ar : AlternateResolver σ)
    (resp : ResponseWriter) (req : Request) (s : σ) :
    (∀ a ∈ (callsUntilHit ar req s).dropLast, a.Err = none ∧ a.Added = [])
      ∧ (callsUntilHit ar req s).length ≤ ar.length
      ∧ ((callsUntilHit ar req s).length < ar.length →
          ∃ a, (callsUntilHit ar req s).getLast? = some a ∧ (a.Err ≠ none ∨ a.Added ≠ []))
      ∧ (AlternateResolver.Resolve ar resp req s).1.Records
          = resp.Records
            ++ (((callsUntilHit ar req s).find? (fun a => !a.Added.isEmpty)).map
                Answer.Added).getD []
      ∧ (AlternateResolver.Resolve ar resp req s).2.1 = stateAfterHit ar req s
      ∧ (AlternateResolver.Resolve ar resp req s).2.2
          = ((callsUntilHit ar req s).getLast?).bind Answer.Err
      ∧ (∀ a ∈ callsUntilHit ar req s, ∀ e, a.Err = some e →
          (AlternateResolver.Resolve ar resp req s).2.2 = some e) := by
  obtain ⟨h1, h2, h3, h4, h5, h6⟩ := alternateLoop_spec ar resp req s
  refine ⟨h4, h5, h6, ?_, h2, h3, ?_⟩
  · show (AlternateResolver.loop ar false resp req s).1.Records = _
    rw [h1, flatten_added_of_dropLast _ (fun a ha => (h4 a ha).2)]
  · intro a ha e he
    show (AlternateResolver.loop ar false resp req s).2.2 = _
    rw [h3]
    exact last_error_of_dropLast _ (fun b hb => (h4 b hb).1) a ha e he

/-! ## C20: the static resolver -/

theorem GoMap.get_set {κ α : Type} [DecidableEq κ] (m : GoMap κ α) (k k' : κ) (v : α) :
    GoMap.get (GoMap.set m k v) k' = if k = k' then some v else GoMap.get m k' := by
  induction m with
  | nil => simp [GoMap.set, GoMap.get]
  | cons e m ih =>
    obtain ⟨k0, v0⟩ := e
    by_cases h0 : k0 = k
    · subst h0
      by_cases h1 : k0 = k'
      · simp [GoMap.set, GoMap.get, h1]
      · simp [GoMap.set, GoMap.get, h1]
    · by_cases h1 : k0 = k'
      · subst h1
        have : ¬ k = k0 := fun h => h0 h.symm
        simp [GoMap.set, GoMap.get, h0, this]
      · simp [GoMap.set, GoMap.get, h0, h1, ih]

theorem GoMap.get_delete {κ α : Type} [DecidableEq κ] (m : GoMap κ α) (k k' : κ) :
    GoMap.get (GoMap.delete m k) k' = if k = k' then none else GoMap.get m k' := by
  induction m with
  | nil => simp [GoMap.delete, GoMap.get]
  | cons e m ih =>
    obtain ⟨k0, v0⟩ := e
    by_cases h0 : k0 = k
    · subst h0
      by_cases h1 : k0 = k'
      · subst h1
        simp [GoMap.delete, ih]
      · simp [GoMap.delete, GoMap.get, h1, ih]
    · by_cases h1 : k0 = k'
      · subst h1
        have : ¬ k = k0 := fun h => h0 h.symm
        simp [GoMap.delete, GoMap.get, h0, this]
      · simp [GoMap.delete, GoMap.get, h0, h1, ih]

/-- The records under a key after `NewSimpleResolver`'s loop: those the map held, then the
records with that type and name, in order. -/
theorem simpleResolver_fold (records : List Record) (sr : SimpleResolver) (k : Nat × Domain) :
    (GoMap.get (records.foldl SimpleResolver.insert sr) k).getD []
      = (GoMap.get sr k).getD [] ++ records.filter (fun r => (r.GetQtype, r.GetName) = k) := by
  induction records generalizing sr with
  | nil => simp
  | cons r records ih =>
    rw [List.foldl_cons, ih]
    unfold SimpleResolver.insert
    rw [GoMap.get_set]
    by_cases h : (r.GetQtype, r.GetName) = k
    · rw [if_pos h, List.filter_cons_of_pos (by simpa using h)]
      simp [h]
    · rw [if_neg h, List.filter_cons_of_neg (by simpa using h)]

/-- C20 as amended: the resolver built by `NewSimpleResolver` adds to the writer, in insertion
order, exactly the records whose query type is the request's and whose name is the request's
name character for character (no case folding, no final dot added), and returns nil. -/
theorem simpleResolver_exact_name (records : List Record) (w : ResponseWriter) (req : Request) :
    SimpleResolver.Resolve (NewSimpleResolver records) w req
      = (⟨w.Records ++ records.filter (fun r => r.GetQtype = req.Qtype ∧ r.GetName = req.Name),
          w.Authoritative⟩, none) := by
  unfold SimpleResolver.Resolve SimpleResolver.resolver Resolver.Resolve NewSimpleResolver
  simp only [simpleResolver_fold, GoMap.get, Option.getD_none, List.nil_append, Bool.not_false,
    Bool.and_true]
  congr 3
  apply List.filter_congr
  intro r _
  simp [Prod.ext_iff]

/-- C20 refuted as stated: a static resolver that holds `Example.com. 42 IN A 127.0.0.1` and
`example.com 42 IN A 127.0.0.1` answers the request for `example.com.`, type A, with no
record, though both names are that domain when case is folded and the final dot added; it
answers the requests for the names as they are written with the one record each. -/
theorem simpleResolver_case_and_dot :
    SimpleResolver.Resolve (NewSimpleResolver [capitalAddress, dotlessAddress]) ⟨[], true⟩
        ⟨"example.com.".toList, TypeA, false⟩ = (⟨[], true⟩, none)
      ∧ capitalAddress.GetQtype = TypeA ∧ dotlessAddress.GetQtype = TypeA
      ∧ Domain.String dotlessAddress.GetName = "example.com.".toList
      ∧ capitalAddress.GetName.map Char.toLower = "example.com.".toList
      ∧ SimpleResolver.Resolve (NewSimpleResolver [capitalAddress, dotlessAddress]) ⟨[], true⟩
          ⟨"Example.com.".toList, TypeA, false⟩ = (⟨[capitalAddress], true⟩, none)
      ∧ SimpleResolver.Resolve (NewSimpleResolver [capitalAddress, dotlessAddress]) ⟨[], true⟩
          ⟨"example.com".toList, TypeA, false⟩ = (⟨[dotlessAddress], true⟩, none) := by
  refine ⟨by decide, by decide, by decide, by decide, by decide, by decide, by decide⟩

/-! ## C12, C13, C14: the local cache -/

theorem Counters.get_inc (cs : Counters) (key k : Text) :
    GoMap.get (Counters.inc cs key) k
      = if key = k then (GoMap.get cs k).map (fun n => n + 1) else GoMap.get cs k := by
  unfold Counters.inc
  cases h : GoMap.get cs key with
  | none =>
    by_cases hk : key = k
    · subst hk
      simp [h]
    · simp [hk]
  | some n =>
    simp only
    rw [GoMap.get_set]
    by_cases hk : key = k
    · subst hk
      simp [h]
    · simp [hk]

/-- The metrics are not touched by `add`. -/
theorem LocalCache.add_metrics (newRR : RRReader) (now room : Nat) (lc : LocalCache) (r : Record) :
    (LocalCache.add newRR now room lc r).1.metrics = lc.metrics := by
  unfold LocalCache.add
  by_cases h0 : r.GetTTL = 0
  · simp [h0]
  · simp only [h0, if_false]
    cases r.ToRR newRR with
    | error e => rfl
    | ok rr =>
      simp only
      cases GoMap.get lc.entries (r.GetQtype, r.GetName) <;> split <;> rfl

/-- A record that `add` stores is not refused. -/
theorem LocalCache.refuses_of_cached (newRR : RRReader) (now : Nat) (r : Record)
    (vr : VolatileRecord) (h : LocalCache.cached newRR now r = some vr) :
    LocalCache.refuses newRR r = none ∧ vr.Expire = (now : Int) + r.GetTTL ∧ r.GetTTL ≠ 0 := by
  unfold LocalCache.cached at h
  unfold LocalCache.refuses
  by_cases h0 : r.GetTTL = 0
  · simp [h0] at h
  · simp only [h0, if_false] at h ⊢
    cases hr : r.ToRR newRR with
    | error e => simp [hr] at h
    | ok rr =>
      simp only [hr, Option.some.injEq] at h
      subst h
      exact ⟨rfl, rfl, h0⟩

/-- What `add` returns: for a record it does not store, the room as it was and what the
hook's oracle says; for a record it stores, nothing when there is no room for the signal,
else nil with one place less. -/
theorem LocalCache.add_result (newRR : RRReader) (now room : Nat) (lc : LocalCache) (r : Record) :
    (LocalCache.add newRR now room lc r).2
      = match LocalCache.cached newRR now r with
        | none => some (room, LocalCache.refuses newRR r)
        | some _ => if room = 0 then none else some (room - 1, none) := by
  unfold LocalCache.add LocalCache.cached LocalCache.refuses
  by_cases h0 : r.GetTTL = 0
  · simp [h0]
  · simp only [h0, if_false]
    cases r.ToRR newRR with
    | error e => rfl
    | ok rr =>
      simp only
      split <;> rfl

/-- The entry under a key after `add`: the volatile record of the record is appended when
the key is the record's own type and name. -/
theorem LocalCache.add_get (newRR : RRReader) (now room : Nat) (lc : LocalCache) (r : Record)
    (k : Nat × Domain) :
    GoMap.get (LocalCache.add newRR now room lc r).1.entries k
      = match (if (r.GetQtype, r.GetName) = k then LocalCache.cached newRR now r else none) with
        | none => GoMap.get lc.entries k
        | some vr => some ((GoMap.get lc.entries k).getD [] ++ [vr]) := by
  unfold LocalCache.add LocalCache.cached
  by_cases h0 : r.GetTTL = 0
  · simp [h0]
  · simp only [h0, if_false]
    cases r.ToRR newRR with
    | error e => simp
    | ok rr =>
      simp only
      by_cases hk : (r.GetQtype, r.GetName) = k
      · subst hk
        cases hg : GoMap.get lc.entries (r.GetQtype, r.GetName) with
        | none => split <;> simp [GoMap.get_set]
        | some xs => split <;> simp [GoMap.get_set]
      · cases hg : GoMap.get lc.entries (r.GetQtype, r.GetName) with
        | none => split <;> simp [GoMap.get_set, hk]
        | some xs => split <;> simp [GoMap.get_set, hk]

/-- The signals for a list of records: one more when the first is stored. -/
theorem LocalCache.sends_cons (newRR : RRReader) (now : Nat) (r : Record) (adds : List Record) :
    LocalCache.sends newRR now (r :: adds)
      = (match LocalCache.cached newRR now r with
          | none => 0
          | some _ => 1) + LocalCache.sends newRR now adds := by
  unfold LocalCache.sends
  cases hc : LocalCache.cached newRR now r with
  | none => simp [List.filterMap_cons, hc]
  | some vr => simp [List.filterMap_cons, hc]; omega

/-- The metrics are not touched by the hook. -/
theorem LocalCache.hookAdds_metrics (newRR : RRReader) (now : Nat) (adds : List Record)
    (room : Nat) (lc : LocalCache) (w : ResponseWriter) :
    (LocalCache.hookAdds newRR now adds room lc w).1.metrics = lc.metrics := by
  induction adds generalizing room lc w with
  | nil => rfl
  | cons r adds ih =>
    have hm := LocalCache.add_metrics newRR now room lc r
    rw [LocalCache.hookAdds]
    rcases hadd : LocalCache.add newRR now room lc r with ⟨lc', _ | ⟨room', _ | e⟩⟩
    · rw [hadd] at hm
      exact hm
    · rw [hadd] at hm
      exact (ih room' lc' _).trans hm
    · rw [hadd] at hm
      exact (ih room' lc' _).trans hm

/-- A key under which no member has expired has none after the hook, blocked or not: what
the hook stores expires later than now. -/
theorem LocalCache.hookAdds_fresh (newRR : RRReader) (now : Nat) (adds : List Record)
    (room : Nat) (lc : LocalCache) (w : ResponseWriter) (k : Nat × Domain)
    (h : ∀ xs, GoMap.get lc.entries k = some xs → ∀ c ∈ xs, (now : Int) < c.Expire) :
    ∀ xs, GoMap.get (LocalCache.hookAdds newRR now adds room lc w).1.entries k = some xs →
      ∀ c ∈ xs, (now : Int) < c.Expire := by
  induction adds generalizing room lc w with
  | nil => exact h
  | cons r adds ih =>
    have hg := LocalCache.add_get newRR now room lc r k
    have hstep : ∀ xs, GoMap.get (LocalCache.add newRR now room lc r).1.entries k = some xs →
        ∀ c ∈ xs, (now : Int) < c.Expire := by
      intro xs hxs c hc
      rw [hg] at hxs
      by_cases hk : (r.GetQtype, r.GetName) = k
      · rw [if_pos hk] at hxs
        cases hcr : LocalCache.cached newRR now r with
        | none =>
          rw [hcr] at hxs
          exact h xs hxs c hc
        | some vr =>
          rw [hcr] at hxs
          simp only [Option.some.injEq] at hxs
          subst hxs
          rcases List.mem_append.mp hc with hc | hc
          · cases hold : GoMap.get lc.entries k with
            | none => rw [hold] at hc; simp at hc
            | some ys =>
              rw [hold] at hc
              exact h ys hold c hc
          · have hvr := LocalCache.refuses_of_cached newRR now r vr hcr
            simp only [List.mem_singleton] at hc
            subst hc
            have := hvr.2.2
            omega
      · rw [if_neg hk] at hxs
        exact h xs hxs c hc
    rw [LocalCache.hookAdds]
    rcases hadd : LocalCache.add newRR now room lc r with ⟨lc', _ | ⟨room', _ | e⟩⟩
    · rw [hadd] at hstep
      exact hstep
    · rw [hadd] at hstep
      exact ih room' lc' _ hstep
    · rw [hadd] at hstep
      exact ih room' lc' _ hstep

/-- The hook with room for all its signals: it returns, the entry under every key is the one
the cache held followed by the records stored under that key, and the writer holds the
records that are not refused. -/
theorem LocalCache.hookAdds_returns (newRR : RRReader) (now : Nat) (adds : List Record)
    (room : Nat) (lc : LocalCache) (w : ResponseWriter)
    (hroom : LocalCache.sends newRR now adds ≤ room) :
    (∀ k, GoMap.get (LocalCache.hookAdds newRR now adds room lc w).1.entries k
        = if LocalCache.cachedAt newRR now adds k = [] then GoMap.get lc.entries k
          else some ((GoMap.get lc.entries k).getD [] ++ LocalCache.cachedAt newRR now adds k))
      ∧ (LocalCache.hookAdds newRR now adds room lc w).2
          = some (room - LocalCache.sends newRR now adds,
              ⟨w.Records ++ adds.filter (fun r => LocalCache.refuses newRR r = none),
                w.Authoritative⟩) := by
  induction adds generalizing room lc w with
  | nil =>
    refine ⟨fun k => ?_, ?_⟩
    · simp [LocalCache.hookAdds, LocalCache.cachedAt]
    · simp [LocalCache.hookAdds, LocalCache.sends]
  | cons r adds ih =>
    have hres := LocalCache.add_result newRR now room lc r
    have hg := LocalCache.add_get newRR now room lc r
    have hs := LocalCache.sends_cons newRR now r adds
    have key : ∀ (lc' : LocalCache) (room' : Nat) (w' : ResponseWriter),
        (∀ k, GoMap.get lc'.entries k
          = match (if (r.GetQtype, r.GetName) = k then LocalCache.cached newRR now r else none) with
            | none => GoMap.get lc.entries k
            | some vr => some ((GoMap.get lc.entries k).getD [] ++ [vr])) →
        LocalCache.sends newRR now adds ≤ room' →
        ∀ k, GoMap.get (LocalCache.hookAdds newRR now adds room' lc' w').1.entries k
          = if LocalCache.cachedAt newRR now (r :: adds) k = [] then GoMap.get lc.entries k
            else some ((GoMap.get lc.entries k).getD []
              ++ LocalCache.cachedAt newRR now (r :: adds) k) := by
      intro lc' room' w' hg' hroom' k
      rw [(ih room' lc' w' hroom').1 k, hg' k]
      unfold LocalCache.cachedAt
      by_cases hk : (r.GetQtype, r.GetName) = k
      · rw [List.filter_cons_of_pos (by simpa using hk), if_pos hk]
        cases hc : LocalCache.cached newRR now r with
        | none =>
          simp only [List.filterMap_cons, hc]
        | some vr =>
          simp only [List.filterMap_cons, hc, Option.getD_some, List.append_assoc,
            List.singleton_append, reduceCtorEq, if_false]
          split <;> simp_all
      · rw [List.filter_cons_of_neg (by simpa using hk), if_neg hk]
    rw [LocalCache.hookAdds]
    rcases hadd : LocalCache.add newRR now room lc r with ⟨lc', res⟩
    rw [hadd] at hres hg
    simp only at hres hg
    cases hc : LocalCache.cached newRR now r with
    | none =>
      rw [hc] at hres hs
      simp only [Nat.zero_add] at hs
      rw [hs] at hroom ⊢
      subst hres
      cases hrf : LocalCache.refuses newRR r with
      | none =>
        simp only
        refine ⟨key lc' room _ hg hroom, ?_⟩
        rw [(ih room lc' _ hroom).2, List.filter_cons_of_pos (by simp [hrf])]
        simp
      | some e =>
        simp only
        refine ⟨key lc' room _ hg hroom, ?_⟩
        rw [(ih room lc' _ hroom).2, List.filter_cons_of_neg (by simp [hrf])]
    | some vr =>
      rw [hc] at hres hs
      simp only at hs
      rw [hs] at hroom ⊢
      have hr0 : ¬ room = 0 := by omega
      rw [if_neg hr0] at hres
      subst hres
      have hrf := (LocalCache.refuses_of_cached newRR now r vr hc).1
      simp only
      have hroom' : LocalCache.sends newRR now adds ≤ room - 1 := by omega
      refine ⟨key lc' (room - 1) _ hg hroom', ?_⟩
      rw [(ih (room - 1) lc' _ hroom').2, List.filter_cons_of_pos (by simp [hrf])]
      simp only [List.append_assoc, List.singleton_append, Option.some.injEq, Prod.mk.injEq,
        and_true]
      omega

/-- The hook without room for all its signals does not return. -/
theorem LocalCache.hookAdds_blocks (newRR : RRReader) (now : Nat) (adds : List Record)
    (room : Nat) (lc : LocalCache) (w : ResponseWriter)
    (hroom : room < LocalCache.sends newRR now adds) :
    (LocalCache.hookAdds newRR now adds room lc w).2 = none := by
  induction adds generalizing room lc w with
  | nil => simp [LocalCache.sends] at hroom
  | cons r adds ih =>
    have hres := LocalCache.add_result newRR now room lc r
    have hs := LocalCache.sends_cons newRR now r adds
    rw [LocalCache.hookAdds]
    rcases hadd : LocalCache.add newRR now room lc r with ⟨lc', res⟩
    rw [hadd] at hres
    simp only at hres
    cases hc : LocalCache.cached newRR now r with
    | none =>
      rw [hc] at hres hs
      simp only [Nat.zero_add] at hs
      rw [hs] at hroom
      subst hres
      cases hrf : LocalCache.refuses newRR r with
      | none => exact ih room lc' _ hroom
      | some e => exact ih room lc' _ hroom
    | some vr =>
      rw [hc] at hres hs
      simp only at hs
      rw [hs] at hroom
      by_cases hr0 : room = 0
      · rw [if_pos hr0] at hres
        subst hres
        rfl
      · rw [if_neg hr0] at hres
        subst hres
        exact ih (room - 1) lc' _ (by omega)

/-- The miss path of `LocalCache.Resolve`, whatever the cache holds: `CacheMiss` has run; with
room for the signals of the records the upstream hands over the call returns, with the entries
of the hook, the records the hook lets through, the state and the result of the upstream;
without, it does not return. -/
theorem LocalCache.resolveFromUpstream_spec {σ : Type} (newRR : RRReader) (now room : Nat)
    (upstream : (Record → Option Error) → Resolver σ) (lc : LocalCache) (w : ResponseWriter)
    (req : Request) (s : σ) :
    (LocalCache.resolveFromUpstream newRR now room upstream lc w req s).cache.metrics
        = lc.metrics.CacheMiss req
      ∧ (∀ k, (∀ xs, GoMap.get lc.entries k = some xs → ∀ c ∈ xs, (now : Int) < c.Expire) →
          ∀ xs, GoMap.get
              (LocalCache.resolveFromUpstream newRR now room upstream lc w req s).cache.entries k
            = some xs → ∀ c ∈ xs, (now : Int) < c.Expire)
      ∧ (LocalCache.sends newRR now ((upstream (LocalCache.refuses newRR)).answer req s).1.Added
            ≤ room →
          (∀ k, GoMap.get
              (LocalCache.resolveFromUpstream newRR now room upstream lc w req s).cache.entries k
            = if LocalCache.cachedAt newRR now
                  ((upstream (LocalCache.refuses newRR)).answer req s).1.Added k = []
              then GoMap.get lc.entries k
              else some ((GoMap.get lc.entries k).getD [] ++ LocalCache.cachedAt newRR now
                  ((upstream (LocalCache.refuses newRR)).answer req s).1.Added k))
            ∧ (LocalCache.resolveFromUpstream newRR now room upstream lc w req s).writer
                = some ⟨w.Records
                    ++ ((upstream (LocalCache.refuses newRR)).answer req s).1.Added.filter
                        (fun r => LocalCache.refuses newRR r = none),
                  w.Authoritative
                    && !((upstream (LocalCache.refuses newRR)).answer req s).1.NoAuthoritative⟩
            ∧ (LocalCache.resolveFromUpstream newRR now room upstream lc w req s).state
                = some ((upstream (LocalCache.refuses newRR)).answer req s).2
            ∧ (LocalCache.resolveFromUpstream newRR now room upstream lc w req s).result
                = some (match ((upstream (LocalCache.refuses newRR)).answer req s).1.Err with
                  | none => .ok ()
                  | some e => .error e))
      ∧ (room < LocalCache.sends newRR now
            ((upstream (LocalCache.refuses newRR)).answer req s).1.Added →
          (LocalCache.resolveFromUpstream newRR now room upstream lc w req s).writer = none
            ∧ (LocalCache.resolveFromUpstream newRR now room upstream lc w req s).result = none) := by
  have hm := LocalCache.hookAdds_metrics newRR now
    ((upstream (LocalCache.refuses newRR)).answer req s).1.Added room
    ⟨lc.entries, lc.metrics.CacheMiss req⟩ w
  have hf := fun k => LocalCache.hookAdds_fresh newRR now
    ((upstream (LocalCache.refuses newRR)).answer req s).1.Added room
    ⟨lc.entries, lc.metrics.CacheMiss req⟩ w k
  have hr := LocalCache.hookAdds_returns newRR now
    ((upstream (LocalCache.refuses newRR)).answer req s).1.Added room
    ⟨lc.entries, lc.metrics.CacheMiss req⟩ w
  have hb := LocalCache.hookAdds_blocks newRR now
    ((upstream (LocalCache.refuses newRR)).answer req s).1.Added room
    ⟨lc.entries, lc.metrics.CacheMiss req⟩ w
  unfold LocalCache.resolveFromUpstream
  simp only
  rcases hh : LocalCache.hookAdds newRR now
    ((upstream (LocalCache.refuses newRR)).answer req s).1.Added room
    ⟨lc.entries, lc.metrics.CacheMiss req⟩ w with ⟨lc', _ | ⟨room', w'⟩⟩
  · rw [hh] at hm hf hr hb
    refine ⟨hm, hf, ?_, fun _ => ⟨rfl, rfl⟩⟩
    intro hroom
    have := (hr hroom).2
    simp at this
  · rw [hh] at hm hf hr hb
    refine ⟨hm, hf, ?_, ?_⟩
    · intro hroom
      obtain ⟨h1, h2⟩ := hr hroom
      simp only [Option.some.injEq, Prod.mk.injEq] at h2
      refine ⟨h1, ?_, rfl, rfl⟩
      simp only [LocalCache.Call.writer, h2.2]
    · intro hroom
      have := hb hroom
      simp at this

/-- What `LocalCache.Resolve` reports, returned or blocked: `CacheHit` when it answers from an
entry, `CacheMiss` when it goes to the upstream. -/
theorem LocalCache.resolve_metrics {σ : Type} (newRR : RRReader) (now room : Nat)
    (upstream : (Record → Option Error) → Resolver σ) (lc : LocalCache) (w : ResponseWriter)
    (req : Request) (s : σ) :
    (LocalCache.Resolve newRR now room upstream lc w req s).cache.metrics
      = match GoMap.get lc.entries (req.Qtype, req.Name) with
        | none => lc.metrics.CacheMiss req
        | some records =>
          if records.any (VolatileRecord.expired now) then lc.metrics.CacheMiss req
          else lc.metrics.CacheHit req := by
  unfold LocalCache.Resolve
  cases GoMap.get lc.entries (req.Qtype, req.Name) with
  | none => exact (LocalCache.resolveFromUpstream_spec newRR now room upstream lc w req s).1
  | some records =>
    simp only
    by_cases ha : records.any (VolatileRecord.expired now) = true
    · rw [if_pos ha, if_pos ha]
      exact (LocalCache.resolveFromUpstream_spec newRR now room upstream _ w req s).1
    · rw [if_neg ha, if_neg ha]
      rfl

/-- The writer after the loop of `resolveFromCache` holds the records read. -/
theorem LocalCache.readLoop_writer (now : Nat) (records : List VolatileRecord)
    (w : ResponseWriter) :
    (LocalCache.readLoop now records w).2.1
      = ⟨w.Records ++ LocalCache.readPrefix now records, w.Authoritative⟩ := by
  induction records generalizing w with
  | nil => simp [LocalCache.readLoop, LocalCache.readPrefix]
  | cons c cs ih =>
    unfold LocalCache.readLoop LocalCache.readPrefix
    cases c.Record now with
    | panic => simp
    | error e => simp
    | ok rec =>
      simp only
      rw [ih]
      simp

/-- When every member reads, the loop of `resolveFromCache` returns nil and the records read
are those of the members, one for one. -/
theorem LocalCache.readLoop_ok (now : Nat) (records : List VolatileRecord) (w : ResponseWriter)
    (h : ∀ c ∈ records, ∃ rec, c.Record now = .ok rec) :
    (LocalCache.readLoop now records w).2.2 = .ok ()
      ∧ List.Forall₂ (fun c rec => c.Record now = .ok rec) records
          (LocalCache.readPrefix now records) := by
  induction records generalizing w with
  | nil => exact ⟨rfl, List.Forall₂.nil⟩
  | cons c cs ih =>
    obtain ⟨rec, hrec⟩ := h c (List.mem_cons_self c cs)
    have ih' := fun w' => ih w' (fun c' hc' => h c' (List.mem_cons_of_mem c hc'))
    unfold LocalCache.readLoop LocalCache.readPrefix
    rw [hrec]
    exact ⟨(ih' _).1, List.Forall₂.cons hrec (ih' w).2⟩

/-- A member that has not expired reads as its wire record with the TTL it has left. -/
theorem VolatileRecord.record_fresh (now : Nat) (c : VolatileRecord) (h : (now : Int) < c.Expire) :
    c.Record now
      = match c.RR with
        | none => .panic
        | some rr => NewRecordFromRR (some (rr.setTtl (c.Expire - now).toNat)) := by
  unfold VolatileRecord.Record
  have h1 : c.Expire > 0 := by omega
  have h2 : ¬ c.Expire - now < 0 := by omega
  rw [if_pos h1, if_neg h2]

/-- C13: when `LocalCache.Resolve` finds an entry under the request's type and name and no
member of it has expired, the call returns, the same for every upstream and whatever room the
channel has, with the upstream's state untouched (it is not called); the writer is marked
non-authoritative and gets the records read from the members in stored order, each the stored
wire record with the TTL it has left (all of them, with result nil, when every member reads),
`CacheHit` has run once, so the cache-hit counter of the request type, if `Metrics` keeps one,
is one higher and no other counter has changed, the cache-miss counters among them. -/
theorem localCache_hit {σ : Type} (newRR : RRReader) (now room : Nat)
    (upstream : (Record → Option Error) → Resolver σ) (lc : LocalCache) (w : ResponseWriter)
    (req : Request) (s : σ) (records : List VolatileRecord)
    (hget : GoMap.get lc.entries (req.Qtype, req.Name) = some records)
    (hfresh : ∀ c ∈ records, (now : Int) < c.Expire) :
    (∀ (upstream' : (Record → Option Error) → Resolver σ) (room' : Nat),
        LocalCache.Resolve newRR now room' upstream' lc w req s
          = LocalCache.Resolve newRR now room upstream lc w req s)
      ∧ (LocalCache.Resolve newRR now room upstream lc w req s).state = some s
      ∧ (LocalCache.Resolve newRR now room upstream lc w req s).writer
          = some ⟨w.Records ++ LocalCache.readPrefix now records, false⟩
      ∧ (∀ c ∈ records, c.Record now
          = match c.RR with
            | none => .panic
            | some rr => NewRecordFromRR (some (rr.setTtl (c.Expire - now).toNat)))
      ∧ ((∀ c ∈ records, ∃ rec, c.Record now = .ok rec) →
          List.Forall₂ (fun c rec => c.Record now = .ok rec) records
              (LocalCache.readPrefix now records)
            ∧ (LocalCache.Resolve newRR now room upstream lc w req s).result = some (.ok ()))
      ∧ (LocalCache.Resolve newRR now room upstream lc w req s).cache.metrics
          = lc.metrics.CacheHit req
      ∧ (LocalCache.Resolve newRR now room upstream lc w req s).cache.metrics.cacheMissCounters
          = lc.metrics.cacheMissCounters
      ∧ (∀ n, GoMap.get lc.metrics.cacheHitCounters (QtypeToString req.Qtype) = some n →
          GoMap.get
              (LocalCache.Resolve newRR now room upstream lc w req s).cache.metrics.cacheHitCounters
              (QtypeToString req.Qtype) = some (n + 1))
      ∧ (∀ t, t ≠ QtypeToString req.Qtype →
          GoMap.get
              (LocalCache.Resolve newRR now room upstream lc w req s).cache.metrics.cacheHitCounters t
            = GoMap.get lc.metrics.cacheHitCounters t) := by
  have hany : records.any (VolatileRecord.expired now) = false := by
    rw [List.any_eq_false]
    intro c hc
    have := hfresh c hc
    simp only [VolatileRecord.expired, decide_eq_true_eq]
    omega
  have hres : ∀ (upstream' : (Record → Option Error) → Resolver σ) (room' : Nat),
      LocalCache.Resolve newRR now room' upstream' lc w req s
        = LocalCache.resolveFromCache now lc w req records s := by
    intro upstream' room'
    unfold LocalCache.Resolve
    rw [hget]
    simp only [hany, Bool.false_eq_true, if_false]
  rw [hres upstream room]
  refine ⟨fun u r => hres u r, rfl, ?_,
    fun c hc => VolatileRecord.record_fresh now c (hfresh c hc), ?_, rfl, rfl, ?_, ?_⟩
  · show some (LocalCache.readLoop now records ⟨w.Records, false⟩).2.1 = _
    rw [LocalCache.readLoop_writer]
  · intro hall
    have := LocalCache.readLoop_ok now records ⟨w.Records, false⟩ hall
    refine ⟨this.2, ?_⟩
    show some (LocalCache.readLoop now records ⟨w.Records, false⟩).2.2 = _
    rw [this.1]
  · intro n hn
    show GoMap.get (Counters.inc lc.metrics.cacheHitCounters (QtypeToString req.Qtype)) _ = _
    rw [Counters.get_inc, if_pos rfl, hn]
    rfl
  · intro t ht
    show GoMap.get (Counters.inc lc.metrics.cacheHitCounters (QtypeToString req.Qtype)) _ = _
    rw [Counters.get_inc, if_neg (fun h => ht h.symm)]

/-- C13 at the second request of the repository's test `multiTTL`, one second after the
first. -/
theorem localCache_hit_witness :
    GoMap.get warmCache.entries (exampleRequest.Qtype, exampleRequest.Name)
        = some ((GoMap.get warmCache.entries (TypeA, "example.com.".toList)).getD [])
      ∧ (∀ c ∈ (GoMap.get warmCache.entries (TypeA, "example.com.".toList)).getD [],
          ((1001 : Nat) : Int) < c.Expire)
      ∧ (LocalCache.Resolve zoneLine 1001 100 cacheTestUpstream.upstream warmCache ⟨[], true⟩
            exampleRequest ()).writer
          = some ⟨[] ++ LocalCache.readPrefix 1001
              ((GoMap.get warmCache.entries (TypeA, "example.com.".toList)).getD []), false⟩
      ∧ LocalCache.readPrefix 1001
            ((GoMap.get warmCache.entries (TypeA, "example.com.".toList)).getD [])
          = [.Address "example.com.".toList 99 (v4InV6Prefix ++ [127, 1, 2, 3]),
              .Address "example.com.".toList 9 (v4InV6Prefix ++ [127, 2, 3, 4])] :=
  ⟨by decide, by decide,
    (localCache_hit zoneLine 1001 100 cacheTestUpstream.upstream warmCache ⟨[], true⟩
      exampleRequest () ((GoMap.get warmCache.entries (TypeA, "example.com.".toList)).getD [])
      (by decide) (by decide)).2.2.1,
    by decide⟩

/-- C14: when the entry under the request's type and name has an expired member,
`LocalCache.Resolve` deletes the entry and goes to the upstream: it is the miss path on the
cache without the entry, and what it would be had the entry never been there.  The entry is
gone: afterwards, returned or blocked, no member under the request's key has expired, and when
the call returns the entry under that key holds the records the upstream handed over for it and
nothing else (no entry when there are none).  The writer gets the records of the upstream that
the hook lets through; when the channel has no room for the signals of the records stored, the
call does not return and nothing is answered.  In every state, what `Resolve` writes is either
that, or the records read from an entry that has no expired member. -/
theorem localCache_expired_entry {σ : Type} (newRR : RRReader) (now room : Nat)
    (upstream : (Record → Option Error) → Resolver σ) (lc : LocalCache) (w : ResponseWriter)
    (req : Request) (s : σ) (records : List VolatileRecord)
    (hget : GoMap.get lc.entries (req.Qtype, req.Name) = some records)
    (hexp : ∃ c ∈ records, c.Expire ≤ (now : Int)) :
    LocalCache.Resolve newRR now room upstream lc w req s
        = LocalCache.resolveFromUpstream newRR now room upstream
            ⟨GoMap.delete lc.entries (req.Qtype, req.Name), lc.metrics⟩ w req s
      ∧ LocalCache.Resolve newRR now room upstream lc w req s
          = LocalCache.Resolve newRR now room upstream
              ⟨GoMap.delete lc.entries (req.Qtype, req.Name), lc.metrics⟩ w req s
      ∧ (∀ xs, GoMap.get (LocalCache.Resolve newRR now room upstream lc w req s).cache.entries
            (req.Qtype, req.Name) = some xs → ∀ c ∈ xs, (now : Int) < c.Expire)
      ∧ (LocalCache.sends newRR now ((upstream (LocalCache.refuses newRR)).answer req s).1.Added
            ≤ room →
          GoMap.get (LocalCache.Resolve newRR now room upstream lc w req s).cache.entries
              (req.Qtype, req.Name)
            = (if LocalCache.cachedAt newRR now
                  ((upstream (LocalCache.refuses newRR)).answer req s).1.Added
                  (req.Qtype, req.Name) = [] then none
              else some (LocalCache.cachedAt newRR now
                  ((upstream (LocalCache.refuses newRR)).answer req s).1.Added
                  (req.Qtype, req.Name)))
            ∧ (LocalCache.Resolve newRR now room upstream lc w req s).writer.map
                  ResponseWriter.Records
                = some (w.Records
                    ++ ((upstream (LocalCache.refuses newRR)).answer req s).1.Added.filter
                        (fun r => LocalCache.refuses newRR r = none)))
      ∧ (room < LocalCache.sends newRR now
            ((upstream (LocalCache.refuses newRR)).answer req s).1.Added →
          (LocalCache.Resolve newRR now room upstream lc w req s).writer = none)
      ∧ (∀ (lc' : LocalCache) (room' : Nat),
          (LocalCache.Resolve newRR now room' upstream lc' w req s).writer = none
            ∨ (LocalCache.Resolve newRR now room' upstream lc' w req s).writer.map
                  ResponseWriter.Records
                = some (w.Records
                    ++ ((upstream (LocalCache.refuses newRR)).answer req s).1.Added.filter
                        (fun r => LocalCache.refuses newRR r = none))
            ∨ ∃ records', GoMap.get lc'.entries (req.Qtype, req.Name) = some records'
                ∧ (∀ c ∈ records', (now : Int) < c.Expire)
                ∧ (LocalCache.Resolve newRR now room' upstream lc' w req s).writer.map
                      ResponseWriter.Records
                    = some (w.Records ++ LocalCache.readPrefix now records')) := by
  have hany : records.any (VolatileRecord.expired now) = true := by
    obtain ⟨c, hc, he⟩ := hexp
    rw [List.any_eq_true]
    exact ⟨c, hc, by simpa [VolatileRecord.expired] using he⟩
  have h1 : LocalCache.Resolve newRR now room upstream lc w req s
      = LocalCache.resolveFromUpstream newRR now room upstream
          ⟨GoMap.delete lc.entries (req.Qtype, req.Name), lc.metrics⟩ w req s := by
    unfold LocalCache.Resolve
    rw [hget]
    simp only [hany, if_true]
  have h2 : LocalCache.Resolve newRR now room upstream
      ⟨GoMap.delete lc.entries (req.Qtype, req.Name), lc.metrics⟩ w req s
      = LocalCache.resolveFromUpstream newRR now room upstream
          ⟨GoMap.delete lc.entries (req.Qtype, req.Name), lc.metrics⟩ w req s := by
    unfold LocalCache.Resolve
    simp only [GoMap.get_delete, if_true]
  have hmiss : ∀ (lc0 : LocalCache) (room0 : Nat),
      (LocalCache.resolveFromUpstream newRR now room0 upstream lc0 w req s).writer = none
        ∨ (LocalCache.resolveFromUpstream newRR now room0 upstream lc0 w req s).writer.map
              ResponseWriter.Records
            = some (w.Records
                ++ ((upstream (LocalCache.refuses newRR)).answer req s).1.Added.filter
                    (fun r => LocalCache.refuses newRR r = none)) := by
    intro lc0 room0
    obtain ⟨_, _, hr, hb⟩ := LocalCache.resolveFromUpstream_spec newRR now room0 upstream lc0 w req s
    by_cases hroom : LocalCache.sends newRR now
        ((upstream (LocalCache.refuses newRR)).answer req s).1.Added ≤ room0
    · right
      rw [(hr hroom).2.1]
      rfl
    · left
      exact (hb (by omega)).1
  obtain ⟨_, hf, hr, hb⟩ := LocalCache.resolveFromUpstream_spec newRR now room upstream
    ⟨GoMap.delete lc.entries (req.Qtype, req.Name), lc.metrics⟩ w req s
  refine ⟨h1, h1.trans h2.symm, ?_, ?_, ?_, ?_⟩
  · rw [h1]
    apply hf
    intro xs hxs
    simp [GoMap.get_delete] at hxs
  · intro hroom
    rw [h1]
    refine ⟨?_, ?_⟩
    · rw [(hr hroom).1]
      simp only [GoMap.get_delete, if_true, Option.getD_none, List.nil_append]
    · rw [(hr hroom).2.1]
      rfl
  · intro hroom
    rw [h1]
    exact (hb hroom).1
  · intro lc' room'
    cases hg : GoMap.get lc'.entries (req.Qtype, req.Name) with
    | none =>
      have he : LocalCache.Resolve newRR now room' upstream lc' w req s
          = LocalCache.resolveFromUpstream newRR now room' upstream lc' w req s := by
        unfold LocalCache.Resolve
        rw [hg]
      rw [he]
      rcases hmiss lc' room' with h | h
      · exact Or.inl h
      · exact Or.inr (Or.inl h)
    | some records' =>
      by_cases ha : records'.any (VolatileRecord.expired now) = true
      · have he : LocalCache.Resolve newRR now room' upstream lc' w req s
            = LocalCache.resolveFromUpstream newRR now room' upstream
                ⟨GoMap.delete lc'.entries (req.Qtype, req.Name), lc'.metrics⟩ w req s := by
          unfold LocalCache.Resolve
          rw [hg]
          simp only [ha, if_true]
        rw [he]
        rcases hmiss ⟨GoMap.delete lc'.entries (req.Qtype, req.Name), lc'.metrics⟩ room' with h | h
        · exact Or.inl h
        · exact Or.inr (Or.inl h)
      · right
        right
        refine ⟨records', rfl, ?_, ?_⟩
        · intro c hc
          have hne : ¬ VolatileRecord.expired now c = true :=
            fun h => ha (List.any_eq_true.mpr ⟨c, hc, h⟩)
          simp only [VolatileRecord.expired, decide_eq_true_eq] at hne
          omega
        · unfold LocalCache.Resolve
          rw [hg]
          simp only [ha, if_false]
          show some (LocalCache.readLoop now records' ⟨w.Records, false⟩).2.1.Records = _
          rw [LocalCache.readLoop_writer]

/-- C14 at the third request of the repository's test `shortTTL`: at instant 1002 the member
with TTL 2 stored at 1000 has expired.  The entry held the members expiring at 1010 and 1002;
after the call it holds the two the upstream handed over, expiring at 1012 and 1004. -/
theorem localCache_expired_entry_witness :
    GoMap.get shortCache.entries (shortRequest.Qtype, shortRequest.Name)
        = some ((GoMap.get shortCache.entries (TypeA, "short.example.com.".toList)).getD [])
      ∧ (∃ c ∈ (GoMap.get shortCache.entries (TypeA, "short.example.com.".toList)).getD [],
          c.Expire ≤ ((1002 : Nat) : Int))
      ∧ (∀ xs, GoMap.get (LocalCache.Resolve zoneLine 1002 100 cacheTestUpstream.upstream shortCache
            ⟨[], true⟩ shortRequest ()).cache.entries (shortRequest.Qtype, shortRequest.Name)
          = some xs → ∀ c ∈ xs, ((1002 : Nat) : Int) < c.Expire)
      ∧ shortCache.entries.map (fun e => (e.1, e.2.map VolatileRecord.Expire))
          = [((TypeA, "short.example.com.".toList), [1010, 1002])]
      ∧ (LocalCache.Resolve zoneLine 1002 100 cacheTestUpstream.upstream shortCache
            ⟨[], true⟩ shortRequest ()).cache.entries.map
              (fun e => (e.1, e.2.map VolatileRecord.Expire))
          = [((TypeA, "short.example.com.".toList), [1012, 1004])] :=
  ⟨by decide, by decide,
    (localCache_expired_entry zoneLine 1002 100 cacheTestUpstream.upstream shortCache ⟨[], true⟩
      shortRequest () ((GoMap.get shortCache.entries (TypeA, "short.example.com.".toList)).getD [])
      (by decide) (by decide)).2.2.1,
    by decide, by decide⟩

/-- The miss path of `LocalCache.Resolve` (no entry under the request's type and name, or one
with an expired member, which is deleted): with room in the channel for the signals of the
records stored, the entry under every key is the entry the cache held there, followed by the
records the upstream handed over whose own type and name are that key, whose TTL is above 0
and which convert to a wire record, in order, each expiring TTL seconds from now; a key with
no such record keeps its entry; the writer gets the records the hook lets through.  Without
that room the call does not return.  `CacheMiss` has run once in both cases. -/
theorem localCache_miss_entries {σ : Type} (newRR : RRReader) (now room : Nat)
    (upstream : (Record → Option Error) → Resolver σ) (lc : LocalCache) (w : ResponseWriter)
    (req : Request) (s : σ)
    (hmiss : ∀ records, GoMap.get lc.entries (req.Qtype, req.Name) = some records →
      ∃ c ∈ records, c.Expire ≤ (now : Int)) :
    (LocalCache.sends newRR now ((upstream (LocalCache.refuses newRR)).answer req s).1.Added
          ≤ room →
        (∀ k, GoMap.get (LocalCache.Resolve newRR now room upstream lc w req s).cache.entries k
          = if LocalCache.cachedAt newRR now
                ((upstream (LocalCache.refuses newRR)).answer req s).1.Added k = []
            then GoMap.get (GoMap.delete lc.entries (req.Qtype, req.Name)) k
            else some ((GoMap.get (GoMap.delete lc.entries (req.Qtype, req.Name)) k).getD []
              ++ LocalCache.cachedAt newRR now
                  ((upstream (LocalCache.refuses newRR)).answer req s).1.Added k))
          ∧ (LocalCache.Resolve newRR now room upstream lc w req s).writer.map
                ResponseWriter.Records
              = some (w.Records
                  ++ ((upstream (LocalCache.refuses newRR)).answer req s).1.Added.filter
                      (fun r => LocalCache.refuses newRR r = none)))
      ∧ (room < LocalCache.sends newRR now
            ((upstream (LocalCache.refuses newRR)).answer req s).1.Added →
          (LocalCache.Resolve newRR now room upstream lc w req s).result = none)
      ∧ (∀ r ∈ ((upstream (LocalCache.refuses newRR)).answer req s).1.Added,
          r.GetTTL = 0 → LocalCache.cached newRR now r = none)
      ∧ (LocalCache.Resolve newRR now room upstream lc w req s).cache.metrics
          = lc.metrics.CacheMiss req := by
  have hres : LocalCache.Resolve newRR now room upstream lc w req s
      = LocalCache.resolveFromUpstream newRR now room upstream
          ⟨GoMap.delete lc.entries (req.Qtype, req.Name), lc.metrics⟩ w req s
        ∨ (GoMap.get lc.entries (req.Qtype, req.Name) = none
          ∧ LocalCache.Resolve newRR now room upstream lc w req s
            = LocalCache.resolveFromUpstream newRR now room upstream lc w req s) := by
    cases hg : GoMap.get lc.entries (req.Qtype, req.Name) with
    | none =>
      right
      refine ⟨rfl, ?_⟩
      unfold LocalCache.Resolve
      rw [hg]
    | some records =>
      left
      obtain ⟨c, hc, he⟩ := hmiss records hg
      have hany : records.any (VolatileRecord.expired now) = true := by
        rw [List.any_eq_true]
        exact ⟨c, hc, by simpa [VolatileRecord.expired] using he⟩
      unfold LocalCache.Resolve
      rw [hg]
      simp only [hany, if_true]
  have hzero : ∀ r ∈ ((upstream (LocalCache.refuses newRR)).answer req s).1.Added,
      r.GetTTL = 0 → LocalCache.cached newRR now r = none := by
    intro r _ h0
    unfold LocalCache.cached
    rw [if_pos h0]
  rcases hres with h | ⟨hnone, h⟩
  · rw [h]
    obtain ⟨hm, _, hr, hb⟩ := LocalCache.resolveFromUpstream_spec newRR now room upstream
      ⟨GoMap.delete lc.entries (req.Qtype, req.Name), lc.metrics⟩ w req s
    refine ⟨fun hroom => ⟨(hr hroom).1, ?_⟩, fun hroom => (hb hroom).2, hzero, hm⟩
    rw [(hr hroom).2.1]
    rfl
  · rw [h]
    obtain ⟨hm, _, hr, hb⟩ := LocalCache.resolveFromUpstream_spec newRR now room upstream lc w req s
    have hdel : ∀ k, GoMap.get (GoMap.delete lc.entries (req.Qtype, req.Name)) k
        = GoMap.get lc.entries k := by
      intro k
      rw [GoMap.get_delete]
      by_cases hk : (req.Qtype, req.Name) = k
      · rw [if_pos hk, ← hk, hnone]
      · rw [if_neg hk]
    refine ⟨fun hroom => ⟨fun k => ?_, ?_⟩, fun hroom => (hb hroom).2, hzero, hm⟩
    · rw [(hr hroom).1 k, hdel k]
    · rw [(hr hroom).2.1]
      rfl

/-- C12 at its failing input: an upstream answers the request for `www.example.com.`, type A,
the way a forwarder does for an alias, with `www.example.com. 100 IN CNAME host.example.com.`
and `host.example.com. 50 IN A 127.0.0.1`.  After the miss path at instant 1000 on a new
cache, with the channel empty, there is no entry under the request's key; the records sit
under (CNAME, `www.example.com.`) and (A, `host.example.com.`).  The same request at 1001 is a
miss again: the upstream is asked again, both entries, neither of them under the request's
key, now hold two members, and the miss counter of A stands at 2.  The Redis cache on the same
input stores both records under the request's key `A:www.example.com.` and answers the second
request from it.  With one free place left in the channel, the call for the two records does
not return. -/
theorem localCache_keys_by_record :
    (aliasUpstream.upstream (LocalCache.refuses zoneLine)).answer aliasRequest ()
        = (⟨[.Cname "www.example.com.".toList 100 "host.example.com.".toList,
              .Address "host.example.com.".toList 50 (v4InV6Prefix ++ [127, 0, 0, 1])],
            false, none⟩, ())
      ∧ (LocalCache.Resolve zoneLine 1000 100 aliasUpstream.upstream
            (NewLocalCache NewMetrics) ⟨[], true⟩ aliasRequest ()).result = some (.ok ())
      ∧ GoMap.get (LocalCache.Resolve zoneLine 1000 100 aliasUpstream.upstream
            (NewLocalCache NewMetrics) ⟨[], true⟩ aliasRequest ()).cache.entries
          (TypeA, "www.example.com.".toList) = none
      ∧ ((LocalCache.Resolve zoneLine 1000 100 aliasUpstream.upstream
            (NewLocalCache NewMetrics) ⟨[], true⟩ aliasRequest ()).cache.entries.map
              (fun e => (e.1, e.2.map VolatileRecord.Expire)))
          = [((TypeCNAME, "www.example.com.".toList), [1100]),
              ((TypeA, "host.example.com.".toList), [1050])]
      ∧ ((LocalCache.Resolve zoneLine 1001 100 aliasUpstream.upstream
            (LocalCache.Resolve zoneLine 1000 100 aliasUpstream.upstream
              (NewLocalCache NewMetrics) ⟨[], true⟩ aliasRequest ()).cache
            ⟨[], true⟩ aliasRequest ()).cache.entries.map
              (fun e => (e.1, e.2.map VolatileRecord.Expire)))
          = [((TypeCNAME, "www.example.com.".toList), [1100, 1101]),
              ((TypeA, "host.example.com.".toList), [1050, 1051])]
      ∧ (LocalCache.Resolve zoneLine 1001 100 aliasUpstream.upstream
            (LocalCache.Resolve zoneLine 1000 100 aliasUpstream.upstream
              (NewLocalCache NewMetrics) ⟨[], true⟩ aliasRequest ()).cache
            ⟨[], true⟩ aliasRequest ()).cache.metrics.cacheMissCounters
          = [("A".toList, 2), ("AAAA".toList, 0), ("PTR".toList, 0), ("SRV".toList, 0),
              ("TXT".toList, 0)]
      ∧ (RedisCache.Resolve zoneLine 1000 aliasUpstream.upstream ⟨[], NewMetrics⟩ ⟨[], true⟩
            aliasRequest ()).1.db
          = [("A:www.example.com.".toList,
              ⟨["www.example.com. 100 IN CNAME host.example.com. ; 1100".toList,
                "host.example.com. 50 IN A 127.0.0.1 ; 1050".toList], some 1050⟩)]
      ∧ RedisDB.lrange 1001
            (RedisCache.Resolve zoneLine 1000 aliasUpstream.upstream ⟨[], NewMetrics⟩ ⟨[], true⟩
              aliasRequest ()).1.db "A:www.example.com.".toList
          = ["www.example.com. 100 IN CNAME host.example.com. ; 1100".toList,
              "host.example.com. 50 IN A 127.0.0.1 ; 1050".toList]
      ∧ (RedisCache.Resolve zoneLine 1001 aliasUpstream.upstream
            (RedisCache.Resolve zoneLine 1000 aliasUpstream.upstream ⟨[], NewMetrics⟩ ⟨[], true⟩
              aliasRequest ()).1 ⟨[], true⟩ aliasRequest ()).2.1
          = ⟨[.Cname "www.example.com.".toList 99 "host.example.com.".toList,
              .Address "host.example.com.".toList 49 (v4InV6Prefix ++ [127, 0, 0, 1])], false⟩
      ∧ (LocalCache.Resolve zoneLine 1000 1 aliasUpstream.upstream
            (NewLocalCache NewMetrics) ⟨[], true⟩ aliasRequest ()).result = none := by
  refine ⟨by decide, by decide, by decide, by decide, by decide, by decide, by decide, by decide,
    by decide, by decide⟩

/-! ## C15: the counters of the Redis cache -/

/-- The metrics after `RedisCache.resolveFromUpstream`. -/
theorem RedisCache.resolveFromUpstream_metrics {σ : Type} (newRR : RRReader) (now : Nat)
    (upstream : (Record → Option Error) → Resolver σ) (rc : RedisCache) (w : ResponseWriter)
    (req : Request) (key : Text) (s : σ) :
    (RedisCache.resolveFromUpstream newRR now upstream rc w req key s).1.metrics
      = rc.metrics.CacheHit req := by
  unfold RedisCache.resolveFromUpstream
  simp only
  split
  · rfl
  · split
    · rfl
    · split <;> rfl

/-- C15 in the code: `RedisCache.Resolve` runs `CacheHit` when the stored list is empty and
it resolves through the upstream, and `CacheMiss` when it answers from the stored list, the
other way round than `LocalCache.Resolve`, which runs `CacheMiss` on its way to the upstream
and `CacheHit` when it answers from an entry, whatever room its channel has. -/
theorem redisCache_counters_swapped {σ : Type} (newRR : RRReader) (now room : Nat)
    (upstream : (Record → Option Error) → Resolver σ) (rc : RedisCache) (lc : LocalCache)
    (w : ResponseWriter) (req : Request) (s : σ) :
    (RedisCache.Resolve newRR now upstream rc w req s).1.metrics
        = (if RedisDB.lrange now rc.db (QtypeToString req.Qtype ++ ":".toList ++ req.Name) = []
            then rc.metrics.CacheHit req else rc.metrics.CacheMiss req)
      ∧ (LocalCache.Resolve newRR now room upstream lc w req s).cache.metrics
          = match GoMap.get lc.entries (req.Qtype, req.Name) with
            | none => lc.metrics.CacheMiss req
            | some records =>
              if records.any (VolatileRecord.expired now) then lc.metrics.CacheMiss req
              else lc.metrics.CacheHit req := by
  refine ⟨?_, LocalCache.resolve_metrics newRR now room upstream lc w req s⟩
  unfold RedisCache.Resolve
  simp only
  split
  · exact RedisCache.resolveFromUpstream_metrics newRR now upstream _ w req _ s
  · rfl

/-- C15 at its failing input: the request for `example.com.`, type A, on a new Redis cache
and on a new local cache, both over the test upstream, at instant 1000.  Both resolve
through the upstream; the Redis cache leaves the hit counter of A at 1 and the miss counter
at 0, the local cache the hit counter at 0 and the miss counter at 1. -/
theorem redisCache_counters_swapped_witness :
    (RedisCache.Resolve zoneLine 1000 cacheTestUpstream.upstream ⟨[], NewMetrics⟩ ⟨[], true⟩
        exampleRequest ()).1.metrics = NewMetrics.CacheHit exampleRequest
      ∧ (LocalCache.Resolve zoneLine 1000 100 cacheTestUpstream.upstream (NewLocalCache NewMetrics)
          ⟨[], true⟩ exampleRequest ()).cache.metrics = NewMetrics.CacheMiss exampleRequest
      ∧ GoMap.get (NewMetrics.CacheHit exampleRequest).cacheHitCounters "A".toList = some 1
      ∧ GoMap.get (NewMetrics.CacheHit exampleRequest).cacheMissCounters "A".toList = some 0
      ∧ GoMap.get (NewMetrics.CacheMiss exampleRequest).cacheHitCounters "A".toList = some 0
      ∧ GoMap.get (NewMetrics.CacheMiss exampleRequest).cacheMissCounters "A".toList = some 1 :=
  ⟨(redisCache_counters_swapped zoneLine 1000 100 cacheTestUpstream.upstream ⟨[], NewMetrics⟩
      (NewLocalCache NewMetrics) ⟨[], true⟩ exampleRequest ()).1,
    (redisCache_counters_swapped zoneLine 1000 100 cacheTestUpstream.upstream ⟨[], NewMetrics⟩
      (NewLocalCache NewMetrics) ⟨[], true⟩ exampleRequest ()).2,
    by decide, by decide, by decide, by decide⟩

/-! ## C19: `Records` -/

/-- The records `scanRecords` returns are those of the rows, one for one. -/
theorem SqliteResolver.scanRecords_ok (newRR : RRReader) (now : Nat) (rows : List Row)
    (rs : DynamicRecordSet) (h : SqliteResolver.scanRecords newRR now rows = .ok rs) :
    List.Forall₂ (fun row dr => SqliteResolver.scanRow newRR now row = .ok dr) rows rs := by
  induction rows generalizing rs with
  | nil =>
    simp only [SqliteResolver.scanRecords, Outcome.ok.injEq] at h
    subst h
    exact List.Forall₂.nil
  | cons row rows ih =>
    unfold SqliteResolver.scanRecords at h
    cases hrow : SqliteResolver.scanRow newRR now row with
    | panic => rw [hrow] at h; cases h
    | error e => rw [hrow] at h; cases h
    | ok dr =>
      rw [hrow] at h
      cases hrest : SqliteResolver.scanRecords newRR now rows with
      | panic => rw [hrest] at h; cases h
      | error e => rw [hrest] at h; cases h
      | ok rest =>
        rw [hrest] at h
        simp only [Outcome.ok.injEq] at h
        subst h
        exact List.Forall₂.cons hrow (ih rest hrest)

/-- The record `scanRecords` makes of a row carries the row's ID, is volatile when the row
has an expiry instant, and is enabled. -/
theorem SqliteResolver.scanRow_ok (newRR : RRReader) (now : Nat) (row : Row) (dr : DynamicRecord)
    (h : SqliteResolver.scanRow newRR now row = .ok dr) :
    dr.ID = some row.id ∧ dr.Volatile = decide (row.expire ≠ 0) ∧ dr.Disabled = false := by
  unfold SqliteResolver.scanRow at h
  split at h
  · simp only [Outcome.ok.injEq] at h
    subst h
    exact ⟨rfl, rfl, rfl⟩
  · cases h
  · cases h

/-- The records `readResponses` returns are those of the entries whose text has not expired,
one for one. -/
theorem EtcdResolver.readResponses_ok (newRR : RRReader) (now : Nat) (kvs : List KV)
    (rs : DynamicRecordSet) (h : EtcdResolver.readResponses newRR now kvs = .ok rs) :
    List.Forall₂ (EtcdResolver.readsAs newRR now)
      (kvs.filter (fun kv => !EtcdResolver.textExpired newRR now kv)) rs := by
  induction kvs generalizing rs with
  | nil =>
    simp only [EtcdResolver.readResponses, Outcome.ok.injEq] at h
    subst h
    exact List.Forall₂.nil
  | cons kv kvs ih =>
    unfold EtcdResolver.readResponses at h
    cases hu : VolatileRecord.UnmarshalText newRR now kv.Value with
    | error e =>
      rw [hu] at h
      simp only at h
      by_cases hk : e.Kind = .ExpirationError
      · rw [if_pos hk] at h
        have hexp : EtcdResolver.textExpired newRR now kv = true := by
          simp [EtcdResolver.textExpired, hu, hk]
        rw [List.filter_cons_of_neg (by simp [hexp])]
        exact ih rs h
      · rw [if_neg hk] at h
        cases h
    | ok vr =>
      rw [hu] at h
      simp only at h
      have hexp : EtcdResolver.textExpired newRR now kv = false := by
        simp [EtcdResolver.textExpired, hu]
      rw [List.filter_cons_of_pos (by simp [hexp])]
      cases hrec : vr.Record now with
      | panic => rw [hrec] at h; cases h
      | error e => rw [hrec] at h; cases h
      | ok rec =>
        rw [hrec] at h
        simp only at h
        cases hid : EtcdResolver.getIDbyKey kv.Key with
        | error e => rw [hid] at h; cases h
        | ok id =>
          rw [hid] at h
          simp only at h
          cases hrest : EtcdResolver.readResponses newRR now kvs with
          | panic => rw [hrest] at h; cases h
          | error e => rw [hrest] at h; cases h
          | ok rest =>
            rw [hrest] at h
            simp only [Outcome.ok.injEq] at h
            subst h
            exact List.Forall₂.cons ⟨vr, id, hu, hrec, hid, rfl, rfl, rfl⟩ (ih rest hrest)

/-- When every row reads, `scanRecords` returns records. -/
theorem SqliteResolver.scanRecords_total (newRR : RRReader) (now : Nat) (rows : List Row)
    (h : ∀ row ∈ rows, ∃ dr, SqliteResolver.scanRow newRR now row = .ok dr) :
    ∃ rs, SqliteResolver.scanRecords newRR now rows = .ok rs := by
  induction rows with
  | nil => exact ⟨[], rfl⟩
  | cons row rows ih =>
    obtain ⟨dr, hdr⟩ := h row (List.mem_cons_self row rows)
    obtain ⟨rs, hrs⟩ := ih (fun r hr => h r (List.mem_cons_of_mem row hr))
    refine ⟨dr :: rs, ?_⟩
    unfold SqliteResolver.scanRecords
    rw [hdr, hrs]

/-- When every entry whose text has not expired reads, `readResponses` returns records. -/
theorem EtcdResolver.readResponses_total (newRR : RRReader) (now : Nat) (kvs : List KV)
    (h : ∀ kv ∈ kvs, EtcdResolver.textExpired newRR now kv = false →
      ∃ dr, EtcdResolver.readsAs newRR now kv dr) :
    ∃ rs, EtcdResolver.readResponses newRR now kvs = .ok rs := by
  induction kvs with
  | nil => exact ⟨[], rfl⟩
  | cons kv kvs ih =>
    obtain ⟨rs, hrs⟩ := ih (fun k hk => h k (List.mem_cons_of_mem kv hk))
    unfold EtcdResolver.readResponses
    by_cases hexp : EtcdResolver.textExpired newRR now kv = true
    · unfold EtcdResolver.textExpired at hexp
      cases hu : VolatileRecord.UnmarshalText newRR now kv.Value with
      | ok vr => rw [hu] at hexp; cases hexp
      | error e =>
        rw [hu] at hexp
        simp only [decide_eq_true_eq] at hexp
        simp only [hexp, if_true]
        exact ⟨rs, hrs⟩
    · obtain ⟨dr, vr, id, hu, hrec, hid, _, _, _⟩ :=
        h kv (List.mem_cons_self kv kvs) (by simpa using hexp)
      rw [hu]
      simp only [hrec, hid, hrs]
      exact ⟨_, rfl⟩

/-- C19 as amended: when `Records` succeeds it returns the non-expired stored records, one
for one.  In the SQLite resolver these are the rows without expiry instant or with one after
now, each read with its ID, in ascending ID; in the etcd resolver they are the entries under
`/records/` whose lease and whose text have not expired, each read with the ID its key ends
in, in the order of the store, which is the order of the keys (the name's labels from the
right, then the ID as text), not that of the IDs. -/
theorem records_in_store_order (newRR : RRReader) (now : Nat) (db : SqliteDB) (pre : Text)
    (st : EtcdStore) :
    (∀ rs, SqliteResolver.Records newRR now db = .ok rs →
        List.Forall₂ (fun row dr => SqliteResolver.scanRow newRR now row = .ok dr
            ∧ dr.ID = some row.id ∧ dr.Volatile = decide (row.expire ≠ 0) ∧ dr.Disabled = false)
          (SqliteResolver.orderByID (db.rows.filter (SqliteResolver.unexpired now))) rs)
      ∧ ((∀ row ∈ db.rows, SqliteResolver.unexpired now row = true →
            ∃ dr, SqliteResolver.scanRow newRR now row = .ok dr) →
          ∃ rs, SqliteResolver.Records newRR now db = .ok rs)
      ∧ (SqliteResolver.orderByID (db.rows.filter (SqliteResolver.unexpired now))).Sorted
          (fun a b => a.id ≤ b.id)
      ∧ (SqliteResolver.orderByID (db.rows.filter (SqliteResolver.unexpired now))).Perm
          (db.rows.filter (fun row => row.expire = 0 ∨ row.expire > now))
      ∧ (∀ rs, EtcdResolver.Records newRR now pre st = .ok rs →
          List.Forall₂ (EtcdResolver.readsAs newRR now)
            ((EtcdResolver.getPrefix (pre ++ "/records/".toList) (EtcdResolver.prune now st)).filter
              (fun kv => !EtcdResolver.textExpired newRR now kv)) rs)
      ∧ ((∀ kv ∈ EtcdResolver.getPrefix (pre ++ "/records/".toList) (EtcdResolver.prune now st),
            EtcdResolver.textExpired newRR now kv = false →
              ∃ dr, EtcdResolver.readsAs newRR now kv dr) →
          ∃ rs, EtcdResolver.Records newRR now pre st = .ok rs)
      ∧ ((EtcdResolver.getPrefix (pre ++ "/records/".toList) (EtcdResolver.prune now st)).filter
            (fun kv => !EtcdResolver.textExpired newRR now kv)).Sublist st := by
  refine ⟨?_, ?_, ?_, ?_, ?_, ?_, ?_⟩
  · intro rs h
    have h1 := SqliteResolver.scanRecords_ok newRR now _ rs h
    exact h1.imp (fun row dr hrow => ⟨hrow, SqliteResolver.scanRow_ok newRR now row dr hrow⟩)
  · intro hall
    apply SqliteResolver.scanRecords_total
    intro row hrow
    have hmem : row ∈ db.rows.filter (SqliteResolver.unexpired now) :=
      (List.perm_insertionSort _ _).subset hrow
    rw [List.mem_filter] at hmem
    exact hall row hmem.1 hmem.2
  · haveI : IsTotal Row (fun a b => a.id ≤ b.id) := ⟨fun a b => Int.le_total a.id b.id⟩
    haveI : IsTrans Row (fun a b => a.id ≤ b.id) := ⟨fun a b c hab hbc => Int.le_trans hab hbc⟩
    exact List.sorted_insertionSort _ _
  · have hfun : (fun row : Row => decide (row.expire = 0 ∨ row.expire > now))
        = SqliteResolver.unexpired now := by
      funext row
      simp [SqliteResolver.unexpired]
    rw [hfun]
    exact List.perm_insertionSort _ _
  · intro rs h
    exact EtcdResolver.readResponses_ok newRR now _ rs h
  · intro hall
    exact EtcdResolver.readResponses_total newRR now _ hall
  · exact (List.filter_sublist _).trans ((List.filter_sublist _).trans (List.filter_sublist _))

/-- C19 refuted as stated: after `example.com. 42 IN A 127.0.0.1` is set on a new etcd
resolver, stored under ID 1 with its PTR record under ID 2, `Records` returns the PTR record
first: the key of `1.0.0.127.in-addr.arpa.` comes before the key of `example.com.`.  The
SQLite resolver returns ID 1, then ID 2. -/
theorem etcd_records_in_key_order :
    EtcdResolver.Records zoneLine 1001 "/landns".toList
        (EtcdResolver.run zoneLine "/landns".toList [.SetRecords 1000 [sampleAddress]])
      = .ok [⟨.Ptr "1.0.0.127.in-addr.arpa.".toList 42 "example.com.".toList, some 2, false, false⟩,
          ⟨.Address "example.com.".toList 42 (v4InV6Prefix ++ [127, 0, 0, 1]), some 1, false, false⟩]
      ∧ SqliteResolver.Records zoneLine 1001 (SqliteResolver.run [.SetRecords 1000 [sampleAddress]])
        = .ok [⟨.Address "example.com.".toList 42 (v4InV6Prefix ++ [127, 0, 0, 1]), some 1, false, false⟩,
            ⟨.Ptr "1.0.0.127.in-addr.arpa.".toList 42 "example.com.".toList, some 2, false, false⟩] := by
  refine ⟨by decide, by decide⟩

/-! ## C16: `SearchRecords` -/

/-- C16 at its failing inputs.  With `example2.com.` and `example.com.` stored, the etcd
`SearchRecords("example.com.")` returns the record of `example2.com.` too: it asks for the
keys that begin with `/records/com/example`, a prefix of `/records/com/example2/1`; the
SQLite resolver returns the record of `example.com.` only.  The etcd search for
`1.example.com.` returns the record of `example.com.` stored under ID 1.  With
`_http._tcp.example.com.` stored, the SQLite `SearchRecords("_http._tcp.example.com.")`
returns nothing: the name is compared with the suffix after `_` was escaped for `LIKE`; the
etcd resolver returns the record.  Neither resolver finds `example.com.` under
`EXAMPLE.COM.`, while the SQLite resolver finds it under `COM.`. -/
theorem searchRecords_not_label_aligned :
    EtcdResolver.SearchRecords zoneLine 1001 "/landns".toList
        (EtcdResolver.run zoneLine "/landns".toList [.SetRecords 1000 [otherAddress, sampleAddress]])
        "example.com.".toList
      = .ok [⟨.Address "example.com.".toList 42 (v4InV6Prefix ++ [127, 0, 0, 1]), some 3, false, false⟩,
          ⟨.Address "example2.com.".toList 42 (v4InV6Prefix ++ [127, 0, 0, 2]), some 1, false, false⟩]
      ∧ SqliteResolver.SearchRecords zoneLine 1001
          (SqliteResolver.run [.SetRecords 1000 [otherAddress, sampleAddress]]) "example.com.".toList
        = .ok [⟨.Address "example.com.".toList 42 (v4InV6Prefix ++ [127, 0, 0, 1]), some 3, false, false⟩]
      ∧ EtcdResolver.SearchRecords zoneLine 1001 "/landns".toList
          (EtcdResolver.run zoneLine "/landns".toList [.SetRecords 1000 [sampleAddress]])
          "1.example.com.".toList
        = .ok [⟨.Address "example.com.".toList 42 (v4InV6Prefix ++ [127, 0, 0, 1]), some 1, false, false⟩]
      ∧ SqliteResolver.SearchRecords zoneLine 1001
          (SqliteResolver.run [.SetRecords 1000 [underscoreText]]) "_http._tcp.example.com.".toList
        = .ok []
      ∧ EtcdResolver.SearchRecords zoneLine 1001 "/landns".toList
          (EtcdResolver.run zoneLine "/landns".toList [.SetRecords 1000 [underscoreText]])
          "_http._tcp.example.com.".toList
        = .ok [⟨.Txt "_http._tcp.example.com.".toList 42 "hello".toList, some 1, false, false⟩]
      ∧ EtcdResolver.SearchRecords zoneLine 1001 "/landns".toList
          (EtcdResolver.run zoneLine "/landns".toList [.SetRecords 1000 [sampleAddress]])
          "EXAMPLE.COM.".toList = .ok []
      ∧ SqliteResolver.SearchRecords zoneLine 1001
          (SqliteResolver.run [.SetRecords 1000 [sampleAddress]]) "EXAMPLE.COM.".toList = .ok []
      ∧ SqliteResolver.SearchRecords zoneLine 1001
          (SqliteResolver.run [.SetRecords 1000 [sampleAddress]]) "COM.".toList
        = .ok [⟨.Address "example.com.".toList 42 (v4InV6Prefix ++ [127, 0, 0, 1]), some 1, false, false⟩] := by
  refine ⟨by decide, by decide, by decide, by decide, by decide, by decide, by decide, by decide⟩

/-! ## C18: the glob `*ple.com` -/

/-- C18 as amended: `GetRecordsByGlob` hands the path `/v1/glob/*ple.com` on as the glob
`*ple.com.`, and that glob matches the name `example.com.` and the name `ple.com.` too, the
`*` standing for no character: by the matcher of `compileGlob`, by the `LIKE` pattern of the
SQLite resolver, and by the glob as the specification reads it. -/
theorem glob_ple_com_matches_both :
    DynamicAPI.globOfPath "/v1/glob/*ple.com".toList = .ok "*ple.com.".toList
      ∧ globAccepts "*ple.com.".toList "example.com.".toList = some true
      ∧ globAccepts "*ple.com.".toList "ple.com.".toList = some true
      ∧ likeMatch '\\' (ReplaceAll (SqliteResolver.escapeLike "*ple.com.".toList) "*".toList
          "%".toList) "example.com.".toList = true
      ∧ likeMatch '\\' (ReplaceAll (SqliteResolver.escapeLike "*ple.com.".toList) "*".toList
          "%".toList) "ple.com.".toList = true
      ∧ globMatch "*ple.com.".toList "example.com.".toList = true
      ∧ globMatch "*ple.com.".toList "ple.com.".toList = true := by
  refine ⟨rfl, by decide, by decide, by decide, by decide, by decide, by decide⟩

/-- C18 refuted as stated: with `ple.com. 42 IN TXT "hello"` and `example.com. 42 IN TXT
"hello"` stored, `GlobRecords("*ple.com.")` returns the record of `ple.com.` along with that
of `example.com.`, in either resolver. -/
theorem globRecords_ple_com :
    EtcdResolver.GlobRecords zoneLine 1001 "/landns".toList
        (EtcdResolver.run zoneLine "/landns".toList [.SetRecords 1000 [pleText, exampleText]])
        "*ple.com.".toList
      = some (.ok [⟨.Txt "example.com.".toList 42 "hello".toList, some 2, false, false⟩,
          ⟨.Txt "ple.com.".toList 42 "hello".toList, some 1, false, false⟩])
      ∧ SqliteResolver.GlobRecords zoneLine 1001
          (SqliteResolver.run [.SetRecords 1000 [pleText, exampleText]]) "*ple.com.".toList
        = .ok [⟨.Txt "ple.com.".toList 42 "hello".toList, some 1, false, false⟩,
            ⟨.Txt "example.com.".toList 42 "hello".toList, some 2, false, false⟩] := by
  refine ⟨by decide, by decide⟩

/-! ## C17: `compileGlob` -/

theorem replaceLoop_single (c : Char) (new : Text) (fuel : Nat) (s : Text)
    (h : s.length ≤ fuel) :
    replaceLoop [c] new fuel s = s.flatMap (fun x => if x = c then new else [x]) := by
  induction fuel generalizing s with
  | zero =>
    have : s = [] := List.eq_nil_of_length_eq_zero (by omega)
    subst this
    rfl
  | succ fuel ih =>
    cases s with
    | nil => rfl
    | cons x rest =>
      have hrest : rest.length ≤ fuel := by
        simp only [List.length_cons] at h
        omega
      unfold replaceLoop
      by_cases hx : x = c
      · subst hx
        simp only [List.isPrefixOf_cons₂_self, List.isPrefixOf_nil_left, if_true,
          List.length_singleton, List.drop_succ_cons, List.drop_zero, List.flatMap_cons]
        rw [ih rest hrest]
      · have hcx : (c == x) = false := by
          rw [beq_eq_false_iff_ne]
          exact fun h' => hx h'.symm
        simp only [List.isPrefixOf_cons₂, hcx, Bool.false_and, Bool.false_eq_true, if_false,
          List.flatMap_cons, if_neg hx, List.singleton_append]
        rw [ih rest hrest]

theorem ReplaceAll_single (s : Text) (c : Char) (new : Text) :
    ReplaceAll s [c] new = s.flatMap (fun x => if x = c then new else [x]) := by
  unfold ReplaceAll
  rw [if_neg (by simp)]
  exact replaceLoop_single c new s.length s (Nat.le_refl _)

/-- One replacement after the other, character by character. -/
theorem flatMap_replace_cons (f : Char → Text) (x : Char) (t : Text) :
    (x :: t).flatMap f = f x ++ t.flatMap f := List.flatMap_cons x t f

theorem globReplacements_eq :
    globReplacements
      = [(['\\'], ['\\', '\\']), (['.'], ['\\', '.']), (['+'], ['\\', '+']),
          (['['], ['\\', '[']), ([']'], ['\\', ']']), (['('], ['\\', '(']),
          ([')'], ['\\', ')']), (['^'], ['\\', '^']), (['$'], ['\\', '$']),
          (['*'], ['.', '*'])] := by
  decide

/-- What the replacements of `compileGlob` make of a text of one character. -/
theorem globEscape_one (x : Char) :
    (((((((((([x].flatMap (fun y => if y = '\\' then ['\\', '\\'] else [y])).flatMap
      (fun y => if y = '.' then ['\\', '.'] else [y])).flatMap
      (fun y => if y = '+' then ['\\', '+'] else [y])).flatMap
      (fun y => if y = '[' then ['\\', '['] else [y])).flatMap
      (fun y => if y = ']' then ['\\', ']'] else [y])).flatMap
      (fun y => if y = '(' then ['\\', '('] else [y])).flatMap
      (fun y => if y = ')' then ['\\', ')'] else [y])).flatMap
      (fun y => if y = '^' then ['\\', '^'] else [y])).flatMap
      (fun y => if y = '$' then ['\\', '$'] else [y])).flatMap
      (fun y => if y = '*' then ['.', '*'] else [y])) = globEscape x := by
  by_cases h1 : x = '\\'
  · subst h1; rfl
  by_cases h2 : x = '.'
  · subst h2; rfl
  by_cases h3 : x = '+'
  · subst h3; rfl
  by_cases h4 : x = '['
  · subst h4; rfl
  by_cases h5 : x = ']'
  · subst h5; rfl
  by_cases h6 : x = '('
  · subst h6; rfl
  by_cases h7 : x = ')'
  · subst h7; rfl
  by_cases h8 : x = '^'
  · subst h8; rfl
  by_cases h9 : x = '$'
  · subst h9; rfl
  by_cases h10 : x = '*'
  · subst h10; rfl
  simp only [List.flatMap_cons, List.flatMap_nil, List.append_nil, if_neg h1, if_neg h2,
    if_neg h3, if_neg h4, if_neg h5, if_neg h6, if_neg h7, if_neg h8, if_neg h9, if_neg h10]
  unfold globEscape globEscaped
  rw [if_neg h10, if_neg]
  simp only [List.mem_cons, List.mem_singleton, List.not_mem_nil, or_false]
  rintro (h | h | h | h | h | h | h | h | h)
  · exact h1 h
  · exact h2 h
  · exact h3 h
  · exact h4 h
  · exact h5 h
  · exact h6 h
  · exact h7 h
  · exact h8 h
  · exact h9 h

/-- The replacements of `compileGlob` work character by character. -/
theorem globPattern_eq (g : Text) :
    globPattern g = '^' :: (g.flatMap globEscape ++ ['$']) := by
  have hrep : globReplacements.foldl (fun g x => ReplaceAll g x.1 x.2) g
      = g.flatMap globEscape := by
    rw [globReplacements_eq]
    simp only [List.foldl_cons, List.foldl_nil, ReplaceAll_single]
    induction g with
    | nil => rfl
    | cons x g ih =>
      have hx := globEscape_one x
      simp only [List.flatMap_cons, List.flatMap_nil, List.append_nil, List.flatMap_append]
        at hx ih ⊢
      rw [ih, hx]
  unfold globPattern
  rw [hrep]
  rfl

/-- Reading the piece of the pattern that stands for one character of a glob. -/
theorem RegexpState.read_globEscape (c : Char) (hc : c ∉ globUnescaped) (rest : Text)
    (st : RegexpState) (hesc : st.esc = false) :
    ∃ rep, RegexpState.read (globEscape c ++ rest) st
      = RegexpState.read rest ⟨st.done, globPiece c :: st.cur, rep, false⟩ := by
  obtain ⟨done, cur, rep0, esc⟩ := st
  simp only at hesc
  subst hesc
  simp only [globUnescaped, List.mem_cons, List.mem_singleton, List.not_mem_nil, or_false,
    not_or] at hc
  obtain ⟨hq, hbar, hbrace⟩ := hc
  by_cases hstar : c = '*'
  · subst hstar
    refine ⟨1, ?_⟩
    rfl
  · by_cases hmem : c ∈ globEscaped
    · have hpiece : globPiece c = .lit c := by
        unfold globPiece
        rw [if_neg hstar]
      have hesc2 : globEscape c = ['\\', c] := by
        unfold globEscape
        rw [if_neg hstar, if_pos hmem]
      have hascii : (decide (c.toNat < 0x80) && !isAlnum c) = true := by
        simp only [globEscaped, List.mem_cons, List.mem_singleton, List.not_mem_nil,
          or_false] at hmem
        rcases hmem with h | h | h | h | h | h | h | h | h <;> subst h <;> decide
      refine ⟨0, ?_⟩
      rw [hesc2, hpiece]
      show RegexpState.read ('\\' :: c :: rest) _ = _
      rw [RegexpState.read]
      simp only [RegexpState.step, Bool.false_eq_true, if_false, if_true]
      rw [RegexpState.read]
      simp only [RegexpState.step, if_true, hascii]
    · have hpiece : globPiece c = .lit c := by
        unfold globPiece
        rw [if_neg hstar]
      have hesc2 : globEscape c = [c] := by
        unfold globEscape
        rw [if_neg hstar, if_neg hmem]
      simp only [globEscaped, List.mem_cons, List.mem_singleton, List.not_mem_nil, or_false,
        not_or] at hmem
      obtain ⟨h1, h2, h3, h4, h5, h6, h7, h8, h9⟩ := hmem
      refine ⟨0, ?_⟩
      rw [hesc2, hpiece]
      show RegexpState.read (c :: rest) _ = _
      rw [RegexpState.read]
      simp only [RegexpState.step, Bool.false_eq_true, if_false, h1, hstar, h3, hq, hbar, h2, h8,
        h9, h6, h7, h4, hbrace, Bool.or_self, decide_False]

/-- Reading the pattern of a glob that holds none of `?`, `|`, `{`: one piece for each
character of the glob. -/
theorem RegexpState.read_glob (g : Text) (hsafe : ∀ c ∈ g, c ∉ globUnescaped) (rest : Text)
    (st : RegexpState) (hesc : st.esc = false) :
    ∃ rep, RegexpState.read (g.flatMap globEscape ++ rest) st
      = RegexpState.read rest ⟨st.done, (g.map globPiece).reverse ++ st.cur, rep, false⟩ := by
  induction g generalizing st with
  | nil =>
    obtain ⟨done, cur, rep0, esc⟩ := st
    simp only at hesc
    subst hesc
    exact ⟨rep0, rfl⟩
  | cons c g ih =>
    obtain ⟨rep1, h1⟩ := RegexpState.read_globEscape c (hsafe c (List.mem_cons_self c g))
      (g.flatMap globEscape ++ rest) st hesc
    obtain ⟨rep2, h2⟩ := ih (fun x hx => hsafe x (List.mem_cons_of_mem c hx))
      ⟨st.done, globPiece c :: st.cur, rep1, false⟩ rfl
    refine ⟨rep2, ?_⟩
    rw [List.flatMap_cons, List.append_assoc, h1, h2]
    simp only [List.map_cons, List.reverse_cons, List.append_assoc, List.singleton_append]

/-- The syntax tree of the pattern of a glob that holds none of `?`, `|`, `{`. -/
theorem regexpCompile_glob (g : Text) (hsafe : ∀ c ∈ g, c ∉ globUnescaped) :
    regexpCompile (globPattern g)
      = some (.ok (.cat .beginText (Regexp.seq (g.map globPiece ++ [.endText])))) := by
  rw [globPattern_eq]
  unfold regexpCompile
  rw [RegexpState.read]
  have hfirst : RegexpState.step ⟨[], [], 0, false⟩ '^'
      = some (.ok ⟨[], [Regexp.beginText], 0, false⟩) := rfl
  rw [hfirst]
  simp only
  obtain ⟨rep, h⟩ := RegexpState.read_glob g hsafe ['$'] ⟨[], [Regexp.beginText], 0, false⟩ rfl
  rw [h]
  rw [RegexpState.read]
  have hlast : ∀ (cur : List Regexp),
      RegexpState.step ⟨[], cur, rep, false⟩ '$' = some (.ok ⟨[], .endText :: cur, 0, false⟩) := by
    intro cur
    simp only [RegexpState.step, Bool.false_eq_true, if_false]
    rfl
  rw [hlast]
  simp only
  rw [RegexpState.read]
  simp only [Bool.false_eq_true, if_false, List.nil_append, List.reverse_cons, List.reverse_append,
    List.reverse_reverse, List.reverse_nil, List.singleton_append, List.append_assoc,
    Regexp.branches, Regexp.seq, List.cons_append]

/-- The positions `.*` can end at: those after a run of characters other than newline. -/
theorem Regexp.iter_any (p : Text → Bool) (n : Nat) (b : Bool) (s : Text) (h : s.length ≤ n) :
    (Regexp.iter (Regexp.run .anyNotNL) n (b, s)).any (fun st => p st.2) = skipRun p s := by
  induction n generalizing b s with
  | zero =>
    have : s = [] := List.eq_nil_of_length_eq_zero (by omega)
    subst this
    simp [Regexp.iter, skipRun]
  | succ n ih =>
    cases s with
    | nil => simp [Regexp.iter, Regexp.run, skipRun]
    | cons x t =>
      have ht : t.length ≤ n := by
        simp only [List.length_cons] at h
        omega
      by_cases hx : x = '\n'
      · subst hx
        simp [Regexp.iter, Regexp.run, skipRun]
      · have hrun : Regexp.run .anyNotNL (b, x :: t) = [(false, t)] := by
          simp [Regexp.run, hx]
        rw [Regexp.iter, hrun]
        simp only [List.length_cons, Nat.lt_succ_self, decide_True, List.filter_cons_of_pos,
          List.filter_nil, List.flatMap_cons, List.flatMap_nil, List.append_nil, List.any_cons,
          skipRun, hx, decide_False, Bool.not_false, Bool.true_and]
        rw [ih false t ht]

/-- The pieces of a glob, followed by the end of the text, match from a position exactly when
the glob matches the text left. -/
theorem Regexp.run_glob (g : Text) (b : Bool) (s : Text) :
    (Regexp.run (Regexp.seq (g.map globPiece ++ [.endText])) (b, s)).any (fun _ => true)
      = globMatch g s := by
  induction g generalizing b s with
  | nil =>
    cases s <;> simp [Regexp.seq, Regexp.run, globMatch]
  | cons c g ih =>
    have hfun : (fun st : Bool × Text =>
        (Regexp.run (Regexp.seq (g.map globPiece ++ [.endText])) st).any (fun _ => true))
        = fun st => globMatch g st.2 := by
      funext st
      exact ih st.1 st.2
    simp only [List.map_cons, List.cons_append, Regexp.seq]
    rw [Regexp.run, List.any_flatMap]
    show ((globPiece c).run (b, s)).any (fun st =>
      (Regexp.run (Regexp.seq (g.map globPiece ++ [.endText])) st).any (fun _ => true)) = _
    rw [hfun]
    by_cases hstar : c = '*'
    · subst hstar
      simp only [globPiece, if_true, globMatch]
      rw [Regexp.run]
      exact Regexp.iter_any (globMatch g) s.length b s (Nat.le_refl _)
    · simp only [globPiece, if_neg hstar, globMatch]
      cases s with
      | nil => simp [Regexp.run]
      | cons x t =>
        by_cases hx : x = c
        · subst hx
          simp [Regexp.run]
        · simp [Regexp.run, hx]

/-- The matcher of the pattern of a glob, the pattern anchored at both ends. -/
theorem Regexp.matchString_glob (g s : Text) :
    Regexp.MatchString (.cat .beginText (Regexp.seq (g.map globPiece ++ [.endText]))) s
      = globMatch g s := by
  unfold Regexp.MatchString
  rw [List.range_succ_eq_map, List.any_cons, List.any_map]
  have hrest : (List.range s.length).any ((fun i => !(Regexp.run
      (.cat .beginText (Regexp.seq (g.map globPiece ++ [.endText])))
      (i == 0, s.drop i)).isEmpty) ∘ Nat.succ) = false := by
    rw [List.any_eq_false]
    intro i _
    simp [Regexp.run]
  rw [hrest, Bool.or_false]
  have h0 : Regexp.run (.cat .beginText (Regexp.seq (g.map globPiece ++ [.endText]))) (true, s)
      = Regexp.run (Regexp.seq (g.map globPiece ++ [.endText])) (true, s) := by
    rw [Regexp.run]
    simp [Regexp.run]
  simp only [beq_self_eq_true, List.drop_zero]
  rw [h0, ← Regexp.run_glob g true s]
  cases Regexp.run (Regexp.seq (g.map globPiece ++ [.endText])) (true, s) <;> rfl

/-- C17 in the code.  For a glob that holds none of `?`, `|`, `{`, `compileGlob` succeeds and
its matcher accepts a text exactly when the text matches the glob from end to end, `*`
standing for any run of characters other than newline and every other character for
itself.  The characters `?` and `|` keep the meaning the regular expression library gives
them: the matcher of `a|b` accepts `a`, that of `a?` accepts `a` and refuses `a?`, and
`a???` does not compile.  A `*` does not reach over a newline. -/
theorem compileGlob_spec :
    (∀ g : Text, (∀ c ∈ g, c ∉ globUnescaped) →
        ∃ check, compileGlob g = some (.ok check) ∧ ∀ s, check s = globMatch g s)
      ∧ globAccepts "a|b".toList "a".toList = some true
      ∧ globMatch "a|b".toList "a".toList = false
      ∧ globAccepts "a?".toList "a".toList = some true
      ∧ globMatch "a?".toList "a".toList = false
      ∧ globAccepts "a?".toList "a?".toList = some false
      ∧ globMatch "a?".toList "a?".toList = true
      ∧ globError "a???".toList = some "invalid nested repetition operator".toList
      ∧ globAccepts "*".toList "a\nb".toList = some false := by
  refine ⟨?_, by decide, by decide, by decide, by decide, by decide, by decide, by decide,
    by decide⟩
  intro g hsafe
  refine ⟨Regexp.MatchString (.cat .beginText (Regexp.seq (g.map globPiece ++ [.endText]))),
    ?_, fun s => Regexp.matchString_glob g s⟩
  unfold compileGlob
  rw [regexpCompile_glob g hsafe]

/-! ## C21: the kind of an address record -/

/-- C21: `NewRecordFromRR` keeps the address of an A or AAAA wire record and no kind: the
record reports A exactly when `To4` of the address is not nil, whatever the kind of the wire
record.  The AAAA wire record of the IPv4-mapped address `::ffff:127.0.0.1`, which the zone
text `example.com. 42 IN AAAA ::ffff:7f00:1` reads as, gives a record that reports A and
prints `example.com. 42 IN A 127.0.0.1`; an A wire record without data reports AAAA. -/
theorem newRecordFromRR_kind_from_address :
    (∀ (h : RR_Header) (a : IP),
        NewRecordFromRR (some (.A h a)) = .ok (.Address h.Name h.Ttl a)
          ∧ NewRecordFromRR (some (.AAAA h a)) = .ok (.Address h.Name h.Ttl a))
      ∧ (∀ (n : Domain) (ttl : Nat) (a : IP),
          ((Record.Address n ttl a).GetQtype = TypeA ↔ IsV4 a = true)
            ∧ ((Record.Address n ttl a).GetQtype = TypeAAAA ↔ IsV4 a = false)
            ∧ (Record.Address n ttl a).String
                = Domain.String n ++ " ".toList ++ formatNat ttl ++ " IN ".toList
                    ++ (if IsV4 a then "A".toList else "AAAA".toList) ++ " ".toList ++ a.String)
      ∧ zoneLine "example.com. 42 IN AAAA ::ffff:7f00:1".toList = .ok (some mappedWire)
      ∧ (∃ r : Record, NewRecordFromRR (some mappedWire) = .ok r ∧ r.GetQtype = TypeA
          ∧ r.String = "example.com. 42 IN A 127.0.0.1".toList)
      ∧ (∃ r : Record, NewRecord zoneLine "example.com. 42 IN AAAA ::ffff:7f00:1".toList = .ok r
          ∧ r.GetQtype = TypeA ∧ r.String = "example.com. 42 IN A 127.0.0.1".toList)
      ∧ (∃ r : Record, NewRecordFromRR (some emptyWire) = .ok r ∧ r.GetQtype = TypeAAAA
          ∧ r.String = "example.com. 42 IN AAAA <nil>".toList) := by
  refine ⟨fun h a => ⟨rfl, rfl⟩, fun n ttl a => ?_, rfl, ⟨_, rfl, by decide, by decide⟩,
    ⟨_, rfl, by decide, by decide⟩, ⟨_, rfl, by decide, by decide⟩⟩
  refine ⟨?_, ?_, ?_⟩
  · cases hv : IsV4 a <;> simp [Record.GetQtype, hv, TypeA, TypeAAAA]
  · cases hv : IsV4 a <;> simp [Record.GetQtype, hv, TypeA, TypeAAAA]
  · simp [Record.String, Record.render, Record.GetTTL, addressWord]

/-! ## C29: `NewRecordFromRR` -/

/-- C29: `NewRecordFromRR` is not total.  It panics on a nil wire record (`rr.Header()` in the
`default` branch) and on a TXT record without strings (`x.Txt[0]`), and on nothing else; so
does `NewRecord` on the empty text, and the loop of `ForwardResolver.Resolve` on an answer
that is a TXT record without strings. -/
theorem newRecordFromRR_not_total :
    NewRecordFromRR none = .panic
      ∧ (∀ h : RR_Header, NewRecordFromRR (some (.TXT h [])) = .panic)
      ∧ (∀ rr : Option RR,
          NewRecordFromRR rr = .panic ↔ (rr = none ∨ ∃ h : RR_Header, rr = some (.TXT h [])))
      ∧ NewRecord zoneLine [] = .panic
      ∧ (∀ (h : RR_Header) (answers : List RR) (w : ResponseWriter),
          ForwardResolver.addAnswers (.TXT h [] :: answers) w = (w, .panic)) := by
  refine ⟨rfl, fun _ => rfl, fun rr => ?_, by decide, fun _ _ _ => rfl⟩
  constructor
  · intro hp
    match rr, hp with
    | none, _ => exact Or.inl rfl
    | some (.TXT h []), _ => exact Or.inr ⟨h, rfl⟩
    | some (.TXT h (t :: ts)), hp => simp [NewRecordFromRR] at hp
    | some (.A _ _), hp => simp [NewRecordFromRR] at hp
    | some (.AAAA _ _), hp => simp [NewRecordFromRR] at hp
    | some (.NS _ _), hp => simp [NewRecordFromRR] at hp
    | some (.CNAME _ _), hp => simp [NewRecordFromRR] at hp
    | some (.PTR _ _), hp => simp [NewRecordFromRR] at hp
    | some (.MX _ _ _), hp => simp [NewRecordFromRR] at hp
    | some (.SRV _ _ _ _ _), hp => simp [NewRecordFromRR] at hp
    | some (.Other _), hp => simp [NewRecordFromRR] at hp
  · rintro (h | ⟨h, hh⟩)
    · rw [h]; rfl
    · rw [hh]; rfl

/-! ## C28: `NewDynamicRecord` on a line without a record -/

/-- C28: `NewDynamicRecord` is not total on single-line input.  On a text that is empty after
trimming, `text[0]` is out of range; on a text that is `;` after trimming, the reader is
handed the empty text and returns a nil record without an error, which `NewRecordFromRR`
dereferences. -/
theorem newDynamicRecord_not_total (newRR : RRReader) (h : newRR [] = .ok none) :
    NewDynamicRecord newRR [] = .panic
      ∧ NewDynamicRecord newRR " ".toList = .panic
      ∧ NewDynamicRecord newRR ";".toList = .panic
      ∧ (∀ text : Text, ¬ '\n' ∈ text → TrimSpace text = [] → NewDynamicRecord newRR text = .panic)
      ∧ (∀ text : Text, ¬ '\n' ∈ text → TrimSpace text = [';'] →
          NewDynamicRecord newRR text = .panic) := by
  have hempty : ∀ text : Text, ¬ '\n' ∈ text → TrimSpace text = [] →
      NewDynamicRecord newRR text = .panic := by
    intro text hn ht
    unfold NewDynamicRecord DynamicRecord.UnmarshalText
    rw [if_neg hn, ht]
  have hbare : ∀ text : Text, ¬ '\n' ∈ text → TrimSpace text = [';'] →
      NewDynamicRecord newRR text = .panic :=
    fun text hn ht => unmarshalText_bare newRR h text ht hn
  exact ⟨hempty _ (by decide) (by decide), hempty _ (by decide) (by decide),
    hbare _ (by decide) (by decide), hempty, hbare⟩

/-- C28, at the reference reader. -/
theorem newDynamicRecord_not_total_witness :
    zoneLine [] = .ok none
      ∧ NewDynamicRecord zoneLine [] = .panic
      ∧ NewDynamicRecord zoneLine " ".toList = .panic
      ∧ NewDynamicRecord zoneLine ";".toList = .panic :=
  ⟨rfl, (newDynamicRecord_not_total zoneLine rfl).1, (newDynamicRecord_not_total zoneLine rfl).2.1,
    (newDynamicRecord_not_total zoneLine rfl).2.2.1⟩

/-! ## C26: `Close` -/

/-- The two `Close` methods are the same loop. -/
theorem alternateClose_eq {σ : Type} (cs : List (σ → σ × Option Error)) (s : σ) :
    AlternateResolver.Close cs s = ResolverSet.Close cs s := by
  induction cs generalizing s with
  | nil => rfl
  | cons r rs ih =>
    unfold AlternateResolver.Close ResolverSet.Close
    rcases hr : r s with ⟨s', _ | err⟩
    · simp only [ih]
    · rfl

/-- When `Close` returns nil, every child was closed. -/
theorem close_eq_closeEvery {σ : Type} (cs : List (σ → σ × Option Error)) (s : σ)
    (h : (ResolverSet.Close cs s).2 = none) : ResolverSet.Close cs s = closeEvery cs s := by
  induction cs generalizing s with
  | nil => rfl
  | cons r rs ih =>
    rw [ResolverSet.Close] at h ⊢
    rw [closeEvery]
    rcases hr : r s with ⟨s', _ | err⟩
    · rw [hr] at h
      simp only at h ⊢
      rw [ih s' h]
    · rw [hr] at h
      simp at h

/-- The error `Close` returns is the first error of closing every child. -/
theorem close_error_eq {σ : Type} (cs : List (σ → σ × Option Error)) (s : σ) :
    (ResolverSet.Close cs s).2 = (closeEvery cs s).2 := by
  induction cs generalizing s with
  | nil => rfl
  | cons r rs ih =>
    unfold ResolverSet.Close closeEvery
    rcases hr : r s with ⟨s', _ | err⟩
    · simp only [ih]
    · rfl

/-- C26: `Close` of a `ResolverSet` or an `AlternateResolver` returns at the first child whose
`Close` fails: the state is the one that child left, so the children after it are not closed.
It returns the first error, and closes every child only when it returns nil.  With a first
child that fails, the second is left open. -/
theorem close_stops_at_first_error :
    (∀ (σ : Type) (cs : List (σ → σ × Option Error)) (s : σ),
        AlternateResolver.Close cs s = ResolverSet.Close cs s)
      ∧ (∀ (σ : Type) (r : σ → σ × Option Error) (rs : List (σ → σ × Option Error)) (s s' : σ)
          (err : Error), r s = (s', some err) → ResolverSet.Close (r :: rs) s = (s', some err))
      ∧ (∀ (σ : Type) (r : σ → σ × Option Error) (rs : List (σ → σ × Option Error)) (s s' : σ),
          r s = (s', none) → ResolverSet.Close (r :: rs) s = ResolverSet.Close rs s')
      ∧ (∀ (σ : Type) (cs : List (σ → σ × Option Error)) (s : σ),
          (ResolverSet.Close cs s).2 = (closeEvery cs s).2)
      ∧ (∀ (σ : Type) (cs : List (σ → σ × Option Error)) (s : σ),
          (ResolverSet.Close cs s).2 = none → ResolverSet.Close cs s = closeEvery cs s)
      ∧ (ResolverSet.Close [notingCloser 0 true, notingCloser 1 false] []).1 = [0]
      ∧ (AlternateResolver.Close [notingCloser 0 true, notingCloser 1 false] []).1 = [0]
      ∧ (closeEvery [notingCloser 0 true, notingCloser 1 false] []).1 = [0, 1] := by
  refine ⟨fun σ cs s => alternateClose_eq cs s, ?_, ?_, fun σ cs s => close_error_eq cs s,
    fun σ cs s h => close_eq_closeEvery cs s h, by decide, by decide, by decide⟩
  · intro σ r rs s s' err hr
    rw [ResolverSet.Close, hr]
  · intro σ r rs s s' hr
    rw [ResolverSet.Close, hr]

/-! ## C25: the `resolve` counters -/

/-- A counter after a run of `Inc` statements: one more for every key of the run that is its
own, when the counter exists. -/
theorem Counters.get_foldl_inc (keys : List Text) (cs : Counters) (k : Text) :
    GoMap.get (keys.foldl Counters.inc cs) k
      = (GoMap.get cs k).map (fun n => n + (keys.filter (fun x => x = k)).length) := by
  induction keys generalizing cs with
  | nil =>
    simp only [List.foldl_nil, List.filter_nil, List.length_nil, Nat.add_zero]
    cases GoMap.get cs k <;> rfl
  | cons x xs ih =>
    rw [List.foldl_cons, ih, Counters.get_inc]
    by_cases hx : x = k
    · subst hx
      cases GoMap.get cs x with
      | none => simp
      | some n => simp; omega
    · simp [hx]

/-- The loop of the timer over the questions is a run of `Inc` statements over their type
words. -/
theorem foldl_inc_questions (qs : List Question) (cs : Counters) :
    qs.foldl (fun cs q => Counters.inc cs (QtypeToString q.Qtype)) cs
      = (qs.map (fun q => QtypeToString q.Qtype)).foldl Counters.inc cs := by
  induction qs generalizing cs with
  | nil => rfl
  | cons q qs ih => simp [ih]

/-- C25: the function `makeTimer` returns picks one family of `resolve` counters from the
response (`not-found` when the answer section is empty, else `upstream` when the response is
not authoritative, else `local`); every counter of that family goes up by the number of
questions of its type, the other two families and the other counters do not change.  The
counters that exist are those of the types A, AAAA, PTR, SRV and TXT. -/
theorem makeTimer_counts (m : Metrics) (skipped : Bool) (response : Msg) :
    (Metrics.timerCounters response
        = if response.Answer = [] then ResolveSource.missCounters
          else if response.Authoritative = false then ResolveSource.unauthCounters
          else ResolveSource.resolveCounters)
      ∧ (∀ t : Text,
          GoMap.get ((Metrics.makeTimer m skipped response).counters (Metrics.timerCounters response)) t
            = (GoMap.get (m.counters (Metrics.timerCounters response)) t).map
                (fun n => n + (response.Question.filter (fun q => QtypeToString q.Qtype = t)).length))
      ∧ (∀ src : ResolveSource, src ≠ Metrics.timerCounters response →
          (Metrics.makeTimer m skipped response).counters src = m.counters src)
      ∧ (Metrics.makeTimer m skipped response).queryCount = m.queryCount
      ∧ (Metrics.makeTimer m skipped response).skipCount = m.skipCount
      ∧ (Metrics.makeTimer m skipped response).errorCounters = m.errorCounters
      ∧ (Metrics.makeTimer m skipped response).cacheHitCounters = m.cacheHitCounters
      ∧ (Metrics.makeTimer m skipped response).cacheMissCounters = m.cacheMissCounters
      ∧ (∀ (src : ResolveSource) (t : Text),
          (GoMap.get (NewMetrics.counters src) t = some 0 ↔ t ∈ metricTypes)
            ∧ (GoMap.get (NewMetrics.counters src) t = none ↔ t ∉ metricTypes))
      ∧ (∀ q : Nat, QtypeToString q ∈ metricTypes
          ↔ q = TypeA ∨ q = TypeAAAA ∨ q = TypePTR ∨ q = TypeSRV ∨ q = TypeTXT) := by
  refine ⟨?_, ?_, ?_, ?_, ?_, ?_, ?_, ?_, ?_, ?_⟩
  · unfold Metrics.timerCounters
    cases response.Answer <;> cases response.Authoritative <;> simp
  · intro t
    have hget : (Metrics.makeTimer m skipped response).counters (Metrics.timerCounters response)
        = (response.Question.map (fun q => QtypeToString q.Qtype)).foldl Counters.inc
            (m.counters (Metrics.timerCounters response)) := by
      have hq := foldl_inc_questions response.Question (m.counters (Metrics.timerCounters response))
      simp only [Metrics.makeTimer, hq]
      cases Metrics.timerCounters response <;> rfl
    rw [hget, Counters.get_foldl_inc, List.filter_map, List.length_map]
    rfl
  · intro src hsrc
    unfold Metrics.makeTimer
    cases h : Metrics.timerCounters response <;> cases src <;> first | rfl | exact absurd h.symm hsrc
  · unfold Metrics.makeTimer
    cases Metrics.timerCounters response <;> rfl
  · unfold Metrics.makeTimer
    cases Metrics.timerCounters response <;> rfl
  · unfold Metrics.makeTimer
    cases Metrics.timerCounters response <;> rfl
  · unfold Metrics.makeTimer
    cases Metrics.timerCounters response <;> rfl
  · unfold Metrics.makeTimer
    cases Metrics.timerCounters response <;> rfl
  · intro src t
    have hall : ∀ src : ResolveSource,
        NewMetrics.counters src = metricTypes.map (fun t => (t, 0)) := by
      intro src
      cases src <;> rfl
    rw [hall]
    have hk : ∀ (ks : List Text),
        (GoMap.get (ks.map (fun t => (t, (0 : Nat)))) t = some 0 ↔ t ∈ ks)
          ∧ (GoMap.get (ks.map (fun t => (t, (0 : Nat)))) t = none ↔ t ∉ ks) := by
      intro ks
      induction ks with
      | nil => simp [GoMap.get]
      | cons k ks ih =>
        by_cases hkt : k = t
        · simp [GoMap.get, hkt]
        · have hkt' : ¬ t = k := fun h => hkt h.symm
          simp [GoMap.get, hkt, hkt', ih]
    exact hk metricTypes
  · intro q
    unfold QtypeToString
    constructor
    · intro h
      by_cases h1 : q = TypeA
      · exact Or.inl h1
      by_cases h2 : q = TypeNS
      · rw [if_neg h1, if_pos h2] at h; exact absurd h (by decide)
      by_cases h3 : q = TypeCNAME
      · rw [if_neg h1, if_neg h2, if_pos h3] at h; exact absurd h (by decide)
      by_cases h4 : q = TypePTR
      · exact Or.inr (Or.inr (Or.inl h4))
      by_cases h5 : q = TypeMX
      · rw [if_neg h1, if_neg h2, if_neg h3, if_neg h4, if_pos h5] at h; exact absurd h (by decide)
      by_cases h6 : q = TypeTXT
      · exact Or.inr (Or.inr (Or.inr (Or.inr h6)))
      by_cases h7 : q = TypeAAAA
      · exact Or.inr (Or.inl h7)
      by_cases h8 : q = TypeSRV
      · exact Or.inr (Or.inr (Or.inr (Or.inl h8)))
      rw [if_neg h1, if_neg h2, if_neg h3, if_neg h4, if_neg h5, if_neg h6, if_neg h7, if_neg h8] at h
      exact absurd h (by decide)
    · rintro (h | h | h | h | h) <;> subst h <;> decide

/-! ## C27: the sweeper -/

/-- The loop over the members of an entry sweeps exactly when a member has expired. -/
theorem LocalCache.sweepLoop_sweeps (now : Nat) (entries : List VolatileRecord) (next : Int) :
    (LocalCache.sweepLoop now entries next).1 = entries.any (VolatileRecord.expired now) := by
  induction entries generalizing next with
  | nil => rfl
  | cons e es ih =>
    unfold LocalCache.sweepLoop
    by_cases h1 : e.Expire - (now : Int) < 1
    · have he : VolatileRecord.expired now e = true := by
        unfold VolatileRecord.expired
        simp only [decide_eq_true_eq]
        omega
      simp [h1, he]
    · have he : VolatileRecord.expired now e = false := by
        unfold VolatileRecord.expired
        simp only [decide_eq_false_iff_not]
        omega
      simp only [h1, if_false, List.any_cons, he, Bool.false_or]
      split <;> exact ih _

/-- The loop over the members of an entry leaves `next` positive and no larger than it was. -/
theorem LocalCache.sweepLoop_next (now : Nat) (entries : List VolatileRecord) (next : Int)
    (h : 0 < next) :
    0 < (LocalCache.sweepLoop now entries next).2 ∧ (LocalCache.sweepLoop now entries next).2 ≤ next := by
  induction entries generalizing next with
  | nil => exact ⟨h, le_refl _⟩
  | cons e es ih =>
    unfold LocalCache.sweepLoop
    by_cases h1 : e.Expire - (now : Int) < 1
    · simp only [h1, if_true]
      exact ⟨h, le_refl _⟩
    · simp only [h1, if_false]
      split
      · rename_i h2
        have := ih (e.Expire - (now : Int)) (by omega)
        exact ⟨this.1, by omega⟩
      · exact ih next h

/-- When the loop over the members of an entry does not sweep, `next` is no later than the
remaining lifetime of any member. -/
theorem LocalCache.sweepLoop_bound (now : Nat) (entries : List VolatileRecord) (next : Int)
    (h : 0 < next) (hs : (LocalCache.sweepLoop now entries next).1 = false) :
    ∀ c ∈ entries, (LocalCache.sweepLoop now entries next).2 ≤ c.Expire - (now : Int) := by
  induction entries generalizing next with
  | nil => intro c hc; cases hc
  | cons e es ih =>
    unfold LocalCache.sweepLoop at hs ⊢
    by_cases h1 : e.Expire - (now : Int) < 1
    · simp [h1] at hs
    · simp only [h1, if_false] at hs ⊢
      by_cases h2 : next > e.Expire - (now : Int)
      · simp only [h2, if_true] at hs ⊢
        intro c hc
        rcases List.mem_cons.mp hc with hc | hc
        · subst hc
          exact (LocalCache.sweepLoop_next now es _ (by omega)).2
        · exact ih _ (by omega) hs c hc
      · simp only [h2, if_false] at hs ⊢
        intro c hc
        rcases List.mem_cons.mp hc with hc | hc
        · subst hc
          have := (LocalCache.sweepLoop_next now es next h).2
          omega
        · exact ih _ h hs c hc

/-- The loops of the sweeper: the entries kept, and `next`. -/
theorem LocalCache.manageLoop_spec (now : Nat)
    (entries : GoMap (Nat × Domain) (List VolatileRecord)) (next : Int) (h : 0 < next) :
    (LocalCache.manageLoop now entries next).1
        = entries.filter (fun kv => !kv.2.any (VolatileRecord.expired now))
      ∧ 0 < (LocalCache.manageLoop now entries next).2
      ∧ (LocalCache.manageLoop now entries next).2 ≤ next
      ∧ ∀ kv ∈ (LocalCache.manageLoop now entries next).1, ∀ c ∈ kv.2,
          (LocalCache.manageLoop now entries next).2 ≤ c.Expire - (now : Int) := by
  induction entries generalizing next with
  | nil =>
    refine ⟨rfl, h, le_refl _, ?_⟩
    intro kv hkv
    cases hkv
  | cons kv rest ih =>
    obtain ⟨name, es⟩ := kv
    have hn := LocalCache.sweepLoop_next now es next h
    have hr := ih (LocalCache.sweepLoop now es next).2 hn.1
    have hsw := LocalCache.sweepLoop_sweeps now es next
    rw [LocalCache.manageLoop]
    cases hs : (LocalCache.sweepLoop now es next).1
    · have hany : es.any (VolatileRecord.expired now) = false := by rw [← hsw, hs]
      simp only [hs, Bool.false_eq_true, if_false]
      refine ⟨?_, hr.2.1, by omega, ?_⟩
      · rw [List.filter_cons]
        simp only [hany, Bool.not_false, if_true]
        rw [hr.1]
      · intro kv hkv c hc
        rcases List.mem_cons.mp hkv with hkv | hkv
        · subst hkv
          have := LocalCache.sweepLoop_bound now es next h hs c hc
          omega
        · exact hr.2.2.2 kv hkv c hc
    · have hany : es.any (VolatileRecord.expired now) = true := by rw [← hsw, hs]
      simp only [hs, if_true]
      refine ⟨?_, hr.2.1, by omega, hr.2.2.2⟩
      rw [List.filter_cons]
      simp only [hany, Bool.not_true, Bool.false_eq_true, if_false]
      exact hr.1

/-- C27: after `manageTask` the entries are those that had no expired member, unchanged and
in place, so no remaining entry holds an expired member; the metrics are untouched; the
duration returned is greater than zero, at most 10 seconds, and no later than the remaining
lifetime of any member that is left. -/
theorem manageTask_sweeps (now : Nat) (lc : LocalCache) :
    (LocalCache.manageTask now lc).1.entries
        = lc.entries.filter (fun kv => !kv.2.any (VolatileRecord.expired now))
      ∧ (LocalCache.manageTask now lc).1.metrics = lc.metrics
      ∧ (∀ kv ∈ (LocalCache.manageTask now lc).1.entries, ∀ c ∈ kv.2,
          VolatileRecord.expired now c = false)
      ∧ (∀ (k : Nat × Domain) (e : List VolatileRecord), GoMap.get lc.entries k = some e →
          e.any (VolatileRecord.expired now) = false →
          GoMap.get (LocalCache.manageTask now lc).1.entries k = some e)
      ∧ 0 < (LocalCache.manageTask now lc).2
      ∧ (LocalCache.manageTask now lc).2 ≤ 10
      ∧ (∀ kv ∈ (LocalCache.manageTask now lc).1.entries, ∀ c ∈ kv.2,
          (LocalCache.manageTask now lc).2 ≤ c.Expire - (now : Int)) := by
  have hspec := LocalCache.manageLoop_spec now lc.entries 10 (by decide)
  have hent : (LocalCache.manageTask now lc).1.entries
      = lc.entries.filter (fun kv => !kv.2.any (VolatileRecord.expired now)) := hspec.1
  refine ⟨hent, rfl, ?_, ?_, hspec.2.1, hspec.2.2.1, hspec.2.2.2⟩
  · intro kv hkv c hc
    rw [hent] at hkv
    have h2 := (List.mem_filter.mp hkv).2
    simp only [Bool.not_eq_true', List.any_eq_false] at h2
    cases hx : VolatileRecord.expired now c
    · rfl
    · exact absurd hx (h2 c hc)
  · intro k e hget hany
    rw [hent]
    generalize lc.entries = es at hget
    induction es with
    | nil => simp [GoMap.get] at hget
    | cons kv rest ih =>
      obtain ⟨k0, e0⟩ := kv
      by_cases hk : k0 = k
      · subst hk
        have he : e0 = e := by simpa [GoMap.get] using hget
        subst he
        rw [List.filter_cons]
        simp [hany, GoMap.get]
      · have hrest : GoMap.get rest k = some e := by simpa [GoMap.get, hk] using hget
        rw [List.filter_cons]
        split
        · simp only [GoMap.get, hk, if_false]
          exact ih hrest
        · exact ih hrest

/-! ## C22 and C30: the placeholders of a request body -/

/-- The text handed to the parser, with the three replacements written out. -/
theorem parseRecordSet.text_eq (req remote : Text) :
    parseRecordSet.text req remote
      = ReplaceAll (ReplaceAll (ReplaceAll req "$ADDR".toList remote) "$TTL".toList "3600".toList)
          "$$".toList "$".toList := rfl

/-- `occursIn` decides whether a text is a contiguous part of another. -/
theorem occursIn_iff (p s : Text) : occursIn p s = true ↔ p <:+: s := by
  unfold occursIn
  rw [List.any_eq_true, List.infix_iff_prefix_suffix]
  constructor
  · rintro ⟨t, ht, hp⟩
    exact ⟨t, List.isPrefixOf_iff_prefix.mp hp, (List.mem_tails _ _).mp ht⟩
  · rintro ⟨t, hp, ht⟩
    exact ⟨t, (List.mem_tails _ _).mpr ht, List.isPrefixOf_iff_prefix.mpr hp⟩

/-- One step of the loop of `ReplaceAll` at an occurrence of `old`. -/
theorem replaceLoop_match (old new : Text) (fuel : Nat) (s t : Text) (hs : s ≠ [])
    (h : s = old ++ t) :
    replaceLoop old new (fuel + 1) s = new ++ replaceLoop old new fuel t := by
  cases s with
  | nil => exact absurd rfl hs
  | cons c rest =>
    have hp : old.isPrefixOf (c :: rest) = true :=
      List.isPrefixOf_iff_prefix.mpr ⟨t, h.symm⟩
    rw [replaceLoop, if_pos hp, h, List.drop_left]

/-- One step of the loop of `ReplaceAll` where `old` does not occur. -/
theorem replaceLoop_skip (old new : Text) (fuel : Nat) (c : Char) (rest : Text)
    (h : ¬ old <+: c :: rest) :
    replaceLoop old new (fuel + 1) (c :: rest) = c :: replaceLoop old new fuel rest := by
  have hp : ¬ old.isPrefixOf (c :: rest) = true := fun hp => h (List.isPrefixOf_iff_prefix.mp hp)
  rw [replaceLoop, if_neg hp]

/-- A text that begins the result of `ReplaceAll`, and holds neither the first character of
`old` nor that of `new`, begins the text itself. -/
theorem prefix_of_prefix_replaceLoop (o n : Char) (os ns : Text) (fuel : Nat) (s w : Text)
    (hw : ∀ c ∈ w, c ≠ o ∧ c ≠ n) (h : w <+: replaceLoop (o :: os) (n :: ns) fuel s) : w <+: s := by
  induction fuel generalizing s w with
  | zero => exact h
  | succ fuel ih =>
    cases s with
    | nil => exact h
    | cons c rest =>
      cases w with
      | nil => exact List.nil_prefix
      | cons x w' =>
        have hx := hw x (List.mem_cons_self _ _)
        by_cases hp : (o :: os) <+: c :: rest
        · obtain ⟨t, ht⟩ := hp
          rw [replaceLoop_match (o :: os) (n :: ns) fuel (c :: rest) t (by simp) ht.symm] at h
          have h1 : x = n := (List.cons_prefix_cons.mp h).1
          exact absurd h1 hx.2
        · rw [replaceLoop_skip (o :: os) (n :: ns) fuel c rest hp] at h
          obtain ⟨h1, h2⟩ := List.cons_prefix_cons.mp h
          exact List.cons_prefix_cons.mpr
            ⟨h1, ih rest w' (fun c hc => hw c (List.mem_cons_of_mem _ hc)) h2⟩

/-- After every `$TTL` is replaced by `3600`, no `$TTL` is left. -/
theorem no_ttl_after_replace (fuel : Nat) (s : Text) (hf : s.length ≤ fuel) :
    ¬ "$TTL".toList <:+: replaceLoop "$TTL".toList "3600".toList fuel s := by
  induction fuel generalizing s with
  | zero =>
    have hs : s = [] := List.length_eq_zero.mp (Nat.le_zero.mp hf)
    subst hs
    intro h
    have := List.eq_nil_of_infix_nil h
    exact absurd this (by decide)
  | succ fuel ih =>
    cases s with
    | nil =>
      intro h
      have := List.eq_nil_of_infix_nil h
      exact absurd this (by decide)
    | cons c rest =>
      by_cases hp : "$TTL".toList <+: c :: rest
      · obtain ⟨t, ht⟩ := hp
        rw [replaceLoop_match _ _ fuel (c :: rest) t (by simp) ht.symm]
        have hlen : t.length ≤ fuel := by
          have h1 : (c :: rest).length = ("$TTL".toList ++ t).length := by rw [ht]
          simp only [List.length_cons, List.length_append, String.toList] at h1 hf
          simp only [List.length_cons, List.length_nil] at h1
          omega
        intro h
        have h' : ['$', 'T', 'T', 'L'] <:+: '3' :: '6' :: '0' :: '0' :: replaceLoop "$TTL".toList "3600".toList fuel t := h
        rcases List.infix_cons_iff.mp h' with h1 | h1
        · exact absurd (List.cons_prefix_cons.mp h1).1 (by decide)
        rcases List.infix_cons_iff.mp h1 with h2 | h2
        · exact absurd (List.cons_prefix_cons.mp h2).1 (by decide)
        rcases List.infix_cons_iff.mp h2 with h3 | h3
        · exact absurd (List.cons_prefix_cons.mp h3).1 (by decide)
        rcases List.infix_cons_iff.mp h3 with h4 | h4
        · exact absurd (List.cons_prefix_cons.mp h4).1 (by decide)
        exact ih t hlen h4
      · rw [replaceLoop_skip _ _ fuel c rest hp]
        intro h
        rcases List.infix_cons_iff.mp h with h1 | h1
        · have h1' : '$' :: ['T', 'T', 'L'] <+: c :: replaceLoop "$TTL".toList "3600".toList fuel rest := h1
          obtain ⟨hc, h2⟩ := List.cons_prefix_cons.mp h1'
          have h3 : ['T', 'T', 'L'] <+: rest :=
            prefix_of_prefix_replaceLoop '$' '3' ['T', 'T', 'L'] ['6', '0', '0'] fuel rest _
              (by decide) h2
          exact hp (List.cons_prefix_cons.mpr ⟨hc, h3⟩)
        · exact ih rest (by simpa using hf) h1

/-- Replacing every `$$` by `$` makes no `$TTL` that was not there. -/
theorem ttl_before_unescape (fuel : Nat) (s : Text)
    (h : "$TTL".toList <:+: replaceLoop "$$".toList "$".toList fuel s) : "$TTL".toList <:+: s := by
  induction fuel generalizing s with
  | zero => exact h
  | succ fuel ih =>
    cases s with
    | nil => exact h
    | cons c rest =>
      by_cases hp : "$$".toList <+: c :: rest
      · obtain ⟨t, ht⟩ := hp
        rw [replaceLoop_match _ _ fuel (c :: rest) t (by simp) ht.symm] at h
        have h' : '$' :: ['T', 'T', 'L'] <:+: '$' :: replaceLoop "$$".toList "$".toList fuel t := h
        have ht' : c :: rest = '$' :: '$' :: t := ht.symm
        rw [ht']
        rcases List.infix_cons_iff.mp h' with h1 | h1
        · have h2 := (List.cons_prefix_cons.mp h1).2
          have h3 : ['T', 'T', 'L'] <+: t :=
            prefix_of_prefix_replaceLoop '$' '$' ['$'] [] fuel t _ (by decide) h2
          exact List.infix_cons (List.cons_prefix_cons.mpr ⟨rfl, h3⟩).isInfix
        · exact List.infix_cons (List.infix_cons (ih t h1))
      · rw [replaceLoop_skip _ _ fuel c rest hp] at h
        rcases List.infix_cons_iff.mp h with h1 | h1
        · have h1' : '$' :: ['T', 'T', 'L'] <+: c :: replaceLoop "$$".toList "$".toList fuel rest := h1
          obtain ⟨hc, h2⟩ := List.cons_prefix_cons.mp h1'
          have h3 : ['T', 'T', 'L'] <+: rest :=
            prefix_of_prefix_replaceLoop '$' '$' ['$'] [] fuel rest _ (by decide) h2
          exact (List.cons_prefix_cons.mpr ⟨hc, h3⟩).isInfix
        · exact List.infix_cons (ih rest h1)

/-- C22: `parseRecordSet` parses the body after every `$ADDR` is replaced by the client
address, then every `$TTL` by `3600`, then every `$$` by `$`; it returns the record set when
that text parses and the error 400 with the text of the parser's error when it does not.  On
the body of the repository's test the text is the one the test expects, and the order shows in
`$$ADDR`, which gives `$` followed by the address. -/
theorem parseRecordSet_replaces (newRR : RRReader) (req remote : Text) :
    parseRecordSet.text req remote
        = ReplaceAll (ReplaceAll (ReplaceAll req "$ADDR".toList remote) "$TTL".toList "3600".toList)
            "$$".toList "$".toList
      ∧ (∀ rs : DynamicRecordSet,
          NewDynamicRecordSet newRR (parseRecordSet.text req remote) = .ok rs →
            parseRecordSet newRR req remote = .ok rs)
      ∧ (∀ err : ErrorSet,
          NewDynamicRecordSet newRR (parseRecordSet.text req remote) = .error err →
            parseRecordSet newRR req remote = .error ⟨400, ErrorSet.Error err⟩)
      ∧ parseRecordSet.text
            "example.com. 42 IN A $ADDR\nttl$TTL.com 84 IN TXT \"hello world\"".toList
            "127.0.0.1".toList
          = "example.com. 42 IN A 127.0.0.1\nttl3600.com 84 IN TXT \"hello world\"".toList
      ∧ parseRecordSet.text "$$ADDR $$ $A$TTLDDR".toList "127.0.0.1".toList
          = "$127.0.0.1 $ $A3600DDR".toList
      ∧ parseRecordSet zoneLine "hello world!\n\ntest".toList "127.0.0.1".toList
          = .error ⟨400, "line 1: invalid format: hello world!\nline 3: invalid format: test".toList⟩ := by
  refine ⟨rfl, ?_, ?_, by decide, by decide, by decide⟩
  · intro rs h
    unfold parseRecordSet
    rw [h]
  · intro err h
    unfold parseRecordSet
    rw [h]

/-- C30: the text `parseRecordSet` hands to the parser never holds `$TTL`, whatever the body
and the client address; the body `$$TTL` is handed on as `$3600`. -/
theorem parseRecordSet_never_ttl (req remote : Text) :
    occursIn "$TTL".toList (parseRecordSet.text req remote) = false
      ∧ parseRecordSet.text "$$TTL".toList remote = "$3600".toList := by
  constructor
  · cases hx : occursIn "$TTL".toList (parseRecordSet.text req remote)
    · rfl
    · exfalso
      have h1 := (occursIn_iff _ _).mp hx
      rw [parseRecordSet.text_eq] at h1
      have h2 : ∀ s : Text, ReplaceAll s "$$".toList "$".toList
          = replaceLoop "$$".toList "$".toList s.length s := fun s => by
        unfold ReplaceAll
        rw [if_neg (by decide)]
      have h3 : ∀ s : Text, ReplaceAll s "$TTL".toList "3600".toList
          = replaceLoop "$TTL".toList "3600".toList s.length s := fun s => by
        unfold ReplaceAll
        rw [if_neg (by decide)]
      rw [h2] at h1
      have h4 := ttl_before_unescape _ _ h1
      rw [h3] at h4
      exact no_ttl_after_replace _ _ (le_refl _) h4
  · rw [parseRecordSet.text_eq]
    have h1 : ReplaceAll "$$TTL".toList "$ADDR".toList remote = "$$TTL".toList := by
      unfold ReplaceAll
      rw [if_neg (by decide)]
      rfl
    rw [h1]
    decide

/-! ## C24: `GetRecordsBySuffix` -/

/-- Segments without `/`, joined with `/`, split into themselves. -/
theorem Split_Join (segments : List Text) (hne : segments ≠ [])
    (hseg : ∀ x ∈ segments, ¬ '/' ∈ x) : Split '/' (Join "/".toList segments) = segments := by
  induction segments with
  | nil => exact absurd rfl hne
  | cons x rest ih =>
    cases rest with
    | nil => exact Split_of_not_mem '/' x (hseg x (List.mem_cons_self _ _))
    | cons y rest' =>
      have h1 : Join "/".toList (x :: y :: rest') = x ++ '/' :: Join "/".toList (y :: rest') := by
        simp [Join]
      rw [h1, Split_append, Split_of_not_mem '/' x (hseg x (List.mem_cons_self _ _)),
        ih (by simp) (fun z hz => hseg z (List.mem_cons_of_mem _ hz))]
      rfl

/-- The first character of a name that is not empty is that of its fully qualified form. -/
theorem head_Domain_String (d : Domain) (h : d ≠ []) : (Domain.String d).head? = d.head? := by
  unfold Domain.String Fqdn
  split
  · rfl
  · cases d with
    | nil => exact absurd rfl h
    | cons c cs => rfl

/-- The test of `GetRecordsBySuffix` on the domain, in the words of the claim. -/
theorem suffix_test_iff (d : Domain) :
    (!Domain.Validate d || decide ((Domain.String d).head? = some '.')) = true
      ↔ (d = [] ∨ IsDomainName d = false ∨ d.head? = some '.') := by
  cases d with
  | nil => simp [Domain.Validate]
  | cons c cs =>
    rw [head_Domain_String (c :: cs) (by simp)]
    cases hv : IsDomainName (c :: cs) <;> simp [Domain.Validate, hv]

/-- C24: for the path `/v1/suffix/<s1>/.../<sn>`, `GetRecordsBySuffix` answers 404, the state
of the resolver untouched whatever its `SearchRecords` does, when the path ends with `/` or
the domain `sn. ... .s1` is empty, is not a valid domain name, or starts with a dot; in every
other case it answers with what `SearchRecords` returns for that domain (its records, or 500
for its error), which is never 404. -/
theorem getRecordsBySuffix_spec {σ : Type}
    (SearchRecords : Domain → σ → σ × Outcome Error DynamicRecordSet) (segments : List Text) (s : σ)
    (hne : segments ≠ []) (hseg : ∀ x ∈ segments, ¬ '/' ∈ x) :
    (suffixRefused segments →
        DynamicAPI.GetRecordsBySuffix SearchRecords (suffixPath segments) s = (s, .error notFound))
      ∧ (¬ suffixRefused segments →
          DynamicAPI.GetRecordsBySuffix SearchRecords (suffixPath segments) s
              = (match SearchRecords (suffixDomain segments) s with
                | (s', .error _) => (s', .error internalServerError)
                | (s', .panic) => (s', .panic)
                | (s', .ok records) => (s', .ok (DynamicRecordSet.String records)))
            ∧ (DynamicAPI.GetRecordsBySuffix SearchRecords (suffixPath segments) s).2
                ≠ .error notFound) := by
  have hlen : ¬ (suffixPath segments).length < "/v1/suffix/".toList.length := by
    unfold suffixPath
    rw [List.length_append]
    omega
  have hdrop : (suffixPath segments).drop "/v1/suffix/".toList.length = Join "/".toList segments := by
    unfold suffixPath
    rw [List.drop_left]
  have hdom : Join ".".toList (Split '/' (Join "/".toList segments)).reverse = suffixDomain segments := by
    rw [Split_Join segments hne hseg]
    rfl
  have hsome : ∃ last, (suffixPath segments).getLast? = some last := by
    cases h : (suffixPath segments).getLast? with
    | some last => exact ⟨last, rfl⟩
    | none =>
      have h0 := List.getLast?_eq_none_iff.mp h
      unfold suffixPath at h0
      exact absurd (List.append_eq_nil.mp h0).1 (by decide)
  obtain ⟨last, hlast⟩ := hsome
  have hbody : DynamicAPI.GetRecordsBySuffix SearchRecords (suffixPath segments) s
      = if last = '/' then (s, .error notFound)
        else if (!Domain.Validate (suffixDomain segments)
            || decide ((Domain.String (suffixDomain segments)).head? = some '.')) = true
          then (s, .error notFound)
        else
          (match SearchRecords (suffixDomain segments) s with
          | (s', .error _) => (s', .error internalServerError)
          | (s', .panic) => (s', .panic)
          | (s', .ok records) => (s', .ok (DynamicRecordSet.String records))) := by
    unfold DynamicAPI.GetRecordsBySuffix
    simp only [hlast]
    by_cases h1 : last = '/'
    · simp only [h1, if_true]
    · simp only [h1, if_false]
      have hlen' : ¬ (suffixPath segments).length < "/v1/suffix/".length := hlen
      rw [if_neg hlen']
      have hdrop' : (suffixPath segments).drop "/v1/suffix/".length = Join "/".toList segments := hdrop
      simp only [hdrop', hdom]
  constructor
  · intro href
    rw [hbody]
    by_cases h1 : last = '/'
    · rw [if_pos h1]
    · rw [if_neg h1]
      have h2 : (!Domain.Validate (suffixDomain segments)
          || decide ((Domain.String (suffixDomain segments)).head? = some '.')) = true := by
        rw [suffix_test_iff]
        rcases href with h | h
        · rw [hlast] at h
          exact absurd (Option.some.inj h) h1
        · exact h
      rw [if_pos h2]
  · intro href
    have h1 : ¬ last = '/' := fun h => href (Or.inl (by rw [hlast, h]))
    have h2 : ¬ (!Domain.Validate (suffixDomain segments)
        || decide ((Domain.String (suffixDomain segments)).head? = some '.')) = true :=
      fun h => href (Or.inr ((suffix_test_iff _).mp h))
    rw [hbody, if_neg h1, if_neg h2]
    refine ⟨rfl, ?_⟩
    rcases SearchRecords (suffixDomain segments) s with ⟨s', _ | _ | _⟩
    · simp
    · simp [internalServerError, notFound]
    · simp

/-- C24, at the paths `/v1/suffix/com/example`, `/v1/suffix/com/` and `/v1/suffix/.com` of
the repository's test. -/
theorem getRecordsBySuffix_spec_witness :
    DynamicAPI.GetRecordsBySuffix (SqliteResolver.apiSearchRecords zoneLine 1001)
          "/v1/suffix/com/example".toList sampleDB
        = (sampleDB, .ok "example.com. 42 IN A 127.0.0.1 ; ID:1\n".toList)
      ∧ DynamicAPI.GetRecordsBySuffix (SqliteResolver.apiSearchRecords zoneLine 1001)
          "/v1/suffix/com/".toList sampleDB = (sampleDB, .error notFound)
      ∧ DynamicAPI.GetRecordsBySuffix (SqliteResolver.apiSearchRecords zoneLine 1001)
          "/v1/suffix/.com".toList sampleDB = (sampleDB, .error notFound) :=
  ⟨((getRecordsBySuffix_spec (SqliteResolver.apiSearchRecords zoneLine 1001)
        ["com".toList, "example".toList] sampleDB (by decide) (by decide)).2
        (by unfold suffixRefused; decide)).1.trans (by decide),
    (getRecordsBySuffix_spec (SqliteResolver.apiSearchRecords zoneLine 1001)
        ["com".toList, []] sampleDB (by decide) (by decide)).1
        (by unfold suffixRefused; decide),
    (getRecordsBySuffix_spec (SqliteResolver.apiSearchRecords zoneLine 1001)
        [".com".toList] sampleDB (by decide) (by decide)).1
        (by unfold suffixRefused; decide)⟩

/-! ## C23: `DeleteRecords` -/

/-- The two counters of `setRecords` after its loop. -/
theorem setRecords_counts (rs : DynamicRecordSet) (c : Nat × Nat) :
    rs.foldl (fun (c : Nat × Nat) r => if r.Disabled then (c.1, c.2 + 1) else (c.1 + 1, c.2)) c
      = (c.1 + rs.countP (fun r => !r.Disabled), c.2 + rs.countP (fun r => r.Disabled)) := by
  induction rs generalizing c with
  | nil => simp
  | cons r rs ih =>
    rw [List.foldl_cons, ih]
    cases hd : r.Disabled <;> simp [List.countP_cons, hd] <;> omega

/-- C23: for a body that parses to the set `rs`, `PostRecords` is `setRecords` of `rs` and
`DeleteRecords` is `setRecords` of `rs` with every `Disabled` flag negated and nothing else
changed.  `setRecords` hands its set to `SetRecords` of the resolver; when that returns nil
the response is `; 200: add:<k> delete:<m>` with `k` the number of enabled and `m` the number
of disabled records of that set, which add up to its length, and when it returns an error the
response is 500. -/
theorem deleteRecords_negates {σ : Type} (newRR : RRReader)
    (SetRecords : DynamicRecordSet → σ → σ × Outcome Error Unit) (req remote : Text) (s : σ)
    (rs : DynamicRecordSet) (hparse : parseRecordSet newRR req remote = .ok rs) :
    DynamicAPI.PostRecords newRR SetRecords req remote s = DynamicAPI.setRecords SetRecords rs s
      ∧ DynamicAPI.DeleteRecords newRR SetRecords req remote s
          = DynamicAPI.setRecords SetRecords (rs.map DynamicRecord.negated) s
      ∧ (rs.map DynamicRecord.negated).map (fun r => (r.Record, r.ID, r.Volatile, !r.Disabled))
          = rs.map (fun r => (r.Record, r.ID, r.Volatile, r.Disabled))
      ∧ (∀ (applied : DynamicRecordSet) (s0 : σ),
          (DynamicAPI.setRecords SetRecords applied s0).1 = (SetRecords applied s0).1)
      ∧ (∀ (applied : DynamicRecordSet) (s0 s1 : σ), SetRecords applied s0 = (s1, .ok ()) →
          DynamicAPI.setRecords SetRecords applied s0
            = (s1, .ok (changedLine (applied.countP (fun r => !r.Disabled))
                (applied.countP (fun r => r.Disabled)))))
      ∧ (∀ (applied : DynamicRecordSet) (s0 s1 : σ) (e : Error),
          SetRecords applied s0 = (s1, .error e) →
            DynamicAPI.setRecords SetRecords applied s0 = (s1, .error internalServerError))
      ∧ (∀ applied : DynamicRecordSet,
          applied.countP (fun r => !r.Disabled) + applied.countP (fun r => r.Disabled)
            = applied.length)
      ∧ (rs.map DynamicRecord.negated).countP (fun r => !r.Disabled)
          = rs.countP (fun r => r.Disabled)
      ∧ (rs.map DynamicRecord.negated).countP (fun r => r.Disabled)
          = rs.countP (fun r => !r.Disabled) := by
  refine ⟨?_, ?_, ?_, ?_, ?_, ?_, ?_, ?_, ?_⟩
  · unfold DynamicAPI.PostRecords
    rw [hparse]
  · unfold DynamicAPI.DeleteRecords
    rw [hparse]
    rfl
  · rw [List.map_map]
    apply List.map_congr_left
    intro r _
    simp [DynamicRecord.negated]
  · intro applied s0
    unfold DynamicAPI.setRecords
    rcases SetRecords applied s0 with ⟨s1, _ | _ | _⟩ <;> rfl
  · intro applied s0 s1 h
    unfold DynamicAPI.setRecords
    rw [h]
    simp only [setRecords_counts, Nat.zero_add]
    rfl
  · intro applied s0 s1 e h
    unfold DynamicAPI.setRecords
    rw [h]
  · intro applied
    induction applied with
    | nil => rfl
    | cons r rs ih =>
      cases hd : r.Disabled <;> simp [List.countP_cons, hd] <;> omega
  · rw [List.countP_map]
    apply List.countP_congr
    intro r _
    simp [DynamicRecord.negated]
  · rw [List.countP_map]
    apply List.countP_congr
    intro r _
    simp [DynamicRecord.negated]

/-- C23, at the body of the repository's test over the SQLite resolver: posted it adds one
record and deletes one, deleted it does the same with the two records swapped. -/
theorem deleteRecords_negates_witness :
    parseRecordSet zoneLine sampleBody "127.0.0.1".toList = .ok sampleSet
      ∧ (DynamicAPI.PostRecords zoneLine (SqliteResolver.apiSetRecords 1000) sampleBody
            "127.0.0.1".toList SqliteResolver.empty).2 = .ok "; 200: add:1 delete:1".toList
      ∧ DynamicAPI.DeleteRecords zoneLine (SqliteResolver.apiSetRecords 1000) sampleBody
            "127.0.0.1".toList SqliteResolver.empty
          = DynamicAPI.setRecords (SqliteResolver.apiSetRecords 1000)
              (sampleSet.map DynamicRecord.negated) SqliteResolver.empty
      ∧ (DynamicAPI.DeleteRecords zoneLine (SqliteResolver.apiSetRecords 1000) sampleBody
            "127.0.0.1".toList SqliteResolver.empty).2 = .ok "; 200: add:1 delete:1".toList :=
  ⟨by decide, by decide,
    (deleteRecords_negates zoneLine (SqliteResolver.apiSetRecords 1000) sampleBody
      "127.0.0.1".toList SqliteResolver.empty sampleSet (by decide)).2.1,
    by decide⟩

end Landns
